import Mathlib

/-!
# XSPICE code-model interface (MIF): tokenizer, value reader, port-pair table,
parameter binding, setup, the real node type and the output buffer

A shallow embedding of `src/sim/MIF/MIFutil.c`, `src/sim/MIF/MIFgetValue.c`,
`src/sim/MIF/MIFmParam.c`, `src/sim/MIF/MIFsetup.c`, of `udn_real_invert` and
`udn_real_resolve` of `src/udnl/real/udnfunc.c`, and of `kw_match`, `ipc_flush`,
`ipc_send_line_binary` and `ipc_send_line` of `src/sim/IPC/IPC.c`.

Conventions of the embedding.

* A C string (and a cursor `*s` into one) is a `List Char`; the character under the
  cursor, `**s`, is the head of the list, and the terminating NUL is read at the
  empty list (`cur`).
* `errno` is threaded explicitly through the functions that read or write it.
* A C `double` is modelled by an exact rational number; floating-point rounding of
  the arithmetic is not modelled.
* `long` is 64 bits wide and `int` is 32 bits wide.
* An array reached through a pointer is a `List`; counts and sizes are natural
  numbers; a linked list of instances is the `List` of its members in order.
-/

namespace XSpice

/-! ## Port kinds and controlled-source kinds (MIFtypes.h, MIFutil.c) -/

/-- Modelled from the spec: the header MIFtypes.h declaring this enumeration is
missing; these are the nine port kinds the specification documents. -/
inductive Mif_Port_Type_t where
  | MIF_VOLTAGE
  | MIF_DIFF_VOLTAGE
  | MIF_CURRENT
  | MIF_DIFF_CURRENT
  | MIF_VSOURCE_CURRENT
  | MIF_CONDUCTANCE
  | MIF_DIFF_CONDUCTANCE
  | MIF_RESISTANCE
  | MIF_DIFF_RESISTANCE
  deriving DecidableEq, Repr

/-- The four controlled-source kinds returned by `MIFget_cntl_src_type`. -/
inductive Mif_Cntl_Src_Type_t where
  | MIF_VCVS
  | MIF_ICIS
  | MIF_VCIS
  | MIF_ICVS
  deriving DecidableEq, Repr

open Mif_Port_Type_t Mif_Cntl_Src_Type_t

/-- MIFutil.c, `MIFget_cntl_src_type`: the nested switch over the input and the
output port kind. `none` stands for the final `return(-1)`. -/
def MIFget_cntl_src_type (in_port_type out_port_type : Mif_Port_Type_t) :
    Option Mif_Cntl_Src_Type_t :=
  match in_port_type with
  | MIF_VOLTAGE | MIF_DIFF_VOLTAGE | MIF_CONDUCTANCE | MIF_DIFF_CONDUCTANCE =>
    match out_port_type with
    | MIF_VOLTAGE | MIF_DIFF_VOLTAGE | MIF_RESISTANCE | MIF_DIFF_RESISTANCE => some MIF_VCVS
    | MIF_CURRENT | MIF_DIFF_CURRENT | MIF_CONDUCTANCE | MIF_DIFF_CONDUCTANCE => some MIF_VCIS
    | _ => none
  | MIF_CURRENT | MIF_DIFF_CURRENT | MIF_VSOURCE_CURRENT | MIF_RESISTANCE
  | MIF_DIFF_RESISTANCE =>
    match out_port_type with
    | MIF_VOLTAGE | MIF_DIFF_VOLTAGE | MIF_RESISTANCE | MIF_DIFF_RESISTANCE => some MIF_ICVS
    | MIF_CURRENT | MIF_DIFF_CURRENT | MIF_CONDUCTANCE | MIF_DIFF_CONDUCTANCE => some MIF_ICIS
    | _ => none

/-- Specification section 4.4, input kind family of the first two table rows. -/
def specVoltageControl (k : Mif_Port_Type_t) : Bool :=
  k = MIF_VOLTAGE || k = MIF_DIFF_VOLTAGE || k = MIF_CONDUCTANCE || k = MIF_DIFF_CONDUCTANCE

/-- Specification section 4.4, input kind family of the last two table rows. -/
def specCurrentControl (k : Mif_Port_Type_t) : Bool :=
  k = MIF_CURRENT || k = MIF_DIFF_CURRENT || k = MIF_VSOURCE_CURRENT ||
    k = MIF_RESISTANCE || k = MIF_DIFF_RESISTANCE

/-- Specification section 4.4, output kind family realised as a voltage source. -/
def specVoltageOutput (k : Mif_Port_Type_t) : Bool :=
  k = MIF_VOLTAGE || k = MIF_DIFF_VOLTAGE || k = MIF_RESISTANCE || k = MIF_DIFF_RESISTANCE

/-- Specification section 4.4, output kind family realised as a current source. -/
def specCurrentOutput (k : Mif_Port_Type_t) : Bool :=
  k = MIF_CURRENT || k = MIF_DIFF_CURRENT || k = MIF_CONDUCTANCE || k = MIF_DIFF_CONDUCTANCE

/-- The table of specification section 4.4, written from the words of the
specification: four rows, and no stamp for a pair that matches no row. -/
def specCntlSrcTable (i o : Mif_Port_Type_t) : Option Mif_Cntl_Src_Type_t :=
  if specVoltageControl i && specVoltageOutput o then some MIF_VCVS
  else if specVoltageControl i && specCurrentOutput o then some MIF_VCIS
  else if specCurrentControl i && specVoltageOutput o then some MIF_ICVS
  else if specCurrentControl i && specCurrentOutput o then some MIF_ICIS
  else none

/-! ## Tokenizer (MIFutil.c) -/

/-- The character under a cursor: the head of the remaining text, NUL at its end. -/
def cur (s : List Char) : Char := s.headD (Char.ofNat 0)

/-- The double quote character. -/
def dquote : Char := Char.ofNat 34

/-- The C library predicate `isspace` in the C locale: space, tab, newline,
vertical tab, form feed and carriage return. -/
def isspace (c : Char) : Bool :=
  c.toNat = 32 || (9 ≤ c.toNat && c.toNat ≤ 13)

/-- The loop condition of both skipping loops of `MIFgettok`:
`isspace(**s) || **s == '=' || **s == '(' || **s == ')' || **s == ','`. -/
def isLayout (c : Char) : Bool :=
  isspace c || c = '=' || c = '(' || c = ')' || c = ','

/-- The six characters of the second case group of the switch in `MIFgettok`. -/
def isStructural (c : Char) : Bool :=
  c = '<' || c = '>' || c = '[' || c = ']' || c = '~' || c = '%'

/-- The loop condition of the quoted-run loop: `**s != 0 && **s != quote`. -/
def inQuoted (c : Char) : Bool :=
  c ≠ Char.ofNat 0 && c ≠ dquote

/-- The loop condition of the bare-run loop: not NUL and not a delimiter. -/
def inBare (c : Char) : Bool :=
  c ≠ Char.ofNat 0 &&
    !(isspace c || c = '=' || c = '%' || c = '(' || c = ')' || c = ',' ||
      c = '[' || c = ']' || c = '<' || c = '>' || c = '~')

/-- The statement `if(**s == quote) (*s)++;` after the quoted-run loop. -/
def skipClosingQuote (s : List Char) : List Char :=
  match s with
  | [] => []
  | c :: r => if c = dquote then r else c :: r

/-- MIFutil.c, `MIFgettok`: the returned token (`none` for NULL) and the advanced
cursor. -/
def MIFgettok (s : List Char) : Option (List Char) × List Char :=
  match s.dropWhile isLayout with
  | [] => (none, [])
  | c :: r =>
    if c = Char.ofNat 0 then (none, c :: r)
    else if isStructural c then (some [c], r.dropWhile isLayout)
    else if c = dquote then
      (some (r.takeWhile inQuoted),
        (skipClosingQuote (r.dropWhile inQuoted)).dropWhile isLayout)
    else
      (some ((c :: r).takeWhile inBare), ((c :: r).dropWhile inBare).dropWhile isLayout)

/-- Modelled from the spec: the header declaring the token types is missing; these
are the token types `MIFget_token` assigns, with the no-token type. -/
inductive Mif_Token_Type_t where
  | MIF_LARRAY_TOK
  | MIF_RARRAY_TOK
  | MIF_LCOMPLEX_TOK
  | MIF_RCOMPLEX_TOK
  | MIF_PERCENT_TOK
  | MIF_TILDE_TOK
  | MIF_STRING_TOK
  | MIF_NULL_TOK
  | MIF_NO_TOK
  deriving DecidableEq, Repr

open Mif_Token_Type_t

/-- The switch on `*ret_str` of `MIFget_token`: the token type decided by the
first character of the token text (NUL for an empty text). -/
def tokenTypeOf (ret_str : List Char) : Mif_Token_Type_t :=
  let c := cur ret_str
  if c = '[' then MIF_LARRAY_TOK
  else if c = ']' then MIF_RARRAY_TOK
  else if c = '<' then MIF_LCOMPLEX_TOK
  else if c = '>' then MIF_RCOMPLEX_TOK
  else if c = '%' then MIF_PERCENT_TOK
  else if c = '~' then MIF_TILDE_TOK
  else if ret_str = "null".toList then MIF_NULL_TOK
  else MIF_STRING_TOK

/-- MIFutil.c, `MIFget_token`: the token text (`none` for NULL), its type and the
advanced cursor. -/
def MIFget_token (s : List Char) : Option (List Char) × Mif_Token_Type_t × List Char :=
  match MIFgettok s with
  | (none, s1) => (none, MIF_NO_TOK, s1)
  | (some ret_str, s1) => (some ret_str, tokenTypeOf ret_str, s1)

/-- The token type the specification assigns to each structural character:
complex-open, complex-close, array-open, array-close, tilde, percent. -/
def specStructuralType (c : Char) : Mif_Token_Type_t :=
  if c = '<' then MIF_LCOMPLEX_TOK
  else if c = '>' then MIF_RCOMPLEX_TOK
  else if c = '[' then MIF_LARRAY_TOK
  else if c = ']' then MIF_RARRAY_TOK
  else if c = '~' then MIF_TILDE_TOK
  else MIF_PERCENT_TOK

/-! ## Value reader (MIFgetValue.c) -/

/-- The complex value of IFsim.h: a real and an imaginary part. -/
structure IFcomplex where
  real : ℚ
  imag : ℚ
  deriving DecidableEq

/-- Modelled from the spec: the header IFsim.h declaring the value union is
missing. The members `MIFgetValue` writes are kept as separate fields (the
overlap of union members in memory is not modelled); an array member is the list
of its elements and `numValue` its element count. -/
structure IFvalue where
  iValue : Int
  rValue : ℚ
  sValue : List Char
  cValue : IFcomplex
  numValue : Nat
  iVec : List Int
  rVec : List ℚ
  sVec : List (List Char)
  cVec : List IFcomplex
  deriving DecidableEq

/-- Modelled from the spec: the constants of IFsim.h are missing. A value of this
type is `type & IF_VARTYPES`: one of the five scalar kinds, one of the five array
kinds, or any other bit pattern, of which only the vector bit matters. -/
inductive IFvarType where
  | IF_FLAG
  | IF_INTEGER
  | IF_REAL
  | IF_STRING
  | IF_COMPLEX
  | IF_FLAGVEC
  | IF_INTVEC
  | IF_REALVEC
  | IF_STRINGVEC
  | IF_CPLXVEC
  | IF_OTHER (vector : Bool)
  deriving DecidableEq, Repr

open IFvarType

/-- The flag `is_array = value_type & IF_VECTOR` of `MIFgetValue`. -/
def IFvarType.is_array : IFvarType → Bool
  | IF_FLAGVEC | IF_INTVEC | IF_REALVEC | IF_STRINGVEC | IF_CPLXVEC => true
  | IF_OTHER vector => vector
  | _ => false

/-- The five array kinds the specification names. -/
def IFvarType.isArrayKind (t : IFvarType) : Prop :=
  t = IF_FLAGVEC ∨ t = IF_INTVEC ∨ t = IF_REALVEC ∨ t = IF_STRINGVEC ∨ t = IF_CPLXVEC

/-- The expression evaluator `INPevaluate(&token, &error, 1)`, which is not part of
these sources: it maps a token to the returned value and the error flag, and is
taken to leave `errno` as it finds it. -/
abbrev Evaluator := List Char → ℚ × Int

/-- MIFgetValue.c, `MIFget_boolean`: the returned value and `*err`. -/
def MIFget_boolean (token : List Char) : Int × Option String :=
  if token = "t".toList ∨ token = "true".toList then (1, none)
  else if token = "f".toList ∨ token = "false".toList then (0, none)
  else (-1, some "Bad boolean value")

/-- Largest value of a C `long`. -/
def LONG_MAX : Int := 2 ^ 63 - 1

/-- Smallest value of a C `long`. -/
def LONG_MIN : Int := -(2 ^ 63)

/-- The value `strtol` stores in `errno` on overflow. -/
def ERANGE : Nat := 34

/-- The value of a character as a digit of `strtol`, letters counting from ten. -/
def digitVal (c : Char) : Option Nat :=
  if 48 ≤ c.toNat ∧ c.toNat ≤ 57 then some (c.toNat - 48)
  else if 97 ≤ c.toNat ∧ c.toNat ≤ 122 then some (c.toNat - 87)
  else if 65 ≤ c.toNat ∧ c.toNat ≤ 90 then some (c.toNat - 55)
  else none

/-- Whether a character is a digit of the given base. -/
def isDigitIn (base : Nat) (c : Char) : Bool :=
  match digitVal c with
  | some d => d < base
  | none => false

/-- The number written by a run of digits in the given base. -/
def digitsValue (base : Nat) (ds : List Char) : Nat :=
  ds.foldl (fun a c => a * base + (digitVal c).getD 0) 0

/-- The optional sign of the subject sequence of `strtol`. -/
def strtolSign (s : List Char) : Bool × List Char :=
  match s with
  | [] => (false, [])
  | c :: r => if c = '-' then (true, r) else if c = '+' then (false, r) else (false, c :: r)

/-- The base `strtol` detects for base argument 0, and the start of the digits:
`0x` or `0X` before a hexadecimal digit selects 16, a leading `0` selects 8. -/
def strtolBase (s : List Char) : Nat × List Char :=
  match s with
  | c0 :: x :: h :: r =>
    if c0 = '0' ∧ (x = 'x' ∨ x = 'X') ∧ isDigitIn 16 h then (16, h :: r)
    else if c0 = '0' then (8, s)
    else (10, s)
  | c0 :: _ => if c0 = '0' then (8, s) else (10, s)
  | [] => (10, s)

/-- The C library function `strtol(nptr, &endp, 0)` after ISO C: the result, the
text `endp` points to, and `errno` afterwards. White space and a sign are skipped,
the base is detected, the longest run of digits is converted; without a digit no
conversion is made and `endp` is `nptr`; on overflow the result saturates and
`errno` becomes `ERANGE`; otherwise `errno` is left as it was. -/
def strtol (errno : Nat) (nptr : List Char) : Int × List Char × Nat :=
  match strtolSign (nptr.dropWhile isspace) with
  | (neg, s2) =>
    match strtolBase s2 with
    | (base, s3) =>
      let digits := s3.takeWhile (isDigitIn base)
      let endp := s3.dropWhile (isDigitIn base)
      let n : Int := (digitsValue base digits : Nat)
      if digits = [] then (0, nptr, errno)
      else if neg then
        if -n < LONG_MIN then (LONG_MIN, endp, ERANGE) else (-n, endp, errno)
      else
        if LONG_MAX < n then (LONG_MAX, endp, ERANGE) else (n, endp, errno)

/-- Conversion of a `double` to `long`: the fraction is discarded (truncation
towards zero). A value outside the range of `long` is undefined in C and is
given its mathematical truncation here. -/
def truncToLong (d : ℚ) : Int := Int.tdiv d.num d.den

/-- The cast `(int) l` of a `long`: reduction modulo 2^32 into the range of `int`. -/
def longToInt (l : Int) : Int := (l + 2 ^ 31) % 2 ^ 32 - 2 ^ 31

/-- MIFgetValue.c, `MIFget_integer`: the returned value, `*err`, and `errno`
afterwards. `errno` is read after `strtol` and is never cleared. -/
def MIFget_integer (INPevaluate : Evaluator) (errno : Nat) (token : List Char) :
    Int × Option String × Nat :=
  match strtol errno token with
  | (l, endp, errno1) =>
    if errno1 ≠ 0 ∨ cur endp ≠ Char.ofNat 0 then
      match INPevaluate token with
      | (dtemp, error) =>
        if error ≠ 0 then (longToInt 0, some "Bad integer, octal, or hex value", errno1)
        else if dtemp > 0 then (longToInt (truncToLong (dtemp + 1 / 2)), none, errno1)
        else (longToInt (truncToLong (dtemp - 1 / 2)), none, errno1)
    else (longToInt l, none, errno1)

/-- MIFgetValue.c, `MIFget_real`: the returned value and `*err`. -/
def MIFget_real (INPevaluate : Evaluator) (token : List Char) : ℚ × Option String :=
  match INPevaluate token with
  | (dtemp, error) => if error ≠ 0 then (dtemp, some "Bad real value") else (dtemp, none)

/-- MIFgetValue.c, `MIFget_string`: the returned value and `*err`. -/
def MIFget_string (token : List Char) : List Char × Option String :=
  (token, none)

/-- MIFgetValue.c, `MIFget_complex`: the returned value, `*err`, and the cursor
`*line` afterwards. The token passed in is not read; only its type is. -/
def MIFget_complex (INPevaluate : Evaluator) (token_type : Mif_Token_Type_t)
    (line : List Char) : IFcomplex × Option String × List Char :=
  let msg : String := "Bad complex value"
  if token_type ≠ MIF_LCOMPLEX_TOK then (⟨0, 0⟩, some msg, line)
  else
    match MIFget_token line with
    | (token1, type1, line1) =>
      if type1 ≠ MIF_STRING_TOK then (⟨0, 0⟩, some msg, line1)
      else
        match INPevaluate (token1.getD []) with
        | (re, error1) =>
          if error1 ≠ 0 then (⟨0, 0⟩, some msg, line1)
          else
            match MIFget_token line1 with
            | (token2, type2, line2) =>
              if type2 ≠ MIF_STRING_TOK then (⟨re, 0⟩, some msg, line2)
              else
                match INPevaluate (token2.getD []) with
                | (im, error2) =>
                  if error2 ≠ 0 then (⟨re, 0⟩, some msg, line2)
                  else
                    match MIFget_token line2 with
                    | (_, type3, line3) =>
                      if type3 ≠ MIF_RCOMPLEX_TOK then (⟨re, im⟩, some msg, line3)
                      else (⟨re, im⟩, none, line3)

/-- What `MIFgetValue` leaves behind: the returned pointer (`none` for NULL, else
the contents of `val`), the message in `*err`, the cursor `*line` and `errno`. -/
structure MIFgetValueResult where
  ret : Option IFvalue
  err : Option String
  line : List Char
  errno : Nat
  deriving DecidableEq

/-- The switch on `value_type` in the loop of `MIFgetValue`, applied to one token:
the new contents of `val`, `*err`, the cursor and `errno`; `none` is the default
case of the switch. -/
def MIFgetValue_switch (INPevaluate : Evaluator) (value_type : IFvarType)
    (token : List Char) (token_type : Mif_Token_Type_t) (line : List Char) (errno : Nat)
    (val : IFvalue) : Option (IFvalue × Option String × List Char × Nat) :=
  match value_type with
  | IF_FLAG =>
    match MIFget_boolean token with
    | (b, e) => some ({ val with iValue := b }, e, line, errno)
  | IF_INTEGER =>
    match MIFget_integer INPevaluate errno token with
    | (i, e, errno1) => some ({ val with iValue := i }, e, line, errno1)
  | IF_REAL =>
    match MIFget_real INPevaluate token with
    | (r, e) => some ({ val with rValue := r }, e, line, errno)
  | IF_STRING =>
    match MIFget_string token with
    | (str, e) => some ({ val with sValue := str }, e, line, errno)
  | IF_COMPLEX =>
    match MIFget_complex INPevaluate token_type line with
    | (c, e, line1) => some ({ val with cValue := c }, e, line1, errno)
  | IF_FLAGVEC =>
    match MIFget_boolean token with
    | (btemp, e) =>
      some ({ val with iVec := val.iVec ++ [btemp], numValue := val.numValue + 1 },
        e, line, errno)
  | IF_INTVEC =>
    match MIFget_integer INPevaluate errno token with
    | (itemp, e, errno1) =>
      some ({ val with iVec := val.iVec ++ [itemp], numValue := val.numValue + 1 },
        e, line, errno1)
  | IF_REALVEC =>
    match MIFget_real INPevaluate token with
    | (rtemp, e) =>
      some ({ val with rVec := val.rVec ++ [rtemp], numValue := val.numValue + 1 },
        e, line, errno)
  | IF_STRINGVEC =>
    match MIFget_string token with
    | (stemp, e) =>
      some ({ val with sVec := val.sVec ++ [stemp], numValue := val.numValue + 1 },
        e, line, errno)
  | IF_CPLXVEC =>
    match MIFget_complex INPevaluate token_type line with
    | (ctemp, e, line1) =>
      some ({ val with cVec := val.cVec ++ [ctemp], numValue := val.numValue + 1 },
        e, line1, errno)
  | IF_OTHER _ => none

/-- The `while(1)` loop of `MIFgetValue`, one iteration per unit of fuel; `none`
when the fuel runs out before the loop is left. The state is the cursor, `errno`,
`*err` and the static `val`. -/
def MIFgetValue_loop (INPevaluate : Evaluator) (value_type : IFvarType) :
    Nat → List Char → Nat → Option String → IFvalue → Option MIFgetValueResult
  | 0, _, _, _, _ => none
  | fuel + 1, line, errno, err, val =>
    match MIFget_token line with
    | (token, token_type, line1) =>
      if token_type = MIF_NO_TOK then
        some ⟨none, some "Unexpected end of model card", line1, errno⟩
      else if value_type.is_array ∧ token_type = MIF_RARRAY_TOK then
        if val.numValue = 0 then
          some ⟨none, some "Array parameter must have at least one value", line1, errno⟩
        else some ⟨some val, err, line1, errno⟩
      else
        match MIFgetValue_switch INPevaluate value_type (token.getD []) token_type line1
            errno val with
        | none =>
          some ⟨none, some "Internal error - unexpected value type in MIFgetValue()",
            line1, errno⟩
        | some (val1, err1, line2, errno1) =>
          if err1.isSome then some ⟨none, err1, line2, errno1⟩
          else if !value_type.is_array then some ⟨some val1, err1, line2, errno1⟩
          else MIFgetValue_loop INPevaluate value_type fuel line2 errno1 err1 val1

/-- MIFgetValue.c, `MIFgetValue`, for `value_type = type & IF_VARTYPES`. The
arguments `val`, `errno` and `err` are the static `val`, `errno` and `*err` on
entry. Every pass of the loop that does not leave it consumes a token, so
one unit of fuel per character of the text and one more are supplied; `none`
would mean that this fuel ran out. -/
def MIFgetValue (INPevaluate : Evaluator) (val : IFvalue) (errno : Nat)
    (err : Option String) (line : List Char) (value_type : IFvarType) :
    Option MIFgetValueResult :=
  if value_type.is_array then
    match MIFget_token line with
    | (_, token_type, line1) =>
      if token_type ≠ MIF_LARRAY_TOK then
        some ⟨none, some "Array parameter expected - No array delimiter found", line1, errno⟩
      else
        MIFgetValue_loop INPevaluate value_type (line1.length + 1) line1 errno err
          { val with numValue := 0, iVec := [], rVec := [], sVec := [], cVec := [] }
  else
    MIFgetValue_loop INPevaluate value_type (line.length + 1) line errno err val

/-- The token stream `MIFget_complex` accepts, read after a first token of type
`token_type`, in terms of the types `MIFget_token` assigns (by the first character
of the token text, so that a quoted run whose text begins with `<` or `>` is typed
like the delimiter): that token is typed complex-open, then come a token typed
string that the evaluator accepts with value `re`, a second token typed string
that the evaluator accepts with value `im`, and a token typed complex-close,
after which the cursor is `line3`. -/
def typedComplexStream (INPevaluate : Evaluator) (token_type : Mif_Token_Type_t)
    (line : List Char) (re im : ℚ) (line3 : List Char) : Prop :=
  token_type = MIF_LCOMPLEX_TOK ∧
    ∃ (t1 l1 t2 l2 : List Char) (t3 : Option (List Char)),
      MIFget_token line = (some t1, MIF_STRING_TOK, l1) ∧ INPevaluate t1 = (re, 0) ∧
      MIFget_token l1 = (some t2, MIF_STRING_TOK, l2) ∧ INPevaluate t2 = (im, 0) ∧
      MIFget_token l2 = (t3, MIF_RCOMPLEX_TOK, line3)

/-- An evaluator for worked examples: it reads the tokens `1.0`, `2.0`, `2.5` and
`-2.5` as their values and rejects every other token. -/
def exampleEvaluator : Evaluator := fun token =>
  if token = "1.0".toList then (1, 0)
  else if token = "2.0".toList then (2, 0)
  else if token = "2.5".toList then (5 / 2, 0)
  else if token = "-2.5".toList then (-5 / 2, 0)
  else (0, 1)

/-- The elements of an array parsed so far: `ElementsParsed ev t line errno val
line' errno' val'` holds when, from the loop state `(line, errno, val)` of
`MIFgetValue`, zero or more successive tokens, none of them of the array-close
type, have each been parsed without error as an element of kind `t`, and the loop
state after the last of them is `(line', errno', val')`. -/
inductive ElementsParsed (INPevaluate : Evaluator) (t : IFvarType) :
    List Char → Nat → IFvalue → List Char → Nat → IFvalue → Prop where
  | done (line : List Char) (errno : Nat) (val : IFvalue) :
      ElementsParsed INPevaluate t line errno val line errno val
  | next (line : List Char) (errno : Nat) (val : IFvalue) (tok : List Char)
      (ty : Mif_Token_Type_t) (line1 : List Char) (val1 : IFvalue) (line2 : List Char)
      (errno1 : Nat) (line' : List Char) (errno' : Nat) (val' : IFvalue) :
      MIFget_token line = (some tok, ty, line1) → ty ≠ MIF_RARRAY_TOK →
      MIFgetValue_switch INPevaluate t tok ty line1 errno val =
        some (val1, none, line2, errno1) →
      ElementsParsed INPevaluate t line2 errno1 val1 line' errno' val' →
      ElementsParsed INPevaluate t line errno val line' errno' val'

/-- Rounding to the nearest integer with ties away from zero, as the
specification words it (2.5 gives 3, -2.5 gives -3, 0.4 gives 0, -0.5 gives -1). -/
def specRoundHalfAway (d : ℚ) : Int :=
  if 0 ≤ d then ⌊d + 1 / 2⌋ else ⌈d - 1 / 2⌉

/-- The characters that end a bare run, as the specification lists them: white
space and `=`, `(`, `)`, `,`, `%`, `[`, `]`, `<`, `>`, `~`. -/
def specDelimiter (c : Char) : Bool :=
  isspace c || c = '=' || c = '(' || c = ')' || c = ',' || c = '%' ||
    c = '[' || c = ']' || c = '<' || c = '>' || c = '~'

/-- The eight token types `MIFget_token` gives to a token it returns. -/
def tokenTypes : List Mif_Token_Type_t :=
  [MIF_LARRAY_TOK, MIF_RARRAY_TOK, MIF_LCOMPLEX_TOK, MIF_RCOMPLEX_TOK, MIF_PERCENT_TOK,
    MIF_TILDE_TOK, MIF_STRING_TOK, MIF_NULL_TOK]

/-! ## Model parameters (MIFmParam.c and the defaulting step of MIFsetup.c) -/

/-- Modelled from the spec: the header SPerror.h is missing; these are the status
codes `MIFmParam` and `MIFsetup` return by name, and `E_OTHER` for any other
non-zero code a collaborator may hand back. -/
inductive SPerror where
  | OK
  | E_BADPARM
  | E_NOMEM
  | E_OTHER (code : Int)
  deriving DecidableEq, Repr

open SPerror

/-- The complex value of the code-model interface. -/
structure Mif_Complex_t where
  real : ℚ
  imag : ℚ
  deriving DecidableEq

/-- Modelled from the spec: the header declaring the parameter value union is
missing. The five members the sources write are kept as separate fields (the
overlap of union members in memory is not modelled). -/
structure Mif_Value_t where
  bvalue : Int
  ivalue : Int
  rvalue : ℚ
  cvalue : Mif_Complex_t
  svalue : List Char
  deriving DecidableEq

/-- An element as `MALLOC` hands it out. Every member the sources use is written
before it is read; the contents chosen here are zero. -/
def Mif_Value_t.fresh : Mif_Value_t := ⟨0, 0, 0, ⟨0, 0⟩, []⟩

/-- A parameter slot of a model, `model->param[i]`: the flag `is_null` (true while
the parameter has not been given explicitly), the element count and the elements. -/
structure Mif_Param_Data_t where
  is_null : Bool
  size : Nat
  element : List Mif_Value_t
  deriving DecidableEq

/-- Modelled from the spec: the header declaring the parameter data types is
missing; the five kinds the switch of `MIFsetup` names, and any other value. -/
inductive Mif_Data_Type_t where
  | MIF_BOOLEAN
  | MIF_INTEGER
  | MIF_REAL
  | MIF_COMPLEX
  | MIF_STRING
  | MIF_OTHER
  deriving DecidableEq, Repr

open Mif_Data_Type_t

/-- The fields of the static parameter table `DEVices[mod_type]->DEVpublic.param[i]`
that `MIFsetup` reads. -/
structure Mif_Param_Info_t where
  type : Mif_Data_Type_t
  is_array : Bool
  conn_ref : Nat
  default_value : Mif_Value_t
  deriving DecidableEq

/-- The matrix data of a port, `port->smp_data`: the numbers of its positive and
negative node, and the numbers of its branch equation and of its current-sensing
branch equation. The pointers to matrix entries that `MIFsetup` stores next to
them are not kept; the requests for them are recorded instead. -/
structure Mif_Smp_Ptr_t where
  pos_node : Int
  neg_node : Int
  branch : Int
  ibranch : Int
  deriving DecidableEq

/-- The fields of a port, `here->conn[i]->port[j]`, that `MIFsetup` reads or
writes. -/
structure Mif_Port_Data_t where
  is_null : Bool
  type : Mif_Port_Type_t
  vsource_str : List Char
  smp_data : Mif_Smp_Ptr_t
  old_input : Int
  deriving DecidableEq

/-- The fields of a connection, `here->conn[i]`, that `MIFsetup` reads. -/
structure Mif_Conn_Data_t where
  is_null : Bool
  is_input : Bool
  is_output : Bool
  size : Nat
  port : List Mif_Port_Data_t
  deriving DecidableEq

/-- The fields of an instance that `MIFsetup` reads; the list of instances of a
model stands for the chain of `MIFnextInstance` pointers. -/
structure MIFinstance where
  MIFname : List Char
  analog : Bool
  num_conn : Nat
  conn : List Mif_Conn_Data_t
  deriving DecidableEq

/-- The fields of a model that `MIFmParam` and `MIFsetup` use. -/
structure MIFmodel where
  MIFmodType : Int
  num_param : Nat
  param : List Mif_Param_Data_t
  MIFinstances : List MIFinstance
  deriving DecidableEq

/-- A loop `for(i = start; i < start + n; i++)` over an array whose body reads and
writes the element `a[i]` only and may leave the function early: `step i` maps the
element to a flag (false for the early return) and the element as written. The
result is the flag and the array as it stands when the loop is left. An index
beyond the end of the array is passed over. -/
def forEachIndex {α : Type} (step : Nat → α → Bool × α) :
    Nat → Nat → List α → Bool × List α
  | 0, _, l => (true, l)
  | n + 1, i, l =>
    match l[i]? with
    | none => forEachIndex step n (i + 1) l
    | some a =>
      match step i a with
      | (false, a1) => (false, l.set i a1)
      | (true, a1) => forEachIndex step n (i + 1) (l.set i a1)

/-- The assignment through the pointer `model->param[i]`: the slot at index `i`
is replaced by `f` of it; an index beyond the slots changes nothing. -/
def updateAt {α : Type} : List α → Nat → (α → α) → List α
  | [], _, _ => []
  | a :: t, 0, f => f a :: t
  | a :: t, i + 1, f => a :: updateAt t i f

/-- MIFmParam.c, the switch of the scalar branch applied to `element[0]`; the
flag is false in the default case, which returns `E_BADPARM`. -/
def MIFmParam_scalar (value_type : IFvarType) (value : IFvalue) (e : Mif_Value_t) :
    Bool × Mif_Value_t :=
  match value_type with
  | IF_FLAG => (true, { e with bvalue := value.iValue })
  | IF_INTEGER => (true, { e with ivalue := value.iValue })
  | IF_REAL => (true, { e with rvalue := value.rValue })
  | IF_STRING => (true, { e with svalue := value.sValue })
  | IF_COMPLEX => (true, { e with cvalue := ⟨value.cValue.real, value.cValue.imag⟩ })
  | _ => (false, e)

/-- MIFmParam.c, the switch in the loop of the array branch applied to
`element[i]`; the flag is false in the default case, which returns `E_BADPARM`.
An element of the value beyond its list reads as zero. -/
def MIFmParam_vector (value_type : IFvarType) (value : IFvalue) (i : Nat)
    (e : Mif_Value_t) : Bool × Mif_Value_t :=
  match value_type with
  | IF_FLAGVEC => (true, { e with bvalue := value.iVec.getD i 0 })
  | IF_INTVEC => (true, { e with ivalue := value.iVec.getD i 0 })
  | IF_REALVEC => (true, { e with rvalue := value.rVec.getD i 0 })
  | IF_STRINGVEC => (true, { e with svalue := value.sVec.getD i [] })
  | IF_CPLXVEC =>
    (true, { e with cvalue := ⟨(value.cVec.getD i ⟨0, 0⟩).real,
      (value.cVec.getD i ⟨0, 0⟩).imag⟩ })
  | _ => (false, e)

/-- MIFmParam.c, `MIFmParam`: the returned status and the model afterwards.
`DEVmaxnum` is the number of device types and `dataType mod_type i` stands for
`DEVices[mod_type]->DEVpublic.modelParms[i].dataType & IF_VARTYPES`. -/
def MIFmParam (DEVmaxnum : Int) (dataType : Int → Nat → IFvarType) (param_index : Int)
    (value : IFvalue) (model : MIFmodel) : SPerror × MIFmodel :=
  let mod_type := model.MIFmodType
  if mod_type < 0 ∨ mod_type ≥ DEVmaxnum then (E_BADPARM, model)
  else if param_index < 0 ∨ param_index ≥ model.num_param then (E_BADPARM, model)
  else
    let value_type := dataType mod_type param_index.toNat
    if value_type.is_array then
      match forEachIndex (MIFmParam_vector value_type value) value.numValue 0
          (List.replicate value.numValue Mif_Value_t.fresh) with
      | (ok, es) =>
        (if ok then OK else E_BADPARM,
          { model with param := (updateAt model.param param_index.toNat
              (fun p => { p with is_null := false, size := value.numValue, element := es })) })
    else
      match MIFmParam_scalar value_type value Mif_Value_t.fresh with
      | (ok, e) =>
        (if ok then OK else E_BADPARM,
          { model with param := (updateAt model.param param_index.toNat
              (fun p => { p with is_null := false, size := 1, element := [e] })) })

/-- The size `here->conn[k]->size` of connection `k` of an instance; the parser
assures that the connection exists, and an index beyond the connections reads
as size 0. -/
def connSize (here : MIFinstance) (k : Nat) : Nat :=
  match here.conn[k]? with
  | some c => c.size
  | none => 0

/-- MIFsetup.c, the loop over the instances of a model that finds `max_size`, the
largest size of connection `conn_ref` among them, starting from 0. -/
def MIFsetup_maxSize (insts : List MIFinstance) (conn_ref : Nat) : Nat :=
  insts.foldl (fun max_size here =>
    if connSize here conn_ref > max_size then connSize here conn_ref else max_size) 0

/-- MIFsetup.c, the switch on `param_info->type` that sets `element[j]` to the
default value; the flag is false in the default case, which returns `E_BADPARM`. -/
def MIFsetup_defaultElement (param_info : Mif_Param_Info_t) (_j : Nat)
    (e : Mif_Value_t) : Bool × Mif_Value_t :=
  match param_info.type with
  | MIF_BOOLEAN => (true, { e with bvalue := param_info.default_value.bvalue })
  | MIF_INTEGER => (true, { e with ivalue := param_info.default_value.ivalue })
  | MIF_REAL => (true, { e with rvalue := param_info.default_value.rvalue })
  | MIF_COMPLEX => (true, { e with cvalue := param_info.default_value.cvalue })
  | MIF_STRING => (true, { e with svalue := param_info.default_value.svalue })
  | MIF_OTHER => (false, e)

/-- MIFsetup.c, the body of the loop over the parameters of a model, applied to
the slot `model->param[i]`: a slot whose `is_null` is set gets its size, fresh
elements, and the default value in each element; `is_null` itself is not
written. The flag is false when the function returns `E_BADPARM`. -/
def MIFsetup_defaultParam (param_info : Nat → Mif_Param_Info_t)
    (insts : List MIFinstance) (i : Nat) (p : Mif_Param_Data_t) :
    Bool × Mif_Param_Data_t :=
  if p.is_null then
    let size : Nat :=
      if !(param_info i).is_array then 1
      else MIFsetup_maxSize insts (param_info i).conn_ref
    match forEachIndex (MIFsetup_defaultElement (param_info i)) size 0
        (List.replicate size Mif_Value_t.fresh) with
    | (ok, es) => (ok, { p with size := size, element := es })
  else (true, p)

/-- MIFsetup.c, the defaulting step of `MIFsetup` for one model of the list: the
loop over its parameters. `param_info i` stands for
`DEVices[mod_type]->DEVpublic.param[i]`. The status is `E_BADPARM` when
`MIFsetup` returns it from this step, and `OK` when the step is completed. -/
def MIFsetup_defaults (param_info : Nat → Mif_Param_Info_t) (model : MIFmodel) :
    SPerror × MIFmodel :=
  match forEachIndex (MIFsetup_defaultParam param_info model.MIFinstances)
      model.num_param 0 model.param with
  | (ok, ps) => (if ok then OK else E_BADPARM, { model with param := ps })

/-- The largest size of connection `conn_ref` over the instances of a model, as
the specification words it; 0 when there is no instance. -/
def specMaxConnSize (insts : List MIFinstance) (conn_ref : Nat) : Nat :=
  (insts.map (fun here => connSize here conn_ref)).foldr max 0

/-- An element holds the value `v` of a parameter of data type `t`: the member
the type selects is equal, a complex member in both parts. -/
def specHoldsValue (t : Mif_Data_Type_t) (v e : Mif_Value_t) : Prop :=
  match t with
  | MIF_BOOLEAN => e.bvalue = v.bvalue
  | MIF_INTEGER => e.ivalue = v.ivalue
  | MIF_REAL => e.rvalue = v.rvalue
  | MIF_COMPLEX => e.cvalue.real = v.cvalue.real ∧ e.cvalue.imag = v.cvalue.imag
  | MIF_STRING => e.svalue = v.svalue
  | MIF_OTHER => False

/-- Element `k` of a parameter slot equals element `k` of the supplied value of
declared kind `t`: for a scalar kind the member of the value, for an array kind
entry `k` of the array member; strings are equal character for character and
complex values in both parts. -/
def specElementOfValue (t : IFvarType) (value : IFvalue) (k : Nat) (e : Mif_Value_t) :
    Prop :=
  match t with
  | IF_FLAG => e.bvalue = value.iValue
  | IF_INTEGER => e.ivalue = value.iValue
  | IF_REAL => e.rvalue = value.rValue
  | IF_STRING => e.svalue = value.sValue
  | IF_COMPLEX => e.cvalue.real = value.cValue.real ∧ e.cvalue.imag = value.cValue.imag
  | IF_FLAGVEC => value.iVec[k]? = some e.bvalue
  | IF_INTVEC => value.iVec[k]? = some e.ivalue
  | IF_REALVEC => value.rVec[k]? = some e.rvalue
  | IF_STRINGVEC => value.sVec[k]? = some e.svalue
  | IF_CPLXVEC =>
    ∃ c, value.cVec[k]? = some c ∧ e.cvalue.real = c.real ∧ e.cvalue.imag = c.imag
  | IF_OTHER _ => False

/-- The array member of the value that the declared kind selects has as many
entries as `numValue` says. -/
def specValueWellFormed (t : IFvarType) (value : IFvalue) : Prop :=
  match t with
  | IF_FLAGVEC => value.iVec.length = value.numValue
  | IF_INTVEC => value.iVec.length = value.numValue
  | IF_REALVEC => value.rVec.length = value.numValue
  | IF_STRINGVEC => value.sVec.length = value.numValue
  | IF_CPLXVEC => value.cVec.length = value.numValue
  | _ => True

/-! ## The real node type (udnl/real/udnfunc.c) -/

/-- udnfunc.c, `udn_real_invert`: the payload `*real_struct` after the call. -/
def udn_real_invert (real_struct : ℚ) : ℚ := -real_struct

/-- The loop `for(i = 0, sum = 0.0; i < num_struct; i++) sum += *(array[i])` of
`udn_real_resolve`, with the number of passes left, the index and the running
sum. A driver beyond the end of the array reads as 0. -/
def udn_real_resolve_loop (array : List ℚ) : Nat → Nat → ℚ → ℚ
  | 0, _, sum => sum
  | n + 1, i, sum => udn_real_resolve_loop array n (i + 1) (sum + array.getD i 0)

/-- udnfunc.c, `udn_real_resolve`: the output payload `*out` after the call, for
the driver payloads `array` and the count `num_struct`. -/
def udn_real_resolve (array : List ℚ) (num_struct : Int) : ℚ :=
  udn_real_resolve_loop array num_struct.toNat 0 0

/-! ## Matrix and branch-equation setup (MIFsetup.c) -/

/-- A call that `MIFsetup` makes to a collaborator: the creation of a branch
equation `CKTmkCur(ckt, &tmp, name, suffix)`, the request for a matrix entry
`SMPmakeElt(matrix, row, col)`, the lookup `CKTfndBranch(ckt, name)`, and the
report of the fatal error "unknown controlling source" for an instance name and
a reference name. -/
inductive Request where
  | mkCur (name suffix : List Char)
  | makeElt (row col : Int)
  | fndBranch (name : List Char)
  | IFerror (name reference : List Char)
  deriving DecidableEq

/-- The collaborators of `MIFsetup`, which are not part of these sources. Each
answer may depend on the requests made before it. `CKTmkCur` answers with its
status and the number of the new equation, `SMPmakeElt` with whether the pointer
it returns is non-null, `CKTfndBranch` with the number of the branch found, 0 for
none. -/
structure Collaborators where
  CKTmkCur : List Request → List Char → List Char → SPerror × Int
  SMPmakeElt : List Request → Int → Int → Bool
  CKTfndBranch : List Request → List Char → Int

/-- A piece of `MIFsetup` that makes requests: from the requests made so far it
gives either a value or the status of an early `return`, and the requests made
up to then. -/
def SetupM (α : Type) : Type := List Request → Except SPerror α × List Request

/-- A piece of code that makes no request. -/
def SetupM.pure {α : Type} (a : α) : SetupM α := fun tr => (Except.ok a, tr)

/-- The statement `return(e)` with a status other than `OK`. -/
def SetupM.fail {α : Type} (e : SPerror) : SetupM α := fun tr => (Except.error e, tr)

/-- Sequencing: the second piece runs unless the first one has returned. -/
def SetupM.bind {α β : Type} (m : SetupM α) (f : α → SetupM β) : SetupM β := fun tr =>
  match m tr with
  | (Except.ok a, tr1) => f a tr1
  | (Except.error e, tr1) => (Except.error e, tr1)

/-- The text `sprintf(suffix, "branch_%d_%d", i, j)` writes. -/
def branchSuffix (i j : Nat) : List Char :=
  "branch_".toList ++ (Nat.repr i).toList ++ '_' :: (Nat.repr j).toList

/-- The text `sprintf(suffix, "ibranch_%d_%d", i, j)` writes. -/
def ibranchSuffix (i j : Nat) : List Char :=
  "ibranch_".toList ++ (Nat.repr i).toList ++ '_' :: (Nat.repr j).toList

/-- The statements `error = CKTmkCur(ckt, &tmp, name, suffix); if(error)
return(error);` followed by the use of `tmp->number`, which is the value. -/
def callCKTmkCur (env : Collaborators) (name suffix : List Char) : SetupM Int := fun tr =>
  match env.CKTmkCur tr name suffix with
  | (error, number) =>
    if error ≠ OK then (Except.error error, tr ++ [Request.mkCur name suffix])
    else (Except.ok number, tr ++ [Request.mkCur name suffix])

/-- The macro `TSTALLOC(ptr, first, second)`: request the matrix entry
`(first, second)` and return `E_NOMEM` when the pointer is NULL. -/
def TSTALLOC (env : Collaborators) (first second : Int) : SetupM Unit := fun tr =>
  if env.SMPmakeElt tr first second then (Except.ok (), tr ++ [Request.makeElt first second])
  else (Except.error E_NOMEM, tr ++ [Request.makeElt first second])

/-- The macro `CTSTALLOC(ptr, first, second)`: request the matrix entry whose row
is the field `first` of the output port and whose column is the field `second`
of the controlling port, and return `E_NOMEM` when the pointer is NULL. -/
def CTSTALLOC (env : Collaborators) (first second : Int) : SetupM Unit := fun tr =>
  if env.SMPmakeElt tr first second then (Except.ok (), tr ++ [Request.makeElt first second])
  else (Except.error E_NOMEM, tr ++ [Request.makeElt first second])

/-- MIFsetup.c, phase A, the first `if` in the loop over the ports: the branch
equation and the four matrix entries of a voltage source output. -/
def MIFsetup_branch (env : Collaborators) (MIFname : List Char) (is_output : Bool)
    (type : Mif_Port_Type_t) (i j : Nat) (smp : Mif_Smp_Ptr_t) : SetupM Mif_Smp_Ptr_t :=
  if (is_output && (type = MIF_VOLTAGE || type = MIF_DIFF_VOLTAGE)) ||
      (type = MIF_RESISTANCE || type = MIF_DIFF_RESISTANCE) then
    (callCKTmkCur env MIFname (branchSuffix i j)).bind fun number =>
    let smp1 : Mif_Smp_Ptr_t := { smp with branch := number, ibranch := number }
    (TSTALLOC env smp1.pos_node smp1.branch).bind fun _ =>
    (TSTALLOC env smp1.neg_node smp1.branch).bind fun _ =>
    (TSTALLOC env smp1.branch smp1.pos_node).bind fun _ =>
    (TSTALLOC env smp1.branch smp1.neg_node).bind fun _ =>
    SetupM.pure smp1
  else SetupM.pure smp

/-- MIFsetup.c, phase A, the second `if` in the loop over the ports: the branch
equation and the four matrix entries of the zero-valued source of a current input. -/
def MIFsetup_ibranch (env : Collaborators) (MIFname : List Char) (is_input : Bool)
    (type : Mif_Port_Type_t) (i j : Nat) (smp : Mif_Smp_Ptr_t) : SetupM Mif_Smp_Ptr_t :=
  if is_input && (type = MIF_CURRENT || type = MIF_DIFF_CURRENT) then
    (callCKTmkCur env MIFname (ibranchSuffix i j)).bind fun number =>
    let smp1 : Mif_Smp_Ptr_t := { smp with ibranch := number }
    (TSTALLOC env smp1.pos_node smp1.ibranch).bind fun _ =>
    (TSTALLOC env smp1.neg_node smp1.ibranch).bind fun _ =>
    (TSTALLOC env smp1.ibranch smp1.pos_node).bind fun _ =>
    (TSTALLOC env smp1.ibranch smp1.neg_node).bind fun _ =>
    SetupM.pure smp1
  else SetupM.pure smp

/-- MIFsetup.c, phase A, the third `if` in the loop over the ports: the lookup of
the source a vsource-current input refers to, with the fatal error and the
return of `E_BADPARM` when it is not found. -/
def MIFsetup_vsource (env : Collaborators) (MIFname : List Char) (is_input : Bool)
    (type : Mif_Port_Type_t) (vsource_str : List Char) (smp : Mif_Smp_Ptr_t) :
    SetupM Mif_Smp_Ptr_t :=
  if is_input && type = MIF_VSOURCE_CURRENT then
    fun tr =>
      if env.CKTfndBranch tr vsource_str = 0 then
        (Except.error E_BADPARM,
          tr ++ [Request.fndBranch vsource_str, Request.IFerror MIFname vsource_str])
      else
        (Except.ok { smp with ibranch := env.CKTfndBranch tr vsource_str },
          tr ++ [Request.fndBranch vsource_str])
  else SetupM.pure smp

/-- MIFsetup.c, phase A, the body of the loop over the ports of connection `i`,
applied to port `j`: a null port is passed over. -/
def MIFsetup_phaseA_port (env : Collaborators) (MIFname : List Char)
    (is_input is_output : Bool) (i j : Nat) (port : Mif_Port_Data_t) :
    SetupM Mif_Port_Data_t :=
  if port.is_null then SetupM.pure port
  else
    (MIFsetup_branch env MIFname is_output port.type i j port.smp_data).bind fun smp1 =>
    (MIFsetup_ibranch env MIFname is_input port.type i j smp1).bind fun smp2 =>
    (MIFsetup_vsource env MIFname is_input port.type port.vsource_str smp2).bind fun smp3 =>
    SetupM.pure { port with smp_data := smp3 }

/-- A loop `for(i = start; i < start + n; i++)` over an array whose body reads and
writes the element `a[i]` only, makes requests and may return early. An index
beyond the end of the array is passed over. -/
def forEachIndexM {α : Type} (step : Nat → α → SetupM α) :
    Nat → Nat → List α → SetupM (List α)
  | 0, _, l => SetupM.pure l
  | n + 1, i, l =>
    match l[i]? with
    | none => forEachIndexM step n (i + 1) l
    | some a => (step i a).bind fun a1 => forEachIndexM step n (i + 1) (l.set i a1)

/-- MIFsetup.c, phase A, the body of the loop over the connections of an
instance, applied to connection `i`: a null connection is passed over. -/
def MIFsetup_phaseA_conn (env : Collaborators) (MIFname : List Char) (i : Nat)
    (conn : Mif_Conn_Data_t) : SetupM Mif_Conn_Data_t :=
  if conn.is_null then SetupM.pure conn
  else
    (forEachIndexM (MIFsetup_phaseA_port env MIFname conn.is_input conn.is_output i)
      conn.size 0 conn.port).bind fun ports =>
    SetupM.pure { conn with port := ports }

/-- MIFsetup.c, phase A for one instance: the loop over its connections. -/
def MIFsetup_phaseA (env : Collaborators) (here : MIFinstance) :
    SetupM (List Mif_Conn_Data_t) :=
  forEachIndexM (MIFsetup_phaseA_conn env here.MIFname) here.num_conn 0 here.conn

/-- MIFsetup.c, phase B, the switch on the controlled source type of an output
port and an input port, with the matrix entries each case requests. -/
def MIFsetup_pair (env : Collaborators) (smp_data_out smp_data_cntl : Mif_Smp_Ptr_t)
    (in_type out_type : Mif_Port_Type_t) : SetupM Unit :=
  match MIFget_cntl_src_type in_type out_type with
  | some MIF_VCVS =>
    (CTSTALLOC env smp_data_out.branch smp_data_cntl.pos_node).bind fun _ =>
    CTSTALLOC env smp_data_out.branch smp_data_cntl.neg_node
  | some MIF_ICIS =>
    (CTSTALLOC env smp_data_out.pos_node smp_data_cntl.ibranch).bind fun _ =>
    CTSTALLOC env smp_data_out.neg_node smp_data_cntl.ibranch
  | some MIF_VCIS =>
    (CTSTALLOC env smp_data_out.pos_node smp_data_cntl.pos_node).bind fun _ =>
    (CTSTALLOC env smp_data_out.pos_node smp_data_cntl.neg_node).bind fun _ =>
    (CTSTALLOC env smp_data_out.neg_node smp_data_cntl.pos_node).bind fun _ =>
    CTSTALLOC env smp_data_out.neg_node smp_data_cntl.neg_node
  | some MIF_ICVS => CTSTALLOC env smp_data_out.branch smp_data_cntl.ibranch
  | none => SetupM.pure ()

/-- A loop `for(i = start; i < start + n; i++)` over an array that it only reads:
the body is run on each element `a[i]`; an index beyond the end of the array is
passed over. -/
def forRangeM {α : Type} (l : List α) (body : α → SetupM Unit) : Nat → Nat → SetupM Unit
  | 0, _ => SetupM.pure ()
  | n + 1, i =>
    match l[i]? with
    | none => forRangeM l body n (i + 1)
    | some a => (body a).bind fun _ => forRangeM l body n (i + 1)

/-- MIFsetup.c, phase B for one output port: the loops over the input connections
`k` and their ports `l`. -/
def MIFsetup_phaseB_port (env : Collaborators) (here : MIFinstance)
    (out : Mif_Port_Data_t) : SetupM Unit :=
  if out.is_null then SetupM.pure ()
  else
    forRangeM here.conn (fun conn_k =>
      if conn_k.is_null || !conn_k.is_input then SetupM.pure ()
      else
        forRangeM conn_k.port (fun port_l =>
          if port_l.is_null then SetupM.pure ()
          else MIFsetup_pair env out.smp_data port_l.smp_data port_l.type out.type)
          conn_k.size 0) here.num_conn 0

/-- MIFsetup.c, phase B for one instance: the loops over the output connections
`i` and their ports `j`. -/
def MIFsetup_phaseB (env : Collaborators) (here : MIFinstance) : SetupM Unit :=
  forRangeM here.conn (fun conn_i =>
    if conn_i.is_null || !conn_i.is_output then SetupM.pure ()
    else forRangeM conn_i.port (MIFsetup_phaseB_port env here) conn_i.size 0)
    here.num_conn 0

/-- MIFsetup.c, the body of the last loop over the instances of a model: an
instance that is not analog is passed over; for an analog one phase A, then
phase B on the instance as phase A has left it. -/
def MIFsetup_instance (env : Collaborators) (here : MIFinstance) : SetupM MIFinstance :=
  if !here.analog then SetupM.pure here
  else
    (MIFsetup_phaseA env here).bind fun conns =>
    (MIFsetup_phaseB env { here with conn := conns }).bind fun _ =>
    SetupM.pure { here with conn := conns }

/-- MIFsetup.c, the last loop over the instances of a model. -/
def MIFsetup_instances (env : Collaborators) : List MIFinstance → SetupM (List MIFinstance)
  | [] => SetupM.pure []
  | here :: rest =>
    (MIFsetup_instance env here).bind fun here1 =>
    (MIFsetup_instances env rest).bind fun rest1 =>
    SetupM.pure (here1 :: rest1)

/-- A loop `for(i = start; i < start + n; i++)` over an array whose body reads and
writes the element `a[i]` and a counter. An index beyond the end of the array is
passed over. -/
def forEachIndexS {σ α : Type} (step : Nat → α → σ → α × σ) :
    Nat → Nat → List α → σ → List α × σ
  | 0, _, l, s => (l, s)
  | n + 1, i, l, s =>
    match l[i]? with
    | none => forEachIndexS step n (i + 1) l s
    | some a =>
      match step i a s with
      | (a1, s1) => forEachIndexS step n (i + 1) (l.set i a1) s1

/-- MIFsetup.c, the place in the state vector taken for every port of every
non-null input connection of an analog instance: `old_input = *states;
(*states)++`. The value is the instance and `*states` afterwards. The storage
allocated in the same loop is not modelled. -/
def MIFsetup_states (here : MIFinstance) (states : Int) : MIFinstance × Int :=
  if !here.analog then (here, states)
  else
    match forEachIndexS (fun _ (conn : Mif_Conn_Data_t) (st : Int) =>
        if conn.is_null || !conn.is_input then (conn, st)
        else
          match forEachIndexS (fun _ (port : Mif_Port_Data_t) (st1 : Int) =>
              ({ port with old_input := st1 }, st1 + 1)) conn.size 0 conn.port st with
          | (ports, st2) => ({ conn with port := ports }, st2))
        here.num_conn 0 here.conn states with
    | (conns, st3) => ({ here with conn := conns }, st3)

/-- MIFsetup.c, the loop over the instances of a model that takes the places in
the state vector. -/
def MIFsetup_statesAll : List MIFinstance → Int → List MIFinstance × Int
  | [], states => ([], states)
  | here :: rest, states =>
    match MIFsetup_states here states with
    | (here1, st1) =>
      match MIFsetup_statesAll rest st1 with
      | (rest1, st2) => (here1 :: rest1, st2)

/-- MIFsetup.c, the body of the loop over the models: the defaulting step, the
places in the state vector, then phases A and B for every instance. The value is
the model and `*states` afterwards. -/
def MIFsetup_model (env : Collaborators) (param_info : Nat → Mif_Param_Info_t)
    (model : MIFmodel) (states : Int) : SetupM (MIFmodel × Int) :=
  match MIFsetup_defaults param_info model with
  | (status, model1) =>
    if status ≠ OK then SetupM.fail status
    else
      match MIFsetup_statesAll model1.MIFinstances states with
      | (insts1, states1) =>
        (MIFsetup_instances env insts1).bind fun insts2 =>
        SetupM.pure ({ model1 with MIFinstances := insts2 }, states1)

/-- MIFsetup.c, `MIFsetup`: the loop over the list of models, which stands for the
chain of `MIFnextModel` pointers. `param_info` is the parameter table of the
device type of the first model. Run on the empty list of requests, it gives the
models and `*states` afterwards, or the status it returns early with, and the
requests it has made in order. -/
def MIFsetup (env : Collaborators) (param_info : Nat → Mif_Param_Info_t) :
    List MIFmodel → Int → SetupM (List MIFmodel × Int)
  | [], states => SetupM.pure ([], states)
  | model :: rest, states =>
    (MIFsetup_model env param_info model states).bind fun r1 =>
    (MIFsetup env param_info rest r1.2).bind fun r2 =>
    SetupM.pure (r1.1 :: r2.1, r2.2)

/-- The status `MIFsetup` returns: `OK` at the end of the function, else the
status of the early return. -/
def statusOf {α : Type} (r : Except SPerror α) : SPerror :=
  match r with
  | Except.ok _ => OK
  | Except.error e => e

/-- The condition under which the specification gives a port a branch equation:
the connection is an output and the port kind is voltage or differential
voltage, or the port kind is resistance or differential resistance. -/
def specNeedsBranch (is_output : Bool) (type : Mif_Port_Type_t) : Bool :=
  (is_output && (type = MIF_VOLTAGE || type = MIF_DIFF_VOLTAGE)) ||
    type = MIF_RESISTANCE || type = MIF_DIFF_RESISTANCE

/-- The condition under which the specification gives a port a separate
current-sensing branch equation: the connection is an input and the port kind is
current or differential current. -/
def specNeedsIbranch (is_input : Bool) (type : Mif_Port_Type_t) : Bool :=
  is_input && (type = MIF_CURRENT || type = MIF_DIFF_CURRENT)

/-- The requests a piece of code adds to those made before it. -/
def requestsAdded {α : Type} (m : SetupM α) (tr : List Request) : List Request :=
  (m tr).2.drop tr.length

/-- A piece of code only adds requests, and every request it adds satisfies `P`. -/
def Adds {α : Type} (m : SetupM α) (P : Request → Prop) : Prop :=
  ∀ tr, ∃ added, (m tr).2 = tr ++ added ∧ ∀ r ∈ added, P r

/-- A request has been answered without failure, given the requests made before
it: a branch equation was created with status `OK`, a matrix entry came back
non-null, a lookup found a branch. The report of a fatal error never counts as
answered. -/
def answered (env : Collaborators) (before : List Request) (x : Request) : Prop :=
  match x with
  | Request.mkCur name suffix => (env.CKTmkCur before name suffix).1 = OK
  | Request.makeElt row col => env.SMPmakeElt before row col = true
  | Request.fndBranch name => env.CKTfndBranch before name ≠ 0
  | Request.IFerror _ _ => False

/-- A list of requests each of which has been answered without failure. -/
inductive GoodTrace (env : Collaborators) : List Request → Prop where
  | nil : GoodTrace env []
  | snoc (tr : List Request) (x : Request) :
      GoodTrace env tr → answered env tr x → GoodTrace env (tr ++ [x])

/-- What a run of a piece of `MIFsetup` can have led to: a value, with every
request answered; or an early return that follows no failed request, with status
`E_BADPARM`; or an early return right after the first failed request: a branch
equation whose creation failed, with the status of that creation; a matrix entry
that came back NULL, with status `E_NOMEM`; a lookup that found nothing, followed
by the report of the fatal error, with status `E_BADPARM`. -/
def Outcome (env : Collaborators) {α : Type} (res : Except SPerror α)
    (tr : List Request) : Prop :=
  match res with
  | Except.ok _ => GoodTrace env tr
  | Except.error e =>
    (GoodTrace env tr ∧ e = E_BADPARM) ∨
    (∃ tr0 name suffix, tr = tr0 ++ [Request.mkCur name suffix] ∧ GoodTrace env tr0 ∧
      (env.CKTmkCur tr0 name suffix).1 ≠ OK ∧ e = (env.CKTmkCur tr0 name suffix).1) ∨
    (∃ tr0 row col, tr = tr0 ++ [Request.makeElt row col] ∧ GoodTrace env tr0 ∧
      env.SMPmakeElt tr0 row col = false ∧ e = E_NOMEM) ∨
    (∃ tr0 name reference,
      tr = tr0 ++ [Request.fndBranch reference, Request.IFerror name reference] ∧
      GoodTrace env tr0 ∧ env.CKTfndBranch tr0 reference = 0 ∧ e = E_BADPARM)

/-- A piece of `MIFsetup` that, started after requests that were all answered,
always leads to one of the outcomes above. -/
def Sound (env : Collaborators) {α : Type} (m : SetupM α) : Prop :=
  ∀ tr, GoodTrace env tr → Outcome env (m tr).1 (m tr).2

/-- Collaborators for worked examples: every branch equation is created, with a
number that is 100 plus the count of requests made before; a matrix entry comes
back non-null while fewer than `limit` requests were made before; no source is
ever found by name. -/
def exampleCollaborators (limit : Nat) : Collaborators :=
  ⟨fun tr _ _ => (OK, 100 + tr.length), fun tr _ _ => decide (tr.length < limit),
    fun _ _ => 0⟩

/-- Collaborators for worked examples whose branch-equation allocator fails with
the status `E_OTHER 2`. -/
def exampleFailingAllocator : Collaborators :=
  ⟨fun _ _ _ => (E_OTHER 2, 0), fun _ _ _ => true, fun _ _ => 0⟩

/-- An analog instance `a1` for worked examples: connection 0 is an output with one
voltage port on nodes 1 and 2, connection 1 an input with one current port on
nodes 3 and 4. -/
def exampleInstance : MIFinstance :=
  ⟨"a1".toList, true, 2,
    [⟨false, false, true, 1, [⟨false, MIF_VOLTAGE, [], ⟨1, 2, 0, 0⟩, 0⟩]⟩,
     ⟨false, true, false, 1, [⟨false, MIF_CURRENT, [], ⟨3, 4, 0, 0⟩, 0⟩]⟩]⟩

/-- A model without parameters for worked examples, with the example instance. -/
def exampleModel : MIFmodel := ⟨0, 0, [], [exampleInstance]⟩

/-- A parameter table for worked examples: every parameter is a real scalar. -/
def exampleParamInfo : Nat → Mif_Param_Info_t :=
  fun _ => ⟨MIF_REAL, false, 0, Mif_Value_t.fresh⟩

/-- The matrix entries the specification lists for a pair of an output port `O`
and an input port `I`, by the controlled-source kind the pair classifies to, as
requests in the order of the list; none when the pair classifies to no kind. -/
def specPairRequests (O I : Mif_Port_Data_t) : List Request :=
  match MIFget_cntl_src_type I.type O.type with
  | some MIF_VCVS =>
    [Request.makeElt O.smp_data.branch I.smp_data.pos_node,
     Request.makeElt O.smp_data.branch I.smp_data.neg_node]
  | some MIF_VCIS =>
    [Request.makeElt O.smp_data.pos_node I.smp_data.pos_node,
     Request.makeElt O.smp_data.pos_node I.smp_data.neg_node,
     Request.makeElt O.smp_data.neg_node I.smp_data.pos_node,
     Request.makeElt O.smp_data.neg_node I.smp_data.neg_node]
  | some MIF_ICVS => [Request.makeElt O.smp_data.branch I.smp_data.ibranch]
  | some MIF_ICIS =>
    [Request.makeElt O.smp_data.pos_node I.smp_data.ibranch,
     Request.makeElt O.smp_data.neg_node I.smp_data.ibranch]
  | none => []

/-- The matrix entries of phase B for one instance as the specification words
them: for every non-null port `O` of every non-null output connection, and every
non-null port `I` of every non-null input connection, the entries of the pair;
nothing for a pair in which a port or a connection is null. -/
def specPhaseBRequests (here : MIFinstance) : List Request :=
  (here.conn.filter (fun c => !c.is_null && c.is_output)).flatMap fun co =>
  (co.port.filter (fun p => !p.is_null)).flatMap fun O =>
  (here.conn.filter (fun c => !c.is_null && c.is_input)).flatMap fun ci =>
  (ci.port.filter (fun p => !p.is_null)).flatMap fun I =>
  specPairRequests O I

/-- The counts in an instance agree with its arrays: `num_conn` is the number of
connections and the `size` of each connection the number of its ports. -/
def MIFinstance.WellFormed (here : MIFinstance) : Prop :=
  here.num_conn = here.conn.length ∧ ∀ c ∈ here.conn, c.size = c.port.length

/-- What a piece of code requests, against a list `g` of requests: from every
history it appends an initial part of `g`, and the whole of `g` when it does not
return early. -/
def Emits (m : SetupM Unit) (g : List Request) : Prop :=
  ∀ tr, ∃ added rest, (m tr).2 = tr ++ added ∧ added ++ rest = g ∧
    ((m tr).1 = Except.ok () → rest = [])

/-- Whether a request is the creation of a branch equation. -/
def Request.isBranchEquation : Request → Bool
  | Request.mkCur _ _ => true
  | _ => false

/-- Whether a request is a request for a matrix entry. -/
def Request.isMatrixEntry : Request → Bool
  | Request.makeElt _ _ => true
  | _ => false

/-- The instance of scenario 4 with the output connection first: an analog
instance with two non-null connections of one non-null port each, connection 0
output-only with a port of kind voltage, connection 1 input-only with a port of
kind current. -/
def scenarioOutIn (name vsO vsI : List Char) (smpO smpI : Mif_Smp_Ptr_t)
    (oldO oldI : Int) : MIFinstance :=
  ⟨name, true, 2,
    [⟨false, false, true, 1, [⟨false, MIF_VOLTAGE, vsO, smpO, oldO⟩]⟩,
     ⟨false, true, false, 1, [⟨false, MIF_CURRENT, vsI, smpI, oldI⟩]⟩]⟩

/-- The instance of scenario 4 with the input connection first. -/
def scenarioInOut (name vsO vsI : List Char) (smpO smpI : Mif_Smp_Ptr_t)
    (oldO oldI : Int) : MIFinstance :=
  ⟨name, true, 2,
    [⟨false, true, false, 1, [⟨false, MIF_CURRENT, vsI, smpI, oldI⟩]⟩,
     ⟨false, false, true, 1, [⟨false, MIF_VOLTAGE, vsO, smpO, oldO⟩]⟩]⟩

/-- The requests phase A makes for one branch equation named by `suffix` on a port
with the nodes `pos` and `neg`, when the allocator answers with the equation
number `b`: the creation, then the four matrix entries. -/
def branchRequests (name suffix : List Char) (pos neg b : Int) : List Request :=
  [Request.mkCur name suffix, Request.makeElt pos b, Request.makeElt neg b,
    Request.makeElt b pos, Request.makeElt b neg]

/-- The example instance after a setup in which the allocator numbers the branch
equation of the voltage output 100 and that of the current input 105. -/
def exampleInstanceAfter : MIFinstance :=
  ⟨"a1".toList, true, 2,
    [⟨false, false, true, 1, [⟨false, MIF_VOLTAGE, [], ⟨1, 2, 100, 100⟩, 0⟩]⟩,
     ⟨false, true, false, 1, [⟨false, MIF_CURRENT, [], ⟨3, 4, 0, 105⟩, 0⟩]⟩]⟩

/-- The requests of the setup of the example model, in order. -/
def exampleRequests : List Request :=
  [Request.mkCur "a1".toList "branch_0_0".toList, Request.makeElt 1 100,
    Request.makeElt 2 100, Request.makeElt 100 1, Request.makeElt 100 2,
    Request.mkCur "a1".toList "ibranch_1_0".toList, Request.makeElt 3 105,
    Request.makeElt 4 105, Request.makeElt 105 3, Request.makeElt 105 4,
    Request.makeElt 100 105]

/-! ## Keyword matching and the output buffer (IPC.c) -/

/-- IPC.c, `kw_match`: the loop `while (*s && *k)` that leaves with `IPC_FALSE` at
the first pair of different characters, and the final `return (*k == '\0')`. The
NUL that ends a C string is read at the end of the list. -/
def kw_match : List Char → List Char → Bool
  | [], _ => true
  | kc :: _, [] => decide (kc = Char.ofNat 0)
  | kc :: k, sc :: s =>
    if sc ≠ Char.ofNat 0 ∧ kc ≠ Char.ofNat 0 then
      if sc ≠ kc then false else kw_match k s
    else decide (kc = Char.ofNat 0)

/-- The differential counterpart of a single-ended port kind and the single-ended
counterpart of a differential one; the vsource-current kind has no counterpart
and is left as it is. -/
def specCounterpart : Mif_Port_Type_t → Mif_Port_Type_t
  | MIF_VOLTAGE => MIF_DIFF_VOLTAGE
  | MIF_DIFF_VOLTAGE => MIF_VOLTAGE
  | MIF_CURRENT => MIF_DIFF_CURRENT
  | MIF_DIFF_CURRENT => MIF_CURRENT
  | MIF_VSOURCE_CURRENT => MIF_VSOURCE_CURRENT
  | MIF_CONDUCTANCE => MIF_DIFF_CONDUCTANCE
  | MIF_DIFF_CONDUCTANCE => MIF_CONDUCTANCE
  | MIF_RESISTANCE => MIF_DIFF_RESISTANCE
  | MIF_DIFF_RESISTANCE => MIF_RESISTANCE

/-- The status type of IPC.h, which is not part of these sources: the four
statuses that IPC.c names. -/
inductive Ipc_Status_t where
  | IPC_STATUS_NO_DATA
  | IPC_STATUS_OK
  | IPC_STATUS_ERROR
  | IPC_STATUS_END_OF_DECK
  deriving DecidableEq, Repr

open Ipc_Status_t

/-- IPC.c, `#define OUT_BUFFER_SIZE 1000`. -/
def OUT_BUFFER_SIZE : Nat := 1000

/-- IPC.c, `#define MAX_NUM_RECORDS 200`. -/
def MAX_NUM_RECORDS : Nat := 200

/-- The static globals of IPC.c that hold the queued records. An array of static
storage is the list of its elements up to the last one written; the elements
after them read as zero, as static storage starts out. The declared sizes of the
arrays are not built in: a write at any index is carried out, and the theorems
say which indices are written. -/
structure IpcBuffer where
  end_of_record_index : List Nat
  num_records : Nat
  out_buffer : List Char
  fill_count : Nat
  deriving DecidableEq

/-- The assignment `a[i] = x` to an array of static storage. -/
def poke {α : Type} (zero : α) (a : List α) (i : Nat) (x : α) : List α :=
  if i < a.length then a.set i x else a ++ List.replicate (i - a.length) zero ++ [x]

/-- The C library function `memcpy(&dst[start], src, len)`: `len` bytes of `src`
are written to `dst` from index `start` on. A byte of `src` beyond its list reads
as NUL. -/
def memcpy (dst : List Char) (start : Nat) (src : List Char) (len : Nat) : List Char :=
  (List.range len).foldl
    (fun d i => poke (Char.ofNat 0) d (start + i) (src.getD i (Char.ofNat 0))) dst

/-- IPC.c, `ipc_flush`. The records are written to the batch file and sent over
the channel by `write` and `ipc_transport_send_line`, which belong to the
transport and are not modelled; `transport` stands for the status they come to
for the buffer as it is. With `IPC_STATUS_OK` the two counts are reset to zero;
otherwise the status is returned and the buffer is left as it is. -/
def ipc_flush (transport : IpcBuffer → Ipc_Status_t) (b : IpcBuffer) :
    Ipc_Status_t × IpcBuffer :=
  if transport b = IPC_STATUS_OK then
    (IPC_STATUS_OK, { b with num_records := 0, fill_count := 0 })
  else (transport b, b)

/-- IPC.c, `ipc_send_line_binary`, the value of the local `length` after the
statement under the comment "make sure that the str will fit". No later statement
of the function reads it. -/
def ipc_send_line_binary_length (fill_count len : Nat) : Nat :=
  if (len + 1) + fill_count > OUT_BUFFER_SIZE then OUT_BUFFER_SIZE - fill_count
  else len + 1

/-- IPC.c, `ipc_send_line_binary`: the buffer is flushed when the record and its
newline would reach the end of the buffer or no record index is free; then `len`
bytes of `str` are copied to `out_buffer` at `fill_count`, the newline is written
after them, and the end of the record is noted. The copy is made with `len`, not
with the local `length` that the function has cut down before. -/
def ipc_send_line_binary (transport : IpcBuffer → Ipc_Status_t) (b : IpcBuffer)
    (str : List Char) (len : Nat) : Ipc_Status_t × IpcBuffer :=
  let length := len + 1
  match (if b.fill_count + length ≥ OUT_BUFFER_SIZE ∨ b.num_records ≥ MAX_NUM_RECORDS then
      ipc_flush transport b else (IPC_STATUS_OK, b)) with
  | (status, b1) =>
    if status ≠ IPC_STATUS_OK then (status, b1)
    else
      let out1 := memcpy b1.out_buffer b1.fill_count str len
      let fill1 := b1.fill_count + len
      let out2 := poke (Char.ofNat 0) out1 fill1 '\n'
      let fill2 := fill1 + 1
      (IPC_STATUS_OK,
        ⟨poke 0 b1.end_of_record_index b1.num_records fill2, b1.num_records + 1, out2, fill2⟩)

/-- IPC.c, `ipc_send_line`, the loop `while(len > 0)` of the long-string branch,
one pass per unit of fuel. `s` is the pointer that the loop advances and `len` the
count of characters left; every pass hands `str`, the start of the text, to
`ipc_send_line_binary`. `status` is the local of that name, set by every pass. -/
def ipc_send_line_loop (transport : IpcBuffer → Ipc_Status_t) (str : List Char) :
    Nat → List Char → Nat → Ipc_Status_t → IpcBuffer → Ipc_Status_t × IpcBuffer
  | 0, _, _, status, b => (status, b)
  | fuel + 1, s, len, status, b =>
    if len > 0 then
      let send_len := if len < 80 then len else 79
      match ipc_send_line_binary transport b str send_len with
      | (status1, b1) =>
        if status1 ≠ IPC_STATUS_OK then (status1, b1)
        else ipc_send_line_loop transport str fuel (s.drop send_len) (len - send_len)
          status1 b1
    else (status, b)

/-- IPC.c, `ipc_send_line` for a C string `str` (its length is `strlen(str)`). In
the long-string branch the loop is entered, since `len` is at least 80, so the
local `status` is set before it is returned; every pass takes at least one
character off `len`, so `len` units of fuel are enough. -/
def ipc_send_line (transport : IpcBuffer → Ipc_Status_t) (b : IpcBuffer)
    (str : List Char) : Ipc_Status_t × IpcBuffer :=
  let len := str.length
  if len < 80 then ipc_send_line_binary transport b str len
  else ipc_send_line_loop transport str len str len IPC_STATUS_OK b

/-- The records queued in the buffer, as `ipc_flush` cuts them out of it: record
`i` is the bytes from the end of record `i - 1` (from 0 for the first record) up
to `end_of_record_index[i]`. -/
def ipcRecords (b : IpcBuffer) : List (List Char) :=
  (List.range b.num_records).map fun i =>
    let last := if i = 0 then 0 else b.end_of_record_index.getD (i - 1) 0
    (b.out_buffer.drop last).take (b.end_of_record_index.getD i 0 - last)

/-- The payload of a queued record: the record without the newline that
`ipc_send_line_binary` appends. -/
def ipcPayload (record : List Char) : List Char := record.dropLast

/-- The buffer before anything is queued. -/
def emptyBuffer : IpcBuffer := ⟨[], 0, [], 0⟩

/-- The tokens of a run of array elements: `TokenRun line toks line'` holds when
successive calls of `MIFget_token` from the cursor `line` return the tokens `toks`
in order, none of them of the array-close type, and leave the cursor at `line'`. -/
inductive TokenRun : List Char → List (List Char) → List Char → Prop where
  | done (line : List Char) : TokenRun line [] line
  | next (line tok : List Char) (ty : Mif_Token_Type_t) (line1 : List Char)
      (toks : List (List Char)) (line' : List Char) :
      MIFget_token line = (some tok, ty, line1) → ty ≠ MIF_RARRAY_TOK →
      TokenRun line1 toks line' → TokenRun line (tok :: toks) line'

/-- The number of places in the state vector an instance takes, as the
specification words it: the sum of the sizes of its non-null input connections
when the instance is analog, and none otherwise. -/
def specStateCount (here : MIFinstance) : Nat :=
  if here.analog then
    ((here.conn.filter (fun c => !c.is_null && c.is_input)).map (fun c => c.size)).sum
  else 0

/-- The state indices held by the ports that take a place in the state vector: the
`old_input` of every port of every non-null input connection of an analog
instance, in the order of the connections and ports. -/
def specStateIndices (here : MIFinstance) : List Int :=
  if here.analog then
    (here.conn.filter (fun c => !c.is_null && c.is_input)).flatMap
      (fun c => c.port.map (fun p => p.old_input))
  else []

/-- The number of places in the state vector all instances of all models of a list
take. -/
def specStateTotal (models : List MIFmodel) : Nat :=
  (models.map (fun m => (m.MIFinstances.map specStateCount).sum)).sum

/-- The `n` consecutive state indices that start at `start`. -/
def stateRange (start : Int) (n : Nat) : List Int :=
  (List.range n).map (fun (k : Nat) => start + (k : Int))

/-- The result of a loop of the form `forEachIndexS` that runs over the whole of
an array, written by recursion on the array: the elements as the body leaves
them and the counter afterwards, the index of the first element being `i`. -/
def mapThread {σ α : Type} (step : Nat → α → σ → α × σ) : Nat → List α → σ → List α × σ
  | _, [], s => ([], s)
  | i, a :: t, s =>
    match step i a s with
    | (a1, s1) =>
      match mapThread step (i + 1) t s1 with
      | (t1, s2) => (a1 :: t1, s2)

/-- The requests the body of the loop over the ports in phase A can make for port
`j` of connection `i`, a port that is not null in a connection with the direction
flags `is_input` and `is_output`: the creation of the equation `branch_<i>_<j>`
when the port needs a branch equation, the creation of the equation
`ibranch_<i>_<j>` when it needs a current-sensing one, matrix entries, and for a
vsource-current port of an input connection the lookup of the reference and the
report of the fatal error with the instance name and the reference. -/
def PortRequest (MIFname : List Char) (is_input is_output : Bool) (i j : Nat)
    (port : Mif_Port_Data_t) (r : Request) : Prop :=
  port.is_null = false ∧
  ((r = Request.mkCur MIFname (branchSuffix i j) ∧
      specNeedsBranch is_output port.type = true) ∨
    (r = Request.mkCur MIFname (ibranchSuffix i j) ∧
      specNeedsIbranch is_input port.type = true) ∨
    (∃ row col, r = Request.makeElt row col) ∨
    (r = Request.fndBranch port.vsource_str ∧ is_input = true ∧
      port.type = MIF_VSOURCE_CURRENT) ∨
    (r = Request.IFerror MIFname port.vsource_str ∧ is_input = true ∧
      port.type = MIF_VSOURCE_CURRENT))

/-- A request phase A can make for an instance: a request of the loop body for a
port `j` of a connection `i` that is not null, with `i` and `j` within the counts
of the loops, the name of the instance and the direction flags of the connection. -/
def InstanceRequest (here : MIFinstance) (r : Request) : Prop :=
  ∃ (i j : Nat) (c : Mif_Conn_Data_t) (P : Mif_Port_Data_t),
    i < here.num_conn ∧ here.conn[i]? = some c ∧ c.is_null = false ∧
    j < c.size ∧ c.port[j]? = some P ∧
    PortRequest here.MIFname c.is_input c.is_output i j P r
/-- Collaborators for worked examples that find the source `v1` by name, as branch
7, and no other source; every branch equation is created and every matrix entry
comes back non-null. -/
def exampleFinder : Collaborators :=
  ⟨fun tr _ _ => (OK, 100 + tr.length), fun _ _ _ => true,
    fun _ name => if name = "v1".toList then 7 else 0⟩

/-- An analog instance `a2` for worked examples: its only connection is an input
with one port of kind vsource-current that refers to the source `v1`. -/
def exampleVsourceInstance : MIFinstance :=
  ⟨"a2".toList, true, 1,
    [⟨false, true, false, 1, [⟨false, MIF_VSOURCE_CURRENT, "v1".toList, ⟨0, 0, 0, 0⟩, 0⟩]⟩]⟩

/-! ## Theorems -/

/-- C1: for every pair of the nine documented port kinds the classification of
`MIFget_cntl_src_type` equals the table of specification section 4.4, the
no-stamp outcome of unlisted pairs included. -/
theorem MIFget_cntl_src_type_eq_table (i o : Mif_Port_Type_t) :
    MIFget_cntl_src_type i o = specCntlSrcTable i o := by
  cases i <;> cases o <;> rfl

/-! ### Tokenizer lemmas -/

theorem dropWhile_append_of_all (p : Char → Bool) (l r : List Char)
    (h : ∀ x ∈ l, p x = true) : (l ++ r).dropWhile p = r.dropWhile p := by
  induction l with
  | nil => rfl
  | cons a t ih =>
    have ha : p a = true := h a (List.mem_cons_self a t)
    have ht : ∀ x ∈ t, p x = true := fun x hx => h x (List.mem_cons_of_mem a hx)
    simp [List.dropWhile_cons, ha, ih ht]

theorem takeWhile_append_of_all (p : Char → Bool) (l r : List Char)
    (h : ∀ x ∈ l, p x = true) : (l ++ r).takeWhile p = l ++ r.takeWhile p := by
  induction l with
  | nil => rfl
  | cons a t ih =>
    have ha : p a = true := h a (List.mem_cons_self a t)
    have ht : ∀ x ∈ t, p x = true := fun x hx => h x (List.mem_cons_of_mem a hx)
    simp [List.takeWhile_cons, ha, ih ht]

theorem dropWhile_of_head_not (p : Char → Bool) (r : List Char)
    (h : ∀ x, r.head? = some x → p x = false) : r.dropWhile p = r := by
  cases r with
  | nil => rfl
  | cons a t => simp [List.dropWhile_cons, h a rfl]

theorem isStructural_not_layout (c : Char) (hc : isStructural c = true) :
    isLayout c = false := by
  simp only [isStructural, Bool.or_eq_true, decide_eq_true_eq] at hc
  rcases hc with ((((h | h) | h) | h) | h) | h <;> subst h <;> decide

theorem isStructural_ne_nul (c : Char) (hc : isStructural c = true) :
    c ≠ Char.ofNat 0 := by
  intro h
  subst h
  revert hc
  decide

theorem tokenTypeOf_structural (c : Char) (hc : isStructural c = true) :
    tokenTypeOf [c] = specStructuralType c := by
  simp only [isStructural, Bool.or_eq_true, decide_eq_true_eq] at hc
  rcases hc with ((((h | h) | h) | h) | h) | h <;> subst h <;> decide

/-- C9: when the first non-layout character `c` of the input is one of the six
structural characters, `MIFget_token` returns the one-character text `c` with the
matching token type, and the cursor has moved over the leading layout characters,
that character and the layout characters after it, and over nothing else. -/
theorem MIFget_token_structural (l1 l2 rest : List Char) (c : Char)
    (h1 : ∀ x ∈ l1, isLayout x = true) (hc : isStructural c = true)
    (h2 : ∀ x ∈ l2, isLayout x = true)
    (hrest : ∀ x, rest.head? = some x → isLayout x = false) :
    MIFget_token (l1 ++ c :: (l2 ++ rest)) = (some [c], specStructuralType c, rest) := by
  have hd : (l1 ++ c :: (l2 ++ rest)).dropWhile isLayout = c :: (l2 ++ rest) := by
    rw [dropWhile_append_of_all isLayout l1 _ h1]
    simp [List.dropWhile_cons, isStructural_not_layout c hc]
  have hr : (l2 ++ rest).dropWhile isLayout = rest := by
    rw [dropWhile_append_of_all isLayout l2 _ h2]
    exact dropWhile_of_head_not isLayout rest hrest
  simp [MIFget_token, MIFgettok, hd, hr, hc, isStructural_ne_nul c hc,
    tokenTypeOf_structural c hc]

/-- Witness of C9 on the text ` = [ , 1.5 ]`. -/
theorem MIFget_token_structural_witness :
    MIFget_token (" = ".toList ++ '[' :: (" , ".toList ++ "1.5 ]".toList)) =
      (some ['['], MIF_LARRAY_TOK, "1.5 ]".toList) :=
  MIFget_token_structural " = ".toList " , ".toList "1.5 ]".toList '['
    (by decide) (by decide) (by decide) (by decide)

theorem ne_dquote_nul_inQuoted (x : Char) (h : x ≠ dquote ∧ x ≠ Char.ofNat 0) :
    inQuoted x = true := by
  simp [inQuoted, h.1, h.2]

theorem dquote_not_layout : isLayout dquote = false := by decide

/-- C10: when the first non-layout character of the input is a double quote,
`MIFgettok` returns exactly the characters between that quote and the next double
quote, or the end of the input when there is none, with both quotes removed and
every character of the run kept, layout and structural characters included; the
cursor ends after the closing quote (and the layout characters that follow it). -/
theorem MIFgettok_quoted (l1 body tail : List Char)
    (h1 : ∀ x ∈ l1, isLayout x = true)
    (hb : ∀ x ∈ body, x ≠ dquote ∧ x ≠ Char.ofNat 0) :
    MIFgettok (l1 ++ dquote :: (body ++ dquote :: tail)) =
        (some body, tail.dropWhile isLayout) ∧
      MIFgettok (l1 ++ dquote :: body) = (some body, []) := by
  have hq : ∀ x ∈ body, inQuoted x = true := fun x hx => ne_dquote_nul_inQuoted x (hb x hx)
  have hd : ∀ r, (l1 ++ dquote :: r).dropWhile isLayout = dquote :: r := by
    intro r
    rw [dropWhile_append_of_all isLayout l1 _ h1]
    simp [List.dropWhile_cons, dquote_not_layout]
  have hnq : inQuoted dquote = false := by decide
  have ht1 : (body ++ dquote :: tail).takeWhile inQuoted = body := by
    rw [takeWhile_append_of_all inQuoted body _ hq]
    simp [List.takeWhile_cons, hnq]
  have hd1 : (body ++ dquote :: tail).dropWhile inQuoted = dquote :: tail := by
    rw [dropWhile_append_of_all inQuoted body _ hq]
    simp [List.dropWhile_cons, hnq]
  have ht2 : body.takeWhile inQuoted = body := by
    have := takeWhile_append_of_all inQuoted body [] hq
    simpa using this
  have hd2 : body.dropWhile inQuoted = [] := by
    have := dropWhile_append_of_all inQuoted body [] hq
    simpa using this
  have hs : isStructural dquote = false := by decide
  have hz : dquote ≠ Char.ofNat 0 := by decide
  constructor
  · simp [MIFgettok, hd, hs, hz, ht1, hd1, skipClosingQuote]
  · simp [MIFgettok, hd, hs, hz, ht2, hd2, skipClosingQuote]

/-- Witness of C10 on a quoted run that holds every layout and structural
character. -/
theorem MIFgettok_quoted_witness :
    MIFgettok (" ".toList ++ dquote :: ("a b=(c),<d>[e]~%".toList ++ dquote :: " x".toList)) =
        (some "a b=(c),<d>[e]~%".toList, " x".toList.dropWhile isLayout) ∧
      MIFgettok (" ".toList ++ dquote :: "a b=(c),<d>[e]~%".toList) =
        (some "a b=(c),<d>[e]~%".toList, []) :=
  MIFgettok_quoted " ".toList "a b=(c),<d>[e]~%".toList " x".toList (by decide) (by decide)

/-! ### Value reader -/

/-- C2: for every array kind, a text whose first two tokens are the array-open
delimiter followed at once by the array-close delimiter makes `MIFgetValue`
return NULL with the message "Array parameter must have at least one value". -/
theorem MIFgetValue_empty_array (ev : Evaluator) (val : IFvalue) (errno : Nat)
    (err : Option String) (line line1 line2 : List Char) (tok1 tok2 : Option (List Char))
    (t : IFvarType) (ht : t.is_array = true)
    (h1 : MIFget_token line = (tok1, MIF_LARRAY_TOK, line1))
    (h2 : MIFget_token line1 = (tok2, MIF_RARRAY_TOK, line2)) :
    MIFgetValue ev val errno err line t =
      some ⟨none, some "Array parameter must have at least one value", line2, errno⟩ := by
  simp [MIFgetValue, ht, h1, MIFgetValue_loop, h2]

/-- Witness of C2 on the text `[ ]` for the boolean and the complex array kind. -/
theorem MIFgetValue_empty_array_witness :
    MIFgetValue (fun _ => (0, 1)) ⟨0, 0, [], ⟨0, 0⟩, 0, [], [], [], []⟩ 0 none
          "[ ]".toList IF_FLAGVEC =
        some ⟨none, some "Array parameter must have at least one value", [], 0⟩ ∧
      MIFgetValue (fun _ => (0, 1)) ⟨0, 0, [], ⟨0, 0⟩, 0, [], [], [], []⟩ 0 none
          "[ ]".toList IF_CPLXVEC =
        some ⟨none, some "Array parameter must have at least one value", [], 0⟩ :=
  ⟨MIFgetValue_empty_array _ _ 0 none "[ ]".toList "]".toList [] (some ['['])
      (some [']']) IF_FLAGVEC rfl (by decide) (by decide),
    MIFgetValue_empty_array _ _ 0 none "[ ]".toList "]".toList [] (some ['['])
      (some [']']) IF_CPLXVEC rfl (by decide) (by decide)⟩

/-- C8 (amended): for every array kind, a text whose first token is not typed
array-open by `MIFget_token` (its text does not begin with `[`), the empty text
included, makes `MIFgetValue` return NULL with the message "Array parameter
expected - No array delimiter found"; the cursor stands after that first token
and no element has been parsed. -/
theorem MIFgetValue_no_array_delimiter (ev : Evaluator) (val : IFvalue) (errno : Nat)
    (err : Option String) (line : List Char) (t : IFvarType) (ht : t.is_array = true)
    (h : (MIFget_token line).2.1 ≠ MIF_LARRAY_TOK) :
    MIFgetValue ev val errno err line t =
        some ⟨none, some "Array parameter expected - No array delimiter found",
          (MIFget_token line).2.2, errno⟩ ∧
      MIFgetValue ev val errno err [] t =
        some ⟨none, some "Array parameter expected - No array delimiter found", [], errno⟩ := by
  constructor
  · simp [MIFgetValue, ht, h]
  · simp [MIFgetValue, ht, MIFget_token, MIFgettok]

/-- Witness of C8 (amended) on the integer array text `1 2 ]`, which lacks the opening
delimiter. -/
theorem MIFgetValue_no_array_delimiter_witness :
    MIFgetValue (fun _ => (0, 1)) ⟨0, 0, [], ⟨0, 0⟩, 0, [], [], [], []⟩ 0 none
          "1 2 ]".toList IF_INTVEC =
        some ⟨none, some "Array parameter expected - No array delimiter found",
          (MIFget_token "1 2 ]".toList).2.2, 0⟩ ∧
      MIFgetValue (fun _ => (0, 1)) ⟨0, 0, [], ⟨0, 0⟩, 0, [], [], [], []⟩ 0 none
          [] IF_INTVEC =
        some ⟨none, some "Array parameter expected - No array delimiter found", [], 0⟩ :=
  MIFgetValue_no_array_delimiter _ _ 0 none "1 2 ]".toList IF_INTVEC rfl (by decide)

theorem tokenTypeOf_ne_no_tok (tok : List Char) : tokenTypeOf tok ≠ MIF_NO_TOK := by
  unfold tokenTypeOf
  simp only []
  split_ifs <;> simp

theorem MIFget_token_some (s s1 : List Char) (tok : List Char) (ty : Mif_Token_Type_t)
    (h : MIFget_token s = (some tok, ty, s1)) :
    MIFgettok s = (some tok, s1) ∧ ty = tokenTypeOf tok := by
  unfold MIFget_token at h
  split at h
  · simp at h
  · rename_i ret_str s2 heq
    simp only [Prod.mk.injEq, Option.some.injEq] at h
    obtain ⟨h1, h2, h3⟩ := h
    subst h1 h3
    exact ⟨heq, h2.symm⟩

/-- C3: `MIFget_boolean` yields 1 without error exactly for the tokens `t` and
`true`, 0 without error exactly for `f` and `false`, and -1 with the error
"Bad boolean value" for every other token, among them `maybe`, `T`, `TRUE` and
`False`; `MIFgetValue` with the scalar boolean kind returns the value for the
first token of the text in the first two cases and NULL with that error in the
third. -/
theorem MIFget_boolean_spec (token : List Char) :
    (MIFget_boolean token = (1, none) ↔ token = "t".toList ∨ token = "true".toList) ∧
    (MIFget_boolean token = (0, none) ↔ token = "f".toList ∨ token = "false".toList) ∧
    ((token ≠ "t".toList ∧ token ≠ "true".toList ∧ token ≠ "f".toList ∧
        token ≠ "false".toList) ↔ MIFget_boolean token = (-1, some "Bad boolean value")) ∧
    (∀ x ∈ ["maybe".toList, "T".toList, "TRUE".toList, "False".toList],
      MIFget_boolean x = (-1, some "Bad boolean value")) ∧
    (∀ (ev : Evaluator) (val : IFvalue) (errno : Nat) (err : Option String)
        (line line1 : List Char) (ty : Mif_Token_Type_t),
      MIFget_token line = (some token, ty, line1) →
      MIFgetValue ev val errno err line IF_FLAG =
        some ⟨if (MIFget_boolean token).2 = none then
            some { val with iValue := (MIFget_boolean token).1 } else none,
          (MIFget_boolean token).2, line1, errno⟩) := by
  refine ⟨?_, ?_, ?_, by decide, ?_⟩
  · unfold MIFget_boolean
    split_ifs with h1 h2 <;> simp_all
  · unfold MIFget_boolean
    split_ifs with h1 h2
    · rcases h1 with h | h <;> subst h <;> decide
    · simp_all
    · simp_all
  · unfold MIFget_boolean
    split_ifs with h1 h2
    · rcases h1 with h | h <;> subst h <;> decide
    · rcases h2 with h | h <;> subst h <;> decide
    · simp_all
  · intro ev val errno err line line1 ty h
    have hty : ty ≠ MIF_NO_TOK := by
      rw [(MIFget_token_some line line1 token ty h).2]
      exact tokenTypeOf_ne_no_tok token
    cases hb : (MIFget_boolean token).2 with
    | none => simp [MIFgetValue, IFvarType.is_array, MIFgetValue_loop, h, hty,
        MIFgetValue_switch, hb]
    | some m => simp [MIFgetValue, IFvarType.is_array, MIFgetValue_loop, h, hty,
        MIFgetValue_switch, hb]

/-- Witness of C3 on the scalar boolean text `maybe x`. -/
theorem MIFget_boolean_spec_witness :
    MIFget_token "maybe x".toList = (some "maybe".toList, MIF_STRING_TOK, "x".toList) ∧
      MIFgetValue (fun _ => (0, 1)) ⟨0, 0, [], ⟨0, 0⟩, 0, [], [], [], []⟩ 0 none
          "maybe x".toList IF_FLAG =
        some ⟨none, some "Bad boolean value", "x".toList, 0⟩ :=
  ⟨by decide,
    ((MIFget_boolean_spec "maybe".toList).2.2.2.2 (fun _ => (0, 1))
      ⟨0, 0, [], ⟨0, 0⟩, 0, [], [], [], []⟩ 0 none "maybe x".toList "x".toList
      MIF_STRING_TOK (by decide)).trans (by decide)⟩

theorem MIFget_token_string_some (s s1 : List Char) (tok : Option (List Char))
    (ty : Mif_Token_Type_t) (h : MIFget_token s = (tok, ty, s1)) (hty : ty ≠ MIF_NO_TOK) :
    ∃ t, tok = some t := by
  unfold MIFget_token at h
  split at h
  · simp only [Prod.mk.injEq] at h
    exact absurd h.2.1.symm hty
  · simp only [Prod.mk.injEq] at h
    exact ⟨_, h.1.symm⟩

theorem MIFget_complex_of_stream (ev : Evaluator) (ty : Mif_Token_Type_t)
    (line : List Char) (re im : ℚ) (line3 : List Char)
    (h : typedComplexStream ev ty line re im line3) :
    MIFget_complex ev ty line = (⟨re, im⟩, none, line3) := by
  obtain ⟨hty, t1, l1, t2, l2, t3, h1, e1, h2, e2, h3⟩ := h
  simp [MIFget_complex, hty, h1, e1, h2, e2, h3]

theorem MIFget_complex_err (ev : Evaluator) (ty : Mif_Token_Type_t) (line : List Char) :
    (MIFget_complex ev ty line).2.1 = some "Bad complex value" ∨
      ∃ re im line3, typedComplexStream ev ty line re im line3 := by
  by_cases hty : ty = MIF_LCOMPLEX_TOK
  swap
  · left; simp [MIFget_complex, hty]
  rcases h1 : MIFget_token line with ⟨tok1, ty1, l1⟩
  by_cases hs1 : ty1 = MIF_STRING_TOK
  swap
  · left; simp [MIFget_complex, hty, h1, hs1]
  obtain ⟨t1, rfl⟩ := MIFget_token_string_some line l1 tok1 ty1 h1 (by rw [hs1]; decide)
  rcases e1 : ev t1 with ⟨re, error1⟩
  by_cases he1 : error1 = 0
  swap
  · left; simp [MIFget_complex, hty, h1, hs1, e1, he1]
  rcases h2 : MIFget_token l1 with ⟨tok2, ty2, l2⟩
  by_cases hs2 : ty2 = MIF_STRING_TOK
  swap
  · left; simp [MIFget_complex, hty, h1, hs1, e1, he1, h2, hs2]
  obtain ⟨t2, rfl⟩ := MIFget_token_string_some l1 l2 tok2 ty2 h2 (by rw [hs2]; decide)
  rcases e2 : ev t2 with ⟨im, error2⟩
  by_cases he2 : error2 = 0
  swap
  · left; simp [MIFget_complex, hty, h1, hs1, e1, he1, h2, hs2, e2, he2]
  rcases h3 : MIFget_token l2 with ⟨tok3, ty3, l3⟩
  by_cases hs3 : ty3 = MIF_RCOMPLEX_TOK
  swap
  · left; simp [MIFget_complex, hty, h1, hs1, e1, he1, h2, hs2, e2, he2, h3, hs3]
  right
  subst hs1 hs2 hs3 he1 he2
  exact ⟨re, im, l3, hty, t1, l1, t2, l2, tok3, h1, e1, h2, e2, h3⟩

/-- C6 (amended): `MIFget_complex` succeeds exactly when the token stream at the
cursor is a token typed complex-open, a token typed string that the evaluator
accepts (real part), a second token typed string that the evaluator accepts
(imaginary part) and a token typed complex-close, the types being those
`MIFget_token` assigns by the first character of the token text; then the value
holds these two parts and the cursor stands after the fourth token; every other
token stream gives the error "Bad complex value". In particular `< 1.0 2.0 >`
read with the scalar complex kind has real part 1 and imaginary part 2 once the
evaluator reads `1.0` as 1 and `2.0` as 2. -/
theorem MIFget_complex_spec (ev : Evaluator) (ty : Mif_Token_Type_t) (line : List Char) :
    ((MIFget_complex ev ty line).2.1 = none ↔
        ∃ re im line3, typedComplexStream ev ty line re im line3) ∧
    (∀ re im line3, typedComplexStream ev ty line re im line3 →
        MIFget_complex ev ty line = (⟨re, im⟩, none, line3)) ∧
    ((¬ ∃ re im line3, typedComplexStream ev ty line re im line3) →
        (MIFget_complex ev ty line).2.1 = some "Bad complex value") ∧
    (ev "1.0".toList = (1, 0) → ev "2.0".toList = (2, 0) →
      ∀ (val : IFvalue) (errno : Nat) (err : Option String),
        MIFgetValue ev val errno err "< 1.0 2.0 >".toList IF_COMPLEX =
          some ⟨some { val with cValue := ⟨1, 2⟩ }, none, [], errno⟩) := by
  refine ⟨⟨?_, ?_⟩, MIFget_complex_of_stream ev ty line, ?_, ?_⟩
  · intro hnone
    rcases MIFget_complex_err ev ty line with h | h
    · rw [hnone] at h; exact absurd h (by simp)
    · exact h
  · rintro ⟨re, im, line3, h⟩
    rw [MIFget_complex_of_stream ev ty line re im line3 h]
  · intro hno
    rcases MIFget_complex_err ev ty line with h | h
    · exact h
    · exact absurd h hno
  · intro e1 e2 val errno err
    have ht : MIFget_token "< 1.0 2.0 >".toList =
        (some ['<'], MIF_LCOMPLEX_TOK, "1.0 2.0 >".toList) := by decide
    have hc2 : MIFget_complex ev MIF_LCOMPLEX_TOK "1.0 2.0 >".toList = (⟨1, 2⟩, none, []) := by
      have hs2 : typedComplexStream ev MIF_LCOMPLEX_TOK "1.0 2.0 >".toList 1 2 [] :=
        ⟨rfl, "1.0".toList, "2.0 >".toList, "2.0".toList, ">".toList, some ['>'],
          by decide, e1, by decide, e2, by decide⟩
      exact MIFget_complex_of_stream ev _ _ 1 2 [] hs2
    unfold MIFgetValue
    simp only [IFvarType.is_array, Bool.false_eq_true, if_false]
    rw [MIFgetValue_loop]
    simp only [ht]
    simp only [MIFgetValue_switch, hc2]
    rfl

/-- The example evaluator reads `1.0` as 1 and `2.0` as 2. -/
theorem exampleEvaluator_values :
    exampleEvaluator "1.0".toList = (1, 0) ∧ exampleEvaluator "2.0".toList = (2, 0) := by
  constructor <;> rfl

/-- Witness of C6 (amended) on the text `< 1.0 2.0 >`. -/
theorem MIFget_complex_spec_witness :
    MIFgetValue exampleEvaluator ⟨0, 0, [], ⟨0, 0⟩, 0, [], [], [], []⟩ 0 none
        "< 1.0 2.0 >".toList IF_COMPLEX =
      some ⟨some ⟨0, 0, [], ⟨1, 2⟩, 0, [], [], [], []⟩, none, [], 0⟩ :=
  (MIFget_complex_spec exampleEvaluator MIF_LCOMPLEX_TOK []).2.2.2
    exampleEvaluator_values.1 exampleEvaluator_values.2 _ 0 none

/-! ### Progress of the cursor -/

theorem length_dropWhile_le (p : Char → Bool) (l : List Char) :
    (l.dropWhile p).length ≤ l.length :=
  (List.dropWhile_sublist p).length_le

theorem dropWhile_eq_cons_not (p : Char → Bool) (l r : List Char) (c : Char)
    (h : l.dropWhile p = c :: r) : p c = false := by
  have := List.head?_dropWhile_not p l
  rw [h] at this
  simpa using this

theorem length_skipClosingQuote_le (s : List Char) :
    (skipClosingQuote s).length ≤ s.length := by
  cases s with
  | nil => simp [skipClosingQuote]
  | cons c r =>
    simp only [skipClosingQuote]
    split_ifs <;> simp

theorem inBare_of_not (c : Char) (h0 : c ≠ Char.ofNat 0) (hl : isLayout c = false)
    (hs : isStructural c = false) : inBare c = true := by
  simp only [isLayout, isStructural, Bool.or_eq_false_iff, decide_eq_false_iff_not] at hl hs
  simp only [inBare, Bool.and_eq_true, Bool.not_eq_true', Bool.or_eq_false_iff,
    decide_eq_false_iff_not, decide_eq_true_eq, ne_eq]
  tauto

theorem MIFgettok_length_le (s s1 : List Char) (tok : Option (List Char))
    (h : MIFgettok s = (tok, s1)) : s1.length ≤ s.length := by
  unfold MIFgettok at h
  split at h
  · simp only [Prod.mk.injEq] at h
    rw [← h.2]; simp
  · rename_i c r hd
    have hlen : (c :: r).length ≤ s.length := hd ▸ length_dropWhile_le isLayout s
    simp only [List.length_cons] at hlen
    split_ifs at h with h0 hs hq
    · simp only [Prod.mk.injEq] at h
      rw [← h.2]; simpa using hlen
    · simp only [Prod.mk.injEq] at h
      rw [← h.2]
      have := length_dropWhile_le isLayout r
      omega
    · simp only [Prod.mk.injEq] at h
      rw [← h.2]
      have h1 := length_dropWhile_le isLayout (skipClosingQuote (r.dropWhile inQuoted))
      have h2 := length_skipClosingQuote_le (r.dropWhile inQuoted)
      have h3 := length_dropWhile_le inQuoted r
      omega
    · simp only [Prod.mk.injEq] at h
      rw [← h.2]
      have h1 := length_dropWhile_le isLayout ((c :: r).dropWhile inBare)
      have h2 := length_dropWhile_le inBare (c :: r)
      simp only [List.length_cons] at h2
      omega

theorem MIFgettok_length_lt (s s1 : List Char) (tok : List Char)
    (h : MIFgettok s = (some tok, s1)) : s1.length < s.length := by
  unfold MIFgettok at h
  split at h
  · simp at h
  · rename_i c r hd
    have hlen : (c :: r).length ≤ s.length := hd ▸ length_dropWhile_le isLayout s
    have hlay : isLayout c = false := dropWhile_eq_cons_not isLayout s r c hd
    simp only [List.length_cons] at hlen
    split_ifs at h with h0 hs hq
    · simp at h
    · simp only [Prod.mk.injEq] at h
      rw [← h.2]
      have := length_dropWhile_le isLayout r
      omega
    · simp only [Prod.mk.injEq] at h
      rw [← h.2]
      have h1 := length_dropWhile_le isLayout (skipClosingQuote (r.dropWhile inQuoted))
      have h2 := length_skipClosingQuote_le (r.dropWhile inQuoted)
      have h3 := length_dropWhile_le inQuoted r
      omega
    · simp only [Prod.mk.injEq] at h
      rw [← h.2]
      have hb : inBare c = true := inBare_of_not c h0 hlay (by simpa using hs)
      have h1 := length_dropWhile_le isLayout ((c :: r).dropWhile inBare)
      have h2 : ((c :: r).dropWhile inBare).length ≤ r.length := by
        rw [List.dropWhile_cons, if_pos hb]
        exact length_dropWhile_le inBare r
      omega

theorem MIFget_token_length_le (s s1 : List Char) (tok : Option (List Char))
    (ty : Mif_Token_Type_t) (h : MIFget_token s = (tok, ty, s1)) : s1.length ≤ s.length := by
  unfold MIFget_token at h
  split at h
  · rename_i s2 heq
    simp only [Prod.mk.injEq] at h
    rw [← h.2.2]
    exact MIFgettok_length_le s s2 none heq
  · rename_i ret_str s2 heq
    simp only [Prod.mk.injEq] at h
    rw [← h.2.2]
    exact MIFgettok_length_le s s2 (some ret_str) heq

theorem MIFget_token_length_lt (s s1 : List Char) (tok : List Char)
    (ty : Mif_Token_Type_t) (h : MIFget_token s = (some tok, ty, s1)) :
    s1.length < s.length :=
  MIFgettok_length_lt s s1 tok (MIFget_token_some s s1 tok ty h).1

theorem MIFget_complex_length_le (ev : Evaluator) (ty : Mif_Token_Type_t)
    (line : List Char) : (MIFget_complex ev ty line).2.2.length ≤ line.length := by
  rcases h1 : MIFget_token line with ⟨tok1, ty1, l1⟩
  rcases h2 : MIFget_token l1 with ⟨tok2, ty2, l2⟩
  rcases h3 : MIFget_token l2 with ⟨tok3, ty3, l3⟩
  have g1 := MIFget_token_length_le line l1 tok1 ty1 h1
  have g2 := MIFget_token_length_le l1 l2 tok2 ty2 h2
  have g3 := MIFget_token_length_le l2 l3 tok3 ty3 h3
  unfold MIFget_complex
  simp only [h1, h2, h3]
  split_ifs <;> simp <;> omega

theorem MIFgetValue_switch_length_le (ev : Evaluator) (t : IFvarType) (tok : List Char)
    (ty : Mif_Token_Type_t) (line line2 : List Char) (errno errno1 : Nat)
    (val val1 : IFvalue) (e : Option String)
    (h : MIFgetValue_switch ev t tok ty line errno val = some (val1, e, line2, errno1)) :
    line2.length ≤ line.length := by
  have hc := MIFget_complex_length_le ev ty line
  cases t <;> simp only [MIFgetValue_switch, Option.some.injEq, Prod.mk.injEq] at h
  case IF_COMPLEX => rw [← h.2.2.1]; exact hc
  case IF_CPLXVEC => rw [← h.2.2.1]; exact hc
  case IF_OTHER => exact absurd h (by simp)
  all_goals rw [← h.2.2.1]

/-! ### Error propagation out of an array -/

theorem MIFgetValue_loop_element_error (ev : Evaluator) (t : IFvarType)
    (ht : t.is_array = true) (line : List Char) (errno : Nat) (val : IFvalue)
    (lineK : List Char) (errnoK : Nat) (valK : IFvalue)
    (hp : ElementsParsed ev t line errno val lineK errnoK valK)
    (tok : List Char) (ty : Mif_Token_Type_t) (line1 : List Char)
    (hk : MIFget_token lineK = (some tok, ty, line1)) (hne : ty ≠ MIF_RARRAY_TOK)
    (valF : IFvalue) (msg : String) (line2 : List Char) (errno2 : Nat)
    (hf : MIFgetValue_switch ev t tok ty line1 errnoK valK =
      some (valF, some msg, line2, errno2)) :
    ∀ (fuel : Nat) (err : Option String), line.length < fuel →
      MIFgetValue_loop ev t fuel line errno err val =
        some ⟨none, some msg, line2, errno2⟩ := by
  induction hp with
  | done line errno val =>
    intro fuel err hfuel
    obtain ⟨n, rfl⟩ : ∃ n, fuel = n + 1 := ⟨fuel - 1, by omega⟩
    have hno : ty ≠ MIF_NO_TOK := by
      rw [(MIFget_token_some line line1 tok ty hk).2]
      exact tokenTypeOf_ne_no_tok tok
    rw [MIFgetValue_loop]
    simp [hk, hno, hne, hf]
  | next line errno val tok' ty' line1' val1 line2' errno1 lineK errnoK valK h1 h2 h3 _ ih =>
    intro fuel err hfuel
    obtain ⟨n, rfl⟩ : ∃ n, fuel = n + 1 := ⟨fuel - 1, by omega⟩
    have hno : ty' ≠ MIF_NO_TOK := by
      rw [(MIFget_token_some line line1' tok' ty' h1).2]
      exact tokenTypeOf_ne_no_tok tok'
    have hl1 := MIFget_token_length_lt line line1' tok' ty' h1
    have hl2 := MIFgetValue_switch_length_le ev t tok' ty' line1' line2' errno errno1 val val1
      none h3
    rw [MIFgetValue_loop]
    simp only [h1, hno, h2, and_false, if_false, Option.getD_some, h3, ht]
    simp only [Option.isSome_none, Bool.false_eq_true, if_false, Bool.not_true]
    exact ih hk hf n none (by omega)

/-- C7 (amended): for every array kind, in a text whose first token is typed
array-open, when the elements before it parse and an element that is not typed as
the array-close token, and comes before any token so typed, fails its
element-level parse, `MIFgetValue` returns NULL with that element's error
message, the cursor is where the failing element left it, and no value is
returned. The types are those `MIFget_token` assigns by the first character of
the token text. -/
theorem MIFgetValue_array_element_error (ev : Evaluator) (val : IFvalue) (errno : Nat)
    (err : Option String) (text : List Char) (t : IFvarType) (ht : t.is_array = true)
    (tok0 : Option (List Char)) (line0 : List Char)
    (h0 : MIFget_token text = (tok0, MIF_LARRAY_TOK, line0))
    (lineK : List Char) (errnoK : Nat) (valK : IFvalue)
    (hp : ElementsParsed ev t line0 errno
      { val with numValue := 0, iVec := [], rVec := [], sVec := [], cVec := [] }
      lineK errnoK valK)
    (tok : List Char) (ty : Mif_Token_Type_t) (line1 : List Char)
    (hk : MIFget_token lineK = (some tok, ty, line1)) (hne : ty ≠ MIF_RARRAY_TOK)
    (valF : IFvalue) (msg : String) (line2 : List Char) (errno2 : Nat)
    (hf : MIFgetValue_switch ev t tok ty line1 errnoK valK =
      some (valF, some msg, line2, errno2)) :
    MIFgetValue ev val errno err text t = some ⟨none, some msg, line2, errno2⟩ := by
  unfold MIFgetValue
  simp only [ht, if_true, h0, ne_eq, not_true_eq_false, if_false]
  exact MIFgetValue_loop_element_error ev t ht line0 errno _ lineK errnoK valK hp tok ty
    line1 hk hne valF msg line2 errno2 hf _ err (by omega)

/-- Witness of C7 (amended) on the boolean array text `[ t maybe f ]`: the second element
fails, and the cursor stays before `f ]`. -/
theorem MIFgetValue_array_element_error_witness :
    MIFgetValue (fun _ => (0, 1)) ⟨0, 0, [], ⟨0, 0⟩, 0, [], [], [], []⟩ 0 none
        "[ t maybe f ]".toList IF_FLAGVEC =
      some ⟨none, some "Bad boolean value", "f ]".toList, 0⟩ :=
  MIFgetValue_array_element_error (fun _ => (0, 1)) ⟨0, 0, [], ⟨0, 0⟩, 0, [], [], [], []⟩
    0 none "[ t maybe f ]".toList IF_FLAGVEC rfl (some ['[']) "t maybe f ]".toList
    (by decide) "maybe f ]".toList 0 ⟨0, 0, [], ⟨0, 0⟩, 1, [1], [], [], []⟩
    (ElementsParsed.next _ _ _ "t".toList MIF_STRING_TOK "maybe f ]".toList
      ⟨0, 0, [], ⟨0, 0⟩, 1, [1], [], [], []⟩ "maybe f ]".toList 0 _ _ _
      (by decide) (by decide) (by rfl) (ElementsParsed.done _ _ _))
    "maybe".toList MIF_STRING_TOK "f ]".toList (by decide) (by decide)
    ⟨0, 0, [], ⟨0, 0⟩, 2, [1, -1], [], [], []⟩ "Bad boolean value" "f ]".toList 0 (by rfl)

/-! ### Integer elements -/

/-- C4 (the code at the failing input): with `errno` clear the token `0x1F` is read
by `strtol` as 31; a token that overflows `long` leaves `errno` at `ERANGE`, and
since `MIFget_integer` never clears `errno`, a later call on `0x1F` discards the
result of `strtol` and returns what the expression evaluator makes of the token:
an error when the evaluator rejects it, the rounded evaluator value otherwise (0
for an evaluator that reads only the leading decimal digit). -/
theorem MIFget_integer_stale_errno (ev : Evaluator) :
    MIFget_integer ev 0 "0x1F".toList = (31, none, 0) ∧
    (MIFget_integer ev 0 "99999999999999999999".toList).2.2 = ERANGE ∧
    MIFget_integer ev ERANGE "0x1F".toList =
      (if (ev "0x1F".toList).2 ≠ 0 then
        (0, some "Bad integer, octal, or hex value", ERANGE)
      else if (ev "0x1F".toList).1 > 0 then
        (longToInt (truncToLong ((ev "0x1F".toList).1 + 1 / 2)), none, ERANGE)
      else (longToInt (truncToLong ((ev "0x1F".toList).1 - 1 / 2)), none, ERANGE)) ∧
    MIFget_integer (fun _ => (0, 1)) ERANGE "0x1F".toList =
      (0, some "Bad integer, octal, or hex value", ERANGE) ∧
    MIFget_integer (fun _ => (0, 0)) ERANGE "0x1F".toList = (0, none, ERANGE) := by
  have hs : strtol 0 "0x1F".toList = (31, [], 0) := by decide
  have hs2 : strtol ERANGE "0x1F".toList = (31, [], ERANGE) := by decide
  have hs3 : strtol 0 "99999999999999999999".toList = (LONG_MAX, [], ERANGE) := by decide
  refine ⟨?_, ?_, ?_, ?_, ?_⟩
  · have hc : ¬ ((0 : Nat) ≠ 0 ∨ cur [] ≠ Char.ofNat 0) := by decide
    simp only [MIFget_integer, hs, hc, if_false]
    decide
  · simp only [MIFget_integer, hs3]
    have : ERANGE ≠ 0 := by decide
    simp only [this, ne_eq, not_false_eq_true, true_or, if_true]
    rcases ev "99999999999999999999".toList with ⟨d, e⟩
    simp only []
    split_ifs <;> rfl
  · simp only [MIFget_integer, hs2]
    have : ERANGE ≠ 0 := by decide
    simp only [this, ne_eq, not_false_eq_true, true_or, if_true]
    rcases ev "0x1F".toList with ⟨d, e⟩
    simp only []
    split_ifs <;> rfl
  · simp only [MIFget_integer, hs2]
    decide
  · simp only [MIFget_integer, hs2]
    have : ERANGE ≠ 0 := by decide
    simp only [this, ne_eq, not_false_eq_true, true_or, if_true]
    norm_num [truncToLong, longToInt]
    decide

/-- C5 (the code at the failing input): the empty token, which the quoted run
of two double quotes produces, is not an integer literal, yet with `errno` clear
`strtol` converts nothing, leaves `endp` at the terminating NUL, and
`MIFget_integer` returns 0 without consulting the evaluator and without error,
whatever the evaluator is; `MIFgetValue` then returns the integer 0. -/
theorem MIFget_integer_empty_token (ev : Evaluator) (val : IFvalue)
    (err : Option String) :
    MIFget_token [dquote, dquote] = (some [], MIF_STRING_TOK, []) ∧
    MIFget_integer ev 0 [] = (0, none, 0) ∧
    MIFgetValue ev val 0 err [dquote, dquote] IF_INTEGER =
      some ⟨some { val with iValue := 0 }, none, [], 0⟩ := by
  have ht : MIFget_token [dquote, dquote] = (some [], MIF_STRING_TOK, []) := by decide
  have hi : MIFget_integer ev 0 [] = (0, none, 0) := by
    have hs : strtol 0 [] = (0, [], 0) := by decide
    have hc : ¬ ((0 : Nat) ≠ 0 ∨ cur [] ≠ Char.ofNat 0) := by decide
    simp only [MIFget_integer, hs, hc, if_false]
    decide
  refine ⟨ht, hi, ?_⟩
  unfold MIFgetValue
  simp only [IFvarType.is_array, Bool.false_eq_true, if_false]
  rw [MIFgetValue_loop]
  simp only [ht, MIFgetValue_switch, Option.getD_some, hi]
  rfl

theorem truncToLong_of_nonneg (q : ℚ) (h : 0 ≤ q) : truncToLong q = ⌊q⌋ := by
  unfold truncToLong
  rw [Rat.floor_def, Int.tdiv_eq_ediv (Rat.num_nonneg.mpr h) (Int.ofNat_nonneg _)]

theorem truncToLong_of_nonpos (q : ℚ) (h : q ≤ 0) : truncToLong q = ⌈q⌉ := by
  have h1 : truncToLong (-q) = ⌊-q⌋ := truncToLong_of_nonneg (-q) (neg_nonneg.mpr h)
  unfold truncToLong at h1 ⊢
  rw [Rat.num_neg_eq_neg_num, Rat.den_neg_eq_den, Int.neg_tdiv, Int.floor_neg] at h1
  exact neg_injective h1

/-- The fallback of `MIFget_integer`, over exact arithmetic: when `strtol` stops
before the end of the token, a value `d` the evaluator accepts is returned
rounded to the nearest integer with ties away from zero, and a token the
evaluator rejects gives the error "Bad integer, octal, or hex value". -/
theorem MIFget_integer_fallback (ev : Evaluator) (errno : Nat) (token : List Char)
    (hn : cur (strtol errno token).2.1 ≠ Char.ofNat 0) :
    (∀ d, ev token = (d, 0) →
      MIFget_integer ev errno token =
        (longToInt (specRoundHalfAway d), none, (strtol errno token).2.2)) ∧
    (∀ d e, ev token = (d, e) → e ≠ 0 →
      MIFget_integer ev errno token =
        (0, some "Bad integer, octal, or hex value", (strtol errno token).2.2)) := by
  rcases hs : strtol errno token with ⟨l, endp, errno1⟩
  rw [hs] at hn
  simp only at hn
  constructor
  · intro d hd
    simp only [MIFget_integer, hs, hd, hn, ne_eq, not_false_eq_true, or_true, if_true,
      not_true_eq_false, if_false, specRoundHalfAway]
    by_cases hpos : d > 0
    · have h0 : 0 ≤ d := le_of_lt hpos
      have h1 : (0 : ℚ) ≤ d + 1 / 2 := by linarith
      simp only [hpos, h0, if_true, truncToLong_of_nonneg _ h1]
    · have hle : d ≤ 0 := not_lt.mp hpos
      have h1 : d - 1 / 2 ≤ 0 := by linarith
      simp only [hpos, if_false, truncToLong_of_nonpos _ h1]
      by_cases h0 : 0 ≤ d
      · have hd0 : d = 0 := le_antisymm hle h0
        subst hd0
        have hc : ⌈(0 : ℚ) - 1 / 2⌉ = 0 := by
          rw [Int.ceil_eq_iff]
          norm_num
        simp only [h0, if_true, hc]
        norm_num
      · simp only [h0, if_false]
  · intro d e hd he
    simp only [MIFget_integer, hs, hd, hn, ne_eq, not_false_eq_true, or_true, if_true, he]
    rfl

theorem specRoundHalfAway_examples :
    specRoundHalfAway (5 / 2) = 3 ∧ specRoundHalfAway (-5 / 2) = -3 ∧
      specRoundHalfAway (2 / 5) = 0 ∧ specRoundHalfAway (-1 / 2) = -1 := by
  refine ⟨?_, ?_, ?_, ?_⟩
  · simp only [specRoundHalfAway]
    rw [if_pos (by norm_num), Int.floor_eq_iff]
    norm_num
  · simp only [specRoundHalfAway]
    rw [if_neg (by norm_num), Int.ceil_eq_iff]
    norm_num
  · simp only [specRoundHalfAway]
    rw [if_pos (by norm_num), Int.floor_eq_iff]
    norm_num
  · simp only [specRoundHalfAway]
    rw [if_neg (by norm_num), Int.ceil_eq_iff]
    norm_num

/-- Witness of the fallback on the tokens `2.5`, which rounds to 3, and `-2.5`,
which rounds to -3. -/
theorem MIFget_integer_fallback_witness :
    MIFget_integer exampleEvaluator 0 "2.5".toList = (3, none, 0) ∧
    MIFget_integer exampleEvaluator 0 "-2.5".toList = (-3, none, 0) := by
  constructor
  · rw [(MIFget_integer_fallback exampleEvaluator 0 "2.5".toList (by decide)).1 (5 / 2) rfl,
      specRoundHalfAway_examples.1]
    decide
  · rw [(MIFget_integer_fallback exampleEvaluator 0 "-2.5".toList (by decide)).1 (-5 / 2)
      rfl, specRoundHalfAway_examples.2.1]
    decide

/-! ### Bare runs and the no-token result -/

theorem inBare_iff (x : Char) :
    inBare x = true ↔ x ≠ Char.ofNat 0 ∧ specDelimiter x = false := by
  simp only [inBare, specDelimiter, Bool.and_eq_true, Bool.not_eq_true', decide_eq_true_eq,
    ne_eq, Bool.or_eq_false_iff, decide_eq_false_iff_not]
  tauto

theorem specDelimiter_false_of (c : Char) (hl : isLayout c = false)
    (hs : isStructural c = false) : specDelimiter c = false := by
  simp only [isLayout, isStructural, Bool.or_eq_false_iff, decide_eq_false_iff_not] at hl hs
  simp only [specDelimiter, Bool.or_eq_false_iff, decide_eq_false_iff_not]
  tauto

theorem MIFgettok_bare_eq (s r : List Char) (c : Char)
    (hd : s.dropWhile isLayout = c :: r) (h0 : c ≠ Char.ofNat 0) (hq : c ≠ dquote)
    (hs : isStructural c = false) :
    MIFgettok s =
      (some ((c :: r).takeWhile inBare), ((c :: r).dropWhile inBare).dropWhile isLayout) := by
  simp [MIFgettok, hd, h0, hq, hs]

/-- C11: when the first non-layout character of the input is neither a double
quote nor a structural character, `MIFgettok` returns the longest run of
characters starting there that holds no white space and none of `=`, `(`, `)`,
`,`, `%`, `[`, `]`, `<`, `>`, `~`: the token is a non-empty initial part of the text
from that character on, it holds none of those characters, and what follows it
is the end of the text or one of those characters. -/
theorem MIFgettok_bare (s r : List Char) (c : Char)
    (hd : s.dropWhile isLayout = c :: r) (h0 : c ≠ Char.ofNat 0) (hq : c ≠ dquote)
    (hs : isStructural c = false) :
    ∃ tok rest : List Char,
      MIFgettok s = (some tok, rest.dropWhile isLayout) ∧ tok ++ rest = c :: r ∧
      tok ≠ [] ∧ (∀ x ∈ tok, specDelimiter x = false) ∧
      (∀ x, rest.head? = some x → specDelimiter x = true ∨ x = Char.ofNat 0) := by
  have hlay : isLayout c = false := dropWhile_eq_cons_not isLayout s r c hd
  have hb : inBare c = true := (inBare_iff c).2 ⟨h0, specDelimiter_false_of c hlay hs⟩
  refine ⟨(c :: r).takeWhile inBare, (c :: r).dropWhile inBare,
    MIFgettok_bare_eq s r c hd h0 hq hs, List.takeWhile_append_dropWhile _ _, ?_, ?_, ?_⟩
  · simp [List.takeWhile_cons, hb]
  · intro x hx
    exact ((inBare_iff x).1 (List.mem_takeWhile_imp hx)).2
  · intro x hx
    rcases hdr : (c :: r).dropWhile inBare with _ | ⟨y, t⟩
    · rw [hdr] at hx; simp at hx
    · rw [hdr] at hx
      simp only [List.head?_cons, Option.some.injEq] at hx
      subst hx
      have hn : inBare y = false := dropWhile_eq_cons_not inBare (c :: r) t y hdr
      by_cases hy : y = Char.ofNat 0
      · exact Or.inr hy
      · left
        by_contra hdl
        have := (inBare_iff y).2 ⟨hy, by simpa using hdl⟩
        rw [hn] at this
        exact absurd this (by simp)

/-- Witness of C11 on the text ` =abc"d[e`: the bare run is `abc"d`. -/
theorem MIFgettok_bare_witness :
    ∃ tok rest : List Char,
      MIFgettok (" =abc".toList ++ dquote :: "d[e".toList) =
        (some tok, rest.dropWhile isLayout) ∧
      tok ++ rest = 'a' :: ("bc".toList ++ dquote :: "d[e".toList) ∧
      tok ≠ [] ∧ (∀ x ∈ tok, specDelimiter x = false) ∧
      (∀ x, rest.head? = some x → specDelimiter x = true ∨ x = Char.ofNat 0) :=
  MIFgettok_bare (" =abc".toList ++ dquote :: "d[e".toList)
    ("bc".toList ++ dquote :: "d[e".toList) 'a' (by decide) (by decide) (by decide)
    (by decide)

theorem tokenTypeOf_bare (tok : List Char) (h : ∀ x ∈ tok, specDelimiter x = false) :
    tokenTypeOf tok = if tok = "null".toList then MIF_NULL_TOK else MIF_STRING_TOK := by
  cases tok with
  | nil => decide
  | cons a t =>
    have ha := h a (List.mem_cons_self a t)
    simp only [specDelimiter, Bool.or_eq_false_iff, decide_eq_false_iff_not] at ha
    obtain ⟨⟨⟨⟨⟨⟨⟨⟨⟨⟨_, _⟩, _⟩, _⟩, _⟩, h5⟩, h6⟩, h7⟩, h8⟩, h9⟩, h10⟩ := ha
    simp [tokenTypeOf, cur, h5, h6, h7, h8, h9, h10]

/-- C12: for a bare run, `MIFget_token` reports the null token type exactly when
the text of the run is the four characters `null`, and the string token type for
every other bare run, such as `NULL`, `nulls` and `nul`. -/
theorem MIFget_token_bare_null (s r : List Char) (c : Char)
    (hd : s.dropWhile isLayout = c :: r) (h0 : c ≠ Char.ofNat 0) (hq : c ≠ dquote)
    (hs : isStructural c = false) :
    ∃ (tok : List Char) (ty : Mif_Token_Type_t) (s1 : List Char),
      MIFget_token s = (some tok, ty, s1) ∧ MIFgettok s = (some tok, s1) ∧
      (ty = MIF_NULL_TOK ↔ tok = "null".toList) ∧
      (tok ≠ "null".toList → ty = MIF_STRING_TOK) ∧
      (MIFget_token "null".toList).2.1 = MIF_NULL_TOK ∧
      (MIFget_token "NULL".toList).2.1 = MIF_STRING_TOK ∧
      (MIFget_token "nulls".toList).2.1 = MIF_STRING_TOK ∧
      (MIFget_token "nul".toList).2.1 = MIF_STRING_TOK := by
  obtain ⟨tok, rest, hg, _, _, hdl, _⟩ := MIFgettok_bare s r c hd h0 hq hs
  have ht := tokenTypeOf_bare tok hdl
  refine ⟨tok, tokenTypeOf tok, rest.dropWhile isLayout, ?_, hg, ?_, ?_,
    by decide, by decide, by decide, by decide⟩
  · simp [MIFget_token, hg]
  · rw [ht]
    split_ifs with h
    · simp [h]
    · constructor
      · intro hc; exact absurd hc (by decide)
      · intro hc; exact absurd hc h
  · intro h
    rw [ht, if_neg h]

/-- Witness of C12 on the text ` nulls, x`, whose bare run `nulls` is a string. -/
theorem MIFget_token_bare_null_witness :
    ∃ (tok : List Char) (ty : Mif_Token_Type_t) (s1 : List Char),
      MIFget_token " nulls, x".toList = (some tok, ty, s1) ∧
      MIFgettok " nulls, x".toList = (some tok, s1) ∧
      (ty = MIF_NULL_TOK ↔ tok = "null".toList) ∧
      (tok ≠ "null".toList → ty = MIF_STRING_TOK) ∧
      (MIFget_token "null".toList).2.1 = MIF_NULL_TOK ∧
      (MIFget_token "NULL".toList).2.1 = MIF_STRING_TOK ∧
      (MIFget_token "nulls".toList).2.1 = MIF_STRING_TOK ∧
      (MIFget_token "nul".toList).2.1 = MIF_STRING_TOK :=
  MIFget_token_bare_null " nulls, x".toList "ulls, x".toList 'n' (by decide) (by decide)
    (by decide) (by decide)

theorem tokenTypeOf_mem_tokenTypes (tok : List Char) : tokenTypeOf tok ∈ tokenTypes := by
  unfold tokenTypeOf
  simp only []
  split_ifs <;> simp [tokenTypes]

theorem MIFgettok_none_iff (s : List Char) (h0 : Char.ofNat 0 ∉ s) :
    (MIFgettok s).1 = none ↔ ∀ x ∈ s, isLayout x = true := by
  rcases hd : s.dropWhile isLayout with _ | ⟨c, r⟩
  · have hall : ∀ x ∈ s, isLayout x = true := List.dropWhile_eq_nil_iff.1 hd
    simp only [MIFgettok, hd, true_iff]
    exact hall
  · have hmem : c ∈ s :=
      (List.dropWhile_sublist isLayout).subset (by rw [hd]; exact List.mem_cons_self c r)
    have hc0 : c ≠ Char.ofNat 0 := fun h => h0 (h ▸ hmem)
    have hlay : isLayout c = false := dropWhile_eq_cons_not isLayout s r c hd
    constructor
    · intro hn
      simp only [MIFgettok, hd, hc0, if_false] at hn
      split_ifs at hn
    · intro hall
      rw [hall c hmem] at hlay
      exact absurd hlay (by simp)

/-- C13 (counterexample): the tokens `MIFget_token` returns carry eight different
token types, so no collection of seven types holds the type of every returned
token. -/
theorem MIFget_token_eight_types :
    ¬ ∃ S : List Mif_Token_Type_t, S.length ≤ 7 ∧
      ∀ (s tok : List Char) (ty : Mif_Token_Type_t) (s1 : List Char),
        MIFget_token s = (some tok, ty, s1) → ty ∈ S := by
  rintro ⟨S, hlen, hS⟩
  have hsub : tokenTypes ⊆ S := by
    intro ty hty
    simp only [tokenTypes, List.mem_cons, List.mem_singleton, List.not_mem_nil,
      or_false] at hty
    rcases hty with h | h | h | h | h | h | h | h <;> subst h
    · exact hS "[".toList "[".toList _ [] (by decide)
    · exact hS "]".toList "]".toList _ [] (by decide)
    · exact hS "<".toList "<".toList _ [] (by decide)
    · exact hS ">".toList ">".toList _ [] (by decide)
    · exact hS "%".toList "%".toList _ [] (by decide)
    · exact hS "~".toList "~".toList _ [] (by decide)
    · exact hS "a".toList "a".toList _ [] (by decide)
    · exact hS "null".toList "null".toList _ [] (by decide)
  have hnd : tokenTypes.Nodup := by decide
  have hle : tokenTypes.length ≤ S.length := (List.subperm_of_subset hnd hsub).length_le
  have h8 : tokenTypes.length = 8 := rfl
  omega

/-- C13 (amended): `MIFget_token` is total: for every text it returns either a
token with one of the eight token types or the no-token result, and for a text
without NUL it returns no-token if and only if the text is empty or consists
solely of layout characters. -/
theorem MIFget_token_total (s : List Char) (h0 : Char.ofNat 0 ∉ s) :
    ((∃ (tok : List Char) (ty : Mif_Token_Type_t) (s1 : List Char),
        MIFget_token s = (some tok, ty, s1) ∧ ty ∈ tokenTypes) ∨
      (∃ s1 : List Char, MIFget_token s = (none, MIF_NO_TOK, s1))) ∧
    ((MIFget_token s).1 = none ↔ ∀ x ∈ s, isLayout x = true) ∧
    ((MIFget_token s).2.1 = MIF_NO_TOK ↔ ∀ x ∈ s, isLayout x = true) := by
  have hiff := MIFgettok_none_iff s h0
  rcases hg : MIFgettok s with ⟨_ | tok, s1⟩
  · rw [hg] at hiff
    have ht : MIFget_token s = (none, MIF_NO_TOK, s1) := by simp [MIFget_token, hg]
    refine ⟨Or.inr ⟨s1, ht⟩, ?_, ?_⟩
    · rw [ht]; exact hiff
    · rw [ht]; simpa using hiff
  · rw [hg] at hiff
    have ht : MIFget_token s = (some tok, tokenTypeOf tok, s1) := by
      simp [MIFget_token, hg]
    refine ⟨Or.inl ⟨tok, _, s1, ht, tokenTypeOf_mem_tokenTypes tok⟩, ?_, ?_⟩
    · rw [ht]; exact hiff
    · rw [ht]
      simp only at hiff ⊢
      constructor
      · intro h; exact absurd h (tokenTypeOf_ne_no_tok tok)
      · intro h; exact absurd (hiff.2 h) (by simp)

/-- Witness of C13 on the text ` ,( ) = `, which holds layout characters only. -/
theorem MIFget_token_total_witness :
    ((∃ (tok : List Char) (ty : Mif_Token_Type_t) (s1 : List Char),
        MIFget_token " ,( ) = ".toList = (some tok, ty, s1) ∧ ty ∈ tokenTypes) ∨
      (∃ s1 : List Char, MIFget_token " ,( ) = ".toList = (none, MIF_NO_TOK, s1))) ∧
    ((MIFget_token " ,( ) = ".toList).1 = none ↔
      ∀ x ∈ " ,( ) = ".toList, isLayout x = true) ∧
    ((MIFget_token " ,( ) = ".toList).2.1 = MIF_NO_TOK ↔
      ∀ x ∈ " ,( ) = ".toList, isLayout x = true) :=
  MIFget_token_total " ,( ) = ".toList (by decide)

/-! ### Loops over an array -/

theorem updateAt_getElem?_eq {α : Type} (l : List α) (i : Nat) (f : α → α) :
    (updateAt l i f)[i]? = l[i]?.map f := by
  induction l generalizing i with
  | nil => simp [updateAt]
  | cons a t ih =>
    cases i with
    | zero => simp [updateAt]
    | succ i => simp [updateAt, ih]

theorem updateAt_getElem?_ne {α : Type} (l : List α) (i k : Nat) (f : α → α)
    (h : k ≠ i) : (updateAt l i f)[k]? = l[k]? := by
  induction l generalizing i k with
  | nil => simp [updateAt]
  | cons a t ih =>
    cases i with
    | zero =>
      cases k with
      | zero => exact absurd rfl h
      | succ k => simp [updateAt]
    | succ i =>
      cases k with
      | zero => simp [updateAt]
      | succ k => simp [updateAt, ih i k (by omega)]

theorem updateAt_length {α : Type} (l : List α) (i : Nat) (f : α → α) :
    (updateAt l i f).length = l.length := by
  induction l generalizing i with
  | nil => simp [updateAt]
  | cons a t ih =>
    cases i with
    | zero => simp [updateAt]
    | succ i => simp [updateAt, ih]

theorem forEachIndex_succ_none {α : Type} (step : Nat → α → Bool × α) (n i : Nat)
    (l : List α) (hl : l[i]? = none) :
    forEachIndex step (n + 1) i l = forEachIndex step n (i + 1) l := by
  rw [forEachIndex]
  simp only [hl]

theorem forEachIndex_succ_false {α : Type} (step : Nat → α → Bool × α) (n i : Nat)
    (l : List α) (a a1 : α) (hl : l[i]? = some a) (hs : step i a = (false, a1)) :
    forEachIndex step (n + 1) i l = (false, l.set i a1) := by
  rw [forEachIndex]
  simp only [hl, hs]

theorem forEachIndex_succ_true {α : Type} (step : Nat → α → Bool × α) (n i : Nat)
    (l : List α) (a a1 : α) (hl : l[i]? = some a) (hs : step i a = (true, a1)) :
    forEachIndex step (n + 1) i l = forEachIndex step n (i + 1) (l.set i a1) := by
  rw [forEachIndex]
  simp only [hl, hs]

theorem forEachIndex_length {α : Type} (step : Nat → α → Bool × α) (n i : Nat)
    (l : List α) : (forEachIndex step n i l).2.length = l.length := by
  induction n generalizing i l with
  | zero => simp [forEachIndex]
  | succ n ih =>
    cases hl : l[i]? with
    | none => rw [forEachIndex_succ_none step n i l hl]; exact ih (i + 1) l
    | some a =>
      rcases hs : step i a with ⟨b, a1⟩
      cases b with
      | false => rw [forEachIndex_succ_false step n i l a a1 hl hs]; simp
      | true =>
        rw [forEachIndex_succ_true step n i l a a1 hl hs, ih (i + 1) (l.set i a1)]
        simp

theorem forEachIndex_frame {α : Type} (step : Nat → α → Bool × α) (n i k : Nat)
    (l : List α) (hk : k < i ∨ i + n ≤ k) : (forEachIndex step n i l).2[k]? = l[k]? := by
  induction n generalizing i l with
  | zero => simp [forEachIndex]
  | succ n ih =>
    have hne : i ≠ k := by omega
    cases hl : l[i]? with
    | none =>
      rw [forEachIndex_succ_none step n i l hl]
      exact ih (i + 1) l (by omega)
    | some a =>
      rcases hs : step i a with ⟨b, a1⟩
      cases b with
      | false =>
        rw [forEachIndex_succ_false step n i l a a1 hl hs]
        simp [List.getElem?_set_ne hne]
      | true =>
        rw [forEachIndex_succ_true step n i l a a1 hl hs, ih (i + 1) (l.set i a1) (by omega),
          List.getElem?_set_ne hne]

theorem getElem?_lt_of_some {α : Type} (l : List α) (k : Nat) (a : α)
    (hl : l[k]? = some a) : k < l.length := by
  by_contra hge
  rw [List.getElem?_eq_none (by omega)] at hl
  exact absurd hl (by simp)

theorem forEachIndex_fixed {α : Type} (step : Nat → α → Bool × α) (n i k : Nat)
    (l : List α) (a : α) (hl : l[k]? = some a) (hfix : (step k a).2 = a) :
    (forEachIndex step n i l).2[k]? = some a := by
  induction n generalizing i l with
  | zero => simpa [forEachIndex] using hl
  | succ n ih =>
    cases hli : l[i]? with
    | none =>
      rw [forEachIndex_succ_none step n i l hli]
      exact ih (i + 1) l hl
    | some b =>
      rcases hs : step i b with ⟨c, b1⟩
      have hb1 : (l.set i b1)[k]? = some a := by
        by_cases hik : i = k
        · subst hik
          rw [hl] at hli
          simp only [Option.some.injEq] at hli
          subst hli
          rw [hs] at hfix
          simp only at hfix
          subst hfix
          rw [List.getElem?_set_self (getElem?_lt_of_some l i _ hl)]
        · rw [List.getElem?_set_ne hik]; exact hl
      cases c with
      | false =>
        rw [forEachIndex_succ_false step n i l b b1 hli hs]
        exact hb1
      | true =>
        rw [forEachIndex_succ_true step n i l b b1 hli hs]
        exact ih (i + 1) (l.set i b1) hb1

theorem forEachIndex_effect {α : Type} (step : Nat → α → Bool × α) (n i k : Nat)
    (l : List α) (a : α) (hok : (forEachIndex step n i l).1 = true) (h1 : i ≤ k)
    (h2 : k < i + n) (hl : l[k]? = some a) :
    (step k a).1 = true ∧ (forEachIndex step n i l).2[k]? = some (step k a).2 := by
  induction n generalizing i l with
  | zero => omega
  | succ n ih =>
    cases hli : l[i]? with
    | none =>
      have hik : i ≠ k := by
        intro h; subst h; rw [hl] at hli; exact absurd hli (by simp)
      rw [forEachIndex_succ_none step n i l hli] at hok ⊢
      exact ih (i + 1) l hok (by omega) (by omega) hl
    | some b =>
      rcases hs : step i b with ⟨c, b1⟩
      cases c with
      | false =>
        rw [forEachIndex_succ_false step n i l b b1 hli hs] at hok
        exact absurd hok (by simp)
      | true =>
        rw [forEachIndex_succ_true step n i l b b1 hli hs] at hok ⊢
        by_cases hik : i = k
        · subst hik
          rw [hl] at hli
          simp only [Option.some.injEq] at hli
          subst hli
          rw [hs]
          refine ⟨rfl, ?_⟩
          rw [forEachIndex_frame step n (i + 1) i (l.set i b1) (Or.inl (by omega)),
            List.getElem?_set_self (getElem?_lt_of_some l i _ hl)]
        · exact ih (i + 1) (l.set i b1) hok (by omega) (by omega)
            (by rw [List.getElem?_set_ne hik]; exact hl)

theorem forEachIndex_ok {α : Type} (step : Nat → α → Bool × α) (n i : Nat) (l : List α)
    (h : ∀ j a, (step j a).1 = true) : (forEachIndex step n i l).1 = true := by
  induction n generalizing i l with
  | zero => simp [forEachIndex]
  | succ n ih =>
    cases hl : l[i]? with
    | none => rw [forEachIndex_succ_none step n i l hl]; exact ih (i + 1) l
    | some a =>
      rcases hs : step i a with ⟨b, a1⟩
      have hb := h i a
      rw [hs] at hb
      simp only at hb
      subst hb
      rw [forEachIndex_succ_true step n i l a a1 hl hs]
      exact ih (i + 1) (l.set i a1)

/-! ### Binding a parameter value (MIFmParam) -/

/-- C14: called with a parameter index below 0 or not below `num_param`, or on a
model whose type is outside the range of device types, `MIFmParam` returns
`E_BADPARM` and leaves the model, and so every parameter slot of it, as it was. -/
theorem MIFmParam_bad_index (DEVmaxnum : Int) (dataType : Int → Nat → IFvarType)
    (param_index : Int) (value : IFvalue) (model : MIFmodel)
    (h : param_index < 0 ∨ param_index ≥ model.num_param ∨ model.MIFmodType < 0 ∨
      model.MIFmodType ≥ DEVmaxnum) :
    MIFmParam DEVmaxnum dataType param_index value model = (E_BADPARM, model) := by
  unfold MIFmParam
  simp only []
  by_cases hm : model.MIFmodType < 0 ∨ model.MIFmodType ≥ DEVmaxnum
  · rw [if_pos hm]
  · rw [if_neg hm]
    have hp : param_index < 0 ∨ param_index ≥ model.num_param := by
      rcases h with h | h | h | h
      · exact Or.inl h
      · exact Or.inr h
      · exact absurd (Or.inl h) hm
      · exact absurd (Or.inr h) hm
    rw [if_pos hp]

/-- Witness of C14: index 3 on a model with three parameters, and index -1. -/
theorem MIFmParam_bad_index_witness :
    MIFmParam 5 (fun _ _ => IF_INTEGER) 3 ⟨4, 0, [], ⟨0, 0⟩, 0, [], [], [], []⟩
        ⟨0, 3, [⟨true, 0, []⟩, ⟨true, 0, []⟩, ⟨true, 0, []⟩], []⟩ =
      (E_BADPARM, ⟨0, 3, [⟨true, 0, []⟩, ⟨true, 0, []⟩, ⟨true, 0, []⟩], []⟩) ∧
    MIFmParam 5 (fun _ _ => IF_INTEGER) (-1) ⟨4, 0, [], ⟨0, 0⟩, 0, [], [], [], []⟩
        ⟨0, 3, [⟨true, 0, []⟩, ⟨true, 0, []⟩, ⟨true, 0, []⟩], []⟩ =
      (E_BADPARM, ⟨0, 3, [⟨true, 0, []⟩, ⟨true, 0, []⟩, ⟨true, 0, []⟩], []⟩) :=
  ⟨MIFmParam_bad_index 5 _ 3 _ _ (Or.inr (Or.inl (by decide))),
    MIFmParam_bad_index 5 _ (-1) _ _ (Or.inl (by decide))⟩

theorem MIFmParam_array_eq (DEVmaxnum : Int) (dataType : Int → Nat → IFvarType)
    (param_index : Int) (value : IFvalue) (model : MIFmodel)
    (hm : 0 ≤ model.MIFmodType ∧ model.MIFmodType < DEVmaxnum)
    (hi : 0 ≤ param_index ∧ param_index < model.num_param) (t : IFvarType)
    (ht : dataType model.MIFmodType param_index.toNat = t) (ha : t.is_array = true)
    (ok : Bool) (es : List Mif_Value_t)
    (hf : forEachIndex (MIFmParam_vector t value) value.numValue 0
      (List.replicate value.numValue Mif_Value_t.fresh) = (ok, es)) :
    MIFmParam DEVmaxnum dataType param_index value model =
      (if ok then OK else E_BADPARM,
        { model with param := (updateAt model.param param_index.toNat
            (fun p => { p with is_null := false, size := value.numValue, element := es })) }) := by
  unfold MIFmParam
  have h1 : ¬ (model.MIFmodType < 0 ∨ model.MIFmodType ≥ DEVmaxnum) := by omega
  have h2 : ¬ (param_index < 0 ∨ param_index ≥ model.num_param) := by omega
  simp only [h1, h2, if_false, ht, ha, if_true, hf]

theorem MIFmParam_scalar_eq (DEVmaxnum : Int) (dataType : Int → Nat → IFvarType)
    (param_index : Int) (value : IFvalue) (model : MIFmodel)
    (hm : 0 ≤ model.MIFmodType ∧ model.MIFmodType < DEVmaxnum)
    (hi : 0 ≤ param_index ∧ param_index < model.num_param) (t : IFvarType)
    (ht : dataType model.MIFmodType param_index.toNat = t) (ha : t.is_array = false)
    (ok : Bool) (e : Mif_Value_t)
    (hf : MIFmParam_scalar t value Mif_Value_t.fresh = (ok, e)) :
    MIFmParam DEVmaxnum dataType param_index value model =
      (if ok then OK else E_BADPARM,
        { model with param := (updateAt model.param param_index.toNat
            (fun p => { p with is_null := false, size := 1, element := [e] })) }) := by
  unfold MIFmParam
  have h1 : ¬ (model.MIFmodType < 0 ∨ model.MIFmodType ≥ DEVmaxnum) := by omega
  have h2 : ¬ (param_index < 0 ∨ param_index ≥ model.num_param) := by omega
  simp only [h1, h2, if_false, ht, ha, Bool.false_eq_true, hf]

theorem MIFmParam_vector_ok (t : IFvarType) (ht : ∀ v, t ≠ IF_OTHER v)
    (ha : t.is_array = true) (value : IFvalue) (j : Nat) (e : Mif_Value_t) :
    (MIFmParam_vector t value j e).1 = true := by
  cases t <;> simp [MIFmParam_vector, IFvarType.is_array] at ha ⊢
  exact absurd rfl (ht _)

theorem MIFmParam_vector_element (t : IFvarType) (ht : ∀ v, t ≠ IF_OTHER v)
    (ha : t.is_array = true) (value : IFvalue) (hwf : specValueWellFormed t value)
    (k : Nat) (hk : k < value.numValue) (e : Mif_Value_t) :
    specElementOfValue t value k (MIFmParam_vector t value k e).2 := by
  cases t <;> simp only [IFvarType.is_array, Bool.false_eq_true] at ha
  case IF_OTHER v => exact absurd rfl (ht v)
  all_goals
    simp only [specValueWellFormed] at hwf
    simp only [specElementOfValue, MIFmParam_vector, List.getD_eq_getElem?_getD]
  case IF_FLAGVEC => rw [List.getElem?_eq_getElem (by omega)]; rfl
  case IF_INTVEC => rw [List.getElem?_eq_getElem (by omega)]; rfl
  case IF_REALVEC => rw [List.getElem?_eq_getElem (by omega)]; rfl
  case IF_STRINGVEC => rw [List.getElem?_eq_getElem (by omega)]; rfl
  case IF_CPLXVEC =>
    rw [List.getElem?_eq_getElem (by omega)]
    exact ⟨_, rfl, rfl, rfl⟩

theorem MIFmParam_scalar_element (t : IFvarType) (ht : ∀ v, t ≠ IF_OTHER v)
    (ha : t.is_array = false) (value : IFvalue) (e : Mif_Value_t) :
    (MIFmParam_scalar t value e).1 = true ∧
      specElementOfValue t value 0 (MIFmParam_scalar t value e).2 := by
  cases t <;> simp only [IFvarType.is_array, Bool.true_eq_false] at ha
  case IF_OTHER v => exact absurd rfl (ht v)
  all_goals simp [MIFmParam_scalar, specElementOfValue]

/-- C15: for a valid model type, a valid parameter index and a declared kind among
the ten supported kinds, `MIFmParam` returns `OK`; afterwards the slot is marked
explicitly set, its size is 1 for a scalar kind and the element count of the value
for an array kind, it has that many elements, element `k` equals element `k` of
the supplied value for every `k` below the size, and every other slot and the
rest of the model are unchanged. -/
theorem MIFmParam_sets_slot (DEVmaxnum : Int) (dataType : Int → Nat → IFvarType)
    (param_index : Int) (value : IFvalue) (model : MIFmodel)
    (hm : 0 ≤ model.MIFmodType ∧ model.MIFmodType < DEVmaxnum)
    (hi : 0 ≤ param_index ∧ param_index < model.num_param)
    (hlen : model.num_param = model.param.length)
    (ht : ∀ v, dataType model.MIFmodType param_index.toNat ≠ IF_OTHER v)
    (hwf : specValueWellFormed (dataType model.MIFmodType param_index.toNat) value) :
    ∃ (m1 : MIFmodel) (slot : Mif_Param_Data_t),
      MIFmParam DEVmaxnum dataType param_index value model = (OK, m1) ∧
      m1.param[param_index.toNat]? = some slot ∧
      slot.is_null = false ∧
      slot.size = (if (dataType model.MIFmodType param_index.toNat).is_array then
        value.numValue else 1) ∧
      slot.element.length = slot.size ∧
      (∀ k, k < slot.size → ∃ e, slot.element[k]? = some e ∧
        specElementOfValue (dataType model.MIFmodType param_index.toNat) value k e) ∧
      (∀ k, k ≠ param_index.toNat → m1.param[k]? = model.param[k]?) ∧
      m1.param.length = model.param.length ∧ m1.num_param = model.num_param ∧
      m1.MIFmodType = model.MIFmodType ∧ m1.MIFinstances = model.MIFinstances := by
  have hidx : param_index.toNat < model.param.length := by omega
  obtain ⟨p, hp⟩ : ∃ p, model.param[param_index.toNat]? = some p :=
    ⟨_, List.getElem?_eq_getElem hidx⟩
  generalize htd : dataType model.MIFmodType param_index.toNat = t at ht hwf ⊢
  cases ha : t.is_array with
  | true =>
    have hok := forEachIndex_ok (MIFmParam_vector t value) value.numValue 0
      (List.replicate value.numValue Mif_Value_t.fresh)
      (fun j a => MIFmParam_vector_ok t ht ha value j a)
    rcases hf : forEachIndex (MIFmParam_vector t value) value.numValue 0
      (List.replicate value.numValue Mif_Value_t.fresh) with ⟨ok, es⟩
    rw [hf] at hok
    simp only at hok
    subst hok
    rw [MIFmParam_array_eq DEVmaxnum dataType param_index value model hm hi t htd ha
      true es hf]
    have hes : es = (forEachIndex (MIFmParam_vector t value) value.numValue 0
        (List.replicate value.numValue Mif_Value_t.fresh)).2 := by rw [hf]
    have hok2 : (forEachIndex (MIFmParam_vector t value) value.numValue 0
        (List.replicate value.numValue Mif_Value_t.fresh)).1 = true := by rw [hf]
    refine ⟨_, ⟨false, value.numValue, es⟩, rfl, ?_, rfl, rfl, ?_, ?_, ?_, ?_, rfl, rfl,
      rfl⟩
    · simp only [updateAt_getElem?_eq, hp, Option.map_some']
    · simp only [hes, forEachIndex_length, List.length_replicate]
    · intro k hk
      have hk2 : k < value.numValue := hk
      have hr : (List.replicate value.numValue Mif_Value_t.fresh)[k]? =
          some Mif_Value_t.fresh := List.getElem?_replicate_of_lt hk2
      have he := forEachIndex_effect (MIFmParam_vector t value) value.numValue 0 k _ _
        hok2 (by omega) (by omega) hr
      rw [← hes] at he
      exact ⟨_, he.2, MIFmParam_vector_element t ht ha value hwf k hk2 _⟩
    · intro k hk
      exact updateAt_getElem?_ne _ _ _ _ hk
    · exact updateAt_length _ _ _
  | false =>
    have hs := MIFmParam_scalar_element t ht ha value Mif_Value_t.fresh
    rcases hf : MIFmParam_scalar t value Mif_Value_t.fresh with ⟨ok, e⟩
    rw [hf] at hs
    obtain ⟨hs1, hs2⟩ := hs
    simp only at hs1 hs2
    subst hs1
    rw [MIFmParam_scalar_eq DEVmaxnum dataType param_index value model hm hi t htd ha
      true e hf]
    refine ⟨_, ⟨false, 1, [e]⟩, rfl, ?_, rfl, rfl, rfl, ?_, ?_, ?_, rfl, rfl, rfl⟩
    · simp only [updateAt_getElem?_eq, hp, Option.map_some']
    · intro k hk
      have hk0 : k = 0 := by
        have : k < 1 := hk
        omega
      subst hk0
      exact ⟨_, rfl, hs2⟩
    · intro k hk
      exact updateAt_getElem?_ne _ _ _ _ hk
    · exact updateAt_length _ _ _

/-- Witness of C15: the integer array value `[8, 9]` bound to parameter 1 of a model
with three parameters. -/
theorem MIFmParam_sets_slot_witness :
    ∃ (m1 : MIFmodel) (slot : Mif_Param_Data_t),
      MIFmParam 5 (fun _ _ => IF_INTVEC) 1 ⟨4, 0, [], ⟨0, 0⟩, 2, [8, 9], [], [], []⟩
        ⟨0, 3, [⟨true, 0, []⟩, ⟨true, 0, []⟩, ⟨true, 0, []⟩], []⟩ = (OK, m1) ∧
      m1.param[(1 : Int).toNat]? = some slot ∧
      slot.is_null = false ∧
      slot.size = (if IF_INTVEC.is_array then 2 else 1) ∧
      slot.element.length = slot.size ∧
      (∀ k, k < slot.size → ∃ e, slot.element[k]? = some e ∧
        specElementOfValue IF_INTVEC ⟨4, 0, [], ⟨0, 0⟩, 2, [8, 9], [], [], []⟩ k e) ∧
      (∀ k, k ≠ (1 : Int).toNat → m1.param[k]? =
        [(⟨true, 0, []⟩ : Mif_Param_Data_t), ⟨true, 0, []⟩, ⟨true, 0, []⟩][k]?) ∧
      m1.param.length = 3 ∧ m1.num_param = 3 ∧ m1.MIFmodType = 0 ∧ m1.MIFinstances = [] :=
  MIFmParam_sets_slot 5 (fun _ _ => IF_INTVEC) 1 ⟨4, 0, [], ⟨0, 0⟩, 2, [8, 9], [], [], []⟩
    ⟨0, 3, [⟨true, 0, []⟩, ⟨true, 0, []⟩, ⟨true, 0, []⟩], []⟩ (by decide) (by decide) rfl
    (fun v h => by cases h) rfl

/-- C16 (the code at the failing input): for a declared kind outside the supported
kinds that has the vector bit set, the check for the kind stands inside the loop
over the elements of the value; with an element count of 0 the loop body is never
run and `MIFmParam` returns `OK`, marking the slot as set with size 0. With at
least one element, and for an unsupported kind without the vector bit, it
returns `E_BADPARM`. -/
theorem MIFmParam_unsupported_kind (value : IFvalue) (p : Mif_Param_Data_t)
    (insts : List MIFinstance) (n : Nat) :
    MIFmParam 1 (fun _ _ => IF_OTHER true) 0 { value with numValue := 0 }
        ⟨0, 1, [p], insts⟩ =
      (OK, ⟨0, 1, [{ p with is_null := false, size := 0, element := [] }], insts⟩) ∧
    (MIFmParam 1 (fun _ _ => IF_OTHER true) 0 { value with numValue := n + 1 }
        ⟨0, 1, [p], insts⟩).1 = E_BADPARM ∧
    (MIFmParam 1 (fun _ _ => IF_OTHER false) 0 value ⟨0, 1, [p], insts⟩).1 = E_BADPARM := by
  refine ⟨?_, ?_, ?_⟩
  · rw [MIFmParam_array_eq 1 _ 0 _ _ (by simp) (by simp) (IF_OTHER true) rfl rfl
      true [] (by simp [forEachIndex])]
    rfl
  · rw [MIFmParam_array_eq 1 _ 0 _ _ (by simp) (by simp) (IF_OTHER true) rfl rfl
      false (List.replicate (n + 1) Mif_Value_t.fresh) (by
        rw [forEachIndex_succ_false _ n 0 _ Mif_Value_t.fresh Mif_Value_t.fresh
          (by simp [List.replicate]) (by simp [MIFmParam_vector])]
        simp [List.replicate])]
    rfl
  · rw [MIFmParam_scalar_eq 1 _ 0 _ _ (by simp) (by simp) (IF_OTHER false) rfl rfl
      false Mif_Value_t.fresh (by simp [MIFmParam_scalar])]
    rfl

/-! ### The defaulting step of MIFsetup -/

theorem foldl_max_eq (f : MIFinstance → Nat) (l : List MIFinstance) (a : Nat) :
    l.foldl (fun m h => if f h > m then f h else m) a = max a ((l.map f).foldr max 0) := by
  induction l generalizing a with
  | nil => simp
  | cons x t ih =>
    simp only [List.foldl_cons, List.map_cons, List.foldr_cons, ih]
    split_ifs with h <;> omega

theorem MIFsetup_maxSize_eq (insts : List MIFinstance) (c : Nat) :
    MIFsetup_maxSize insts c = specMaxConnSize insts c := by
  unfold MIFsetup_maxSize specMaxConnSize
  rw [foldl_max_eq (fun h => connSize h c) insts 0]
  simp

theorem specMaxConnSize_ge (insts : List MIFinstance) (c : Nat) :
    ∀ h ∈ insts, connSize h c ≤ specMaxConnSize insts c := by
  induction insts with
  | nil => simp
  | cons x t ih =>
    intro h hh
    simp only [specMaxConnSize, List.map_cons, List.foldr_cons] at ih ⊢
    rcases List.mem_cons.1 hh with rfl | hm
    · exact le_max_left _ _
    · exact le_trans (ih h hm) (le_max_right _ _)

theorem specMaxConnSize_attained (insts : List MIFinstance) (c : Nat) (hne : insts ≠ []) :
    ∃ h ∈ insts, connSize h c = specMaxConnSize insts c := by
  induction insts with
  | nil => exact absurd rfl hne
  | cons x t ih =>
    simp only [specMaxConnSize, List.map_cons, List.foldr_cons] at ih ⊢
    by_cases ht : t = []
    · subst ht
      exact ⟨x, List.mem_cons_self _ _, by simp⟩
    · obtain ⟨h, hm, he⟩ := ih ht
      by_cases hle : (t.map (fun here => connSize here c)).foldr max 0 ≤ connSize x c
      · exact ⟨x, List.mem_cons_self _ _, (max_eq_left hle).symm⟩
      · exact ⟨h, List.mem_cons_of_mem _ hm, by rw [he]; exact (max_eq_right (by omega)).symm⟩

theorem specMaxConnSize_perm (l1 l2 : List MIFinstance) (c : Nat) (h : l1.Perm l2) :
    specMaxConnSize l1 c = specMaxConnSize l2 c := by
  induction h with
  | nil => rfl
  | cons x _ ih =>
    simp only [specMaxConnSize, List.map_cons, List.foldr_cons] at ih ⊢
    rw [ih]
  | swap x y l =>
    simp only [specMaxConnSize, List.map_cons, List.foldr_cons]
    omega
  | trans _ _ ih1 ih2 => rw [ih1, ih2]

theorem specMaxConnSize_pos_iff (insts : List MIFinstance) (c : Nat) :
    1 ≤ specMaxConnSize insts c ↔ ∃ h ∈ insts, 1 ≤ connSize h c := by
  constructor
  · intro hp
    by_cases hne : insts = []
    · subst hne; simp [specMaxConnSize] at hp
    · obtain ⟨h, hm, he⟩ := specMaxConnSize_attained insts c hne
      exact ⟨h, hm, by omega⟩
  · rintro ⟨h, hm, hp⟩
    exact le_trans hp (specMaxConnSize_ge insts c h hm)

theorem MIFsetup_defaultElement_ok (info : Mif_Param_Info_t) (j : Nat) (e : Mif_Value_t)
    (h : (MIFsetup_defaultElement info j e).1 = true) :
    specHoldsValue info.type info.default_value (MIFsetup_defaultElement info j e).2 := by
  unfold MIFsetup_defaultElement at h ⊢
  unfold specHoldsValue
  cases ht : info.type <;> simp only [ht] at h ⊢ <;> simp at h ⊢

/-- The size the defaulting step gives to an unset slot of parameter `i`. -/
theorem MIFsetup_defaultParam_null (info : Nat → Mif_Param_Info_t)
    (insts : List MIFinstance) (i : Nat) (p : Mif_Param_Data_t) (hnull : p.is_null = true) :
    (MIFsetup_defaultParam info insts i p).2.is_null = true ∧
    (MIFsetup_defaultParam info insts i p).2.size =
      (if (info i).is_array then specMaxConnSize insts (info i).conn_ref else 1) ∧
    (MIFsetup_defaultParam info insts i p).2.element.length =
      (MIFsetup_defaultParam info insts i p).2.size ∧
    ((MIFsetup_defaultParam info insts i p).1 = true →
      ∀ e ∈ (MIFsetup_defaultParam info insts i p).2.element,
        specHoldsValue (info i).type (info i).default_value e) := by
  unfold MIFsetup_defaultParam
  simp only [hnull, if_true, MIFsetup_maxSize_eq]
  generalize hsz : (if (!(info i).is_array) = true then 1
    else specMaxConnSize insts (info i).conn_ref) = size
  have hsz2 : size = (if (info i).is_array then specMaxConnSize insts (info i).conn_ref
      else 1) := by
    rw [← hsz]
    cases (info i).is_array <;> simp
  refine ⟨trivial, hsz2, ?_, ?_⟩
  · simp only [forEachIndex_length, List.length_replicate]
  · intro hok e he
    obtain ⟨k, hk⟩ := List.mem_iff_getElem?.1 he
    have hklt : k < size := by
      have := getElem?_lt_of_some _ k e hk
      simpa only [forEachIndex_length, List.length_replicate] using this
    have hr : (List.replicate size Mif_Value_t.fresh)[k]? = some Mif_Value_t.fresh :=
      List.getElem?_replicate_of_lt hklt
    have hef := forEachIndex_effect (MIFsetup_defaultElement (info i)) size 0 k _ _ hok
      (by omega) (by omega) hr
    rw [hef.2] at hk
    simp only [Option.some.injEq] at hk
    rw [← hk]
    exact MIFsetup_defaultElement_ok (info i) k _ hef.1

theorem MIFsetup_defaults_eq (info : Nat → Mif_Param_Info_t) (m : MIFmodel) :
    MIFsetup_defaults info m =
      (if (forEachIndex (MIFsetup_defaultParam info m.MIFinstances) m.num_param 0
          m.param).1 then OK else E_BADPARM,
        { m with param := (forEachIndex (MIFsetup_defaultParam info m.MIFinstances)
          m.num_param 0 m.param).2 }) := by
  unfold MIFsetup_defaults
  rfl

theorem MIFsetup_defaults_ok (info : Nat → Mif_Param_Info_t) (m m1 : MIFmodel)
    (hok : MIFsetup_defaults info m = (OK, m1)) :
    (forEachIndex (MIFsetup_defaultParam info m.MIFinstances) m.num_param 0 m.param).1 =
        true ∧
      m1 = { m with param := (forEachIndex (MIFsetup_defaultParam info m.MIFinstances)
        m.num_param 0 m.param).2 } := by
  rw [MIFsetup_defaults_eq] at hok
  simp only [Prod.mk.injEq] at hok
  obtain ⟨h1, h2⟩ := hok
  constructor
  · by_contra hc
    rw [if_neg hc] at h1
    exact absurd h1 (by decide)
  · exact h2.symm

theorem MIFsetup_defaults_slot (info : Nat → Mif_Param_Info_t) (m m1 : MIFmodel)
    (i : Nat) (p : Mif_Param_Data_t) (hi : i < m.num_param) (hp : m.param[i]? = some p)
    (hok : MIFsetup_defaults info m = (OK, m1)) :
    (MIFsetup_defaultParam info m.MIFinstances i p).1 = true ∧
      m1.param[i]? = some (MIFsetup_defaultParam info m.MIFinstances i p).2 := by
  obtain ⟨h1, h2⟩ := MIFsetup_defaults_ok info m m1 hok
  have he := forEachIndex_effect (MIFsetup_defaultParam info m.MIFinstances) m.num_param
    0 i m.param p h1 (by omega) (by omega) hp
  rw [h2]
  exact he

theorem MIFsetup_defaults_perm (info : Nat → Mif_Param_Info_t) (m : MIFmodel)
    (insts : List MIFinstance) (h : insts.Perm m.MIFinstances) :
    MIFsetup_defaults info { m with MIFinstances := insts } =
      ((MIFsetup_defaults info m).1, { (MIFsetup_defaults info m).2 with
        MIFinstances := insts }) := by
  have hf : MIFsetup_defaultParam info insts = MIFsetup_defaultParam info m.MIFinstances := by
    funext i p
    unfold MIFsetup_defaultParam
    simp only [MIFsetup_maxSize_eq, specMaxConnSize_perm insts m.MIFinstances _ h]
  simp only [MIFsetup_defaults_eq, hf]

/-- C17: the defaulting step of `MIFsetup` leaves every parameter slot that is
marked explicitly set unchanged in its flag, size and elements, whatever the
instances of the model and their order, and whether or not the step runs to its
end. -/
theorem MIFsetup_defaults_keeps_set (info : Nat → Mif_Param_Info_t) (m : MIFmodel)
    (i : Nat) (p : Mif_Param_Data_t) (hp : m.param[i]? = some p)
    (hset : p.is_null = false) :
    (MIFsetup_defaults info m).2.param[i]? = some p := by
  rw [MIFsetup_defaults_eq]
  exact forEachIndex_fixed _ _ _ _ _ _ hp (by simp [MIFsetup_defaultParam, hset])

/-- Witness of C17: the third slot of a model, explicitly set to two elements,
keeps them through the defaulting step. -/
theorem MIFsetup_defaults_keeps_set_witness :
    (MIFsetup_defaults (fun _ => ⟨MIF_INTEGER, true, 0, ⟨0, 7, 0, ⟨0, 0⟩, []⟩⟩)
        ⟨0, 3, [⟨true, 0, []⟩, ⟨true, 0, []⟩,
            ⟨false, 2, [⟨0, 1, 0, ⟨0, 0⟩, []⟩, ⟨0, 2, 0, ⟨0, 0⟩, []⟩]⟩],
          [⟨[], true, 1, [⟨false, true, false, 3, []⟩]⟩]⟩).2.param[2]? =
      some ⟨false, 2, [⟨0, 1, 0, ⟨0, 0⟩, []⟩, ⟨0, 2, 0, ⟨0, 0⟩, []⟩]⟩ :=
  MIFsetup_defaults_keeps_set _ _ 2 _ rfl rfl

/-- C18: when the defaulting step of `MIFsetup` runs to its end, every parameter
slot that was unset has size 1 if the parameter is declared scalar and, if it is
declared an array, the largest size of the connection it is tied to over all
instances of the model; the slot has that many elements and each of them holds
the static default value of the parameter. The result does not depend on the
order of the instance list. -/
theorem MIFsetup_defaults_unset (info : Nat → Mif_Param_Info_t) (m m1 : MIFmodel)
    (i : Nat) (p : Mif_Param_Data_t) (hi : i < m.num_param) (hp : m.param[i]? = some p)
    (hnull : p.is_null = true) (hok : MIFsetup_defaults info m = (OK, m1)) :
    (∃ p1, m1.param[i]? = some p1 ∧
      p1.size = (if (info i).is_array then
        specMaxConnSize m.MIFinstances (info i).conn_ref else 1) ∧
      p1.element.length = p1.size ∧
      ∀ e ∈ p1.element, specHoldsValue (info i).type (info i).default_value e) ∧
    (∀ h ∈ m.MIFinstances,
      connSize h (info i).conn_ref ≤ specMaxConnSize m.MIFinstances (info i).conn_ref) ∧
    (m.MIFinstances ≠ [] → ∃ h ∈ m.MIFinstances,
      connSize h (info i).conn_ref = specMaxConnSize m.MIFinstances (info i).conn_ref) ∧
    (∀ insts : List MIFinstance, insts.Perm m.MIFinstances →
      MIFsetup_defaults info { m with MIFinstances := insts } =
        (OK, { m1 with MIFinstances := insts })) := by
  obtain ⟨h1, h2⟩ := MIFsetup_defaults_slot info m m1 i p hi hp hok
  obtain ⟨_, g2, g3, g4⟩ := MIFsetup_defaultParam_null info m.MIFinstances i p hnull
  refine ⟨⟨_, h2, g2, g3, g4 h1⟩, specMaxConnSize_ge _ _, specMaxConnSize_attained _ _, ?_⟩
  intro insts hperm
  rw [MIFsetup_defaults_perm info m insts hperm, hok]

/-- Witness of C18: an unset integer array parameter tied to connection 0 of a
model with instances of connection sizes 2, 3 and 1. -/
theorem MIFsetup_defaults_unset_witness :
    (∃ p1, (⟨0, 1, [⟨true, 3, [⟨0, 7, 0, ⟨0, 0⟩, []⟩, ⟨0, 7, 0, ⟨0, 0⟩, []⟩,
          ⟨0, 7, 0, ⟨0, 0⟩, []⟩]⟩],
        [⟨[], true, 1, [⟨false, true, false, 2, []⟩]⟩,
          ⟨[], true, 1, [⟨false, true, false, 3, []⟩]⟩,
          ⟨[], true, 1, [⟨false, true, false, 1, []⟩]⟩]⟩ : MIFmodel).param[0]? = some p1 ∧
      p1.size = (if (⟨MIF_INTEGER, true, 0, ⟨0, 7, 0, ⟨0, 0⟩, []⟩⟩ :
          Mif_Param_Info_t).is_array then
        specMaxConnSize [⟨[], true, 1, [⟨false, true, false, 2, []⟩]⟩,
          ⟨[], true, 1, [⟨false, true, false, 3, []⟩]⟩,
          ⟨[], true, 1, [⟨false, true, false, 1, []⟩]⟩] 0 else 1) ∧
      p1.element.length = p1.size ∧
      ∀ e ∈ p1.element, specHoldsValue MIF_INTEGER ⟨0, 7, 0, ⟨0, 0⟩, []⟩ e) :=
  (MIFsetup_defaults_unset (fun _ => ⟨MIF_INTEGER, true, 0, ⟨0, 7, 0, ⟨0, 0⟩, []⟩⟩)
    ⟨0, 1, [⟨true, 0, []⟩],
      [⟨[], true, 1, [⟨false, true, false, 2, []⟩]⟩,
        ⟨[], true, 1, [⟨false, true, false, 3, []⟩]⟩,
        ⟨[], true, 1, [⟨false, true, false, 1, []⟩]⟩]⟩ _ 0 ⟨true, 0, []⟩
    (by decide) rfl rfl rfl).1

/-- C19: after the defaulting step has defaulted an unset array parameter, the slot
is still not marked explicitly set; when an instance whose tied connection is
larger than that of every existing instance is linked to the model and the step
is run again, the size of the slot is the size of that connection, the new
maximum, and each of its elements holds the static default value. -/
theorem MIFsetup_defaults_rerun (info : Nat → Mif_Param_Info_t) (m m1 m2 : MIFmodel)
    (i : Nat) (p : Mif_Param_Data_t) (new : MIFinstance) (l1 l2 : List MIFinstance)
    (hi : i < m.num_param) (hp : m.param[i]? = some p) (hnull : p.is_null = true)
    (harr : (info i).is_array = true) (h1 : MIFsetup_defaults info m = (OK, m1))
    (hl : m.MIFinstances = l1 ++ l2)
    (hbig : ∀ h ∈ m.MIFinstances,
      connSize h (info i).conn_ref < connSize new (info i).conn_ref)
    (h2 : MIFsetup_defaults info { m1 with MIFinstances := l1 ++ new :: l2 } = (OK, m2)) :
    (∃ p1, m1.param[i]? = some p1 ∧ p1.is_null = true) ∧
    ∃ p2, m2.param[i]? = some p2 ∧ p2.size = connSize new (info i).conn_ref ∧
      p2.size = specMaxConnSize (l1 ++ new :: l2) (info i).conn_ref ∧
      p2.element.length = p2.size ∧
      ∀ e ∈ p2.element, specHoldsValue (info i).type (info i).default_value e := by
  obtain ⟨_, hs1⟩ := MIFsetup_defaults_slot info m m1 i p hi hp h1
  obtain ⟨hn1, _, _, _⟩ := MIFsetup_defaultParam_null info m.MIFinstances i p hnull
  have hm1 := (MIFsetup_defaults_ok info m m1 h1).2
  have hnum : m1.num_param = m.num_param := by rw [hm1]
  obtain ⟨⟨p2, q1, q2, q3, q4⟩, hge, hatt, _⟩ :=
    MIFsetup_defaults_unset info { m1 with MIFinstances := l1 ++ new :: l2 } m2 i _
      (by simpa [hnum] using hi) hs1 hn1 h2
  simp only [harr, if_true] at q2
  have hmax : specMaxConnSize (l1 ++ new :: l2) (info i).conn_ref =
      connSize new (info i).conn_ref := by
    have hnew : new ∈ l1 ++ new :: l2 := by simp
    have hle := hge new hnew
    obtain ⟨h, hmem, heq⟩ := hatt (by simp)
    simp only at hle hmem heq
    rcases List.mem_append.1 hmem with hm | hm
    · have := hbig h (by rw [hl]; exact List.mem_append_left _ hm)
      omega
    · rcases List.mem_cons.1 hm with rfl | hm
      · exact heq.symm
      · have := hbig h (by rw [hl]; exact List.mem_append_right _ hm)
        omega
  exact ⟨⟨_, hs1, hn1⟩, p2, q1, by rw [q2, hmax], q2, q3, q4⟩

/-- Witness of C19: a model with one instance of connection size 2 is defaulted, an
instance of connection size 5 is linked in front, and the step is run again. -/
theorem MIFsetup_defaults_rerun_witness :
    (∃ p1, (⟨0, 1, [⟨true, 2, [⟨0, 7, 0, ⟨0, 0⟩, []⟩, ⟨0, 7, 0, ⟨0, 0⟩, []⟩]⟩],
        [⟨[], true, 1, [⟨false, true, false, 2, []⟩]⟩]⟩ : MIFmodel).param[0]? = some p1 ∧
      p1.is_null = true) ∧
    ∃ p2, (⟨0, 1, [⟨true, 5, List.replicate 5 ⟨0, 7, 0, ⟨0, 0⟩, []⟩⟩],
        [⟨[], true, 1, [⟨false, true, false, 5, []⟩]⟩,
          ⟨[], true, 1, [⟨false, true, false, 2, []⟩]⟩]⟩ : MIFmodel).param[0]? = some p2 ∧
      p2.size = connSize ⟨[], true, 1, [⟨false, true, false, 5, []⟩]⟩ 0 ∧
      p2.size = specMaxConnSize ([] ++ ⟨[], true, 1, [⟨false, true, false, 5, []⟩]⟩ ::
        [⟨[], true, 1, [⟨false, true, false, 2, []⟩]⟩]) 0 ∧
      p2.element.length = p2.size ∧
      ∀ e ∈ p2.element, specHoldsValue MIF_INTEGER ⟨0, 7, 0, ⟨0, 0⟩, []⟩ e :=
  MIFsetup_defaults_rerun (fun _ => ⟨MIF_INTEGER, true, 0, ⟨0, 7, 0, ⟨0, 0⟩, []⟩⟩)
    ⟨0, 1, [⟨true, 0, []⟩], [⟨[], true, 1, [⟨false, true, false, 2, []⟩]⟩]⟩ _ _ 0
    ⟨true, 0, []⟩ ⟨[], true, 1, [⟨false, true, false, 5, []⟩]⟩ []
    [⟨[], true, 1, [⟨false, true, false, 2, []⟩]⟩] (by decide) rfl rfl rfl rfl rfl
    (by decide) rfl

/-- C20 (counterexample): a model with no instances and one unset parameter that
is declared an array: the defaulting step runs to its end and leaves the slot
with element count 0, not at least 1. -/
theorem MIFsetup_defaults_no_instances :
    ∃ (m1 : MIFmodel) (p1 : Mif_Param_Data_t),
      MIFsetup_defaults (fun _ => ⟨MIF_REAL, true, 0, ⟨0, 0, 1, ⟨0, 0⟩, []⟩⟩)
        ⟨0, 1, [⟨true, 0, []⟩], []⟩ = (OK, m1) ∧
      m1.param[0]? = some p1 ∧ p1.element.length = 0 ∧ p1.size = 0 ∧ ¬ (1 ≤ p1.size) :=
  ⟨⟨0, 1, [⟨true, 0, []⟩], []⟩, ⟨true, 0, []⟩, rfl, rfl, rfl, rfl, by decide⟩

/-- C20 (amended): when the defaulting step of `MIFsetup` runs to its end, every
array-declared parameter slot that was unset has as many elements as the largest
size of its tied connection over the instances of the model; this count is at
least 1 exactly when some instance of the model has a tied connection of size at
least 1, and it is 0 for a model with no instances. -/
theorem MIFsetup_defaults_array_count (info : Nat → Mif_Param_Info_t) (m m1 : MIFmodel)
    (i : Nat) (p : Mif_Param_Data_t) (hi : i < m.num_param) (hp : m.param[i]? = some p)
    (hnull : p.is_null = true) (harr : (info i).is_array = true)
    (hok : MIFsetup_defaults info m = (OK, m1)) :
    ∃ p1, m1.param[i]? = some p1 ∧ p1.element.length = p1.size ∧
      p1.size = specMaxConnSize m.MIFinstances (info i).conn_ref ∧
      (1 ≤ p1.size ↔ ∃ h ∈ m.MIFinstances, 1 ≤ connSize h (info i).conn_ref) ∧
      (m.MIFinstances = [] → p1.size = 0) := by
  obtain ⟨h1, h2⟩ := MIFsetup_defaults_slot info m m1 i p hi hp hok
  obtain ⟨_, g2, g3, _⟩ := MIFsetup_defaultParam_null info m.MIFinstances i p hnull
  simp only [harr, if_true] at g2
  refine ⟨_, h2, g3, g2, ?_, ?_⟩
  · rw [g2]; exact specMaxConnSize_pos_iff _ _
  · intro hnil
    rw [g2, hnil]
    rfl

/-- Witness of C20 (amended): an unset array parameter of a model with instances of
connection sizes 2 and 3. -/
theorem MIFsetup_defaults_array_count_witness :
    ∃ p1, (⟨0, 1, [⟨true, 3, List.replicate 3 ⟨0, 0, 1, ⟨0, 0⟩, []⟩⟩],
        [⟨[], true, 1, [⟨false, true, false, 2, []⟩]⟩,
          ⟨[], true, 1, [⟨false, true, false, 3, []⟩]⟩]⟩ : MIFmodel).param[0]? = some p1 ∧
      p1.element.length = p1.size ∧
      p1.size = specMaxConnSize [⟨[], true, 1, [⟨false, true, false, 2, []⟩]⟩,
        ⟨[], true, 1, [⟨false, true, false, 3, []⟩]⟩] 0 ∧
      (1 ≤ p1.size ↔ ∃ h ∈ [(⟨[], true, 1, [⟨false, true, false, 2, []⟩]⟩ : MIFinstance),
        ⟨[], true, 1, [⟨false, true, false, 3, []⟩]⟩], 1 ≤ connSize h 0) ∧
      ([(⟨[], true, 1, [⟨false, true, false, 2, []⟩]⟩ : MIFinstance),
        ⟨[], true, 1, [⟨false, true, false, 3, []⟩]⟩] = [] → p1.size = 0) :=
  MIFsetup_defaults_array_count (fun _ => ⟨MIF_REAL, true, 0, ⟨0, 0, 1, ⟨0, 0⟩, []⟩⟩)
    ⟨0, 1, [⟨true, 0, []⟩], [⟨[], true, 1, [⟨false, true, false, 2, []⟩]⟩,
      ⟨[], true, 1, [⟨false, true, false, 3, []⟩]⟩]⟩ _ 0 ⟨true, 0, []⟩ (by decide) rfl rfl
    rfl rfl

/-! ### The real node type -/

theorem udn_real_resolve_loop_eq (array : List ℚ) (n i : Nat) (sum : ℚ) :
    udn_real_resolve_loop array n i sum = sum + ((array.drop i).take n).sum := by
  induction n generalizing i sum with
  | zero => simp [udn_real_resolve_loop]
  | succ n ih =>
    rw [udn_real_resolve_loop, ih]
    by_cases hi : i < array.length
    · rw [List.drop_eq_getElem_cons hi, List.take_succ_cons, List.sum_cons,
        List.getD_eq_getElem?_getD, List.getElem?_eq_getElem hi]
      simp only [Option.getD_some]
      ring
    · have h1 : array.drop i = [] := List.drop_eq_nil_of_le (by omega)
      have h2 : array.drop (i + 1) = [] := List.drop_eq_nil_of_le (by omega)
      rw [h1, h2, List.getD_eq_getElem?_getD, List.getElem?_eq_none (by omega)]
      simp

theorem udn_real_resolve_eq_sum (array : List ℚ) :
    udn_real_resolve array array.length = array.sum := by
  unfold udn_real_resolve
  rw [udn_real_resolve_loop_eq]
  simp

/-- C28: over exact arithmetic `udn_real_resolve` sets the output to the sum of all
driver values; a single driver gives that driver's value, and with a count of 0
the loop body is never run, so the output is 0 whatever the driver array holds. -/
theorem udn_real_resolve_sum (array : List ℚ) (x : ℚ) :
    udn_real_resolve array array.length = array.sum ∧
    udn_real_resolve [x] 1 = x ∧
    udn_real_resolve [] 0 = 0 ∧
    udn_real_resolve array 0 = 0 := by
  refine ⟨udn_real_resolve_eq_sum array, ?_, rfl, rfl⟩
  have := udn_real_resolve_eq_sum [x]
  simpa using this

/-- C29: over exact arithmetic the output of `udn_real_resolve` is the same for a
sequence of drivers and for every permutation of it. -/
theorem udn_real_resolve_perm (a b : List ℚ) (h : a.Perm b) :
    udn_real_resolve a a.length = udn_real_resolve b b.length := by
  rw [udn_real_resolve_eq_sum, udn_real_resolve_eq_sum]
  exact h.sum_eq

/-- Witness of C29 on the drivers 1/2, 2, -3 and the same drivers reversed. -/
theorem udn_real_resolve_perm_witness :
    udn_real_resolve [1 / 2, 2, -3] ([1 / 2, 2, -3] : List ℚ).length =
      udn_real_resolve [-3, 2, 1 / 2] ([-3, 2, 1 / 2] : List ℚ).length :=
  udn_real_resolve_perm [1 / 2, 2, -3] [-3, 2, 1 / 2]
    (List.reverse_perm [-3, 2, 1 / 2] : ([-3, 2, 1 / 2] : List ℚ).reverse.Perm _)

/-- C30: `udn_real_invert` replaces the payload `x` by `-x`, and applying it twice
gives `x` back. -/
theorem udn_real_invert_involutive (x : ℚ) :
    udn_real_invert x = -x ∧ udn_real_invert (udn_real_invert x) = x := by
  simp [udn_real_invert]

/-! ### Pieces of MIFsetup that make requests -/

theorem SetupM.bind_ok {α β : Type} (m : SetupM α) (f : α → SetupM β) (tr tr1 : List Request)
    (a : α) (h : m tr = (Except.ok a, tr1)) : (m.bind f) tr = f a tr1 := by
  simp only [SetupM.bind, h]

theorem SetupM.bind_error {α β : Type} (m : SetupM α) (f : α → SetupM β)
    (tr tr1 : List Request) (e : SPerror) (h : m tr = (Except.error e, tr1)) :
    (m.bind f) tr = (Except.error e, tr1) := by
  simp only [SetupM.bind, h]

theorem SetupM.bind_eq_ok {α β : Type} (m : SetupM α) (f : α → SetupM β)
    (tr tr2 : List Request) (b : β) (h : (m.bind f) tr = (Except.ok b, tr2)) :
    ∃ a tr1, m tr = (Except.ok a, tr1) ∧ f a tr1 = (Except.ok b, tr2) := by
  rcases hm : m tr with ⟨_ | a, tr1⟩
  · rw [SetupM.bind_error m f tr tr1 _ hm] at h
    simp at h
  · rw [SetupM.bind_ok m f tr tr1 a hm] at h
    exact ⟨a, tr1, rfl, h⟩

theorem SetupM.pure_eq {α : Type} (a : α) (tr : List Request) :
    (SetupM.pure a : SetupM α) tr = (Except.ok a, tr) := rfl

theorem adds_pure {α : Type} (a : α) (P : Request → Prop) :
    Adds (SetupM.pure a : SetupM α) P := by
  intro tr
  exact ⟨[], by simp [SetupM.pure], by simp⟩

theorem adds_fail {α : Type} (e : SPerror) (P : Request → Prop) :
    Adds (SetupM.fail e : SetupM α) P := by
  intro tr
  exact ⟨[], by simp [SetupM.fail], by simp⟩

theorem adds_bind {α β : Type} (m : SetupM α) (f : α → SetupM β) (P : Request → Prop)
    (hm : Adds m P) (hf : ∀ a, Adds (f a) P) : Adds (m.bind f) P := by
  intro tr
  obtain ⟨add1, h1, hp1⟩ := hm tr
  rcases hr : m tr with ⟨e | a, tr1⟩
  · rw [SetupM.bind_error m f tr tr1 e hr]
    rw [hr] at h1
    exact ⟨add1, h1, hp1⟩
  · rw [SetupM.bind_ok m f tr tr1 a hr]
    rw [hr] at h1
    simp only at h1
    obtain ⟨add2, h2, hp2⟩ := hf a tr1
    refine ⟨add1 ++ add2, by rw [h2, h1, List.append_assoc], ?_⟩
    intro r hrm
    rcases List.mem_append.1 hrm with h | h
    · exact hp1 r h
    · exact hp2 r h

theorem adds_mono {α : Type} (m : SetupM α) (P Q : Request → Prop) (h : Adds m P)
    (hpq : ∀ r, P r → Q r) : Adds m Q := by
  intro tr
  obtain ⟨add, h1, h2⟩ := h tr
  exact ⟨add, h1, fun r hr => hpq r (h2 r hr)⟩

theorem requestsAdded_eq {α : Type} (m : SetupM α) (tr added : List Request)
    (h : (m tr).2 = tr ++ added) : requestsAdded m tr = added := by
  simp [requestsAdded, h]

theorem adds_callCKTmkCur (env : Collaborators) (name suffix : List Char) :
    Adds (callCKTmkCur env name suffix) (fun r => r = Request.mkCur name suffix) := by
  intro tr
  refine ⟨[Request.mkCur name suffix], ?_, by simp⟩
  unfold callCKTmkCur
  rcases env.CKTmkCur tr name suffix with ⟨e, n⟩
  simp only
  split_ifs <;> rfl

theorem adds_TSTALLOC (env : Collaborators) (a b : Int) :
    Adds (TSTALLOC env a b) (fun r => r = Request.makeElt a b) := by
  intro tr
  refine ⟨[Request.makeElt a b], ?_, by simp⟩
  unfold TSTALLOC
  split_ifs <;> rfl

theorem adds_CTSTALLOC (env : Collaborators) (a b : Int) :
    Adds (CTSTALLOC env a b) (fun r => r = Request.makeElt a b) := by
  intro tr
  refine ⟨[Request.makeElt a b], ?_, by simp⟩
  unfold CTSTALLOC
  split_ifs <;> rfl

theorem adds_MIFsetup_branch (env : Collaborators) (name : List Char) (is_output : Bool)
    (type : Mif_Port_Type_t) (i j : Nat) (smp : Mif_Smp_Ptr_t) :
    Adds (MIFsetup_branch env name is_output type i j smp)
      (fun r => r = Request.mkCur name (branchSuffix i j) ∨ ∃ a b, r = Request.makeElt a b) := by
  unfold MIFsetup_branch
  split_ifs
  · refine adds_bind _ _ _ (adds_mono _ _ _ (adds_callCKTmkCur env name _) (fun r h => Or.inl h))
      (fun number => ?_)
    refine adds_bind _ _ _ (adds_mono _ _ _ (adds_TSTALLOC env _ _) (fun r h => Or.inr ⟨_, _, h⟩))
      (fun _ => ?_)
    refine adds_bind _ _ _ (adds_mono _ _ _ (adds_TSTALLOC env _ _) (fun r h => Or.inr ⟨_, _, h⟩))
      (fun _ => ?_)
    refine adds_bind _ _ _ (adds_mono _ _ _ (adds_TSTALLOC env _ _) (fun r h => Or.inr ⟨_, _, h⟩))
      (fun _ => ?_)
    refine adds_bind _ _ _ (adds_mono _ _ _ (adds_TSTALLOC env _ _) (fun r h => Or.inr ⟨_, _, h⟩))
      (fun _ => ?_)
    exact adds_pure _ _
  · exact adds_pure _ _

theorem adds_MIFsetup_ibranch (env : Collaborators) (name : List Char) (is_input : Bool)
    (type : Mif_Port_Type_t) (i j : Nat) (smp : Mif_Smp_Ptr_t) :
    Adds (MIFsetup_ibranch env name is_input type i j smp)
      (fun r => r = Request.mkCur name (ibranchSuffix i j) ∨ ∃ a b, r = Request.makeElt a b) := by
  unfold MIFsetup_ibranch
  split_ifs
  · refine adds_bind _ _ _ (adds_mono _ _ _ (adds_callCKTmkCur env name _) (fun r h => Or.inl h))
      (fun number => ?_)
    refine adds_bind _ _ _ (adds_mono _ _ _ (adds_TSTALLOC env _ _) (fun r h => Or.inr ⟨_, _, h⟩))
      (fun _ => ?_)
    refine adds_bind _ _ _ (adds_mono _ _ _ (adds_TSTALLOC env _ _) (fun r h => Or.inr ⟨_, _, h⟩))
      (fun _ => ?_)
    refine adds_bind _ _ _ (adds_mono _ _ _ (adds_TSTALLOC env _ _) (fun r h => Or.inr ⟨_, _, h⟩))
      (fun _ => ?_)
    refine adds_bind _ _ _ (adds_mono _ _ _ (adds_TSTALLOC env _ _) (fun r h => Or.inr ⟨_, _, h⟩))
      (fun _ => ?_)
    exact adds_pure _ _
  · exact adds_pure _ _

theorem adds_MIFsetup_vsource (env : Collaborators) (name : List Char) (is_input : Bool)
    (type : Mif_Port_Type_t) (vsource_str : List Char) (smp : Mif_Smp_Ptr_t) :
    Adds (MIFsetup_vsource env name is_input type vsource_str smp)
      (fun r => r = Request.fndBranch vsource_str ∨ r = Request.IFerror name vsource_str) := by
  unfold MIFsetup_vsource
  split_ifs
  · intro tr
    by_cases h0 : env.CKTfndBranch tr vsource_str = 0
    · exact ⟨[Request.fndBranch vsource_str, Request.IFerror name vsource_str],
        by simp [h0], by simp⟩
    · exact ⟨[Request.fndBranch vsource_str], by simp [h0], by simp⟩
  · exact adds_pure _ _

theorem branchSuffix_ne_ibranchSuffix (i j i1 j1 : Nat) :
    branchSuffix i j ≠ ibranchSuffix i1 j1 := by
  intro h
  have := congrArg List.head? h
  revert this
  simp [branchSuffix, ibranchSuffix]

theorem adds_any {α : Type} (m : SetupM α) (P : Request → Prop) (h : Adds m P) :
    Adds m (fun _ => True) :=
  adds_mono m P _ h (fun _ _ => trivial)

theorem SetupM.bind_trace_extends {α β : Type} (m : SetupM α) (f : α → SetupM β)
    (hf : ∀ a, Adds (f a) (fun _ => True)) (tr : List Request) :
    ∃ more, ((m.bind f) tr).2 = (m tr).2 ++ more := by
  rcases hr : m tr with ⟨e | a, tr1⟩
  · rw [SetupM.bind_error m f tr tr1 e hr]
    exact ⟨[], by simp⟩
  · rw [SetupM.bind_ok m f tr tr1 a hr]
    obtain ⟨add, h, _⟩ := hf a tr1
    exact ⟨add, h⟩

theorem callCKTmkCur_ok (env : Collaborators) (name suffix : List Char)
    (tr tr1 : List Request) (number : Int)
    (h : callCKTmkCur env name suffix tr = (Except.ok number, tr1)) :
    number = (env.CKTmkCur tr name suffix).2 ∧ tr1 = tr ++ [Request.mkCur name suffix] ∧
      (env.CKTmkCur tr name suffix).1 = OK := by
  unfold callCKTmkCur at h
  rcases hc : env.CKTmkCur tr name suffix with ⟨e, n⟩
  rw [hc] at h
  simp only at h
  split_ifs at h with he
  · simp at h
  · simp only [Prod.mk.injEq, Except.ok.injEq] at h
    exact ⟨h.1.symm, h.2.symm, not_not.1 he⟩

theorem TSTALLOC_ok (env : Collaborators) (a b : Int) (tr tr1 : List Request) (u : Unit)
    (h : TSTALLOC env a b tr = (Except.ok u, tr1)) :
    tr1 = tr ++ [Request.makeElt a b] ∧ env.SMPmakeElt tr a b = true := by
  unfold TSTALLOC at h
  split_ifs at h with he
  · simp only [Prod.mk.injEq] at h
    exact ⟨h.2.symm, he⟩
  · simp at h

theorem CTSTALLOC_ok (env : Collaborators) (a b : Int) (tr tr1 : List Request) (u : Unit)
    (h : CTSTALLOC env a b tr = (Except.ok u, tr1)) :
    tr1 = tr ++ [Request.makeElt a b] ∧ env.SMPmakeElt tr a b = true := by
  unfold CTSTALLOC at h
  split_ifs at h with he
  · simp only [Prod.mk.injEq] at h
    exact ⟨h.2.symm, he⟩
  · simp at h

theorem MIFsetup_branch_skip (env : Collaborators) (name : List Char) (is_output : Bool)
    (type : Mif_Port_Type_t) (i j : Nat) (smp : Mif_Smp_Ptr_t)
    (h : specNeedsBranch is_output type = false) :
    MIFsetup_branch env name is_output type i j smp = SetupM.pure smp := by
  unfold MIFsetup_branch
  have hc : ((is_output && (decide (type = MIF_VOLTAGE) || decide (type = MIF_DIFF_VOLTAGE))) ||
      (decide (type = MIF_RESISTANCE) || decide (type = MIF_DIFF_RESISTANCE))) = false := by
    rw [← h]
    simp only [specNeedsBranch, Bool.or_assoc]
  rw [hc]
  rfl

theorem MIFsetup_ibranch_skip (env : Collaborators) (name : List Char) (is_input : Bool)
    (type : Mif_Port_Type_t) (i j : Nat) (smp : Mif_Smp_Ptr_t)
    (h : specNeedsIbranch is_input type = false) :
    MIFsetup_ibranch env name is_input type i j smp = SetupM.pure smp := by
  unfold MIFsetup_ibranch
  unfold specNeedsIbranch at h
  rw [h]
  rfl

theorem MIFsetup_vsource_skip (env : Collaborators) (name : List Char) (is_input : Bool)
    (type : Mif_Port_Type_t) (vsource_str : List Char) (smp : Mif_Smp_Ptr_t)
    (h : (is_input && decide (type = MIF_VSOURCE_CURRENT)) = false) :
    MIFsetup_vsource env name is_input type vsource_str smp = SetupM.pure smp := by
  unfold MIFsetup_vsource
  rw [h]
  rfl

theorem MIFsetup_branch_ok (env : Collaborators) (name : List Char) (is_output : Bool)
    (type : Mif_Port_Type_t) (i j : Nat) (smp smp1 : Mif_Smp_Ptr_t) (tr tr1 : List Request)
    (hc : specNeedsBranch is_output type = true)
    (h : MIFsetup_branch env name is_output type i j smp tr = (Except.ok smp1, tr1)) :
    tr1 = tr ++ [Request.mkCur name (branchSuffix i j),
        Request.makeElt smp.pos_node (env.CKTmkCur tr name (branchSuffix i j)).2,
        Request.makeElt smp.neg_node (env.CKTmkCur tr name (branchSuffix i j)).2,
        Request.makeElt (env.CKTmkCur tr name (branchSuffix i j)).2 smp.pos_node,
        Request.makeElt (env.CKTmkCur tr name (branchSuffix i j)).2 smp.neg_node] ∧
      smp1 = { smp with branch := (env.CKTmkCur tr name (branchSuffix i j)).2,
                        ibranch := (env.CKTmkCur tr name (branchSuffix i j)).2 } ∧
      (env.CKTmkCur tr name (branchSuffix i j)).1 = OK := by
  unfold MIFsetup_branch at h
  have hc2 : ((is_output && (decide (type = MIF_VOLTAGE) || decide (type = MIF_DIFF_VOLTAGE))) ||
      (decide (type = MIF_RESISTANCE) || decide (type = MIF_DIFF_RESISTANCE))) = true := by
    rw [← hc]
    simp only [specNeedsBranch, Bool.or_assoc]
  rw [hc2] at h
  simp only [if_true] at h
  obtain ⟨number, t1, h1, h⟩ := SetupM.bind_eq_ok _ _ _ _ _ h
  obtain ⟨hn, ht1, hok⟩ := callCKTmkCur_ok env name _ tr t1 number h1
  obtain ⟨u2, t2, h2, h⟩ := SetupM.bind_eq_ok _ _ _ _ _ h
  obtain ⟨ht2, _⟩ := TSTALLOC_ok env _ _ t1 t2 u2 h2
  obtain ⟨u3, t3, h3, h⟩ := SetupM.bind_eq_ok _ _ _ _ _ h
  obtain ⟨ht3, _⟩ := TSTALLOC_ok env _ _ t2 t3 u3 h3
  obtain ⟨u4, t4, h4, h⟩ := SetupM.bind_eq_ok _ _ _ _ _ h
  obtain ⟨ht4, _⟩ := TSTALLOC_ok env _ _ t3 t4 u4 h4
  obtain ⟨u5, t5, h5, h⟩ := SetupM.bind_eq_ok _ _ _ _ _ h
  obtain ⟨ht5, _⟩ := TSTALLOC_ok env _ _ t4 t5 u5 h5
  simp only [SetupM.pure, Prod.mk.injEq, Except.ok.injEq] at h
  obtain ⟨hs, ht⟩ := h
  subst hn
  refine ⟨?_, hs.symm, hok⟩
  rw [← ht, ht5, ht4, ht3, ht2, ht1]
  simp

theorem MIFsetup_ibranch_ok (env : Collaborators) (name : List Char) (is_input : Bool)
    (type : Mif_Port_Type_t) (i j : Nat) (smp smp1 : Mif_Smp_Ptr_t) (tr tr1 : List Request)
    (hc : specNeedsIbranch is_input type = true)
    (h : MIFsetup_ibranch env name is_input type i j smp tr = (Except.ok smp1, tr1)) :
    tr1 = tr ++ [Request.mkCur name (ibranchSuffix i j),
        Request.makeElt smp.pos_node (env.CKTmkCur tr name (ibranchSuffix i j)).2,
        Request.makeElt smp.neg_node (env.CKTmkCur tr name (ibranchSuffix i j)).2,
        Request.makeElt (env.CKTmkCur tr name (ibranchSuffix i j)).2 smp.pos_node,
        Request.makeElt (env.CKTmkCur tr name (ibranchSuffix i j)).2 smp.neg_node] ∧
      smp1 = { smp with ibranch := (env.CKTmkCur tr name (ibranchSuffix i j)).2 } ∧
      (env.CKTmkCur tr name (ibranchSuffix i j)).1 = OK := by
  unfold MIFsetup_ibranch at h
  unfold specNeedsIbranch at hc
  rw [hc] at h
  simp only [if_true] at h
  obtain ⟨number, t1, h1, h⟩ := SetupM.bind_eq_ok _ _ _ _ _ h
  obtain ⟨hn, ht1, hok⟩ := callCKTmkCur_ok env name _ tr t1 number h1
  obtain ⟨u2, t2, h2, h⟩ := SetupM.bind_eq_ok _ _ _ _ _ h
  obtain ⟨ht2, _⟩ := TSTALLOC_ok env _ _ t1 t2 u2 h2
  obtain ⟨u3, t3, h3, h⟩ := SetupM.bind_eq_ok _ _ _ _ _ h
  obtain ⟨ht3, _⟩ := TSTALLOC_ok env _ _ t2 t3 u3 h3
  obtain ⟨u4, t4, h4, h⟩ := SetupM.bind_eq_ok _ _ _ _ _ h
  obtain ⟨ht4, _⟩ := TSTALLOC_ok env _ _ t3 t4 u4 h4
  obtain ⟨u5, t5, h5, h⟩ := SetupM.bind_eq_ok _ _ _ _ _ h
  obtain ⟨ht5, _⟩ := TSTALLOC_ok env _ _ t4 t5 u5 h5
  simp only [SetupM.pure, Prod.mk.injEq, Except.ok.injEq] at h
  obtain ⟨hs, ht⟩ := h
  subst hn
  refine ⟨?_, hs.symm, hok⟩
  rw [← ht, ht5, ht4, ht3, ht2, ht1]
  simp

theorem specNeedsBranch_excludes (is_input is_output : Bool) (type : Mif_Port_Type_t)
    (h : specNeedsBranch is_output type = true) :
    specNeedsIbranch is_input type = false ∧
      (is_input && decide (type = MIF_VSOURCE_CURRENT)) = false := by
  cases type <;> cases is_input <;> cases is_output <;>
    simp [specNeedsBranch, specNeedsIbranch] at h ⊢

theorem specNeedsIbranch_excludes (is_input is_output : Bool) (type : Mif_Port_Type_t)
    (h : specNeedsIbranch is_input type = true) :
    specNeedsBranch is_output type = false ∧
      (is_input && decide (type = MIF_VSOURCE_CURRENT)) = false := by
  cases type <;> cases is_input <;> cases is_output <;>
    simp [specNeedsBranch, specNeedsIbranch] at h ⊢

theorem MIFsetup_phaseA_port_first (env : Collaborators) (name : List Char)
    (is_input is_output : Bool) (i j : Nat) (port : Mif_Port_Data_t) (tr : List Request)
    (hnull : port.is_null = false) :
    ∃ more, (MIFsetup_phaseA_port env name is_input is_output i j port tr).2 =
      (MIFsetup_branch env name is_output port.type i j port.smp_data tr).2 ++ more := by
  unfold MIFsetup_phaseA_port
  simp only [hnull, Bool.false_eq_true, if_false]
  apply SetupM.bind_trace_extends
  intro smp1
  refine adds_bind _ _ _ (adds_any _ _ (adds_MIFsetup_ibranch env name is_input _ i j smp1))
    (fun smp2 => ?_)
  refine adds_bind _ _ _ (adds_any _ _ (adds_MIFsetup_vsource env name is_input _ _ smp2))
    (fun smp3 => ?_)
  exact adds_pure _ _

theorem MIFsetup_phaseA_port_ok_of_branch (env : Collaborators) (name : List Char)
    (is_input is_output : Bool) (i j : Nat) (port port1 : Mif_Port_Data_t)
    (tr tr1 : List Request) (hnull : port.is_null = false)
    (hc : specNeedsBranch is_output port.type = true)
    (h : MIFsetup_phaseA_port env name is_input is_output i j port tr = (Except.ok port1, tr1)) :
    MIFsetup_branch env name is_output port.type i j port.smp_data tr =
      (Except.ok port1.smp_data, tr1) := by
  unfold MIFsetup_phaseA_port at h
  simp only [hnull, Bool.false_eq_true, if_false] at h
  obtain ⟨h1, h2⟩ := specNeedsBranch_excludes is_input is_output port.type hc
  obtain ⟨smp1, t1, hb, h⟩ := SetupM.bind_eq_ok _ _ _ _ _ h
  rw [MIFsetup_ibranch_skip env name is_input port.type i j smp1 h1] at h
  obtain ⟨smp2, t2, hi, h⟩ := SetupM.bind_eq_ok _ _ _ _ _ h
  rw [MIFsetup_vsource_skip env name is_input port.type _ smp2 h2] at h
  obtain ⟨smp3, t3, hv, h⟩ := SetupM.bind_eq_ok _ _ _ _ _ h
  simp only [SetupM.pure, Prod.mk.injEq, Except.ok.injEq] at hi hv h
  obtain ⟨hp, ht⟩ := h
  rw [hb, ← hp, ← ht, ← hv.2, ← hi.2, ← hv.1, ← hi.1]

theorem MIFsetup_phaseA_port_ok_of_ibranch (env : Collaborators) (name : List Char)
    (is_input is_output : Bool) (i j : Nat) (port port1 : Mif_Port_Data_t)
    (tr tr1 : List Request) (hnull : port.is_null = false)
    (hc : specNeedsIbranch is_input port.type = true)
    (h : MIFsetup_phaseA_port env name is_input is_output i j port tr = (Except.ok port1, tr1)) :
    MIFsetup_ibranch env name is_input port.type i j port.smp_data tr =
      (Except.ok port1.smp_data, tr1) := by
  unfold MIFsetup_phaseA_port at h
  simp only [hnull, Bool.false_eq_true, if_false] at h
  obtain ⟨h1, h2⟩ := specNeedsIbranch_excludes is_input is_output port.type hc
  rw [MIFsetup_branch_skip env name is_output port.type i j _ h1] at h
  obtain ⟨smp1, t1, hb, h⟩ := SetupM.bind_eq_ok _ _ _ _ _ h
  obtain ⟨smp2, t2, hi, h⟩ := SetupM.bind_eq_ok _ _ _ _ _ h
  rw [MIFsetup_vsource_skip env name is_input port.type _ smp2 h2] at h
  obtain ⟨smp3, t3, hv, h⟩ := SetupM.bind_eq_ok _ _ _ _ _ h
  simp only [SetupM.pure, Prod.mk.injEq, Except.ok.injEq] at hb hv h
  obtain ⟨hp, ht⟩ := h
  rw [hb.1, hb.2, hi, ← hp, ← ht, ← hv.2, ← hv.1]

/-- The body of the phase A loops on its own: a null connection and a null
port make no request; for a non-null port the branch equation with the suffix
`branch_<i>_<j>` is created if and only if the connection is an output and the
port kind is voltage or differential voltage, or the port kind is resistance or
differential resistance; when it is created and the port is set up without
error, the requests made for the port are that creation followed by exactly the
four matrix entries (pos node, branch), (neg node, branch), (branch, pos node),
(branch, neg node), and the branch and ibranch indices of the port both are the
number of the new equation. -/
theorem MIFsetup_phaseA_port_branch (env : Collaborators) (name : List Char)
    (is_input is_output : Bool) (i j : Nat) (conn : Mif_Conn_Data_t)
    (port : Mif_Port_Data_t) (tr : List Request) :
    (conn.is_null = true → MIFsetup_phaseA_conn env name i conn tr = (Except.ok conn, tr)) ∧
    (port.is_null = true →
      MIFsetup_phaseA_port env name is_input is_output i j port tr = (Except.ok port, tr)) ∧
    (port.is_null = false →
      (Request.mkCur name (branchSuffix i j) ∈
          requestsAdded (MIFsetup_phaseA_port env name is_input is_output i j port) tr ↔
        specNeedsBranch is_output port.type = true)) ∧
    (port.is_null = false → specNeedsBranch is_output port.type = true →
      ∀ (port1 : Mif_Port_Data_t) (tr1 : List Request),
        MIFsetup_phaseA_port env name is_input is_output i j port tr =
          (Except.ok port1, tr1) →
        tr1 = tr ++ [Request.mkCur name (branchSuffix i j),
          Request.makeElt port.smp_data.pos_node (env.CKTmkCur tr name (branchSuffix i j)).2,
          Request.makeElt port.smp_data.neg_node (env.CKTmkCur tr name (branchSuffix i j)).2,
          Request.makeElt (env.CKTmkCur tr name (branchSuffix i j)).2 port.smp_data.pos_node,
          Request.makeElt (env.CKTmkCur tr name (branchSuffix i j)).2
            port.smp_data.neg_node] ∧
        port1.smp_data.branch = (env.CKTmkCur tr name (branchSuffix i j)).2 ∧
        port1.smp_data.ibranch = (env.CKTmkCur tr name (branchSuffix i j)).2) := by
  refine ⟨?_, ?_, ?_, ?_⟩
  · intro hn
    simp [MIFsetup_phaseA_conn, hn, SetupM.pure]
  · intro hn
    simp [MIFsetup_phaseA_port, hn, SetupM.pure]
  · intro hn
    constructor
    · intro hmem
      by_contra hc
      have hc2 : specNeedsBranch is_output port.type = false := by simpa using hc
      have hadds : Adds (MIFsetup_phaseA_port env name is_input is_output i j port)
          (fun r => r ≠ Request.mkCur name (branchSuffix i j)) := by
        unfold MIFsetup_phaseA_port
        simp only [hn, Bool.false_eq_true, if_false]
        rw [MIFsetup_branch_skip env name is_output port.type i j _ hc2]
        refine adds_bind _ _ _ (adds_pure _ _) (fun smp1 => ?_)
        refine adds_bind _ _ _ (adds_mono _ _ _
          (adds_MIFsetup_ibranch env name is_input _ i j smp1) ?_) (fun smp2 => ?_)
        · rintro r (h | ⟨a, b, h⟩) <;> subst h
          · intro heq
            simp only [Request.mkCur.injEq, true_and] at heq
            exact branchSuffix_ne_ibranchSuffix i j i j heq.symm
          · simp
        refine adds_bind _ _ _ (adds_mono _ _ _
          (adds_MIFsetup_vsource env name is_input _ _ smp2) ?_) (fun smp3 => ?_)
        · rintro r (h | h) <;> subst h <;> simp
        exact adds_pure _ _
      obtain ⟨added, h1, h2⟩ := hadds tr
      rw [requestsAdded_eq _ tr added h1] at hmem
      exact h2 _ hmem rfl
    · intro hc
      obtain ⟨more, hm⟩ := MIFsetup_phaseA_port_first env name is_input is_output i j port
        tr hn
      have hb : ∃ rest, (MIFsetup_branch env name is_output port.type i j port.smp_data tr).2 =
          tr ++ Request.mkCur name (branchSuffix i j) :: rest := by
        unfold MIFsetup_branch
        have hc2 : ((is_output && (decide (port.type = MIF_VOLTAGE) ||
            decide (port.type = MIF_DIFF_VOLTAGE))) ||
            (decide (port.type = MIF_RESISTANCE) ||
              decide (port.type = MIF_DIFF_RESISTANCE))) = true := by
          rw [← hc]
          simp only [specNeedsBranch, Bool.or_assoc]
        rw [hc2]
        simp only [if_true]
        obtain ⟨m2, hm2⟩ := SetupM.bind_trace_extends
          (callCKTmkCur env name (branchSuffix i j)) _ (fun number =>
            adds_any _ _ (adds_bind _ _ (fun _ => True)
              (adds_any _ _ (adds_TSTALLOC env _ _)) (fun _ =>
              adds_bind _ _ _ (adds_any _ _ (adds_TSTALLOC env _ _)) (fun _ =>
              adds_bind _ _ _ (adds_any _ _ (adds_TSTALLOC env _ _)) (fun _ =>
              adds_bind _ _ _ (adds_any _ _ (adds_TSTALLOC env _ _)) (fun _ =>
              adds_pure _ _)))))) tr
        obtain ⟨a1, ha1, hp1⟩ := adds_callCKTmkCur env name (branchSuffix i j) tr
        have ha : a1 = [Request.mkCur name (branchSuffix i j)] := by
          have hlen : (callCKTmkCur env name (branchSuffix i j) tr).2 =
              tr ++ [Request.mkCur name (branchSuffix i j)] := by
            unfold callCKTmkCur
            rcases env.CKTmkCur tr name (branchSuffix i j) with ⟨e, n⟩
            simp only
            split_ifs <;> rfl
          rw [hlen] at ha1
          exact (List.append_cancel_left ha1).symm
        rw [hm2, ha1, ha]
        exact ⟨m2, by simp⟩
      obtain ⟨rest, hrest⟩ := hb
      rw [hrest] at hm
      rw [requestsAdded_eq _ tr (Request.mkCur name (branchSuffix i j) :: rest ++ more)
        (by rw [hm]; simp)]
      simp
  · intro hn hc port1 tr1 h
    have hb := MIFsetup_phaseA_port_ok_of_branch env name is_input is_output i j port port1
      tr tr1 hn hc h
    obtain ⟨h1, h2, _⟩ := MIFsetup_branch_ok env name is_output port.type i j _ _ tr tr1 hc hb
    refine ⟨h1, ?_, ?_⟩
    · rw [h2]
    · rw [h2]

theorem SetupM.pure_bind {α β : Type} (a : α) (f : α → SetupM β) :
    (SetupM.pure a : SetupM α).bind f = f a := by
  funext tr
  rfl

theorem MIFsetup_ibranch_first (env : Collaborators) (name : List Char) (is_input : Bool)
    (type : Mif_Port_Type_t) (i j : Nat) (smp : Mif_Smp_Ptr_t) (tr : List Request)
    (hc : specNeedsIbranch is_input type = true) :
    ∃ rest, (MIFsetup_ibranch env name is_input type i j smp tr).2 =
      tr ++ Request.mkCur name (ibranchSuffix i j) :: rest := by
  unfold MIFsetup_ibranch
  unfold specNeedsIbranch at hc
  rw [hc]
  simp only [if_true]
  obtain ⟨m2, hm2⟩ := SetupM.bind_trace_extends
    (callCKTmkCur env name (ibranchSuffix i j)) _ (fun number =>
      adds_any _ _ (adds_bind _ _ (fun _ => True)
        (adds_any _ _ (adds_TSTALLOC env _ _)) (fun _ =>
        adds_bind _ _ _ (adds_any _ _ (adds_TSTALLOC env _ _)) (fun _ =>
        adds_bind _ _ _ (adds_any _ _ (adds_TSTALLOC env _ _)) (fun _ =>
        adds_bind _ _ _ (adds_any _ _ (adds_TSTALLOC env _ _)) (fun _ =>
        adds_pure _ _)))))) tr
  have hlen : (callCKTmkCur env name (ibranchSuffix i j) tr).2 =
      tr ++ [Request.mkCur name (ibranchSuffix i j)] := by
    unfold callCKTmkCur
    rcases env.CKTmkCur tr name (ibranchSuffix i j) with ⟨e, n⟩
    simp only
    split_ifs <;> rfl
  rw [hm2, hlen]
  exact ⟨m2, by simp⟩

/-- The body of the phase A loops on its own: a null connection and a null
port make no request; for a non-null port the separate branch equation with the
suffix `ibranch_<i>_<j>` is created if and only if the connection is an input and
the port kind is current or differential current; when it is created and the
port is set up without error, the requests made for the port are that creation
followed by exactly the four matrix entries (pos node, ibranch), (neg node,
ibranch), (ibranch, pos node), (ibranch, neg node), and the ibranch index of the
port is the number of the new equation. -/
theorem MIFsetup_phaseA_port_ibranch (env : Collaborators) (name : List Char)
    (is_input is_output : Bool) (i j : Nat) (conn : Mif_Conn_Data_t)
    (port : Mif_Port_Data_t) (tr : List Request) :
    (conn.is_null = true → MIFsetup_phaseA_conn env name i conn tr = (Except.ok conn, tr)) ∧
    (port.is_null = true →
      MIFsetup_phaseA_port env name is_input is_output i j port tr = (Except.ok port, tr)) ∧
    (port.is_null = false →
      (Request.mkCur name (ibranchSuffix i j) ∈
          requestsAdded (MIFsetup_phaseA_port env name is_input is_output i j port) tr ↔
        specNeedsIbranch is_input port.type = true)) ∧
    (port.is_null = false → specNeedsIbranch is_input port.type = true →
      ∀ (port1 : Mif_Port_Data_t) (tr1 : List Request),
        MIFsetup_phaseA_port env name is_input is_output i j port tr =
          (Except.ok port1, tr1) →
        tr1 = tr ++ [Request.mkCur name (ibranchSuffix i j),
          Request.makeElt port.smp_data.pos_node (env.CKTmkCur tr name (ibranchSuffix i j)).2,
          Request.makeElt port.smp_data.neg_node (env.CKTmkCur tr name (ibranchSuffix i j)).2,
          Request.makeElt (env.CKTmkCur tr name (ibranchSuffix i j)).2 port.smp_data.pos_node,
          Request.makeElt (env.CKTmkCur tr name (ibranchSuffix i j)).2
            port.smp_data.neg_node] ∧
        port1.smp_data.ibranch = (env.CKTmkCur tr name (ibranchSuffix i j)).2 ∧
        port1.smp_data.branch = port.smp_data.branch) := by
  refine ⟨?_, ?_, ?_, ?_⟩
  · intro hn
    simp [MIFsetup_phaseA_conn, hn, SetupM.pure]
  · intro hn
    simp [MIFsetup_phaseA_port, hn, SetupM.pure]
  · intro hn
    constructor
    · intro hmem
      by_contra hc
      have hc2 : specNeedsIbranch is_input port.type = false := by simpa using hc
      have hadds : Adds (MIFsetup_phaseA_port env name is_input is_output i j port)
          (fun r => r ≠ Request.mkCur name (ibranchSuffix i j)) := by
        unfold MIFsetup_phaseA_port
        simp only [hn, Bool.false_eq_true, if_false]
        refine adds_bind _ _ _ (adds_mono _ _ _
          (adds_MIFsetup_branch env name is_output _ i j _) ?_) (fun smp1 => ?_)
        · rintro r (h | ⟨a, b, h⟩) <;> subst h
          · intro heq
            simp only [Request.mkCur.injEq, true_and] at heq
            exact branchSuffix_ne_ibranchSuffix i j i j heq
          · simp
        rw [MIFsetup_ibranch_skip env name is_input port.type i j _ hc2]
        refine adds_bind _ _ _ (adds_pure _ _) (fun smp2 => ?_)
        refine adds_bind _ _ _ (adds_mono _ _ _
          (adds_MIFsetup_vsource env name is_input _ _ smp2) ?_) (fun smp3 => ?_)
        · rintro r (h | h) <;> subst h <;> simp
        exact adds_pure _ _
      obtain ⟨added, h1, h2⟩ := hadds tr
      rw [requestsAdded_eq _ tr added h1] at hmem
      exact h2 _ hmem rfl
    · intro hc
      obtain ⟨h1, _⟩ := specNeedsIbranch_excludes is_input is_output port.type hc
      have hext : ∃ more, (MIFsetup_phaseA_port env name is_input is_output i j port tr).2 =
          (MIFsetup_ibranch env name is_input port.type i j port.smp_data tr).2 ++ more := by
        unfold MIFsetup_phaseA_port
        simp only [hn, Bool.false_eq_true, if_false]
        rw [MIFsetup_branch_skip env name is_output port.type i j _ h1]
        rw [SetupM.pure_bind]
        apply SetupM.bind_trace_extends
        intro smp2
        refine adds_bind _ _ _
          (adds_any _ _ (adds_MIFsetup_vsource env name is_input _ _ smp2)) (fun smp3 => ?_)
        exact adds_pure _ _
      obtain ⟨more, hm⟩ := hext
      obtain ⟨rest, hrest⟩ := MIFsetup_ibranch_first env name is_input port.type i j
        port.smp_data tr hc
      rw [hrest] at hm
      rw [requestsAdded_eq _ tr (Request.mkCur name (ibranchSuffix i j) :: rest ++ more)
        (by rw [hm]; simp)]
      simp
  · intro hn hc port1 tr1 h
    have hb := MIFsetup_phaseA_port_ok_of_ibranch env name is_input is_output i j port port1
      tr tr1 hn hc h
    obtain ⟨h1, h2, _⟩ := MIFsetup_ibranch_ok env name is_input port.type i j _ _ tr tr1 hc hb
    refine ⟨h1, ?_, ?_⟩
    · rw [h2]
    · rw [h2]

/-! ### MIFsetup stops at the first failed request -/

theorem Outcome.of_error {α β : Type} (env : Collaborators) (e : SPerror)
    (tr : List Request) (h : Outcome env (Except.error e : Except SPerror α) tr) :
    Outcome env (Except.error e : Except SPerror β) tr := h

theorem sound_pure (env : Collaborators) {α : Type} (a : α) :
    Sound env (SetupM.pure a : SetupM α) := by
  intro tr h
  exact h

theorem sound_fail (env : Collaborators) {α : Type} :
    Sound env (SetupM.fail E_BADPARM : SetupM α) := by
  intro tr h
  exact Or.inl ⟨h, rfl⟩

theorem sound_bind (env : Collaborators) {α β : Type} (m : SetupM α) (f : α → SetupM β)
    (hm : Sound env m) (hf : ∀ a, Sound env (f a)) : Sound env (m.bind f) := by
  intro tr h
  have h1 := hm tr h
  rcases hr : m tr with ⟨e | a, tr1⟩
  · rw [SetupM.bind_error m f tr tr1 e hr]
    rw [hr] at h1
    exact Outcome.of_error env e tr1 h1
  · rw [SetupM.bind_ok m f tr tr1 a hr]
    rw [hr] at h1
    exact hf a tr1 h1

theorem sound_callCKTmkCur (env : Collaborators) (name suffix : List Char) :
    Sound env (callCKTmkCur env name suffix) := by
  intro tr h
  unfold callCKTmkCur
  rcases hc : env.CKTmkCur tr name suffix with ⟨e, n⟩
  simp only
  by_cases he : e = OK
  · simp only [he, ne_eq, not_true_eq_false, if_false]
    exact GoodTrace.snoc tr _ h (by simp [answered, hc, he])
  · simp only [ne_eq, he, not_false_eq_true, if_true]
    exact Or.inr (Or.inl ⟨tr, name, suffix, rfl, h, by simp [hc, he], by simp [hc]⟩)

theorem sound_TSTALLOC (env : Collaborators) (a b : Int) : Sound env (TSTALLOC env a b) := by
  intro tr h
  unfold TSTALLOC
  by_cases he : env.SMPmakeElt tr a b = true
  · simp only [he, if_true]
    exact GoodTrace.snoc tr _ h he
  · simp only [he, Bool.false_eq_true, if_false]
    exact Or.inr (Or.inr (Or.inl ⟨tr, a, b, rfl, h, by simpa using he, rfl⟩))

theorem sound_CTSTALLOC (env : Collaborators) (a b : Int) : Sound env (CTSTALLOC env a b) := by
  intro tr h
  unfold CTSTALLOC
  by_cases he : env.SMPmakeElt tr a b = true
  · simp only [he, if_true]
    exact GoodTrace.snoc tr _ h he
  · simp only [he, Bool.false_eq_true, if_false]
    exact Or.inr (Or.inr (Or.inl ⟨tr, a, b, rfl, h, by simpa using he, rfl⟩))

theorem sound_MIFsetup_branch (env : Collaborators) (name : List Char) (is_output : Bool)
    (type : Mif_Port_Type_t) (i j : Nat) (smp : Mif_Smp_Ptr_t) :
    Sound env (MIFsetup_branch env name is_output type i j smp) := by
  unfold MIFsetup_branch
  split_ifs
  · refine sound_bind env _ _ (sound_callCKTmkCur env name _) (fun number => ?_)
    refine sound_bind env _ _ (sound_TSTALLOC env _ _) (fun _ => ?_)
    refine sound_bind env _ _ (sound_TSTALLOC env _ _) (fun _ => ?_)
    refine sound_bind env _ _ (sound_TSTALLOC env _ _) (fun _ => ?_)
    refine sound_bind env _ _ (sound_TSTALLOC env _ _) (fun _ => ?_)
    exact sound_pure env _
  · exact sound_pure env _

theorem sound_MIFsetup_ibranch (env : Collaborators) (name : List Char) (is_input : Bool)
    (type : Mif_Port_Type_t) (i j : Nat) (smp : Mif_Smp_Ptr_t) :
    Sound env (MIFsetup_ibranch env name is_input type i j smp) := by
  unfold MIFsetup_ibranch
  split_ifs
  · refine sound_bind env _ _ (sound_callCKTmkCur env name _) (fun number => ?_)
    refine sound_bind env _ _ (sound_TSTALLOC env _ _) (fun _ => ?_)
    refine sound_bind env _ _ (sound_TSTALLOC env _ _) (fun _ => ?_)
    refine sound_bind env _ _ (sound_TSTALLOC env _ _) (fun _ => ?_)
    refine sound_bind env _ _ (sound_TSTALLOC env _ _) (fun _ => ?_)
    exact sound_pure env _
  · exact sound_pure env _

theorem sound_MIFsetup_vsource (env : Collaborators) (name : List Char) (is_input : Bool)
    (type : Mif_Port_Type_t) (vsource_str : List Char) (smp : Mif_Smp_Ptr_t) :
    Sound env (MIFsetup_vsource env name is_input type vsource_str smp) := by
  unfold MIFsetup_vsource
  split_ifs
  · intro tr h
    by_cases h0 : env.CKTfndBranch tr vsource_str = 0
    · simp only [h0, if_true]
      exact Or.inr (Or.inr (Or.inr ⟨tr, name, vsource_str, rfl, h, h0, rfl⟩))
    · simp only [h0, if_false]
      exact GoodTrace.snoc tr _ h h0
  · exact sound_pure env _

theorem sound_MIFsetup_phaseA_port (env : Collaborators) (name : List Char)
    (is_input is_output : Bool) (i j : Nat) (port : Mif_Port_Data_t) :
    Sound env (MIFsetup_phaseA_port env name is_input is_output i j port) := by
  unfold MIFsetup_phaseA_port
  split_ifs
  · exact sound_pure env _
  · refine sound_bind env _ _ (sound_MIFsetup_branch env name _ _ i j _) (fun smp1 => ?_)
    refine sound_bind env _ _ (sound_MIFsetup_ibranch env name _ _ i j _) (fun smp2 => ?_)
    refine sound_bind env _ _ (sound_MIFsetup_vsource env name _ _ _ _) (fun smp3 => ?_)
    exact sound_pure env _

theorem sound_forEachIndexM (env : Collaborators) {α : Type} (step : Nat → α → SetupM α)
    (hs : ∀ i a, Sound env (step i a)) (n i : Nat) (l : List α) :
    Sound env (forEachIndexM step n i l) := by
  induction n generalizing i l with
  | zero => exact sound_pure env l
  | succ n ih =>
    rw [forEachIndexM]
    cases l[i]? with
    | none => exact ih (i + 1) l
    | some a => exact sound_bind env _ _ (hs i a) (fun a1 => ih (i + 1) (l.set i a1))

theorem sound_forRangeM (env : Collaborators) {α : Type} (l : List α)
    (body : α → SetupM Unit) (hb : ∀ a, Sound env (body a)) (n i : Nat) :
    Sound env (forRangeM l body n i) := by
  induction n generalizing i with
  | zero => exact sound_pure env ()
  | succ n ih =>
    rw [forRangeM]
    cases l[i]? with
    | none => exact ih (i + 1)
    | some a => exact sound_bind env _ _ (hb a) (fun _ => ih (i + 1))

theorem sound_MIFsetup_phaseA (env : Collaborators) (here : MIFinstance) :
    Sound env (MIFsetup_phaseA env here) := by
  unfold MIFsetup_phaseA
  refine sound_forEachIndexM env _ (fun i conn => ?_) _ _ _
  unfold MIFsetup_phaseA_conn
  split_ifs
  · exact sound_pure env _
  · refine sound_bind env _ _ (sound_forEachIndexM env _
      (fun j port => sound_MIFsetup_phaseA_port env _ _ _ i j port) _ _ _) (fun ports => ?_)
    exact sound_pure env _

theorem sound_MIFsetup_pair (env : Collaborators) (o c : Mif_Smp_Ptr_t)
    (in_type out_type : Mif_Port_Type_t) :
    Sound env (MIFsetup_pair env o c in_type out_type) := by
  unfold MIFsetup_pair
  split
  · exact sound_bind env _ _ (sound_CTSTALLOC env _ _) (fun _ => sound_CTSTALLOC env _ _)
  · exact sound_bind env _ _ (sound_CTSTALLOC env _ _) (fun _ => sound_CTSTALLOC env _ _)
  · refine sound_bind env _ _ (sound_CTSTALLOC env _ _) (fun _ => ?_)
    refine sound_bind env _ _ (sound_CTSTALLOC env _ _) (fun _ => ?_)
    exact sound_bind env _ _ (sound_CTSTALLOC env _ _) (fun _ => sound_CTSTALLOC env _ _)
  · exact sound_CTSTALLOC env _ _
  · exact sound_pure env _

theorem sound_MIFsetup_phaseB (env : Collaborators) (here : MIFinstance) :
    Sound env (MIFsetup_phaseB env here) := by
  unfold MIFsetup_phaseB
  refine sound_forRangeM env _ _ (fun conn_i => ?_) _ _
  split_ifs
  · exact sound_pure env _
  · refine sound_forRangeM env _ _ (fun out => ?_) _ _
    unfold MIFsetup_phaseB_port
    split_ifs
    · exact sound_pure env _
    · refine sound_forRangeM env _ _ (fun conn_k => ?_) _ _
      split_ifs
      · exact sound_pure env _
      · refine sound_forRangeM env _ _ (fun port_l => ?_) _ _
        split_ifs
        · exact sound_pure env _
        · exact sound_MIFsetup_pair env _ _ _ _

theorem sound_MIFsetup_instance (env : Collaborators) (here : MIFinstance) :
    Sound env (MIFsetup_instance env here) := by
  unfold MIFsetup_instance
  split_ifs
  · exact sound_pure env _
  · refine sound_bind env _ _ (sound_MIFsetup_phaseA env here) (fun conns => ?_)
    refine sound_bind env _ _ (sound_MIFsetup_phaseB env _) (fun _ => ?_)
    exact sound_pure env _

theorem sound_MIFsetup_instances (env : Collaborators) (insts : List MIFinstance) :
    Sound env (MIFsetup_instances env insts) := by
  induction insts with
  | nil => exact sound_pure env _
  | cons here rest ih =>
    rw [MIFsetup_instances]
    refine sound_bind env _ _ (sound_MIFsetup_instance env here) (fun here1 => ?_)
    refine sound_bind env _ _ ih (fun rest1 => ?_)
    exact sound_pure env _

theorem MIFsetup_defaults_status (info : Nat → Mif_Param_Info_t) (m : MIFmodel) :
    (MIFsetup_defaults info m).1 = OK ∨ (MIFsetup_defaults info m).1 = E_BADPARM := by
  rw [MIFsetup_defaults_eq]
  simp only
  split_ifs
  · exact Or.inl rfl
  · exact Or.inr rfl

theorem sound_MIFsetup_model (env : Collaborators) (info : Nat → Mif_Param_Info_t)
    (model : MIFmodel) (states : Int) : Sound env (MIFsetup_model env info model states) := by
  unfold MIFsetup_model
  rcases hd : MIFsetup_defaults info model with ⟨status, model1⟩
  have hst := MIFsetup_defaults_status info model
  rw [hd] at hst
  simp only at hst ⊢
  rcases hst with h | h
  · subst h
    simp only [ne_eq, not_true_eq_false, if_false]
    refine sound_bind env _ _ (sound_MIFsetup_instances env _) (fun insts2 => ?_)
    exact sound_pure env _
  · subst h
    simp only [ne_eq, if_true, not_false_eq_true, reduceCtorEq]
    exact sound_fail env

theorem sound_MIFsetup (env : Collaborators) (info : Nat → Mif_Param_Info_t)
    (models : List MIFmodel) (states : Int) : Sound env (MIFsetup env info models states) := by
  induction models generalizing states with
  | nil => exact sound_pure env _
  | cons model rest ih =>
    rw [MIFsetup]
    refine sound_bind env _ _ (sound_MIFsetup_model env info model states) (fun r1 => ?_)
    refine sound_bind env _ _ (ih r1.2) (fun r2 => ?_)
    exact sound_pure env _

theorem snoc_eq_append_cons (tr0 a b : List Request) (x y : Request)
    (h : tr0 ++ [y] = a ++ x :: b) :
    (a = tr0 ∧ x = y ∧ b = []) ∨ ∃ b1, b = b1 ++ [y] ∧ tr0 = a ++ x :: b1 := by
  rcases List.eq_nil_or_concat b with hb | ⟨b1, z, hb⟩
  · subst hb
    left
    have h2 : tr0 ++ [y] = a ++ [x] := h
    have := List.append_inj' h2 rfl
    simp only [List.cons.injEq, and_true] at this
    exact ⟨this.1.symm, this.2.symm, rfl⟩
  · right
    subst hb
    have h2 : tr0 ++ [y] = (a ++ x :: b1) ++ [z] := by
      rw [h]; simp
    have := List.append_inj' h2 rfl
    simp only [List.cons.injEq, and_true] at this
    exact ⟨b1, by rw [this.2]; simp, this.1⟩

theorem GoodTrace.split (env : Collaborators) (tr : List Request) (h : GoodTrace env tr)
    (a b : List Request) (x : Request) (hs : tr = a ++ x :: b) :
    GoodTrace env a ∧ answered env a x := by
  induction h generalizing b with
  | nil => simp at hs
  | snoc tr0 y h0 hy ih =>
    rcases snoc_eq_append_cons tr0 a b x y hs with ⟨ha, hx, _⟩ | ⟨b1, _, ht⟩
    · subst ha hx
      exact ⟨h0, hy⟩
    · exact ih b1 ht

theorem two_eq_append_cons (tr0 a b : List Request) (x y z : Request)
    (h : tr0 ++ [y, z] = a ++ x :: b) :
    (a = tr0 ++ [y] ∧ x = z ∧ b = []) ∨ (a = tr0 ∧ x = y ∧ b = [z]) ∨
      ∃ b1, b = b1 ++ [y, z] ∧ tr0 = a ++ x :: b1 := by
  have h2 : (tr0 ++ [y]) ++ [z] = a ++ x :: b := by rw [← h]; simp
  rcases snoc_eq_append_cons (tr0 ++ [y]) a b x z h2 with ⟨ha, hx, hb⟩ | ⟨b1, hb, ht⟩
  · exact Or.inl ⟨ha, hx, hb⟩
  · rcases snoc_eq_append_cons tr0 a b1 x y ht with ⟨ha, hx, hb1⟩ | ⟨b2, hb2, ht2⟩
    · right; left
      subst hb1
      exact ⟨ha, hx, by simpa using hb⟩
    · right; right
      exact ⟨b2, by rw [hb, hb2]; simp, ht2⟩

/-- The first request that is not answered is the last one made, but for the
report of the fatal error that follows a failed lookup, and it fixes the status. -/
theorem Outcome.first_failure (env : Collaborators) {α : Type} (res : Except SPerror α)
    (tr : List Request) (h : Outcome env res tr) (a b : List Request) (x : Request)
    (hs : tr = a ++ x :: b) (hna : ¬ answered env a x) :
    (∀ name suffix, x = Request.mkCur name suffix →
      b = [] ∧ statusOf res = (env.CKTmkCur a name suffix).1) ∧
    (∀ row col, x = Request.makeElt row col → b = [] ∧ statusOf res = E_NOMEM) ∧
    (∀ reference, x = Request.fndBranch reference →
      (∃ name, b = [Request.IFerror name reference]) ∧ statusOf res = E_BADPARM) := by
  cases res with
  | ok v => exact absurd (GoodTrace.split env tr h a b x hs).2 hna
  | error e =>
    rcases h with ⟨hg, _⟩ | ⟨tr0, n, s, ht, hg, hne, he⟩ | ⟨tr0, r, c, ht, hg, hf, he⟩ |
      ⟨tr0, n, ref, ht, hg, hf, he⟩
    · exact absurd (GoodTrace.split env tr hg a b x hs).2 hna
    · rcases snoc_eq_append_cons tr0 a b x _ (ht ▸ hs) with ⟨ha, hx, hb⟩ | ⟨b1, _, ht0⟩
      · subst ha hx hb
        refine ⟨?_, ?_, ?_⟩
        · intro name suffix hx
          simp only [Request.mkCur.injEq] at hx
          obtain ⟨h1, h2⟩ := hx
          subst h1 h2
          exact ⟨rfl, he⟩
        · intro row col hx; exact absurd hx (by simp)
        · intro reference hx; exact absurd hx (by simp)
      · exact absurd (GoodTrace.split env tr0 hg a b1 x ht0).2 hna
    · rcases snoc_eq_append_cons tr0 a b x _ (ht ▸ hs) with ⟨ha, hx, hb⟩ | ⟨b1, _, ht0⟩
      · subst ha hx hb
        refine ⟨?_, ?_, ?_⟩
        · intro name suffix hx; exact absurd hx (by simp)
        · intro row col _
          exact ⟨rfl, he⟩
        · intro reference hx; exact absurd hx (by simp)
      · exact absurd (GoodTrace.split env tr0 hg a b1 x ht0).2 hna
    · rcases two_eq_append_cons tr0 a b x _ _ (ht ▸ hs) with ⟨ha, hx, hb⟩ | ⟨ha, hx, hb⟩ |
        ⟨b1, _, ht0⟩
      · subst hx hb
        refine ⟨?_, ?_, ?_⟩
        · intro name suffix hx; exact absurd hx (by simp)
        · intro row col hx; exact absurd hx (by simp)
        · intro reference hx; exact absurd hx (by simp)
      · subst ha hx hb
        refine ⟨?_, ?_, ?_⟩
        · intro name suffix hx; exact absurd hx (by simp)
        · intro row col hx; exact absurd hx (by simp)
        · intro reference hx
          simp only [Request.fndBranch.injEq] at hx
          subst hx
          exact ⟨⟨n, rfl⟩, he⟩
      · exact absurd (GoodTrace.split env tr0 hg a b1 x ht0).2 hna

theorem MIFsetup_outcome (env : Collaborators) (info : Nat → Mif_Param_Info_t)
    (models : List MIFmodel) (states : Int) :
    Outcome env (MIFsetup env info models states []).1 (MIFsetup env info models states []).2 :=
  sound_MIFsetup env info models states [] GoodTrace.nil

/-- C26: when a matrix-entry request made by `MIFsetup`, in phase A or in phase B,
comes back NULL, it is the last request `MIFsetup` makes, for this instance, later
instances and later models alike, and `MIFsetup` returns `E_NOMEM`. -/
theorem MIFsetup_null_entry_aborts (env : Collaborators) (info : Nat → Mif_Param_Info_t)
    (models : List MIFmodel) (states : Int) (a b : List Request) (row col : Int)
    (hs : (MIFsetup env info models states []).2 = a ++ Request.makeElt row col :: b)
    (hnull : env.SMPmakeElt a row col = false) :
    b = [] ∧ statusOf (MIFsetup env info models states []).1 = E_NOMEM :=
  (Outcome.first_failure env _ _ (MIFsetup_outcome env info models states) a b _ hs
    (by simp [answered, hnull])).2.1 row col rfl

/-- C27 (amended): when the creation of a branch equation requested by `MIFsetup`
fails, with whatever status other than `OK`, it is the last request `MIFsetup`
makes, and `MIFsetup` returns the status of that creation. -/
theorem MIFsetup_branch_failure_aborts (env : Collaborators)
    (info : Nat → Mif_Param_Info_t) (models : List MIFmodel) (states : Int)
    (a b : List Request) (name suffix : List Char)
    (hs : (MIFsetup env info models states []).2 = a ++ Request.mkCur name suffix :: b)
    (hfail : (env.CKTmkCur a name suffix).1 ≠ OK) :
    b = [] ∧ statusOf (MIFsetup env info models states []).1 =
      (env.CKTmkCur a name suffix).1 :=
  (Outcome.first_failure env _ _ (MIFsetup_outcome env info models states) a b _ hs
    (by simpa [answered] using hfail)).1 name suffix rfl

/-- Witness of C26: the fourth request of the setup of the example instance, the
matrix entry (100, 1), comes back NULL. -/
theorem MIFsetup_null_entry_aborts_witness :
    ([] : List Request) = [] ∧
      statusOf (MIFsetup (exampleCollaborators 3) exampleParamInfo [exampleModel] 0 []).1 =
        E_NOMEM :=
  MIFsetup_null_entry_aborts (exampleCollaborators 3) exampleParamInfo [exampleModel] 0
    [Request.mkCur "a1".toList "branch_0_0".toList, Request.makeElt 1 100,
      Request.makeElt 2 100] [] 100 1 (by rfl) (by rfl)

/-- C27 (counterexample): the branch-equation allocator fails with the status
`E_OTHER 2` on the first request of the setup of the example instance; `MIFsetup`
returns that status, which is not `E_NOMEM`. -/
theorem MIFsetup_branch_failure_status :
    (MIFsetup exampleFailingAllocator exampleParamInfo [exampleModel] 0 []).2 =
        [Request.mkCur "a1".toList "branch_0_0".toList] ∧
      (exampleFailingAllocator.CKTmkCur [] "a1".toList "branch_0_0".toList).1 ≠ OK ∧
      statusOf (MIFsetup exampleFailingAllocator exampleParamInfo [exampleModel] 0 []).1 =
        E_OTHER 2 ∧
      statusOf (MIFsetup exampleFailingAllocator exampleParamInfo [exampleModel] 0 []).1 ≠
        E_NOMEM := by
  refine ⟨by rfl, by decide, by rfl, ?_⟩
  have h : statusOf (MIFsetup exampleFailingAllocator exampleParamInfo [exampleModel] 0 []).1 =
      E_OTHER 2 := by rfl
  rw [h]
  decide

/-- Witness of C27 (amended) on the same run. -/
theorem MIFsetup_branch_failure_aborts_witness :
    ([] : List Request) = [] ∧
      statusOf (MIFsetup exampleFailingAllocator exampleParamInfo [exampleModel] 0 []).1 =
        (exampleFailingAllocator.CKTmkCur [] "a1".toList "branch_0_0".toList).1 :=
  MIFsetup_branch_failure_aborts exampleFailingAllocator exampleParamInfo [exampleModel] 0
    [] [] "a1".toList "branch_0_0".toList (by rfl) (by decide)

/-- The body of the phase A loops on its own: for a non-null port of kind
vsource-current in an input connection it creates no branch equation and
requests no matrix entry: its only request is
the lookup of the referenced source by name. When the lookup finds a branch, the
ibranch index of the port is set to it; when it finds none (0), the fatal error
is reported with the instance name and the reference and `E_BADPARM` is
returned. In a run of `MIFsetup` a lookup that finds nothing is followed by that
report and by no further request, and `MIFsetup` returns `E_BADPARM`. -/
theorem MIFsetup_phaseA_port_vsource (env : Collaborators) (name : List Char)
    (is_output : Bool) (i j : Nat) (port : Mif_Port_Data_t) (tr : List Request)
    (hn : port.is_null = false) (ht : port.type = MIF_VSOURCE_CURRENT) :
    (env.CKTfndBranch tr port.vsource_str ≠ 0 →
      MIFsetup_phaseA_port env name true is_output i j port tr =
        (Except.ok { port with smp_data :=
            { port.smp_data with ibranch := env.CKTfndBranch tr port.vsource_str } },
          tr ++ [Request.fndBranch port.vsource_str])) ∧
    (env.CKTfndBranch tr port.vsource_str = 0 →
      MIFsetup_phaseA_port env name true is_output i j port tr =
        (Except.error E_BADPARM,
          tr ++ [Request.fndBranch port.vsource_str,
            Request.IFerror name port.vsource_str])) ∧
    (∀ (info : Nat → Mif_Param_Info_t) (models : List MIFmodel) (states : Int)
        (a b : List Request) (reference : List Char),
      (MIFsetup env info models states []).2 = a ++ Request.fndBranch reference :: b →
      env.CKTfndBranch a reference = 0 →
      (∃ n, b = [Request.IFerror n reference]) ∧
        statusOf (MIFsetup env info models states []).1 = E_BADPARM) := by
  have hb : specNeedsBranch is_output port.type = false := by
    rw [ht]; cases is_output <;> rfl
  have hi : specNeedsIbranch true port.type = false := by
    rw [ht]; rfl
  have hport : MIFsetup_phaseA_port env name true is_output i j port =
      (MIFsetup_vsource env name true port.type port.vsource_str port.smp_data).bind
        fun smp3 => SetupM.pure { port with smp_data := smp3 } := by
    unfold MIFsetup_phaseA_port
    simp only [hn, Bool.false_eq_true, if_false]
    rw [MIFsetup_branch_skip env name is_output port.type i j _ hb, SetupM.pure_bind,
      MIFsetup_ibranch_skip env name true port.type i j _ hi, SetupM.pure_bind]
  refine ⟨?_, ?_, ?_⟩
  · intro h0
    rw [hport]
    simp [SetupM.bind, MIFsetup_vsource, ht, h0, SetupM.pure]
  · intro h0
    rw [hport]
    simp [SetupM.bind, MIFsetup_vsource, ht, h0]
  · intro info models states a b reference hs h0
    exact (Outcome.first_failure env _ _ (MIFsetup_outcome env info models states) a b _ hs
      (by simp [answered, h0])).2.2 reference rfl

/-! ### Phase B -/

theorem emits_pure : Emits (SetupM.pure ()) [] :=
  fun tr => ⟨[], [], by simp [SetupM.pure], rfl, fun _ => rfl⟩

theorem emits_CTSTALLOC (env : Collaborators) (first second : Int) :
    Emits (CTSTALLOC env first second) [Request.makeElt first second] := by
  intro tr
  refine ⟨[Request.makeElt first second], [], ?_, rfl, fun _ => rfl⟩
  unfold CTSTALLOC
  split_ifs <;> rfl

theorem emits_bind (m : SetupM Unit) (f : Unit → SetupM Unit) (g1 g2 : List Request)
    (hm : Emits m g1) (hf : Emits (f ()) g2) : Emits (m.bind f) (g1 ++ g2) := by
  intro tr
  obtain ⟨a1, r1, e1, e2, e3⟩ := hm tr
  rcases hr : m tr with ⟨res, t1⟩
  rw [hr] at e1 e3
  simp only at e1 e3
  cases res with
  | error e =>
    refine ⟨a1, r1 ++ g2, ?_, by rw [← List.append_assoc, e2], ?_⟩
    · rw [SetupM.bind_error m f tr t1 e hr]; exact e1
    · rw [SetupM.bind_error m f tr t1 e hr]; intro h; cases h
  | ok u =>
    obtain ⟨a2, r2, d1, d2, d3⟩ := hf t1
    have hr1 := e3 rfl
    subst hr1
    refine ⟨a1 ++ a2, r2, ?_, ?_, ?_⟩
    · rw [SetupM.bind_ok m f tr t1 u hr, d1, e1, List.append_assoc]
    · rw [List.append_assoc, d2, ← e2, List.append_nil]
    · rw [SetupM.bind_ok m f tr t1 u hr]; exact d3

theorem emits_forRangeM {α : Type} (l : List α) (body : α → SetupM Unit)
    (g : α → List Request) (hb : ∀ a ∈ l, Emits (body a) (g a)) (n i : Nat) :
    Emits (forRangeM l body n i) (((l.drop i).take n).flatMap g) := by
  induction n generalizing i with
  | zero =>
    rw [forRangeM]
    simpa using emits_pure
  | succ n ih =>
    rw [forRangeM]
    by_cases hi : i < l.length
    · rw [List.getElem?_eq_getElem hi]
      simp only
      rw [List.drop_eq_getElem_cons hi, List.take_succ_cons, List.flatMap_cons]
      exact emits_bind _ _ _ _ (hb _ (List.getElem_mem hi)) (ih (i + 1))
    · rw [List.getElem?_eq_none (by omega)]
      simp only
      have := ih (i + 1)
      rw [List.drop_eq_nil_of_le (by omega)] at this
      rw [List.drop_eq_nil_of_le (by omega)]
      simpa using this

theorem emits_forRangeM_all {α : Type} (l : List α) (body : α → SetupM Unit)
    (g : α → List Request) (hb : ∀ a ∈ l, Emits (body a) (g a)) (n : Nat)
    (hn : n = l.length) : Emits (forRangeM l body n 0) (l.flatMap g) := by
  have := emits_forRangeM l body g hb n 0
  rw [hn] at this
  rw [hn]
  simpa using this

theorem flatMap_if_eq_filter {α : Type} (l : List α) (p : α → Bool)
    (f : α → List Request) :
    l.flatMap (fun a => if p a then f a else []) = (l.filter p).flatMap f := by
  induction l with
  | nil => rfl
  | cons a t ih =>
    simp only [List.flatMap_cons, List.filter_cons]
    cases hp : p a
    · simp [ih]
    · simp [ih]

theorem emits_MIFsetup_pair (env : Collaborators) (O I : Mif_Port_Data_t) :
    Emits (MIFsetup_pair env O.smp_data I.smp_data I.type O.type)
      (specPairRequests O I) := by
  unfold MIFsetup_pair specPairRequests
  rcases hk : MIFget_cntl_src_type I.type O.type with _ | k
  · exact emits_pure
  · cases k
    · exact emits_bind _ _ [_] [_] (emits_CTSTALLOC env _ _) (emits_CTSTALLOC env _ _)
    · exact emits_bind _ _ [_] [_] (emits_CTSTALLOC env _ _) (emits_CTSTALLOC env _ _)
    · exact emits_bind _ _ [_] [_, _, _] (emits_CTSTALLOC env _ _)
        (emits_bind _ _ [_] [_, _] (emits_CTSTALLOC env _ _)
          (emits_bind _ _ [_] [_] (emits_CTSTALLOC env _ _) (emits_CTSTALLOC env _ _)))
    · exact emits_CTSTALLOC env _ _

theorem emits_MIFsetup_phaseB_port (env : Collaborators) (here : MIFinstance)
    (hwf : here.WellFormed) (out : Mif_Port_Data_t) :
    Emits (MIFsetup_phaseB_port env here out)
      (if !out.is_null then
        (here.conn.filter (fun c => !c.is_null && c.is_input)).flatMap fun ci =>
        (ci.port.filter (fun p => !p.is_null)).flatMap fun I => specPairRequests out I
      else []) := by
  unfold MIFsetup_phaseB_port
  cases hnull : out.is_null
  swap
  · simpa using emits_pure
  · simp only [Bool.false_eq_true, if_false, Bool.not_false, if_true]
    rw [← flatMap_if_eq_filter]
    refine emits_forRangeM_all here.conn _ _ ?_ here.num_conn hwf.1
    intro ck hck
    cases hkn : ck.is_null
    swap
    · simpa using emits_pure
    · cases hki : ck.is_input
      · simpa using emits_pure
      · simp only [Bool.not_true, Bool.or_self, Bool.false_eq_true, if_false, Bool.not_false,
          Bool.and_self, if_true]
        rw [← flatMap_if_eq_filter]
        refine emits_forRangeM_all ck.port _ _ ?_ ck.size (hwf.2 ck hck)
        intro pl _
        cases hln : pl.is_null
        · simpa using emits_MIFsetup_pair env out pl
        · simpa using emits_pure

theorem emits_MIFsetup_phaseB (env : Collaborators) (here : MIFinstance)
    (hwf : here.WellFormed) :
    Emits (MIFsetup_phaseB env here) (specPhaseBRequests here) := by
  unfold MIFsetup_phaseB specPhaseBRequests
  rw [← flatMap_if_eq_filter]
  refine emits_forRangeM_all here.conn _ _ ?_ here.num_conn hwf.1
  intro ci hci
  cases hin : ci.is_null
  swap
  · simpa using emits_pure
  · cases hio : ci.is_output
    · simpa using emits_pure
    · simp only [Bool.not_true, Bool.or_self, Bool.false_eq_true, if_false, Bool.not_false,
        Bool.and_self, if_true]
      rw [← flatMap_if_eq_filter]
      refine emits_forRangeM_all ci.port _ _ ?_ ci.size (hwf.2 ci hci)
      intro pj _
      exact emits_MIFsetup_phaseB_port env here hwf pj

/-- C24: phase B on a well-formed instance requests the matrix entries the
specification lists, in the order of its loops and nothing else: from every
history the requests it makes are an initial part of the list
`specPhaseBRequests`, which holds the entries of every pair of a non-null port of
a non-null output connection and a non-null port of a non-null input connection
and none for a pair with a null port or connection, and they are the whole list
when phase B ends without a failed request. For one pair the code requests the
entries of `specPairRequests`: two for VCVS, four for VCIS, one for ICVS, two for
ICIS, none when the pair classifies to no controlled source. An instance that is
not analog makes no request. -/
theorem MIFsetup_phaseB_entries (env : Collaborators) (here : MIFinstance)
    (hwf : here.WellFormed) :
    Emits (MIFsetup_phaseB env here) (specPhaseBRequests here) ∧
    (∀ tr tr1, MIFsetup_phaseB env here tr = (Except.ok (), tr1) →
      tr1 = tr ++ specPhaseBRequests here) ∧
    (∀ O I : Mif_Port_Data_t,
      Emits (MIFsetup_pair env O.smp_data I.smp_data I.type O.type)
        (specPairRequests O I)) ∧
    (here.analog = false →
      ∀ tr, MIFsetup_instance env here tr = (Except.ok here, tr)) := by
  refine ⟨emits_MIFsetup_phaseB env here hwf, ?_, fun O I => emits_MIFsetup_pair env O I, ?_⟩
  · intro tr tr1 h
    obtain ⟨added, rest, h1, h2, h3⟩ := emits_MIFsetup_phaseB env here hwf tr
    rw [h] at h1 h3
    have := h3 rfl
    subst this
    rw [List.append_nil] at h2
    rw [← h2]
    exact h1
  · intro ha tr
    unfold MIFsetup_instance
    rw [ha]
    rfl

/-- Witness of C24: phase B on the example instance as phase A leaves it, with
branch 100 on the voltage output and ibranch 105 on the current input. -/
theorem MIFsetup_phaseB_entries_witness :
    specPhaseBRequests ⟨"a1".toList, true, 2,
        [⟨false, false, true, 1, [⟨false, MIF_VOLTAGE, [], ⟨1, 2, 100, 100⟩, 0⟩]⟩,
         ⟨false, true, false, 1, [⟨false, MIF_CURRENT, [], ⟨3, 4, 0, 105⟩, 0⟩]⟩]⟩ =
      [Request.makeElt 100 105] ∧
    [Request.makeElt 100 105] = [] ++ specPhaseBRequests ⟨"a1".toList, true, 2,
        [⟨false, false, true, 1, [⟨false, MIF_VOLTAGE, [], ⟨1, 2, 100, 100⟩, 0⟩]⟩,
         ⟨false, true, false, 1, [⟨false, MIF_CURRENT, [], ⟨3, 4, 0, 105⟩, 0⟩]⟩]⟩ :=
  ⟨by rfl,
    (MIFsetup_phaseB_entries (exampleCollaborators 20) ⟨"a1".toList, true, 2,
        [⟨false, false, true, 1, [⟨false, MIF_VOLTAGE, [], ⟨1, 2, 100, 100⟩, 0⟩]⟩,
         ⟨false, true, false, 1, [⟨false, MIF_CURRENT, [], ⟨3, 4, 0, 105⟩, 0⟩]⟩]⟩
      ⟨rfl, by decide⟩).2.1 [] [Request.makeElt 100 105] (by rfl)⟩

/-! ### Scenario 4 -/

theorem MIFsetup_phaseA_port_frame (env : Collaborators) (name : List Char)
    (is_input is_output : Bool) (i j : Nat) (port port1 : Mif_Port_Data_t)
    (tr tr1 : List Request)
    (h : MIFsetup_phaseA_port env name is_input is_output i j port tr = (Except.ok port1, tr1)) :
    port1 = { port with smp_data := port1.smp_data } := by
  unfold MIFsetup_phaseA_port at h
  by_cases hn : port.is_null = true
  · simp only [hn, if_true, SetupM.pure, Prod.mk.injEq, Except.ok.injEq] at h
    rw [← h.1]
  · have hn2 : port.is_null = false := by simpa using hn
    simp only [hn2, Bool.false_eq_true, if_false] at h
    obtain ⟨smp1, t1, _, h⟩ := SetupM.bind_eq_ok _ _ _ _ _ h
    obtain ⟨smp2, t2, _, h⟩ := SetupM.bind_eq_ok _ _ _ _ _ h
    obtain ⟨smp3, t3, _, h⟩ := SetupM.bind_eq_ok _ _ _ _ _ h
    simp only [SetupM.pure, Prod.mk.injEq, Except.ok.injEq] at h
    rw [← h.1, hn2]

theorem MIFsetup_phaseA_conn_single (env : Collaborators) (name : List Char) (i : Nat)
    (is_input is_output : Bool) (port : Mif_Port_Data_t) (conn1 : Mif_Conn_Data_t)
    (tr tr1 : List Request)
    (h : MIFsetup_phaseA_conn env name i ⟨false, is_input, is_output, 1, [port]⟩ tr =
      (Except.ok conn1, tr1)) :
    ∃ port1, MIFsetup_phaseA_port env name is_input is_output i 0 port tr =
        (Except.ok port1, tr1) ∧
      conn1 = ⟨false, is_input, is_output, 1, [port1]⟩ := by
  unfold MIFsetup_phaseA_conn at h
  simp only [Bool.false_eq_true, if_false] at h
  obtain ⟨ports, t1, h1, h⟩ := SetupM.bind_eq_ok _ _ _ _ _ h
  rw [forEachIndexM] at h1
  simp only [List.getElem?_cons_zero] at h1
  obtain ⟨port1, t2, h2, h1⟩ := SetupM.bind_eq_ok _ _ _ _ _ h1
  rw [forEachIndexM] at h1
  simp only [SetupM.pure, Prod.mk.injEq, Except.ok.injEq, List.set_cons_zero] at h1 h
  refine ⟨port1, ?_, ?_⟩
  · rw [h2, ← h.2, ← h1.2]
  · rw [← h.1, ← h1.1]

theorem MIFsetup_phaseA_two (env : Collaborators) (name : List Char)
    (c0 c1 : Mif_Conn_Data_t) (conns : List Mif_Conn_Data_t) (tr tr1 : List Request)
    (h : MIFsetup_phaseA env ⟨name, true, 2, [c0, c1]⟩ tr = (Except.ok conns, tr1)) :
    ∃ d0 d1 t, MIFsetup_phaseA_conn env name 0 c0 tr = (Except.ok d0, t) ∧
      MIFsetup_phaseA_conn env name 1 c1 t = (Except.ok d1, tr1) ∧ conns = [d0, d1] := by
  unfold MIFsetup_phaseA at h
  simp only at h
  rw [forEachIndexM] at h
  simp only [List.getElem?_cons_zero] at h
  obtain ⟨d0, t, h0, h⟩ := SetupM.bind_eq_ok _ _ _ _ _ h
  rw [forEachIndexM] at h
  simp only [List.set_cons_zero, List.getElem?_cons_succ, List.getElem?_cons_zero] at h
  obtain ⟨d1, t2, h1, h⟩ := SetupM.bind_eq_ok _ _ _ _ _ h
  rw [forEachIndexM] at h
  simp only [SetupM.pure, Prod.mk.injEq, Except.ok.injEq, List.set_cons_succ,
    List.set_cons_zero] at h
  exact ⟨d0, d1, t, h0, by rw [h1, h.2], h.1.symm⟩

theorem MIFsetup_single_instance (env : Collaborators) (info : Nat → Mif_Param_Info_t)
    (model : MIFmodel) (here : MIFinstance) (states : Int) (tr tr1 : List Request)
    (r : List MIFmodel × Int) (hinst : model.MIFinstances = [here])
    (h : MIFsetup env info [model] states tr = (Except.ok r, tr1)) :
    ∃ here1, MIFsetup_instance env (MIFsetup_states here states).1 tr =
      (Except.ok here1, tr1) := by
  rw [MIFsetup] at h
  obtain ⟨r1, t1, h1, h⟩ := SetupM.bind_eq_ok _ _ _ _ _ h
  rw [MIFsetup] at h
  simp only [SetupM.bind, SetupM.pure, Prod.mk.injEq] at h
  unfold MIFsetup_model at h1
  have hm : (MIFsetup_defaults info model).2.MIFinstances = model.MIFinstances := by
    rw [MIFsetup_defaults_eq]
  rcases hd : MIFsetup_defaults info model with ⟨status, model1⟩
  rw [hd] at h1 hm
  simp only at h1 hm
  by_cases hs : status = OK
  swap
  · simp [hs, SetupM.fail] at h1
  · rw [hm, hinst] at h1
    simp only [hs, ne_eq, not_true_eq_false, if_false, MIFsetup_statesAll] at h1
    obtain ⟨insts2, t2, h2, h1⟩ := SetupM.bind_eq_ok _ _ _ _ _ h1
    rw [MIFsetup_instances] at h2
    obtain ⟨here1, t3, h3, h2⟩ := SetupM.bind_eq_ok _ _ _ _ _ h2
    rw [MIFsetup_instances] at h2
    simp only [SetupM.bind, SetupM.pure, Prod.mk.injEq] at h2 h1
    refine ⟨here1, ?_⟩
    rw [h3, h2.2, h1.2, h.2]

theorem MIFsetup_phaseB_ok (env : Collaborators) (here : MIFinstance)
    (hwf : here.WellFormed) (tr tr1 : List Request)
    (h : MIFsetup_phaseB env here tr = (Except.ok (), tr1)) :
    tr1 = tr ++ specPhaseBRequests here := by
  obtain ⟨added, rest, h1, h2, h3⟩ := emits_MIFsetup_phaseB env here hwf tr
  rw [h] at h1 h3
  have := h3 rfl
  subst this
  rw [List.append_nil] at h2
  rw [← h2]
  exact h1

theorem MIFsetup_phaseA_branch_port (env : Collaborators) (name : List Char) (i : Nat)
    (vs : List Char) (smp : Mif_Smp_Ptr_t) (old : Int) (conn1 : Mif_Conn_Data_t)
    (tr tr1 : List Request)
    (h : MIFsetup_phaseA_conn env name i
        ⟨false, false, true, 1, [⟨false, MIF_VOLTAGE, vs, smp, old⟩]⟩ tr =
      (Except.ok conn1, tr1)) :
    tr1 = tr ++ branchRequests name (branchSuffix i 0) smp.pos_node smp.neg_node
        (env.CKTmkCur tr name (branchSuffix i 0)).2 ∧
      conn1 = ⟨false, false, true, 1, [⟨false, MIF_VOLTAGE, vs,
        { smp with branch := (env.CKTmkCur tr name (branchSuffix i 0)).2,
                   ibranch := (env.CKTmkCur tr name (branchSuffix i 0)).2 }, old⟩]⟩ := by
  obtain ⟨port1, hp, hc⟩ := MIFsetup_phaseA_conn_single env name i _ _ _ _ _ _ h
  have hf := MIFsetup_phaseA_port_frame env name _ _ _ _ _ _ _ _ hp
  have hb := MIFsetup_phaseA_port_ok_of_branch env name false true i 0
    ⟨false, MIF_VOLTAGE, vs, smp, old⟩ port1 tr tr1 rfl rfl hp
  obtain ⟨ht, hs, _⟩ := MIFsetup_branch_ok env name true MIF_VOLTAGE i 0 smp _ tr tr1 rfl hb
  refine ⟨ht, ?_⟩
  rw [hc, hf, hs]

theorem MIFsetup_phaseA_ibranch_port (env : Collaborators) (name : List Char) (i : Nat)
    (vs : List Char) (smp : Mif_Smp_Ptr_t) (old : Int) (conn1 : Mif_Conn_Data_t)
    (tr tr1 : List Request)
    (h : MIFsetup_phaseA_conn env name i
        ⟨false, true, false, 1, [⟨false, MIF_CURRENT, vs, smp, old⟩]⟩ tr =
      (Except.ok conn1, tr1)) :
    tr1 = tr ++ branchRequests name (ibranchSuffix i 0) smp.pos_node smp.neg_node
        (env.CKTmkCur tr name (ibranchSuffix i 0)).2 ∧
      conn1 = ⟨false, true, false, 1, [⟨false, MIF_CURRENT, vs,
        { smp with ibranch := (env.CKTmkCur tr name (ibranchSuffix i 0)).2 }, old⟩]⟩ := by
  obtain ⟨port1, hp, hc⟩ := MIFsetup_phaseA_conn_single env name i _ _ _ _ _ _ h
  have hf := MIFsetup_phaseA_port_frame env name _ _ _ _ _ _ _ _ hp
  have hb := MIFsetup_phaseA_port_ok_of_ibranch env name true false i 0
    ⟨false, MIF_CURRENT, vs, smp, old⟩ port1 tr tr1 rfl rfl hp
  obtain ⟨ht, hs, _⟩ := MIFsetup_ibranch_ok env name true MIF_CURRENT i 0 smp _ tr tr1 rfl hb
  refine ⟨ht, ?_⟩
  rw [hc, hf, hs]

theorem MIFsetup_instance_eq_ok (env : Collaborators) (here here1 : MIFinstance)
    (tr tr1 : List Request) (ha : here.analog = true)
    (h : MIFsetup_instance env here tr = (Except.ok here1, tr1)) :
    ∃ conns t, MIFsetup_phaseA env here tr = (Except.ok conns, t) ∧
      MIFsetup_phaseB env { here with conn := conns } t = (Except.ok (), tr1) := by
  obtain ⟨n, a, nc, c⟩ := here
  simp only at ha
  subst ha
  unfold MIFsetup_instance at h
  simp only [Bool.not_true, Bool.false_eq_true, if_false] at h
  obtain ⟨conns, t, hA, h⟩ := SetupM.bind_eq_ok _ _ _ _ _ h
  obtain ⟨u, t2, hB, h⟩ := SetupM.bind_eq_ok _ _ _ _ _ h
  simp only [SetupM.pure, Prod.mk.injEq, Except.ok.injEq] at h
  exact ⟨conns, t, hA, by rw [hB, h.2]⟩

theorem MIFsetup_scenarioOutIn (env : Collaborators) (name vsO vsI : List Char)
    (smpO smpI : Mif_Smp_Ptr_t) (oldO oldI : Int) (here1 : MIFinstance)
    (tr tr1 : List Request)
    (h : MIFsetup_instance env (scenarioOutIn name vsO vsI smpO smpI oldO oldI) tr =
      (Except.ok here1, tr1)) :
    ∃ b ib phaseA,
      b = (env.CKTmkCur tr name (branchSuffix 0 0)).2 ∧
      phaseA = branchRequests name (branchSuffix 0 0) smpO.pos_node smpO.neg_node b ∧
      ib = (env.CKTmkCur (tr ++ phaseA) name (ibranchSuffix 1 0)).2 ∧
      (MIFsetup_phaseA env (scenarioOutIn name vsO vsI smpO smpI oldO oldI) tr).2 =
        tr ++ (phaseA ++
          branchRequests name (ibranchSuffix 1 0) smpI.pos_node smpI.neg_node ib) ∧
      tr1 = tr ++ (phaseA ++
          branchRequests name (ibranchSuffix 1 0) smpI.pos_node smpI.neg_node ib) ++
        [Request.makeElt b ib] := by
  obtain ⟨conns, t, hA, hB⟩ := MIFsetup_instance_eq_ok env _ here1 tr tr1 rfl h
  obtain ⟨d0, d1, t0, h0, h1, hc⟩ := MIFsetup_phaseA_two env name _ _ conns tr t hA
  obtain ⟨ht0, hd0⟩ := MIFsetup_phaseA_branch_port env name 0 vsO smpO oldO d0 tr t0 h0
  obtain ⟨ht1, hd1⟩ := MIFsetup_phaseA_ibranch_port env name 1 vsI smpI oldI d1 t0 t h1
  subst hd0 hd1 hc
  have hB2 := MIFsetup_phaseB_ok env _ ⟨rfl, by
    intro c hc
    simp only [List.mem_cons, List.mem_singleton, List.not_mem_nil, or_false] at hc
    rcases hc with rfl | rfl <;> rfl⟩ t tr1 hB
  refine ⟨_, _, _, rfl, rfl, rfl, ?_, ?_⟩
  · rw [hA]
    simp only
    rw [ht1, ht0, List.append_assoc]
  · rw [hB2, ht1, ht0]
    simp only [List.append_assoc]
    rfl

theorem MIFsetup_scenarioInOut (env : Collaborators) (name vsO vsI : List Char)
    (smpO smpI : Mif_Smp_Ptr_t) (oldO oldI : Int) (here1 : MIFinstance)
    (tr tr1 : List Request)
    (h : MIFsetup_instance env (scenarioInOut name vsO vsI smpO smpI oldO oldI) tr =
      (Except.ok here1, tr1)) :
    ∃ b ib phaseA,
      ib = (env.CKTmkCur tr name (ibranchSuffix 0 0)).2 ∧
      phaseA = branchRequests name (ibranchSuffix 0 0) smpI.pos_node smpI.neg_node ib ∧
      b = (env.CKTmkCur (tr ++ phaseA) name (branchSuffix 1 0)).2 ∧
      (MIFsetup_phaseA env (scenarioInOut name vsO vsI smpO smpI oldO oldI) tr).2 =
        tr ++ (phaseA ++
          branchRequests name (branchSuffix 1 0) smpO.pos_node smpO.neg_node b) ∧
      tr1 = tr ++ (phaseA ++
          branchRequests name (branchSuffix 1 0) smpO.pos_node smpO.neg_node b) ++
        [Request.makeElt b ib] := by
  obtain ⟨conns, t, hA, hB⟩ := MIFsetup_instance_eq_ok env _ here1 tr tr1 rfl h
  obtain ⟨d0, d1, t0, h0, h1, hc⟩ := MIFsetup_phaseA_two env name _ _ conns tr t hA
  obtain ⟨ht0, hd0⟩ := MIFsetup_phaseA_ibranch_port env name 0 vsI smpI oldI d0 tr t0 h0
  obtain ⟨ht1, hd1⟩ := MIFsetup_phaseA_branch_port env name 1 vsO smpO oldO d1 t0 t h1
  subst hd0 hd1 hc
  have hB2 := MIFsetup_phaseB_ok env _ ⟨rfl, by
    intro c hc
    simp only [List.mem_cons, List.mem_singleton, List.not_mem_nil, or_false] at hc
    rcases hc with rfl | rfl <;> rfl⟩ t tr1 hB
  refine ⟨_, _, _, rfl, rfl, rfl, ?_, ?_⟩
  · rw [hA]
    simp only
    rw [ht1, ht0, List.append_assoc]
  · rw [hB2, ht1, ht0]
    simp only [List.append_assoc]
    rfl

theorem exampleInstance_phaseA :
    MIFsetup_phaseA (exampleCollaborators 20) exampleInstance [] =
      (Except.ok exampleInstanceAfter.conn, exampleRequests.take 10) := by rfl

theorem exampleInstance_phaseB :
    MIFsetup_phaseB (exampleCollaborators 20)
        ⟨exampleInstance.MIFname, true, exampleInstance.num_conn, exampleInstanceAfter.conn⟩
        (exampleRequests.take 10) =
      (Except.ok (), exampleRequests) := by rfl

theorem exampleInstance_setup :
    MIFsetup_instance (exampleCollaborators 20) exampleInstance [] =
      (Except.ok exampleInstanceAfter, exampleRequests) := by
  have ha : exampleInstance.analog = true := rfl
  unfold MIFsetup_instance
  rw [ha]
  simp only [Bool.not_true, Bool.false_eq_true, if_false]
  rw [SetupM.bind_ok _ _ _ _ _ exampleInstance_phaseA,
    SetupM.bind_ok _ _ _ _ _ exampleInstance_phaseB]
  rfl

theorem exampleModel_setup :
    MIFsetup (exampleCollaborators 20) exampleParamInfo [exampleModel] 0 [] =
      (Except.ok ([⟨0, 0, [], [exampleInstanceAfter]⟩], 1), exampleRequests) := by
  have hm : MIFsetup_model (exampleCollaborators 20) exampleParamInfo exampleModel 0 [] =
      (Except.ok (⟨0, 0, [], [exampleInstanceAfter]⟩, 1), exampleRequests) := by
    have hi : MIFsetup_instances (exampleCollaborators 20) [exampleInstance] [] =
        (Except.ok [exampleInstanceAfter], exampleRequests) := by
      rw [MIFsetup_instances, SetupM.bind_ok _ _ _ _ _ exampleInstance_setup]
      rfl
    have hd : MIFsetup_defaults exampleParamInfo exampleModel = (OK, exampleModel) := by rfl
    have hs : MIFsetup_statesAll exampleModel.MIFinstances 0 = ([exampleInstance], 1) := by rfl
    unfold MIFsetup_model
    rw [hd]
    simp only [ne_eq, not_true_eq_false, if_false]
    rw [hs]
    simp only
    rw [SetupM.bind_ok _ _ _ _ _ hi]
    rfl
  rw [MIFsetup, SetupM.bind_ok _ _ _ _ _ hm]
  rfl

/-- C25: scenario 4. A model has the single analog instance with two non-null
connections of one non-null port each, one output-only of kind voltage and one
input-only of kind current, in either order. When `MIFsetup` succeeds on it, the
requests it makes are: in phase A, two branch-equation creations (`branch_<i>_0`
for the voltage output, `ibranch_<k>_0` for the current input), each followed by
its four matrix entries, eight in all; then in phase B one matrix entry, the
current-controlled-voltage entry whose row is the branch of the output and whose
column is the ibranch of the input. -/
theorem MIFsetup_scenario_four (env : Collaborators) (info : Nat → Mif_Param_Info_t)
    (model : MIFmodel) (name vsO vsI : List Char) (smpO smpI : Mif_Smp_Ptr_t)
    (oldO oldI : Int) (states : Int) (tr tr1 : List Request) (r : List MIFmodel × Int)
    (h : MIFsetup env info [model] states tr = (Except.ok r, tr1)) :
    (model.MIFinstances = [scenarioOutIn name vsO vsI smpO smpI oldO oldI] →
      ∃ b ib first phaseA phaseB,
        b = (env.CKTmkCur tr name (branchSuffix 0 0)).2 ∧
        first = branchRequests name (branchSuffix 0 0) smpO.pos_node smpO.neg_node b ∧
        ib = (env.CKTmkCur (tr ++ first) name (ibranchSuffix 1 0)).2 ∧
        phaseA = first ++
          branchRequests name (ibranchSuffix 1 0) smpI.pos_node smpI.neg_node ib ∧
        phaseB = [Request.makeElt b ib] ∧
        (MIFsetup_phaseA env (scenarioOutIn name vsO vsI smpO smpI oldO states) tr).2 =
          tr ++ phaseA ∧
        tr1 = tr ++ phaseA ++ phaseB ∧
        (phaseA.filter Request.isBranchEquation).length = 2 ∧
        (phaseA.filter Request.isMatrixEntry).length = 8 ∧
        (phaseB.filter Request.isBranchEquation).length = 0 ∧
        (phaseB.filter Request.isMatrixEntry).length = 1) ∧
    (model.MIFinstances = [scenarioInOut name vsO vsI smpO smpI oldO oldI] →
      ∃ b ib first phaseA phaseB,
        ib = (env.CKTmkCur tr name (ibranchSuffix 0 0)).2 ∧
        first = branchRequests name (ibranchSuffix 0 0) smpI.pos_node smpI.neg_node ib ∧
        b = (env.CKTmkCur (tr ++ first) name (branchSuffix 1 0)).2 ∧
        phaseA = first ++
          branchRequests name (branchSuffix 1 0) smpO.pos_node smpO.neg_node b ∧
        phaseB = [Request.makeElt b ib] ∧
        (MIFsetup_phaseA env (scenarioInOut name vsO vsI smpO smpI oldO states) tr).2 =
          tr ++ phaseA ∧
        tr1 = tr ++ phaseA ++ phaseB ∧
        (phaseA.filter Request.isBranchEquation).length = 2 ∧
        (phaseA.filter Request.isMatrixEntry).length = 8 ∧
        (phaseB.filter Request.isBranchEquation).length = 0 ∧
        (phaseB.filter Request.isMatrixEntry).length = 1) := by
  constructor
  · intro hinst
    obtain ⟨here1, hi⟩ := MIFsetup_single_instance env info model _ states tr tr1 r hinst h
    have hst : (MIFsetup_states (scenarioOutIn name vsO vsI smpO smpI oldO oldI) states).1 =
        scenarioOutIn name vsO vsI smpO smpI oldO states := rfl
    rw [hst] at hi
    obtain ⟨b, ib, first, hb, hf, hib, hA, ht⟩ :=
      MIFsetup_scenarioOutIn env name vsO vsI smpO smpI oldO states here1 tr tr1 hi
    subst hf
    exact ⟨b, ib, _, _, _, hb, rfl, hib, rfl, rfl, hA, ht, rfl, rfl, rfl, rfl⟩
  · intro hinst
    obtain ⟨here1, hi⟩ := MIFsetup_single_instance env info model _ states tr tr1 r hinst h
    have hst : (MIFsetup_states (scenarioInOut name vsO vsI smpO smpI oldO oldI) states).1 =
        scenarioInOut name vsO vsI smpO smpI oldO states := rfl
    rw [hst] at hi
    obtain ⟨b, ib, first, hib, hf, hb, hA, ht⟩ :=
      MIFsetup_scenarioInOut env name vsO vsI smpO smpI oldO states here1 tr tr1 hi
    subst hf
    exact ⟨b, ib, _, _, _, hib, rfl, hb, rfl, rfl, hA, ht, rfl, rfl, rfl, rfl⟩

/-- Witness of C25: the setup of the example model, whose instance `a1` has the
voltage output on nodes 1 and 2 and the current input on nodes 3 and 4; the
allocator numbers the two branch equations 100 and 105. -/
theorem MIFsetup_scenario_four_witness :
    MIFsetup (exampleCollaborators 20) exampleParamInfo [exampleModel] 0 [] =
      (Except.ok ([⟨0, 0, [], [exampleInstanceAfter]⟩], 1), exampleRequests) ∧
    ∃ b ib first phaseA phaseB,
      b = ((exampleCollaborators 20).CKTmkCur [] "a1".toList (branchSuffix 0 0)).2 ∧
      first = branchRequests "a1".toList (branchSuffix 0 0) 1 2 b ∧
      ib = ((exampleCollaborators 20).CKTmkCur ([] ++ first) "a1".toList
        (ibranchSuffix 1 0)).2 ∧
      phaseA = first ++ branchRequests "a1".toList (ibranchSuffix 1 0) 3 4 ib ∧
      phaseB = [Request.makeElt b ib] ∧
      (MIFsetup_phaseA (exampleCollaborators 20)
          (scenarioOutIn "a1".toList [] [] ⟨1, 2, 0, 0⟩ ⟨3, 4, 0, 0⟩ 0 0) []).2 =
        [] ++ phaseA ∧
      exampleRequests = [] ++ phaseA ++ phaseB ∧
      (phaseA.filter Request.isBranchEquation).length = 2 ∧
      (phaseA.filter Request.isMatrixEntry).length = 8 ∧
      (phaseB.filter Request.isBranchEquation).length = 0 ∧
      (phaseB.filter Request.isMatrixEntry).length = 1 :=
  ⟨exampleModel_setup,
    (MIFsetup_scenario_four (exampleCollaborators 20) exampleParamInfo exampleModel
      "a1".toList [] [] ⟨1, 2, 0, 0⟩ ⟨3, 4, 0, 0⟩ 0 0 0 [] exampleRequests
      ([⟨0, 0, [], [exampleInstanceAfter]⟩], 1) exampleModel_setup).1 (by rfl)⟩

/-! ### Keyword matching (IPC.c) -/

theorem kw_match_iff_take (keyword str : List Char) (hk : Char.ofNat 0 ∉ keyword)
    (hs : Char.ofNat 0 ∉ str) :
    kw_match keyword str = true ↔ str.take keyword.length = keyword := by
  induction keyword generalizing str with
  | nil => simp [kw_match]
  | cons kc k ih =>
    have hkc : kc ≠ Char.ofNat 0 := fun h => hk (by simp [h])
    have hk2 : Char.ofNat 0 ∉ k := fun h => hk (List.mem_cons_of_mem _ h)
    cases str with
    | nil => simp [kw_match, hkc]
    | cons sc s =>
      have hsc : sc ≠ Char.ofNat 0 := fun h => hs (by simp [h])
      have hs2 : Char.ofNat 0 ∉ s := fun h => hs (List.mem_cons_of_mem _ h)
      simp only [kw_match, ne_eq, hsc, not_false_eq_true, hkc, and_self, if_true,
        List.length_cons, List.take_succ_cons, List.cons.injEq]
      by_cases hc : sc = kc
      · simp [hc, ih s hk2 hs2]
      · simp [hc]

/-- C31: for C strings `keyword` and `str`, `kw_match` returns true if and only if
`str` has at least as many characters as `keyword` and its first
`strlen(keyword)` characters are those of `keyword`, compared exactly; it returns
false when `str` is shorter than `keyword` (so for every proper prefix of it) and
true for the empty keyword. -/
theorem kw_match_spec (keyword str : List Char) (hk : Char.ofNat 0 ∉ keyword)
    (hs : Char.ofNat 0 ∉ str) :
    (kw_match keyword str = true ↔
      keyword.length ≤ str.length ∧ str.take keyword.length = keyword) ∧
    (str.length < keyword.length → kw_match keyword str = false) ∧
    (∀ rest, rest ≠ [] → keyword = str ++ rest → kw_match keyword str = false) ∧
    kw_match [] str = true := by
  have h := kw_match_iff_take keyword str hk hs
  have hlen : str.take keyword.length = keyword → keyword.length ≤ str.length := by
    intro e
    have := congrArg List.length e
    simp only [List.length_take] at this
    omega
  have hshort : str.length < keyword.length → kw_match keyword str = false := by
    intro hl
    cases hm : kw_match keyword str with
    | false => rfl
    | true =>
      have := hlen (h.1 hm)
      omega
  refine ⟨⟨fun hm => ⟨hlen (h.1 hm), h.1 hm⟩, fun hm => h.2 hm.2⟩, hshort, ?_, by
    simp [kw_match]⟩
  intro rest hr he
  apply hshort
  rw [he, List.length_append]
  have : 0 < rest.length := List.length_pos.mpr hr
  omega

/-- Witness of C31: the keyword `>ENDANAL` against a record that begins with it,
against a record that differs in case, and against the shorter text `>END`. -/
theorem kw_match_spec_witness :
    ((kw_match ">ENDANAL".toList ">ENDANAL 0.5".toList = true ↔
      ">ENDANAL".toList.length ≤ ">ENDANAL 0.5".toList.length ∧
        ">ENDANAL 0.5".toList.take ">ENDANAL".toList.length = ">ENDANAL".toList) ∧
    (">ENDANAL 0.5".toList.length < ">ENDANAL".toList.length →
      kw_match ">ENDANAL".toList ">ENDANAL 0.5".toList = false) ∧
    (∀ rest, rest ≠ [] → ">ENDANAL".toList = ">ENDANAL 0.5".toList ++ rest →
      kw_match ">ENDANAL".toList ">ENDANAL 0.5".toList = false) ∧
    kw_match [] ">ENDANAL 0.5".toList = true) ∧
    kw_match ">ENDANAL".toList ">ENDANAL 0.5".toList = true ∧
    kw_match ">ENDANAL".toList ">endanal 0.5".toList = false ∧
    kw_match ">ENDANAL".toList ">END".toList = false :=
  ⟨kw_match_spec ">ENDANAL".toList ">ENDANAL 0.5".toList (by decide) (by decide),
    by decide, by decide, by decide⟩

/-! ### The table of controlled sources over the nine port kinds -/

/-- C40: over the nine port kinds, `MIFget_cntl_src_type(in, out)` is the no-stamp
result if and only if `out` is the vsource-current kind; for every other output
kind every input kind gives one of the four controlled-source kinds; and
replacing the input kind or the output kind by its differential or single-ended
counterpart does not change the result. -/
theorem MIFget_cntl_src_type_families (i o : Mif_Port_Type_t) :
    (MIFget_cntl_src_type i o = none ↔ o = MIF_VSOURCE_CURRENT) ∧
    (o ≠ MIF_VSOURCE_CURRENT →
      MIFget_cntl_src_type i o = some MIF_VCVS ∨ MIFget_cntl_src_type i o = some MIF_VCIS ∨
      MIFget_cntl_src_type i o = some MIF_ICVS ∨ MIFget_cntl_src_type i o = some MIF_ICIS) ∧
    MIFget_cntl_src_type (specCounterpart i) o = MIFget_cntl_src_type i o ∧
    MIFget_cntl_src_type i (specCounterpart o) = MIFget_cntl_src_type i o ∧
    MIFget_cntl_src_type (specCounterpart i) (specCounterpart o) =
      MIFget_cntl_src_type i o := by
  cases i <;> cases o <;> decide

/-! ### The token type and the first character of the token -/

theorem tokenTypeOf_iff (tok : List Char) :
    (tokenTypeOf tok = MIF_LARRAY_TOK ↔ cur tok = '[') ∧
    (tokenTypeOf tok = MIF_RARRAY_TOK ↔ cur tok = ']') ∧
    (tokenTypeOf tok = MIF_LCOMPLEX_TOK ↔ cur tok = '<') ∧
    (tokenTypeOf tok = MIF_RCOMPLEX_TOK ↔ cur tok = '>') ∧
    (tokenTypeOf tok = MIF_PERCENT_TOK ↔ cur tok = '%') ∧
    (tokenTypeOf tok = MIF_TILDE_TOK ↔ cur tok = '~') ∧
    (isStructural (cur tok) = false →
      tokenTypeOf tok = MIF_STRING_TOK ∨ tokenTypeOf tok = MIF_NULL_TOK) := by
  unfold tokenTypeOf
  simp only [isStructural, Bool.or_eq_false_iff, decide_eq_false_iff_not]
  generalize cur tok = c
  split_ifs with h1 h2 h3 h4 h5 h6 h7 <;> subst_vars <;> simp_all

theorem MIFgettok_unquoted (s s1 tok : List Char) (h : MIFgettok s = (some tok, s1))
    (hq : cur (s.dropWhile isLayout) ≠ dquote) :
    (isStructural (cur tok) = true → tok = [cur tok]) ∧
      cur tok = cur (s.dropWhile isLayout) := by
  unfold MIFgettok at h
  split at h
  · simp at h
  · rename_i c r hd
    rw [hd] at hq
    have hlay : isLayout c = false := dropWhile_eq_cons_not isLayout s r c hd
    rw [hd]
    split_ifs at h with h0 hs hdq
    · simp at h
    · simp only [Prod.mk.injEq, Option.some.injEq] at h
      rw [← h.1]
      exact ⟨fun _ => rfl, rfl⟩
    · exact absurd (by simpa [cur] using hdq) hq
    · simp only [Prod.mk.injEq, Option.some.injEq] at h
      have hb : inBare c = true := inBare_of_not c h0 hlay (by simpa using hs)
      have ht : tok = c :: r.takeWhile inBare := by
        rw [← h.1, List.takeWhile_cons, if_pos hb]
      rw [ht]
      refine ⟨fun hst => ?_, rfl⟩
      simp only [cur, List.headD_cons] at hst
      rw [hst] at hs
      exact absurd rfl hs

theorem MIFgettok_quoted_content (s s1 tok r : List Char)
    (h : MIFgettok s = (some tok, s1)) (hd : s.dropWhile isLayout = dquote :: r) :
    tok = r.takeWhile inQuoted := by
  unfold MIFgettok at h
  rw [hd] at h
  have h0 : dquote ≠ Char.ofNat 0 := by decide
  have hs : isStructural dquote = false := by decide
  simp only [h0, if_false, hs, Bool.false_eq_true, if_true, Prod.mk.injEq,
    Option.some.injEq] at h
  exact h.1.symm

/-- C34 (amended): `MIFget_token` decides the type of a token by the first
character of the returned text: it reports array-open, array-close, complex-open,
complex-close, percent or tilde exactly when the text begins with `[`, `]`, `<`,
`>`, `%` or `~`, and string or null otherwise. For a token that is not a quoted
run the text begins with a structural character only when it is exactly that one
character. A quoted run returns its content, and is typed by the first character
of the content like any other text. -/
theorem MIFget_token_type_first_char (s s1 tok : List Char) (ty : Mif_Token_Type_t)
    (h : MIFget_token s = (some tok, ty, s1)) :
    ty = tokenTypeOf tok ∧
    (ty = MIF_LARRAY_TOK ↔ cur tok = '[') ∧
    (ty = MIF_RARRAY_TOK ↔ cur tok = ']') ∧
    (ty = MIF_LCOMPLEX_TOK ↔ cur tok = '<') ∧
    (ty = MIF_RCOMPLEX_TOK ↔ cur tok = '>') ∧
    (ty = MIF_PERCENT_TOK ↔ cur tok = '%') ∧
    (ty = MIF_TILDE_TOK ↔ cur tok = '~') ∧
    (isStructural (cur tok) = false → ty = MIF_STRING_TOK ∨ ty = MIF_NULL_TOK) ∧
    (cur (s.dropWhile isLayout) ≠ dquote → isStructural (cur tok) = true →
      tok = [cur tok]) ∧
    (∀ r, s.dropWhile isLayout = dquote :: r → tok = r.takeWhile inQuoted) := by
  obtain ⟨hg, hty⟩ := MIFget_token_some s s1 tok ty h
  obtain ⟨t1, t2, t3, t4, t5, t6, t7⟩ := tokenTypeOf_iff tok
  rw [hty]
  exact ⟨rfl, t1, t2, t3, t4, t5, t6, t7,
    fun hq => (MIFgettok_unquoted s s1 tok hg hq).1,
    fun r hd => MIFgettok_quoted_content s s1 tok r hg hd⟩

/-- C34 (counterexample): the quoted runs `"[a b]"` and `"<x"` are returned as the
texts `[a b]` and `<x`, which are not single characters, with the types
array-open and complex-open. -/
theorem MIFget_token_quoted_structural :
    MIFget_token [dquote, '[', 'a', ' ', 'b', ']', dquote] =
      (some "[a b]".toList, MIF_LARRAY_TOK, []) ∧
    MIFget_token [dquote, '<', 'x', dquote] = (some "<x".toList, MIF_LCOMPLEX_TOK, []) ∧
    "[a b]".toList ≠ ['['] ∧ "<x".toList ≠ ['<'] := by
  decide

/-- Witness of C34 (amended): the quoted run `"[a b]"` followed by a bare token. -/
theorem MIFget_token_type_first_char_witness :
    MIF_LARRAY_TOK = tokenTypeOf "[a b]".toList ∧
    (MIF_LARRAY_TOK = MIF_LARRAY_TOK ↔ cur "[a b]".toList = '[') ∧
    (MIF_LARRAY_TOK = MIF_RARRAY_TOK ↔ cur "[a b]".toList = ']') ∧
    (MIF_LARRAY_TOK = MIF_LCOMPLEX_TOK ↔ cur "[a b]".toList = '<') ∧
    (MIF_LARRAY_TOK = MIF_RCOMPLEX_TOK ↔ cur "[a b]".toList = '>') ∧
    (MIF_LARRAY_TOK = MIF_PERCENT_TOK ↔ cur "[a b]".toList = '%') ∧
    (MIF_LARRAY_TOK = MIF_TILDE_TOK ↔ cur "[a b]".toList = '~') ∧
    (isStructural (cur "[a b]".toList) = false →
      MIF_LARRAY_TOK = MIF_STRING_TOK ∨ MIF_LARRAY_TOK = MIF_NULL_TOK) ∧
    (cur ([dquote, '[', 'a', ' ', 'b', ']', dquote, ' ', 'c'].dropWhile isLayout) ≠ dquote →
      isStructural (cur "[a b]".toList) = true → "[a b]".toList = [cur "[a b]".toList]) ∧
    (∀ r, [dquote, '[', 'a', ' ', 'b', ']', dquote, ' ', 'c'].dropWhile isLayout =
      dquote :: r → "[a b]".toList = r.takeWhile inQuoted) :=
  MIFget_token_type_first_char [dquote, '[', 'a', ' ', 'b', ']', dquote, ' ', 'c'] ['c']
    "[a b]".toList MIF_LARRAY_TOK (by decide)

/-! ### The cursor only moves forward -/

theorem skipClosingQuote_suffix (s : List Char) : skipClosingQuote s <:+ s := by
  cases s with
  | nil => exact List.suffix_refl _
  | cons c r =>
    simp only [skipClosingQuote]
    split_ifs
    · exact List.suffix_cons c r
    · exact List.suffix_refl _

theorem MIFgettok_suffix (s s1 : List Char) (tok : Option (List Char))
    (h : MIFgettok s = (tok, s1)) : s1 <:+ s := by
  unfold MIFgettok at h
  split at h
  · simp only [Prod.mk.injEq] at h
    rw [← h.2]
    exact List.nil_suffix
  · rename_i c r hd
    have hsuf : c :: r <:+ s := hd ▸ List.dropWhile_suffix isLayout
    have hr : r <:+ s := (List.suffix_cons c r).trans hsuf
    split_ifs at h with h0 hs hq
    · simp only [Prod.mk.injEq] at h
      rw [← h.2]; exact hsuf
    · simp only [Prod.mk.injEq] at h
      rw [← h.2]
      exact (List.dropWhile_suffix isLayout).trans hr
    · simp only [Prod.mk.injEq] at h
      rw [← h.2]
      exact ((List.dropWhile_suffix isLayout).trans
        ((skipClosingQuote_suffix _).trans (List.dropWhile_suffix inQuoted))).trans hr
    · simp only [Prod.mk.injEq] at h
      rw [← h.2]
      exact ((List.dropWhile_suffix isLayout).trans (List.dropWhile_suffix inBare)).trans hsuf

theorem MIFgettok_none_cursor (s s1 : List Char) (h : MIFgettok s = (none, s1)) :
    cur s1 = Char.ofNat 0 ∧ (Char.ofNat 0 ∉ s → s1 = []) := by
  unfold MIFgettok at h
  split at h
  · simp only [Prod.mk.injEq, true_and] at h
    rw [← h]
    exact ⟨rfl, fun _ => rfl⟩
  · rename_i c r hd
    have hsuf : c :: r <:+ s := hd ▸ List.dropWhile_suffix isLayout
    split_ifs at h with h0 hs hq
    · simp only [Prod.mk.injEq, true_and] at h
      rw [← h]
      refine ⟨by simpa [cur] using h0, fun hn => ?_⟩
      exact absurd (hsuf.subset (by simp [h0])) hn
    · simp at h
    · simp at h
    · simp at h

theorem MIFget_token_none (s s1 : List Char) (ty : Mif_Token_Type_t)
    (h : MIFget_token s = (none, ty, s1)) : MIFgettok s = (none, s1) ∧ ty = MIF_NO_TOK := by
  unfold MIFget_token at h
  split at h
  · rename_i s2 heq
    simp only [Prod.mk.injEq, true_and] at h
    rw [← h.2, ← h.1]
    exact ⟨heq, rfl⟩
  · simp at h

theorem MIFget_token_no_tok (s s1 : List Char) (tok : Option (List Char))
    (h : MIFget_token s = (tok, MIF_NO_TOK, s1)) : tok = none := by
  cases tok with
  | none => rfl
  | some t =>
    have := (MIFget_token_some s s1 t MIF_NO_TOK h).2
    exact absurd this.symm (tokenTypeOf_ne_no_tok t)

theorem MIFgetValue_switch_message (ev : Evaluator) (t : IFvarType) (tok : List Char)
    (ty : Mif_Token_Type_t) (line line2 : List Char) (errno errno1 : Nat)
    (val val1 : IFvalue) (msg : String)
    (h : MIFgetValue_switch ev t tok ty line errno val = some (val1, some msg, line2, errno1)) :
    msg ∈ ["Bad boolean value", "Bad integer, octal, or hex value", "Bad real value",
      "Bad complex value"] := by
  have hb : ∀ m, (MIFget_boolean tok).2 = some m → m = "Bad boolean value" := by
    intro m hm
    unfold MIFget_boolean at hm
    split_ifs at hm
    simp at hm
    exact hm.symm
  have hi : ∀ m, (MIFget_integer ev errno tok).2.1 = some m →
      m = "Bad integer, octal, or hex value" := by
    intro m hm
    unfold MIFget_integer at hm
    rcases strtol errno tok with ⟨l, endp, e1⟩
    rcases ev tok with ⟨d, er⟩
    simp only at hm
    split_ifs at hm
    simp at hm
    exact hm.symm
  have hr : ∀ m, (MIFget_real ev tok).2 = some m → m = "Bad real value" := by
    intro m hm
    unfold MIFget_real at hm
    rcases ev tok with ⟨d, er⟩
    simp only at hm
    split_ifs at hm
    simp at hm
    exact hm.symm
  have hc : ∀ m, (MIFget_complex ev ty line).2.1 = some m → m = "Bad complex value" := by
    intro m hm
    unfold MIFget_complex at hm
    rcases MIFget_token line with ⟨tok1, ty1, l1⟩
    rcases MIFget_token l1 with ⟨tok2, ty2, l2⟩
    rcases MIFget_token l2 with ⟨tok3, ty3, l3⟩
    rcases ev (tok1.getD []) with ⟨d1, e1⟩
    rcases ev (tok2.getD []) with ⟨d2, e2⟩
    simp only at hm
    split_ifs at hm <;> simp at hm <;> exact hm.symm
  cases t <;> simp only [MIFgetValue_switch, Option.some.injEq, Prod.mk.injEq] at h
  case IF_FLAG => simp [hb msg h.2.1]
  case IF_FLAGVEC => simp [hb msg h.2.1]
  case IF_INTEGER => simp [hi msg h.2.1]
  case IF_INTVEC => simp [hi msg h.2.1]
  case IF_REAL => simp [hr msg h.2.1]
  case IF_REALVEC => simp [hr msg h.2.1]
  case IF_COMPLEX => simp [hc msg h.2.1]
  case IF_CPLXVEC => simp [hc msg h.2.1]
  case IF_STRING => simp [MIFget_string] at h
  case IF_STRINGVEC => simp [MIFget_string] at h
  case IF_OTHER => exact absurd h (by simp)

theorem MIFget_token_suffix (s s1 : List Char) (tok : Option (List Char))
    (ty : Mif_Token_Type_t) (h : MIFget_token s = (tok, ty, s1)) : s1 <:+ s := by
  cases tok with
  | none => exact MIFgettok_suffix s s1 none (MIFget_token_none s s1 ty h).1
  | some tk => exact MIFgettok_suffix s s1 (some tk) (MIFget_token_some s s1 tk ty h).1

theorem MIFget_complex_suffix (ev : Evaluator) (ty : Mif_Token_Type_t)
    (line : List Char) : (MIFget_complex ev ty line).2.2 <:+ line := by
  rcases h1 : MIFget_token line with ⟨tok1, ty1, l1⟩
  rcases h2 : MIFget_token l1 with ⟨tok2, ty2, l2⟩
  rcases h3 : MIFget_token l2 with ⟨tok3, ty3, l3⟩
  have g1 := MIFget_token_suffix line l1 tok1 ty1 h1
  have g2 := (MIFget_token_suffix l1 l2 tok2 ty2 h2).trans g1
  have g3 := (MIFget_token_suffix l2 l3 tok3 ty3 h3).trans g2
  unfold MIFget_complex
  simp only [h1, h2, h3]
  split_ifs <;> first | exact List.suffix_refl _ | exact g1 | exact g2 | exact g3

theorem MIFgetValue_loop_total (ev : Evaluator) (t : IFvarType) (fuel : Nat) :
    ∀ (line : List Char) (errno : Nat) (err : Option String) (val : IFvalue),
      line.length < fuel →
      ∃ r, MIFgetValue_loop ev t fuel line errno err val = some r ∧
        (r.ret = none → ∃ msg, r.err = some msg ∧
          msg ∈ ["Unexpected end of model card",
            "Array parameter must have at least one value",
            "Internal error - unexpected value type in MIFgetValue()",
            "Bad boolean value", "Bad integer, octal, or hex value", "Bad real value",
            "Bad complex value"]) ∧
        r.line <:+ line := by
  induction fuel with
  | zero => intro line _ _ _ h; omega
  | succ n ih =>
    intro line errno err val hfuel
    rw [MIFgetValue_loop]
    rcases hk : MIFget_token line with ⟨tok, ty, line1⟩
    have hsuf1 : line1 <:+ line := by
      cases tok with
      | none => exact MIFgettok_suffix line line1 none (MIFget_token_none line line1 ty hk).1
      | some tk =>
        exact MIFgettok_suffix line line1 (some tk) (MIFget_token_some line line1 tk ty hk).1
    simp only
    by_cases hno : ty = MIF_NO_TOK
    · rw [if_pos hno]
      exact ⟨_, rfl, fun _ => ⟨_, rfl, by simp⟩, hsuf1⟩
    · rw [if_neg hno]
      by_cases hend : t.is_array = true ∧ ty = MIF_RARRAY_TOK
      · rw [if_pos hend]
        by_cases hz : val.numValue = 0
        · rw [if_pos hz]
          exact ⟨_, rfl, fun _ => ⟨_, rfl, by simp⟩, hsuf1⟩
        · rw [if_neg hz]
          exact ⟨_, rfl, fun h => by simp at h, hsuf1⟩
      · rw [if_neg hend]
        rcases hsw : MIFgetValue_switch ev t (tok.getD []) ty line1 errno val with
          _ | ⟨val1, err1, line2, errno1⟩
        · exact ⟨_, rfl, fun _ => ⟨_, rfl, by simp⟩, hsuf1⟩
        · simp only
          have hl2 := MIFgetValue_switch_length_le ev t _ ty line1 line2 errno errno1 val val1
            err1 hsw
          have hsuf2 : line2 <:+ line1 := by
            have hc := MIFget_complex_suffix ev ty line1
            revert hsw
            cases t <;> simp only [MIFgetValue_switch, Option.some.injEq, Prod.mk.injEq,
              reduceCtorEq, false_implies] <;> intro hsw
            case IF_COMPLEX => rw [← hsw.2.2.1]; exact hc
            case IF_CPLXVEC => rw [← hsw.2.2.1]; exact hc
            all_goals exact hsw.2.2.1 ▸ List.suffix_refl _
          cases err1 with
          | some msg =>
            simp only [Option.isSome_some, if_true]
            refine ⟨_, rfl, fun _ => ⟨msg, rfl, ?_⟩, hsuf2.trans hsuf1⟩
            have := MIFgetValue_switch_message ev t _ ty line1 line2 errno errno1 val val1
              msg hsw
            simp only [List.mem_cons, List.mem_singleton, List.not_mem_nil, or_false] at this ⊢
            tauto
          | none =>
            simp only [Option.isSome_none, Bool.false_eq_true, if_false]
            by_cases ha : t.is_array = true
            · simp only [ha, Bool.not_true, Bool.false_eq_true, if_false]
              have htok : ∃ tk, tok = some tk := by
                cases tok with
                | none => exact absurd (MIFget_token_none line line1 ty hk).2 hno
                | some tk => exact ⟨tk, rfl⟩
              obtain ⟨tk, rfl⟩ := htok
              have hl1 := MIFget_token_length_lt line line1 tk ty hk
              obtain ⟨r, hr, hmsg, hpre⟩ := ih line2 errno1 none val1 (by omega)
              exact ⟨r, hr, hmsg, hpre.trans (hsuf2.trans hsuf1)⟩
            · have ha2 : t.is_array = false := by simpa using ha
              simp only [ha2, Bool.not_false, if_true]
              exact ⟨_, rfl, fun h => by simp at h, hsuf2.trans hsuf1⟩

/-- C37 (amended): a call of `MIFget_token` that returns a token leaves the cursor
at least one character further on; a call that returns no token has the no-token type and
leaves the cursor on the NUL that ends the input (at the end of the list for a
text without an embedded NUL); in both cases the new cursor is a final part of
the old text, so the cursor never moves backward. Hence `MIFgetValue` returns on
every text and for every kind: the fuel of one unit per character and one more
is never used up, and the result is a value, or NULL with the message of an
element parser, with "Unexpected end of model card", with "Array parameter must
have at least one value" when an array closes before any element, with "Array
parameter expected - No array delimiter found" when an array does not open, or
with the internal-error message for a kind the switch does not know. -/
theorem MIFget_token_progress (s : List Char) :
    (∀ tok ty s1, MIFget_token s = (some tok, ty, s1) →
      ∃ pre, pre ≠ [] ∧ s = pre ++ s1) ∧
    (∀ ty s1, MIFget_token s = (none, ty, s1) →
      ty = MIF_NO_TOK ∧ cur s1 = Char.ofNat 0 ∧ (Char.ofNat 0 ∉ s → s1 = []) ∧
        ∃ pre, s = pre ++ s1) ∧
    (∀ (ev : Evaluator) (val : IFvalue) (errno : Nat) (err : Option String)
        (t : IFvarType),
      ∃ r, MIFgetValue ev val errno err s t = some r ∧
        (r.ret = none → ∃ msg, r.err = some msg ∧
          msg ∈ ["Array parameter expected - No array delimiter found",
            "Unexpected end of model card",
            "Array parameter must have at least one value",
            "Internal error - unexpected value type in MIFgetValue()",
            "Bad boolean value", "Bad integer, octal, or hex value", "Bad real value",
            "Bad complex value"]) ∧
        ∃ pre, s = pre ++ r.line) := by
  refine ⟨?_, ?_, ?_⟩
  · intro tok ty s1 h
    obtain ⟨pre, hpre⟩ := MIFget_token_suffix s s1 (some tok) ty h
    have hlt := MIFget_token_length_lt s s1 tok ty h
    refine ⟨pre, ?_, hpre.symm⟩
    intro hnil
    rw [hnil, List.nil_append] at hpre
    rw [hpre] at hlt
    omega
  · intro ty s1 h
    obtain ⟨hg, hty⟩ := MIFget_token_none s s1 ty h
    obtain ⟨hc, hend⟩ := MIFgettok_none_cursor s s1 hg
    obtain ⟨pre, hpre⟩ := MIFget_token_suffix s s1 none ty h
    exact ⟨hty, hc, hend, pre, hpre.symm⟩
  · intro ev val errno err t
    unfold MIFgetValue
    by_cases ha : t.is_array = true
    · rw [if_pos ha]
      rcases hk : MIFget_token s with ⟨tok, ty, line1⟩
      obtain ⟨pre1, hpre1⟩ := MIFget_token_suffix s line1 tok ty hk
      simp only
      by_cases hty : ty = MIF_LARRAY_TOK
      · simp only [hty, ne_eq, not_true_eq_false, if_false]
        obtain ⟨r, hr, hmsg, pre, hpre⟩ := MIFgetValue_loop_total ev t (line1.length + 1)
          line1 errno err
          { val with numValue := 0, iVec := [], rVec := [], sVec := [], cVec := [] }
          (by omega)
        refine ⟨r, hr, fun hn => ?_, pre1 ++ pre, by rw [← hpre1, ← hpre, List.append_assoc]⟩
        obtain ⟨msg, hm1, hm2⟩ := hmsg hn
        exact ⟨msg, hm1, List.mem_cons_of_mem _ hm2⟩
      · simp only [ne_eq, hty, not_false_eq_true, if_true]
        exact ⟨_, rfl, fun _ => ⟨_, rfl, by simp⟩, pre1, hpre1.symm⟩
    · rw [if_neg ha]
      obtain ⟨r, hr, hmsg, pre, hpre⟩ := MIFgetValue_loop_total ev t (s.length + 1) s errno
        err val (by omega)
      refine ⟨r, hr, fun hn => ?_, pre, hpre.symm⟩
      obtain ⟨msg, hm1, hm2⟩ := hmsg hn
      exact ⟨msg, hm1, List.mem_cons_of_mem _ hm2⟩

/-! ### MIFmParam on failure -/

/-- C38 (counterexample): parameter 0 of a one-parameter model is declared with an
unsupported scalar kind. `MIFmParam` returns `E_BADPARM`, yet the slot, unset with
size 0 before the call, is marked explicitly set afterwards, with size 1 and one
fresh element. -/
theorem MIFmParam_not_atomic :
    MIFmParam 1 (fun _ _ => IF_OTHER false) 0 ⟨4, 0, [], ⟨0, 0⟩, 0, [], [], [], []⟩
        ⟨0, 1, [⟨true, 0, []⟩], []⟩ =
      (E_BADPARM, ⟨0, 1, [⟨false, 1, [Mif_Value_t.fresh]⟩], []⟩) ∧
    (⟨false, 1, [Mif_Value_t.fresh]⟩ : Mif_Param_Data_t) ≠ ⟨true, 0, []⟩ := by
  constructor
  · rfl
  · decide

/-- C38 (amended): when `MIFmParam` returns `E_BADPARM` for a model type or a
parameter index out of range, the model is the same as before the call. When it
returns `E_BADPARM` for a valid model type and index, the declared kind is not one
of the ten supported kinds, and the target slot has already been written: it is
marked explicitly set, with size 1 for a kind without the vector bit and the
element count of the value otherwise; every other slot and the rest of the model
are the same as before the call. -/
theorem MIFmParam_failure_frame (DEVmaxnum : Int) (dataType : Int → Nat → IFvarType)
    (param_index : Int) (value : IFvalue) (model m1 : MIFmodel)
    (h : MIFmParam DEVmaxnum dataType param_index value model = (E_BADPARM, m1)) :
    ((model.MIFmodType < 0 ∨ model.MIFmodType ≥ DEVmaxnum ∨ param_index < 0 ∨
        param_index ≥ model.num_param) → m1 = model) ∧
    (¬ (model.MIFmodType < 0 ∨ model.MIFmodType ≥ DEVmaxnum ∨ param_index < 0 ∨
        param_index ≥ model.num_param) →
      (∃ v, dataType model.MIFmodType param_index.toNat = IF_OTHER v) ∧
      (∀ slot, model.param[param_index.toNat]? = some slot →
        ∃ slot1, m1.param[param_index.toNat]? = some slot1 ∧ slot1.is_null = false ∧
          slot1.size = (if (dataType model.MIFmodType param_index.toNat).is_array then
            value.numValue else 1))) ∧
    (∀ k, k ≠ param_index.toNat → m1.param[k]? = model.param[k]?) ∧
    m1.param.length = model.param.length ∧ m1.num_param = model.num_param ∧
    m1.MIFmodType = model.MIFmodType ∧ m1.MIFinstances = model.MIFinstances := by
  by_cases hr : model.MIFmodType < 0 ∨ model.MIFmodType ≥ DEVmaxnum ∨ param_index < 0 ∨
      param_index ≥ model.num_param
  · have hb := MIFmParam_bad_index DEVmaxnum dataType param_index value model (by tauto)
    rw [hb] at h
    simp only [Prod.mk.injEq, true_and] at h
    subst h
    exact ⟨fun _ => rfl, fun hn => absurd hr hn, fun _ _ => rfl, rfl, rfl, rfl, rfl⟩
  · have hm : 0 ≤ model.MIFmodType ∧ model.MIFmodType < DEVmaxnum := by omega
    have hi : 0 ≤ param_index ∧ param_index < model.num_param := by omega
    generalize htd : dataType model.MIFmodType param_index.toNat = t
    have hkind : ∃ v, t = IF_OTHER v := by
      by_contra hne
      have ht : ∀ v, t ≠ IF_OTHER v := fun v hv => hne ⟨v, hv⟩
      cases ha : t.is_array with
      | true =>
        have hok := forEachIndex_ok (MIFmParam_vector t value) value.numValue 0
          (List.replicate value.numValue Mif_Value_t.fresh)
          (fun j a => MIFmParam_vector_ok t ht ha value j a)
        rcases hf : forEachIndex (MIFmParam_vector t value) value.numValue 0
          (List.replicate value.numValue Mif_Value_t.fresh) with ⟨ok, es⟩
        rw [hf] at hok
        simp only at hok
        subst hok
        rw [MIFmParam_array_eq DEVmaxnum dataType param_index value model hm hi t htd ha
          true es hf] at h
        simp at h
      | false =>
        have hs := (MIFmParam_scalar_element t ht ha value Mif_Value_t.fresh).1
        rcases hf : MIFmParam_scalar t value Mif_Value_t.fresh with ⟨ok, e⟩
        rw [hf] at hs
        simp only at hs
        subst hs
        rw [MIFmParam_scalar_eq DEVmaxnum dataType param_index value model hm hi t htd ha
          true e hf] at h
        simp at h
    have hm1 : ∃ es, m1 = { model with param := (updateAt model.param param_index.toNat
        (fun _ => ⟨false, if t.is_array then value.numValue else 1, es⟩)) } := by
      cases ha : t.is_array with
      | true =>
        rcases hf : forEachIndex (MIFmParam_vector t value) value.numValue 0
          (List.replicate value.numValue Mif_Value_t.fresh) with ⟨ok, es⟩
        rw [MIFmParam_array_eq DEVmaxnum dataType param_index value model hm hi t htd ha
          ok es hf] at h
        simp only [Prod.mk.injEq] at h
        exact ⟨es, by rw [← h.2]; rfl⟩
      | false =>
        rcases hf : MIFmParam_scalar t value Mif_Value_t.fresh with ⟨ok, e⟩
        rw [MIFmParam_scalar_eq DEVmaxnum dataType param_index value model hm hi t htd ha
          ok e hf] at h
        simp only [Prod.mk.injEq] at h
        exact ⟨[e], by rw [← h.2]; rfl⟩
    obtain ⟨es, rfl⟩ := hm1
    refine ⟨fun hn => absurd hn hr, fun _ => ⟨hkind, fun slot hslot => ?_⟩, ?_, ?_, rfl, rfl,
      rfl⟩
    · refine ⟨⟨false, if t.is_array then value.numValue else 1, es⟩, ?_, rfl, rfl⟩
      simp only [updateAt_getElem?_eq, hslot, Option.map_some']
    · intro k hk
      exact updateAt_getElem?_ne _ _ _ _ hk
    · exact updateAt_length _ _ _

/-- Witness of C38 (amended) on the call of the counterexample. -/
theorem MIFmParam_failure_frame_witness :
    (((0 : Int) < 0 ∨ (0 : Int) ≥ 1 ∨ (0 : Int) < 0 ∨ (0 : Int) ≥ (1 : Nat)) →
      (⟨0, 1, [⟨false, 1, [Mif_Value_t.fresh]⟩], []⟩ : MIFmodel) =
        ⟨0, 1, [⟨true, 0, []⟩], []⟩) ∧
    (¬ ((0 : Int) < 0 ∨ (0 : Int) ≥ 1 ∨ (0 : Int) < 0 ∨ (0 : Int) ≥ (1 : Nat)) →
      (∃ v, IF_OTHER false = IF_OTHER v) ∧
      (∀ slot, [(⟨true, 0, []⟩ : Mif_Param_Data_t)][(0 : Int).toNat]? = some slot →
        ∃ slot1, [(⟨false, 1, [Mif_Value_t.fresh]⟩ : Mif_Param_Data_t)][(0 : Int).toNat]? =
            some slot1 ∧ slot1.is_null = false ∧
          slot1.size = (if (IF_OTHER false).is_array then 0 else 1))) ∧
    (∀ k, k ≠ (0 : Int).toNat →
      [(⟨false, 1, [Mif_Value_t.fresh]⟩ : Mif_Param_Data_t)][k]? =
        [(⟨true, 0, []⟩ : Mif_Param_Data_t)][k]?) ∧
    [(⟨false, 1, [Mif_Value_t.fresh]⟩ : Mif_Param_Data_t)].length =
      [(⟨true, 0, []⟩ : Mif_Param_Data_t)].length ∧
    (1 : Nat) = 1 ∧ (0 : Int) = 0 ∧ ([] : List MIFinstance) = [] :=
  MIFmParam_failure_frame 1 (fun _ _ => IF_OTHER false) 0
    ⟨4, 0, [], ⟨0, 0⟩, 0, [], [], [], []⟩ ⟨0, 1, [⟨true, 0, []⟩], []⟩
    ⟨0, 1, [⟨false, 1, [Mif_Value_t.fresh]⟩], []⟩ (by rfl)

/-! ### The output buffer (IPC.c) -/

theorem poke_at_end {α : Type} (zero : α) (a : List α) (x : α) :
    poke zero a a.length x = a ++ [x] := by
  simp [poke]

theorem poke_getD {α : Type} (zero : α) (a : List α) (i : Nat) (x : α) :
    (poke zero a i x).getD i zero = x := by
  unfold poke
  split_ifs with h
  · simp [List.getD_eq_getElem?_getD, List.getElem?_set, h]
  · have hl : (a ++ List.replicate (i - a.length) zero).length = i := by
      simp only [List.length_append, List.length_replicate]
      omega
    rw [List.getD_eq_getElem?_getD, List.getElem?_append_right (by omega), hl]
    simp

theorem memcpy_at_end (dst src : List Char) (len : Nat) (h : len ≤ src.length) :
    memcpy dst dst.length src len = dst ++ src.take len := by
  unfold memcpy
  induction len with
  | zero => simp
  | succ n ih =>
    rw [List.range_succ, List.foldl_append, ih (by omega)]
    simp only [List.foldl_cons, List.foldl_nil]
    have hl : dst.length + n = (dst ++ src.take n).length := by
      simp only [List.length_append, List.length_take]
      omega
    rw [hl, poke_at_end, List.append_assoc, List.getD_eq_getElem?_getD,
      List.getElem?_eq_getElem (by omega), Option.getD_some, List.take_succ,
      List.getElem?_eq_getElem (by omega)]
    simp

theorem ipc_send_line_binary_append (transport : IpcBuffer → Ipc_Status_t) (b : IpcBuffer)
    (str : List Char) (len : Nat) (ho : b.out_buffer.length = b.fill_count)
    (he : b.end_of_record_index.length = b.num_records)
    (hroom : b.fill_count + (len + 1) < OUT_BUFFER_SIZE)
    (hrec : b.num_records < MAX_NUM_RECORDS) (hlen : len ≤ str.length) :
    ipc_send_line_binary transport b str len =
      (IPC_STATUS_OK,
        ⟨b.end_of_record_index ++ [b.fill_count + len + 1], b.num_records + 1,
          b.out_buffer ++ str.take len ++ ['\n'], b.fill_count + len + 1⟩) := by
  unfold ipc_send_line_binary
  have hc : ¬ (b.fill_count + (len + 1) ≥ OUT_BUFFER_SIZE ∨ b.num_records ≥ MAX_NUM_RECORDS) := by
    omega
  simp only [hc, if_false, ne_eq, not_true_eq_false]
  rw [← ho, memcpy_at_end _ _ _ hlen, ← he, poke_at_end]
  have hl : b.out_buffer.length + len = (b.out_buffer ++ str.take len).length := by
    simp only [List.length_append, List.length_take]
    omega
  rw [hl, poke_at_end]

theorem ipc_send_line_loop_two (transport : IpcBuffer → Ipc_Status_t) (str s : List Char)
    (fuel len : Nat) (status : Ipc_Status_t) (hf : 3 ≤ fuel) (h80 : 80 ≤ len)
    (h158 : len ≤ 158) (hs : len ≤ str.length) :
    ipc_send_line_loop transport str fuel s len status emptyBuffer =
      (IPC_STATUS_OK,
        ⟨[80, len + 2], 2, str.take 79 ++ ['\n'] ++ str.take (len - 79) ++ ['\n'],
          len + 2⟩) := by
  obtain ⟨f, rfl⟩ : ∃ f, fuel = f + 1 + 1 + 1 := ⟨fuel - 3, by omega⟩
  have h1 := ipc_send_line_binary_append transport emptyBuffer str 79 rfl rfl
    (by simp [emptyBuffer, OUT_BUFFER_SIZE]) (by simp [emptyBuffer, MAX_NUM_RECORDS])
    (by omega)
  have hl79 : (str.take 79).length = 79 := by
    rw [List.length_take]
    omega
  have h2 := ipc_send_line_binary_append transport
    ⟨[80], 1, str.take 79 ++ ['\n'], 80⟩ str (len - 79)
    (by simp [hl79]) rfl (by simp only [OUT_BUFFER_SIZE]; omega)
    (by simp [MAX_NUM_RECORDS]) (by omega)
  rw [ipc_send_line_loop]
  have hpos : len > 0 := by omega
  have hnlt : ¬ len < 80 := by omega
  simp only [hpos, if_true, hnlt, if_false, h1, ne_eq, not_true_eq_false]
  simp only [emptyBuffer, List.nil_append, Nat.zero_add, Nat.reduceAdd]
  rw [ipc_send_line_loop]
  have hpos2 : len - 79 > 0 := by omega
  have hlt2 : len - 79 < 80 := by omega
  simp only [hpos2, if_true, hlt2, h2, ne_eq, not_true_eq_false, if_false]
  rw [ipc_send_line_loop]
  have hz : ¬ (len - 79 - (len - 79) > 0) := by omega
  simp only [hz, if_false, List.singleton_append, Prod.mk.injEq, true_and]
  have he : 80 + (len - 79) + 1 = len + 2 := by omega
  rw [he]

theorem ipcRecords_two (r0 r1 : List Char) :
    ipcRecords ⟨[r0.length, r0.length + r1.length], 2, r0 ++ r1,
      r0.length + r1.length⟩ = [r0, r1] := by
  simp [ipcRecords, List.range_succ]

/-- C32 (the code at the failing inputs): for a text of 80 to 158 characters
`ipc_send_line`, called on the empty buffer, queues two records. Every pass of its
loop hands the start of the text to `ipc_send_line_binary`, so the payload of the
second record is the first `len - 79` characters of the text again, not the
characters from index 79 on. -/
theorem ipc_send_line_repeats_start (transport : IpcBuffer → Ipc_Status_t)
    (str : List Char) (h80 : 80 ≤ str.length) (h158 : str.length ≤ 158) :
    ∃ b, ipc_send_line transport emptyBuffer str = (IPC_STATUS_OK, b) ∧
      (ipcRecords b).map ipcPayload = [str.take 79, str.take (str.length - 79)] := by
  refine ⟨⟨[80, str.length + 2], 2,
    str.take 79 ++ ['\n'] ++ str.take (str.length - 79) ++ ['\n'], str.length + 2⟩, ?_, ?_⟩
  · unfold ipc_send_line
    have hnlt : ¬ str.length < 80 := by omega
    simp only [hnlt, if_false]
    exact ipc_send_line_loop_two transport str str str.length str.length IPC_STATUS_OK
      (by omega) h80 h158 (le_refl _)
  · have hl79 : (str.take 79).length = 79 := by
      rw [List.length_take]
      omega
    have hl2 : (str.take (str.length - 79)).length = str.length - 79 := by
      rw [List.length_take]
      omega
    have h := ipcRecords_two (str.take 79 ++ ['\n']) (str.take (str.length - 79) ++ ['\n'])
    simp only [List.length_append, hl79, hl2, List.length_singleton] at h
    have e1 : 79 + 1 + (str.length - 79 + 1) = str.length + 2 := by omega
    rw [e1] at h
    simp only [Nat.reduceAdd, ← List.append_assoc] at h
    rw [h]
    simp [ipcPayload]

/-- Witness of C32: the text of 79 letters `a` followed by the letter `b`. The two
payloads are the 79 letters `a` and one more `a`; put together they are not the
text, whose last letter is `b`. -/
theorem ipc_send_line_repeats_start_witness :
    (∃ b, ipc_send_line (fun _ => IPC_STATUS_OK) emptyBuffer
        (List.replicate 79 'a' ++ ['b']) = (IPC_STATUS_OK, b) ∧
      (ipcRecords b).map ipcPayload =
        [(List.replicate 79 'a' ++ ['b']).take 79,
          (List.replicate 79 'a' ++ ['b']).take
            ((List.replicate 79 'a' ++ ['b']).length - 79)]) ∧
    (List.replicate 79 'a' ++ ['b']).take 79 = List.replicate 79 'a' ∧
    (List.replicate 79 'a' ++ ['b']).take ((List.replicate 79 'a' ++ ['b']).length - 79) =
      ['a'] ∧
    List.replicate 79 'a' ++ ['a'] ≠ List.replicate 79 'a' ++ ['b'] :=
  ⟨ipc_send_line_repeats_start (fun _ => IPC_STATUS_OK) (List.replicate 79 'a' ++ ['b'])
      (by simp) (by simp),
    by simp, by simp, by simp⟩


/-- C33 (the code at the failing inputs): from any buffer, with a flush that
succeeds, `ipc_send_line_binary` keeps `fill_count` and
`num_records` within bounds when `len` is below `OUT_BUFFER_SIZE`. For a `len` of
`OUT_BUFFER_SIZE` or more the function flushes, cuts down its local `length` to
`OUT_BUFFER_SIZE`, and then copies `len` bytes all the same: the newline is
written at index `len`, past the end of `out_buffer`, and `fill_count` becomes
`len + 1`, which is more than `OUT_BUFFER_SIZE`. -/
theorem ipc_send_line_binary_bounds (transport : IpcBuffer → Ipc_Status_t)
    (b : IpcBuffer) (str : List Char) (len : Nat)
    (hflush : transport b = IPC_STATUS_OK) :
    (len < OUT_BUFFER_SIZE →
      (ipc_send_line_binary transport b str len).2.fill_count ≤ OUT_BUFFER_SIZE ∧
      (ipc_send_line_binary transport b str len).2.num_records ≤ MAX_NUM_RECORDS) ∧
    (OUT_BUFFER_SIZE ≤ len →
      (ipc_send_line_binary transport b str len).1 = IPC_STATUS_OK ∧
      ipc_send_line_binary_length 0 len = OUT_BUFFER_SIZE ∧
      (ipc_send_line_binary transport b str len).2.fill_count = len + 1 ∧
      OUT_BUFFER_SIZE < (ipc_send_line_binary transport b str len).2.fill_count ∧
      (ipc_send_line_binary transport b str len).2.out_buffer.getD len (Char.ofNat 0) =
        '\n') := by
  constructor
  · intro hlen
    unfold ipc_send_line_binary
    by_cases hc : b.fill_count + (len + 1) ≥ OUT_BUFFER_SIZE ∨ b.num_records ≥ MAX_NUM_RECORDS
    · simp only [hc, if_true, ipc_flush, hflush, ne_eq, not_true_eq_false, if_false]
      simp only [OUT_BUFFER_SIZE, MAX_NUM_RECORDS] at hlen ⊢
      omega
    · simp only [hc, if_false, ne_eq, not_true_eq_false]
      simp only [OUT_BUFFER_SIZE, MAX_NUM_RECORDS] at hc ⊢
      omega
  · intro hlen
    have hc : b.fill_count + (len + 1) ≥ OUT_BUFFER_SIZE ∨ b.num_records ≥ MAX_NUM_RECORDS :=
      Or.inl (by omega)
    have hl : ipc_send_line_binary_length 0 len = OUT_BUFFER_SIZE := by
      unfold ipc_send_line_binary_length
      rw [if_pos (by omega)]
      rfl
    unfold ipc_send_line_binary
    simp only [hc, if_true, ipc_flush, hflush, ne_eq, not_true_eq_false, if_false,
      Nat.zero_add, true_and]
    exact ⟨hl, by omega, poke_getD _ _ _ _⟩

/-- Witness of C33: a record of 1000 bytes sent while the buffer holds the one
record `hi`. -/
theorem ipc_send_line_binary_bounds_witness :
    (ipc_send_line_binary (fun _ => IPC_STATUS_OK) ⟨[3], 1, ['h', 'i', '\n'], 3⟩
        (List.replicate 1000 'x') 1000).1 = IPC_STATUS_OK ∧
    ipc_send_line_binary_length 0 1000 = OUT_BUFFER_SIZE ∧
    (ipc_send_line_binary (fun _ => IPC_STATUS_OK) ⟨[3], 1, ['h', 'i', '\n'], 3⟩
        (List.replicate 1000 'x') 1000).2.fill_count = 1000 + 1 ∧
    OUT_BUFFER_SIZE < (ipc_send_line_binary (fun _ => IPC_STATUS_OK)
        ⟨[3], 1, ['h', 'i', '\n'], 3⟩ (List.replicate 1000 'x') 1000).2.fill_count ∧
    (ipc_send_line_binary (fun _ => IPC_STATUS_OK) ⟨[3], 1, ['h', 'i', '\n'], 3⟩
        (List.replicate 1000 'x') 1000).2.out_buffer.getD 1000 (Char.ofNat 0) = '\n' :=
  (ipc_send_line_binary_bounds (fun _ => IPC_STATUS_OK) ⟨[3], 1, ['h', 'i', '\n'], 3⟩
    (List.replicate 1000 'x') 1000 rfl).2 (by decide)

/-! ### Arrays of booleans, integers and strings -/

theorem MIFgetValue_loop_elements (ev : Evaluator) (t : IFvarType)
    (ht : t.is_array = true) (line : List Char) (errno : Nat) (val : IFvalue)
    (lineK : List Char) (errnoK : Nat) (valK : IFvalue)
    (hp : ElementsParsed ev t line errno val lineK errnoK valK)
    (tokR : Option (List Char)) (line' : List Char)
    (hk : MIFget_token lineK = (tokR, MIF_RARRAY_TOK, line')) (hn : valK.numValue ≠ 0) :
    ∀ (fuel : Nat), line.length < fuel →
      MIFgetValue_loop ev t fuel line errno none val =
        some ⟨some valK, none, line', errnoK⟩ := by
  induction hp with
  | done line errno val =>
    intro fuel hfuel
    obtain ⟨n, rfl⟩ : ∃ n, fuel = n + 1 := ⟨fuel - 1, by omega⟩
    rw [MIFgetValue_loop]
    simp [hk, ht, hn]
  | next line errno val tok' ty' line1' val1 line2' errno1 lineK errnoK valK h1 h2 h3 _ ih =>
    intro fuel hfuel
    obtain ⟨n, rfl⟩ : ∃ n, fuel = n + 1 := ⟨fuel - 1, by omega⟩
    have hno : ty' ≠ MIF_NO_TOK := by
      rw [(MIFget_token_some line line1' tok' ty' h1).2]
      exact tokenTypeOf_ne_no_tok tok'
    have hl1 := MIFget_token_length_lt line line1' tok' ty' h1
    have hl2 := MIFgetValue_switch_length_le ev t tok' ty' line1' line2' errno errno1 val val1
      none h3
    rw [MIFgetValue_loop]
    simp only [h1, hno, h2, and_false, if_false, Option.getD_some, h3, ht]
    simp only [Option.isSome_none, Bool.false_eq_true, if_false, Bool.not_true]
    exact ih hk hn n (by omega)

theorem MIFgetValue_loop_first (ev : Evaluator) (t : IFvarType)
    (ht : t.is_array = true) (line : List Char) (errno : Nat) (val : IFvalue)
    (hv : val.numValue = 0)
    (lineK : List Char) (errnoK : Nat) (valK : IFvalue)
    (hp : ElementsParsed ev t line errno val lineK errnoK valK)
    (tokR : Option (List Char)) (line' : List Char)
    (hk : MIFget_token lineK = (tokR, MIF_RARRAY_TOK, line')) (hn : valK.numValue ≠ 0)
    (fuel : Nat) (err : Option String) (hfuel : line.length < fuel) :
    MIFgetValue_loop ev t fuel line errno err val =
      some ⟨some valK, none, line', errnoK⟩ := by
  cases hp with
  | done => exact absurd hv hn
  | next _ _ _ tok' ty' line1' val1 line2' errno1 _ _ _ h1 h2 h3 hrest =>
    obtain ⟨n, rfl⟩ : ∃ n, fuel = n + 1 := ⟨fuel - 1, by omega⟩
    have hno : ty' ≠ MIF_NO_TOK := by
      rw [(MIFget_token_some line line1' tok' ty' h1).2]
      exact tokenTypeOf_ne_no_tok tok'
    have hl1 := MIFget_token_length_lt line line1' tok' ty' h1
    have hl2 := MIFgetValue_switch_length_le ev t tok' ty' line1' line2' errno errno1 val val1
      none h3
    rw [MIFgetValue_loop]
    simp only [h1, hno, h2, and_false, if_false, Option.getD_some, h3, ht]
    simp only [Option.isSome_none, Bool.false_eq_true, if_false, Bool.not_true]
    exact MIFgetValue_loop_elements ev t ht line2' errno1 val1 lineK errnoK valK hrest tokR
      line' hk hn n (by omega)

theorem elementsParsed_booleans (ev : Evaluator) (line lineK : List Char)
    (toks : List (List Char)) (hr : TokenRun line toks lineK) :
    ∀ (errno : Nat) (val : IFvalue), (∀ tok ∈ toks, (MIFget_boolean tok).2 = none) →
      ElementsParsed ev IF_FLAGVEC line errno val lineK errno
        { val with iVec := val.iVec ++ toks.map (fun tok => (MIFget_boolean tok).1),
                   numValue := val.numValue + toks.length } := by
  induction hr with
  | done line =>
    intro errno val _
    simpa using ElementsParsed.done line errno val
  | next line tok ty line1 toks lineK h1 h2 _ ih =>
    intro errno val hb
    rcases hg : MIFget_boolean tok with ⟨b, e⟩
    have he : e = none := by
      have := hb tok (List.mem_cons_self _ _)
      rw [hg] at this
      exact this
    subst he
    have := ih errno { val with iVec := val.iVec ++ [b], numValue := val.numValue + 1 }
      (fun t ht => hb t (List.mem_cons_of_mem _ ht))
    refine ElementsParsed.next line errno val tok ty line1
      { val with iVec := val.iVec ++ [b], numValue := val.numValue + 1 } line1 errno _ _ _
      h1 h2 ?_ ?_
    · simp [MIFgetValue_switch, hg]
    · simpa [hg, List.append_assoc, Nat.add_assoc, Nat.add_comm 1] using this

theorem elementsParsed_integers (ev : Evaluator) (line lineK : List Char)
    (toks : List (List Char)) (hr : TokenRun line toks lineK) :
    ∀ (val : IFvalue), (∀ tok ∈ toks, (MIFget_integer ev 0 tok).2 = (none, 0)) →
      ElementsParsed ev IF_INTVEC line 0 val lineK 0
        { val with iVec := val.iVec ++ toks.map (fun tok => (MIFget_integer ev 0 tok).1),
                   numValue := val.numValue + toks.length } := by
  induction hr with
  | done line =>
    intro val _
    simpa using ElementsParsed.done line 0 val
  | next line tok ty line1 toks lineK h1 h2 _ ih =>
    intro val hb
    rcases hg : MIFget_integer ev 0 tok with ⟨i, e, errno1⟩
    have he : e = none ∧ errno1 = 0 := by
      have := hb tok (List.mem_cons_self _ _)
      rw [hg] at this
      simpa using this
    obtain ⟨rfl, rfl⟩ := he
    have := ih { val with iVec := val.iVec ++ [i], numValue := val.numValue + 1 }
      (fun t ht => hb t (List.mem_cons_of_mem _ ht))
    refine ElementsParsed.next line 0 val tok ty line1
      { val with iVec := val.iVec ++ [i], numValue := val.numValue + 1 } line1 0 _ _ _
      h1 h2 ?_ ?_
    · simp [MIFgetValue_switch, hg]
    · simpa [hg, List.append_assoc, Nat.add_assoc, Nat.add_comm 1] using this

theorem elementsParsed_strings (ev : Evaluator) (line lineK : List Char)
    (toks : List (List Char)) (hr : TokenRun line toks lineK) :
    ∀ (errno : Nat) (val : IFvalue),
      ElementsParsed ev IF_STRINGVEC line errno val lineK errno
        { val with sVec := val.sVec ++ toks, numValue := val.numValue + toks.length } := by
  induction hr with
  | done line =>
    intro errno val
    simpa using ElementsParsed.done line errno val
  | next line tok ty line1 toks lineK h1 h2 _ ih =>
    intro errno val
    have := ih errno { val with sVec := val.sVec ++ [tok], numValue := val.numValue + 1 }
    refine ElementsParsed.next line errno val tok ty line1
      { val with sVec := val.sVec ++ [tok], numValue := val.numValue + 1 } line1 errno _ _ _
      h1 h2 ?_ ?_
    · simp [MIFgetValue_switch, MIFget_string]
    · simpa [List.append_assoc, Nat.add_assoc, Nat.add_comm 1] using this

theorem MIFget_token_open (text body : List Char)
    (h : text.dropWhile isLayout = '[' :: body) :
    MIFget_token text = (some ['['], MIF_LARRAY_TOK, body.dropWhile isLayout) := by
  have hs : isStructural '[' = true := by decide
  have h0 : ('[' : Char) ≠ Char.ofNat 0 := by decide
  have ht : tokenTypeOf ['['] = MIF_LARRAY_TOK := by decide
  simp [MIFget_token, MIFgettok, h, hs, h0, ht]

theorem MIFget_token_close (text rest : List Char)
    (h : text.dropWhile isLayout = ']' :: rest) :
    MIFget_token text = (some [']'], MIF_RARRAY_TOK, rest.dropWhile isLayout) := by
  have hs : isStructural ']' = true := by decide
  have h0 : (']' : Char) ≠ Char.ofNat 0 := by decide
  have ht : tokenTypeOf [']'] = MIF_RARRAY_TOK := by decide
  simp [MIFget_token, MIFgettok, h, hs, h0, ht]

theorem MIFgetValue_array_of_elements (ev : Evaluator) (val : IFvalue) (errno : Nat)
    (err : Option String) (text body lineK rest : List Char) (t : IFvarType)
    (ht : t.is_array = true) (errnoK : Nat) (valK : IFvalue)
    (hopen : text.dropWhile isLayout = '[' :: body)
    (hp : ElementsParsed ev t (body.dropWhile isLayout) errno
      { val with numValue := 0, iVec := [], rVec := [], sVec := [], cVec := [] }
      lineK errnoK valK)
    (hn : valK.numValue ≠ 0)
    (hclose : lineK.dropWhile isLayout = ']' :: rest) :
    MIFgetValue ev val errno err text t =
      some ⟨some valK, none, rest.dropWhile isLayout, errnoK⟩ := by
  unfold MIFgetValue
  simp only [ht, if_true, MIFget_token_open text body hopen, ne_eq, not_true_eq_false,
    if_false]
  exact MIFgetValue_loop_first ev t ht _ errno _ rfl lineK errnoK valK hp _ _
    (MIFget_token_close lineK rest hclose) hn _ err (by omega)

/-- C36 (amended): a text consists of `[`, then `n ≥ 1` tokens none of which is
typed as the array-close token (the text of none begins with `]`), then `]`. For
the boolean and the integer array kind, when every token parses on its own as an
element, and for the string array kind, `MIFgetValue` returns a value with
element count `n` whose element `k` is the parse of token `k` on its own, in
input order (for the string kind the token text itself), reports no error, and
leaves the cursor after the closing `]` and the layout that follows it. For the
integer kind this is stated for a read that `errno` is clear before and that
every token leaves clear. -/
theorem MIFgetValue_array_elements (ev : Evaluator) (val : IFvalue) (errno : Nat)
    (err : Option String) (text body lineK rest : List Char) (toks : List (List Char))
    (hopen : text.dropWhile isLayout = '[' :: body)
    (hrun : TokenRun (body.dropWhile isLayout) toks lineK) (hne : toks ≠ [])
    (hclose : lineK.dropWhile isLayout = ']' :: rest) :
    ((∀ tok ∈ toks, (MIFget_boolean tok).2 = none) →
      MIFgetValue ev val errno err text IF_FLAGVEC =
        some ⟨some ⟨val.iValue, val.rValue, val.sValue, val.cValue, toks.length,
          toks.map (fun tok => (MIFget_boolean tok).1), [], [], []⟩, none,
          rest.dropWhile isLayout, errno⟩) ∧
    ((∀ tok ∈ toks, (MIFget_integer ev 0 tok).2 = (none, 0)) →
      MIFgetValue ev val 0 err text IF_INTVEC =
        some ⟨some ⟨val.iValue, val.rValue, val.sValue, val.cValue, toks.length,
          toks.map (fun tok => (MIFget_integer ev 0 tok).1), [], [], []⟩, none,
          rest.dropWhile isLayout, 0⟩) ∧
    MIFgetValue ev val errno err text IF_STRINGVEC =
      some ⟨some ⟨val.iValue, val.rValue, val.sValue, val.cValue, toks.length, [], [], toks,
        []⟩, none, rest.dropWhile isLayout, errno⟩ := by
  have hlen : toks.length ≠ 0 := fun h => hne (List.length_eq_zero.mp h)
  refine ⟨fun hb => ?_, fun hi => ?_, ?_⟩
  · have hp := elementsParsed_booleans ev _ lineK toks hrun errno
      { val with numValue := 0, iVec := [], rVec := [], sVec := [], cVec := [] } hb
    have := MIFgetValue_array_of_elements ev val errno err text body lineK rest IF_FLAGVEC
      rfl errno _ hopen hp (by simpa using hlen) hclose
    simpa using this
  · have hp := elementsParsed_integers ev _ lineK toks hrun
      { val with numValue := 0, iVec := [], rVec := [], sVec := [], cVec := [] } hi
    have := MIFgetValue_array_of_elements ev val 0 err text body lineK rest IF_INTVEC
      rfl 0 _ hopen hp (by simpa using hlen) hclose
    simpa using this
  · have hp := elementsParsed_strings ev _ lineK toks hrun errno
      { val with numValue := 0, iVec := [], rVec := [], sVec := [], cVec := [] }
    have := MIFgetValue_array_of_elements ev val errno err text body lineK rest IF_STRINGVEC
      rfl errno _ hopen hp (by simpa using hlen) hclose
    simpa using this

/-- C36 (counterexample): the quoted token `"]x"` read on its own as a string gives
the text `]x`; as the only element of a string array, `[ "]x" ]`, it is typed as
the array-close token and `MIFgetValue` returns NULL with the message that the
array has no value. -/
theorem MIFgetValue_array_close_element :
    MIFget_token [dquote, ']', 'x', dquote, ' ', ']'] =
      (some "]x".toList, MIF_RARRAY_TOK, [']']) ∧
    MIFgetValue (fun _ => (0, 1)) ⟨0, 0, [], ⟨0, 0⟩, 0, [], [], [], []⟩ 0 none
        [dquote, ']', 'x', dquote] IF_STRING =
      some ⟨some ⟨0, 0, "]x".toList, ⟨0, 0⟩, 0, [], [], [], []⟩, none, [], 0⟩ ∧
    MIFgetValue (fun _ => (0, 1)) ⟨0, 0, [], ⟨0, 0⟩, 0, [], [], [], []⟩ 0 none
        ['[', ' ', dquote, ']', 'x', dquote, ' ', ']'] IF_STRINGVEC =
      some ⟨none, some "Array parameter must have at least one value", [']'], 0⟩ := by
  have h1 : MIFget_token [dquote, ']', 'x', dquote, ' ', ']'] =
      (some "]x".toList, MIF_RARRAY_TOK, [']']) := by decide
  have h2 : MIFget_token [dquote, ']', 'x', dquote] =
      (some "]x".toList, MIF_RARRAY_TOK, []) := by decide
  have h3 : MIFget_token ['[', ' ', dquote, ']', 'x', dquote, ' ', ']'] =
      (some ['['], MIF_LARRAY_TOK, [dquote, ']', 'x', dquote, ' ', ']']) := by decide
  refine ⟨h1, ?_, ?_⟩
  · unfold MIFgetValue
    simp only [IFvarType.is_array, Bool.false_eq_true, if_false]
    rw [MIFgetValue_loop]
    simp [h2, MIFgetValue_switch, MIFget_string, IFvarType.is_array]
  · unfold MIFgetValue
    simp only [IFvarType.is_array, if_true, h3, ne_eq, not_true_eq_false, if_false]
    rw [MIFgetValue_loop]
    simp [h1, IFvarType.is_array]

/-- Witness of C36 (amended): the text `[ t f ]`, whose two tokens are booleans,
read as a boolean array and as a string array, and the text `[ 7 0x1F ]`, whose
two tokens are integers, read as an integer array. -/
theorem MIFgetValue_array_elements_witness :
    (MIFgetValue exampleEvaluator ⟨0, 0, [], ⟨0, 0⟩, 0, [], [], [], []⟩ 0 none
          "[ t f ]".toList IF_FLAGVEC =
        some ⟨some ⟨0, 0, [], ⟨0, 0⟩, ["t".toList, "f".toList].length,
          ["t".toList, "f".toList].map (fun tok => (MIFget_boolean tok).1), [], [], []⟩,
          none, ([] : List Char).dropWhile isLayout, 0⟩ ∧
      MIFgetValue exampleEvaluator ⟨0, 0, [], ⟨0, 0⟩, 0, [], [], [], []⟩ 0 none
          "[ t f ]".toList IF_STRINGVEC =
        some ⟨some ⟨0, 0, [], ⟨0, 0⟩, ["t".toList, "f".toList].length, [], [],
          ["t".toList, "f".toList], []⟩, none, ([] : List Char).dropWhile isLayout, 0⟩) ∧
    MIFgetValue exampleEvaluator ⟨0, 0, [], ⟨0, 0⟩, 0, [], [], [], []⟩ 0 none
        "[ 7 0x1F ]".toList IF_INTVEC =
      some ⟨some ⟨0, 0, [], ⟨0, 0⟩, ["7".toList, "0x1F".toList].length,
        ["7".toList, "0x1F".toList].map (fun tok => (MIFget_integer exampleEvaluator 0 tok).1),
        [], [], []⟩, none, ([] : List Char).dropWhile isLayout, 0⟩ :=
  ⟨⟨(MIFgetValue_array_elements exampleEvaluator ⟨0, 0, [], ⟨0, 0⟩, 0, [], [], [], []⟩ 0 none
      "[ t f ]".toList " t f ]".toList "]".toList [] ["t".toList, "f".toList] (by decide)
      (TokenRun.next _ "t".toList MIF_STRING_TOK "f ]".toList _ _ (by decide) (by decide)
        (TokenRun.next _ "f".toList MIF_STRING_TOK "]".toList _ _ (by decide) (by decide)
          (TokenRun.done _)))
      (by decide) (by decide)).1 (by decide),
    (MIFgetValue_array_elements exampleEvaluator ⟨0, 0, [], ⟨0, 0⟩, 0, [], [], [], []⟩ 0 none
      "[ t f ]".toList " t f ]".toList "]".toList [] ["t".toList, "f".toList] (by decide)
      (TokenRun.next _ "t".toList MIF_STRING_TOK "f ]".toList _ _ (by decide) (by decide)
        (TokenRun.next _ "f".toList MIF_STRING_TOK "]".toList _ _ (by decide) (by decide)
          (TokenRun.done _)))
      (by decide) (by decide)).2.2⟩,
    (MIFgetValue_array_elements exampleEvaluator ⟨0, 0, [], ⟨0, 0⟩, 0, [], [], [], []⟩ 0 none
      "[ 7 0x1F ]".toList " 7 0x1F ]".toList "]".toList [] ["7".toList, "0x1F".toList]
      (by decide)
      (TokenRun.next _ "7".toList MIF_STRING_TOK "0x1F ]".toList _ _ (by decide) (by decide)
        (TokenRun.next _ "0x1F".toList MIF_STRING_TOK "]".toList _ _ (by decide) (by decide)
          (TokenRun.done _)))
      (by decide) (by decide)).2.1 (by decide)⟩

/-! ### Places in the state vector -/

theorem stateRange_append (start : Int) (a b : Nat) :
    stateRange start (a + b) = stateRange start a ++ stateRange (start + a) b := by
  unfold stateRange
  rw [List.range_add, List.map_append, List.map_map]
  congr 1
  apply List.map_congr_left
  intro k _
  simp only [Function.comp_apply, Nat.cast_add]
  ring

theorem stateRange_nodup (start : Int) (n : Nat) : (stateRange start n).Nodup := by
  unfold stateRange
  refine List.Nodup.map ?_ (List.nodup_range n)
  intro x y h
  simpa using h

theorem forEachIndexS_eq_mapThread {σ α : Type} (step : Nat → α → σ → α × σ)
    (l : List α) : ∀ (pre : List α) (s : σ),
      forEachIndexS step l.length pre.length (pre ++ l) s =
        (pre ++ (mapThread step pre.length l s).1, (mapThread step pre.length l s).2) := by
  induction l with
  | nil => intro pre s; simp [forEachIndexS, mapThread]
  | cons a t ih =>
    intro pre s
    rw [List.length_cons, forEachIndexS]
    have hget : (pre ++ a :: t)[pre.length]? = some a := by
      rw [List.getElem?_append_right (le_refl _)]
      simp
    rw [hget]
    simp only
    rcases hs : step pre.length a s with ⟨a1, s1⟩
    simp only
    have hset : (pre ++ a :: t).set pre.length a1 = (pre ++ [a1]) ++ t := by
      rw [List.set_append_right _ _ (le_refl _)]
      simp
    rw [hset]
    have := ih (pre ++ [a1]) s1
    simp only [List.length_append, List.length_singleton] at this
    rw [this, mapThread, hs]
    simp

theorem forEachIndexS_all {σ α : Type} (step : Nat → α → σ → α × σ) (l : List α) (s : σ)
    (n : Nat) (hn : n = l.length) :
    forEachIndexS step n 0 l s = mapThread step 0 l s := by
  have := forEachIndexS_eq_mapThread step l [] s
  simp only [List.length_nil, List.nil_append] at this
  rw [hn, this]

theorem stateRange_succ (start : Int) (n : Nat) :
    stateRange start (n + 1) = start :: stateRange (start + 1) n := by
  rw [Nat.add_comm, stateRange_append]
  simp [stateRange, List.range_succ]

theorem mapThread_ports (ports : List Mif_Port_Data_t) : ∀ (i : Nat) (st : Int),
    (mapThread (fun _ (port : Mif_Port_Data_t) (st1 : Int) =>
        ({ port with old_input := st1 }, st1 + 1)) i ports st).2 = st + ports.length ∧
      ((mapThread (fun _ (port : Mif_Port_Data_t) (st1 : Int) =>
        ({ port with old_input := st1 }, st1 + 1)) i ports st).1.map
          (fun p => p.old_input)) = stateRange st ports.length := by
  induction ports with
  | nil => intro i st; simp [mapThread, stateRange]
  | cons p t ih =>
    intro i st
    obtain ⟨h1, h2⟩ := ih (i + 1) (st + 1)
    rw [mapThread]
    simp only [List.length_cons, List.map_cons, h1, h2, stateRange_succ, Nat.cast_add,
      Nat.cast_one, and_true]
    ring

theorem mapThread_conns (cs : List Mif_Conn_Data_t)
    (hwf : ∀ c ∈ cs, c.size = c.port.length) : ∀ (i : Nat) (st : Int),
    (mapThread (fun _ (conn : Mif_Conn_Data_t) (st : Int) =>
        if conn.is_null || !conn.is_input then (conn, st)
        else
          match forEachIndexS (fun _ (port : Mif_Port_Data_t) (st1 : Int) =>
              ({ port with old_input := st1 }, st1 + 1)) conn.size 0 conn.port st with
          | (ports, st2) => ({ conn with port := ports }, st2)) i cs st).2 =
      st + (((cs.filter (fun c => !c.is_null && c.is_input)).map
        (fun c => c.size)).sum : Nat) ∧
    ((mapThread (fun _ (conn : Mif_Conn_Data_t) (st : Int) =>
        if conn.is_null || !conn.is_input then (conn, st)
        else
          match forEachIndexS (fun _ (port : Mif_Port_Data_t) (st1 : Int) =>
              ({ port with old_input := st1 }, st1 + 1)) conn.size 0 conn.port st with
          | (ports, st2) => ({ conn with port := ports }, st2)) i cs st).1.filter
        (fun c => !c.is_null && c.is_input)).flatMap
          (fun c => c.port.map (fun p => p.old_input)) =
      stateRange st ((cs.filter (fun c => !c.is_null && c.is_input)).map
        (fun c => c.size)).sum := by
  induction cs with
  | nil => intro i st; simp [mapThread, stateRange]
  | cons c t ih =>
    intro i st
    have hc := hwf c (List.mem_cons_self _ _)
    have ht : ∀ c ∈ t, c.size = c.port.length := fun x hx => hwf x (List.mem_cons_of_mem _ hx)
    rw [mapThread]
    by_cases hp : (c.is_null || !c.is_input) = true
    · have hf : (!c.is_null && c.is_input) = false := by
        cases hn : c.is_null <;> cases hi : c.is_input <;> simp [hn, hi] at hp ⊢
      obtain ⟨h1, h2⟩ := ih ht (i + 1) st
      simp only [hp, if_true, List.filter_cons, hf, Bool.false_eq_true, if_false, h1, h2,
        and_self]
    · have hf : (!c.is_null && c.is_input) = true := by
        cases hn : c.is_null <;> cases hi : c.is_input <;> simp [hn, hi] at hp ⊢
      rw [if_neg hp, forEachIndexS_all _ c.port st c.size hc]
      obtain ⟨p1, p2⟩ := mapThread_ports c.port 0 st
      obtain ⟨h1, h2⟩ := ih ht (i + 1) (st + c.port.length)
      simp only [p1, List.filter_cons, hf, if_true, h1, h2, List.map_cons, List.sum_cons,
        List.flatMap_cons, p2, stateRange_append, Nat.cast_add, hc]
      constructor
      · ring
      · trivial

theorem MIFsetup_states_spec (here : MIFinstance) (st : Int) (hwf : here.WellFormed) :
    (MIFsetup_states here st).2 = st + specStateCount here ∧
      specStateIndices (MIFsetup_states here st).1 = stateRange st (specStateCount here) ∧
      (MIFsetup_states here st).1.analog = here.analog := by
  unfold MIFsetup_states specStateCount
  cases ha : here.analog
  · simp [specStateIndices, ha, stateRange]
  · simp only [Bool.not_true, Bool.false_eq_true, if_false, if_true]
    rw [forEachIndexS_all _ here.conn st here.num_conn hwf.1]
    obtain ⟨h1, h2⟩ := mapThread_conns here.conn hwf.2 0 st
    simp only [h1, specStateIndices, ha, if_true, h2, and_self]

/-! ### What a loop of phase A leaves in each element -/

theorem adds_forEachIndexM {α : Type} (step : Nat → α → SetupM α)
    (hext : ∀ i a, Adds (step i a) (fun _ => True)) (n : Nat) :
    ∀ (i : Nat) (l : List α), Adds (forEachIndexM step n i l) (fun _ => True) := by
  induction n with
  | zero => intro i l; rw [forEachIndexM]; exact adds_pure _ _
  | succ n ih =>
    intro i l
    rw [forEachIndexM]
    cases l[i]? with
    | none => exact ih (i + 1) l
    | some a => exact adds_bind _ _ _ (hext i a) (fun a1 => ih (i + 1) _)

theorem forEachIndexM_at {α : Type} (step : Nat → α → SetupM α)
    (hext : ∀ i a, Adds (step i a) (fun _ => True)) (n : Nat) :
    ∀ (i : Nat) (l : List α) (tr : List Request) (l1 : List α) (tr1 : List Request),
      forEachIndexM step n i l tr = (Except.ok l1, tr1) →
      l1.length = l.length ∧ (∃ q, tr1 = tr ++ q) ∧
      (∀ k, k < i ∨ i + n ≤ k → l1[k]? = l[k]?) ∧
      (∀ k a1, i ≤ k → k < i + n → l1[k]? = some a1 →
        ∃ a p t1 q, l[k]? = some a ∧ step k a (tr ++ p) = (Except.ok a1, t1) ∧
          tr1 = t1 ++ q) := by
  induction n with
  | zero =>
    intro i l tr l1 tr1 h
    rw [forEachIndexM] at h
    simp only [SetupM.pure, Prod.mk.injEq, Except.ok.injEq] at h
    obtain ⟨rfl, rfl⟩ := h
    exact ⟨rfl, ⟨[], by simp⟩, fun _ _ => rfl, fun k a1 h1 h2 _ => by omega⟩
  | succ n ih =>
    intro i l tr l1 tr1 h
    rw [forEachIndexM] at h
    cases hl : l[i]? with
    | none =>
      rw [hl] at h
      simp only at h
      obtain ⟨h1, h2, h3, h4⟩ := ih (i + 1) l tr l1 tr1 h
      refine ⟨h1, h2, fun k hk => h3 k (by omega), fun k a1 hk1 hk2 hk3 => ?_⟩
      by_cases hki : k = i
      · subst hki
        rw [h3 k (by omega), hl] at hk3
        cases hk3
      · exact h4 k a1 (by omega) (by omega) hk3
    | some a =>
      rw [hl] at h
      simp only at h
      obtain ⟨a', t1, hs, h⟩ := SetupM.bind_eq_ok _ _ _ _ _ h
      obtain ⟨added, hadd, _⟩ := hext i a tr
      rw [hs] at hadd
      simp only at hadd
      obtain ⟨h1, ⟨q, hq⟩, h3, h4⟩ := ih (i + 1) (l.set i a') t1 l1 tr1 h
      have hlt : i < l.length := by
        by_contra hge
        rw [List.getElem?_eq_none (by omega)] at hl
        cases hl
      refine ⟨by rw [h1, List.length_set], ⟨added ++ q, by rw [hq, hadd, List.append_assoc]⟩,
        fun k hk => ?_, fun k a1 hk1 hk2 hk3 => ?_⟩
      · rw [h3 k (by omega), List.getElem?_set_ne (by omega)]
      · by_cases hki : k = i
        · subst hki
          rw [h3 k (by omega), List.getElem?_set_self hlt] at hk3
          simp only [Option.some.injEq] at hk3
          subst hk3
          exact ⟨a, [], t1, q, hl, by rw [List.append_nil]; exact hs, hq⟩
        · obtain ⟨b, p, t2, q2, hb, hstep, htr⟩ := h4 k a1 (by omega) (by omega) hk3
          rw [List.getElem?_set_ne (by omega)] at hb
          exact ⟨b, added ++ p, t2, q2, hb, by rw [← List.append_assoc, ← hadd]; exact hstep,
            htr⟩

theorem adds_MIFsetup_phaseA_port (env : Collaborators) (name : List Char)
    (is_input is_output : Bool) (i j : Nat) (port : Mif_Port_Data_t) :
    Adds (MIFsetup_phaseA_port env name is_input is_output i j port) (fun _ => True) := by
  unfold MIFsetup_phaseA_port
  split_ifs
  · exact adds_pure _ _
  · refine adds_bind _ _ _ (adds_any _ _ (adds_MIFsetup_branch env name is_output _ i j _))
      (fun smp1 => ?_)
    refine adds_bind _ _ _ (adds_any _ _ (adds_MIFsetup_ibranch env name is_input _ i j smp1))
      (fun smp2 => ?_)
    refine adds_bind _ _ _ (adds_any _ _ (adds_MIFsetup_vsource env name is_input _ _ smp2))
      (fun smp3 => ?_)
    exact adds_pure _ _

theorem adds_MIFsetup_phaseA_conn (env : Collaborators) (name : List Char) (i : Nat)
    (conn : Mif_Conn_Data_t) :
    Adds (MIFsetup_phaseA_conn env name i conn) (fun _ => True) := by
  unfold MIFsetup_phaseA_conn
  split_ifs
  · exact adds_pure _ _
  · exact adds_bind _ _ _
      (adds_forEachIndexM _ (fun j p => adds_MIFsetup_phaseA_port env name _ _ i j p) _ _ _)
      (fun ports => adds_pure _ _)

theorem adds_forRangeM {α : Type} (l : List α) (body : α → SetupM Unit)
    (hb : ∀ a, Adds (body a) (fun _ => True)) (n : Nat) :
    ∀ i, Adds (forRangeM l body n i) (fun _ => True) := by
  induction n with
  | zero => intro i; rw [forRangeM]; exact adds_pure _ _
  | succ n ih =>
    intro i
    rw [forRangeM]
    cases l[i]? with
    | none => exact ih (i + 1)
    | some a => exact adds_bind _ _ _ (hb a) (fun _ => ih (i + 1))

theorem adds_MIFsetup_pair (env : Collaborators) (o c : Mif_Smp_Ptr_t)
    (it ot : Mif_Port_Type_t) : Adds (MIFsetup_pair env o c it ot) (fun _ => True) := by
  unfold MIFsetup_pair
  have hc := fun a b => adds_any _ _ (adds_CTSTALLOC env a b)
  rcases MIFget_cntl_src_type it ot with _ | k
  · exact adds_pure _ _
  · cases k
    · exact adds_bind _ _ _ (hc _ _) (fun _ => hc _ _)
    · exact adds_bind _ _ _ (hc _ _) (fun _ => hc _ _)
    · exact adds_bind _ _ _ (hc _ _) (fun _ => adds_bind _ _ _ (hc _ _)
        (fun _ => adds_bind _ _ _ (hc _ _) (fun _ => hc _ _)))
    · exact hc _ _

theorem adds_MIFsetup_phaseB (env : Collaborators) (here : MIFinstance) :
    Adds (MIFsetup_phaseB env here) (fun _ => True) := by
  unfold MIFsetup_phaseB
  refine adds_forRangeM _ _ (fun ci => ?_) _ _
  split_ifs
  · exact adds_pure _ _
  · refine adds_forRangeM _ _ (fun out => ?_) _ _
    unfold MIFsetup_phaseB_port
    split_ifs
    · exact adds_pure _ _
    · refine adds_forRangeM _ _ (fun ck => ?_) _ _
      split_ifs
      · exact adds_pure _ _
      · refine adds_forRangeM _ _ (fun pl => ?_) _ _
        split_ifs
        · exact adds_pure _ _
        · exact adds_MIFsetup_pair env _ _ _ _

theorem MIFsetup_instance_parts (env : Collaborators) (here here1 : MIFinstance)
    (tr tr1 : List Request) (ha : here.analog = true)
    (h : MIFsetup_instance env here tr = (Except.ok here1, tr1)) :
    ∃ phaseA phaseB, here1 = { here with conn := here1.conn } ∧
      MIFsetup_phaseA env here tr = (Except.ok here1.conn, tr ++ phaseA) ∧
      MIFsetup_phaseB env here1 (tr ++ phaseA) = (Except.ok (), tr ++ phaseA ++ phaseB) ∧
      tr1 = tr ++ phaseA ++ phaseB := by
  unfold MIFsetup_instance at h
  simp only [ha, Bool.not_true, Bool.false_eq_true, if_false] at h
  obtain ⟨conns, t, hA, h⟩ := SetupM.bind_eq_ok _ _ _ _ _ h
  obtain ⟨u, t2, hB, h⟩ := SetupM.bind_eq_ok _ _ _ _ _ h
  simp only [SetupM.pure, Prod.mk.injEq, Except.ok.injEq] at h
  obtain ⟨rfl, rfl⟩ := h
  obtain ⟨pa, hpa, _⟩ := adds_forEachIndexM _
    (fun i c => adds_MIFsetup_phaseA_conn env here.MIFname i c) here.num_conn 0 here.conn tr
  have hpa2 : t = tr ++ pa := by
    have : (MIFsetup_phaseA env here tr).2 = tr ++ pa := hpa
    rw [hA] at this
    exact this
  obtain ⟨pb, hpb, _⟩ := adds_MIFsetup_phaseB env
    { MIFname := here.MIFname, analog := true, num_conn := here.num_conn, conn := conns } t
  rw [hB] at hpb
  simp only at hpb
  subst hpa2
  refine ⟨pa, pb, ?_, hA, ?_, hpb⟩
  · simp [ha]
  · rw [hB, hpb]

theorem MIFsetup_phaseA_port_ok_of_vsource (env : Collaborators) (name : List Char)
    (is_output : Bool) (i j : Nat) (port port1 : Mif_Port_Data_t)
    (tr tr1 : List Request) (hnull : port.is_null = false)
    (ht : port.type = MIF_VSOURCE_CURRENT)
    (h : MIFsetup_phaseA_port env name true is_output i j port tr = (Except.ok port1, tr1)) :
    tr1 = tr ++ [Request.fndBranch port.vsource_str] ∧
      port1.smp_data.ibranch = env.CKTfndBranch tr port.vsource_str := by
  have hb : specNeedsBranch is_output port.type = false := by
    rw [ht]; cases is_output <;> rfl
  have hi : specNeedsIbranch true port.type = false := by
    rw [ht]; rfl
  unfold MIFsetup_phaseA_port at h
  simp only [hnull, Bool.false_eq_true, if_false] at h
  rw [MIFsetup_branch_skip env name is_output port.type i j _ hb, SetupM.pure_bind,
    MIFsetup_ibranch_skip env name true port.type i j _ hi, SetupM.pure_bind] at h
  obtain ⟨smp3, t3, hv, h⟩ := SetupM.bind_eq_ok _ _ _ _ _ h
  simp only [SetupM.pure, Prod.mk.injEq, Except.ok.injEq] at h
  obtain ⟨rfl, rfl⟩ := h
  unfold MIFsetup_vsource at hv
  simp only [ht, Bool.true_and, decide_True, if_true] at hv
  split_ifs at hv with h0
  · simp at hv
  · simp only [Prod.mk.injEq, Except.ok.injEq] at hv
    obtain ⟨rfl, rfl⟩ := hv
    exact ⟨rfl, rfl⟩

theorem MIFsetup_phaseA_port_assigns (env : Collaborators) (name : List Char)
    (is_input is_output : Bool) (i j : Nat) (P0 P : Mif_Port_Data_t) (t t2 : List Request)
    (h : MIFsetup_phaseA_port env name is_input is_output i j P0 t = (Except.ok P, t2))
    (hn : P.is_null = false) :
    (specNeedsBranch is_output P.type = true →
      ∃ b, t2 = t ++ Request.mkCur name (branchSuffix i j) :: b ∧
        P.smp_data.branch = (env.CKTmkCur t name (branchSuffix i j)).2 ∧
        P.smp_data.ibranch = (env.CKTmkCur t name (branchSuffix i j)).2) ∧
    (specNeedsIbranch is_input P.type = true →
      ∃ b, t2 = t ++ Request.mkCur name (ibranchSuffix i j) :: b ∧
        P.smp_data.ibranch = (env.CKTmkCur t name (ibranchSuffix i j)).2) ∧
    (is_input = true → P.type = MIF_VSOURCE_CURRENT →
      ∃ b, t2 = t ++ Request.fndBranch P.vsource_str :: b ∧
        P.smp_data.ibranch = env.CKTfndBranch t P.vsource_str) := by
  have hf := MIFsetup_phaseA_port_frame env name is_input is_output i j P0 P t t2 h
  have hty : P.type = P0.type := by rw [hf]
  have hvs : P.vsource_str = P0.vsource_str := by rw [hf]
  have hn0 : P0.is_null = false := by rw [hf] at hn; exact hn
  refine ⟨fun hc => ?_, fun hc => ?_, fun hi ht => ?_⟩
  · rw [hty] at hc
    have hb := MIFsetup_phaseA_port_ok_of_branch env name is_input is_output i j P0 P t t2
      hn0 hc h
    obtain ⟨h1, h2, _⟩ := MIFsetup_branch_ok env name is_output P0.type i j _ _ t t2 hc hb
    exact ⟨_, h1, by rw [h2], by rw [h2]⟩
  · rw [hty] at hc
    have hb := MIFsetup_phaseA_port_ok_of_ibranch env name is_input is_output i j P0 P t t2
      hn0 hc h
    obtain ⟨h1, h2, _⟩ := MIFsetup_ibranch_ok env name is_input P0.type i j _ _ t t2 hc hb
    exact ⟨_, h1, by rw [h2]⟩
  · subst hi
    rw [hty] at ht
    obtain ⟨h1, h2⟩ := MIFsetup_phaseA_port_ok_of_vsource env name is_output i j P0 P t t2
      hn0 ht h
    exact ⟨[], by rw [h1, hvs], by rw [h2, hvs]⟩

theorem MIFsetup_phaseA_at (env : Collaborators) (here : MIFinstance)
    (conns : List Mif_Conn_Data_t) (tr t : List Request)
    (h : MIFsetup_phaseA env here tr = (Except.ok conns, t))
    (i j : Nat) (c : Mif_Conn_Data_t) (P : Mif_Port_Data_t)
    (hc : conns[i]? = some c) (hi : i < here.num_conn) (hcn : c.is_null = false)
    (hp : c.port[j]? = some P) (hj : j < c.size) :
    ∃ P0 a t2 q, MIFsetup_phaseA_port env here.MIFname c.is_input c.is_output i j P0
        (tr ++ a) = (Except.ok P, t2) ∧ t = t2 ++ q := by
  unfold MIFsetup_phaseA at h
  obtain ⟨_, _, _, h4⟩ := forEachIndexM_at _
    (fun i c => adds_MIFsetup_phaseA_conn env here.MIFname i c) here.num_conn 0 here.conn tr
    conns t h
  obtain ⟨c0, p, t1, q, _, hstep, ht⟩ := h4 i c (Nat.zero_le _) (by omega) hc
  unfold MIFsetup_phaseA_conn at hstep
  by_cases hc0 : c0.is_null = true
  · simp only [hc0, if_true, SetupM.pure, Prod.mk.injEq, Except.ok.injEq] at hstep
    rw [← hstep.1, hc0] at hcn
    cases hcn
  · simp only [hc0, Bool.false_eq_true, if_false] at hstep
    obtain ⟨ports, t3, hports, hstep⟩ := SetupM.bind_eq_ok _ _ _ _ _ hstep
    simp only [SetupM.pure, Prod.mk.injEq, Except.ok.injEq] at hstep
    obtain ⟨rfl, rfl⟩ := hstep
    obtain ⟨_, _, _, g4⟩ := forEachIndexM_at _
      (fun j p => adds_MIFsetup_phaseA_port env here.MIFname c0.is_input c0.is_output i j p)
      c0.size 0 c0.port (tr ++ p) ports t3 hports
    obtain ⟨P0, p2, t2, q2, _, hpstep, ht3⟩ := g4 j P (Nat.zero_le _) (by simpa using hj) hp
    refine ⟨P0, p ++ p2, t2, q2 ++ q, ?_, ?_⟩
    · rw [← List.append_assoc]
      exact hpstep
    · rw [ht, ht3, List.append_assoc]

/-- C35: in a setup of an analog instance that ends without a failed request, all
requests of phase A come before all requests of phase B, which is run on the
instance as phase A has left it. For every non-null port `j` of a non-null
connection `i` that the loops reach, the index phase B may use was assigned by
phase A for that port: the branch index of a port of an output connection whose
kind is voltage, differential voltage, resistance or differential resistance (the
output kinds of VCVS and ICVS) is the number of the equation created with the
suffix `branch_<i>_<j>`; the ibranch index of a port of an input connection is
the number of the equation created with the suffix `ibranch_<i>_<j>` for the kinds
current and differential current, the branch found by name for the kind
vsource-current, and the number of the equation `branch_<i>_<j>` for the kinds
resistance and differential resistance (the input kinds of ICVS and ICIS). -/
theorem MIFsetup_phaseB_indices_assigned (env : Collaborators) (here here1 : MIFinstance)
    (tr tr1 : List Request) (ha : here.analog = true)
    (h : MIFsetup_instance env here tr = (Except.ok here1, tr1)) :
    ∃ phaseA phaseB,
      MIFsetup_phaseA env here tr = (Except.ok here1.conn, tr ++ phaseA) ∧
      MIFsetup_phaseB env here1 (tr ++ phaseA) = (Except.ok (), tr ++ phaseA ++ phaseB) ∧
      tr1 = tr ++ phaseA ++ phaseB ∧
      (∀ (i j : Nat) (c : Mif_Conn_Data_t) (P : Mif_Port_Data_t),
        here1.conn[i]? = some c → i < here1.num_conn → c.is_null = false →
        c.port[j]? = some P → j < c.size → P.is_null = false →
        (c.is_output = true → specVoltageOutput P.type = true →
          ∃ a b, phaseA = a ++ Request.mkCur here1.MIFname (branchSuffix i j) :: b ∧
            P.smp_data.branch =
              (env.CKTmkCur (tr ++ a) here1.MIFname (branchSuffix i j)).2) ∧
        (c.is_input = true → P.type = MIF_CURRENT ∨ P.type = MIF_DIFF_CURRENT →
          ∃ a b, phaseA = a ++ Request.mkCur here1.MIFname (ibranchSuffix i j) :: b ∧
            P.smp_data.ibranch =
              (env.CKTmkCur (tr ++ a) here1.MIFname (ibranchSuffix i j)).2) ∧
        (c.is_input = true → P.type = MIF_VSOURCE_CURRENT →
          ∃ a b, phaseA = a ++ Request.fndBranch P.vsource_str :: b ∧
            P.smp_data.ibranch = env.CKTfndBranch (tr ++ a) P.vsource_str) ∧
        (P.type = MIF_RESISTANCE ∨ P.type = MIF_DIFF_RESISTANCE →
          ∃ a b, phaseA = a ++ Request.mkCur here1.MIFname (branchSuffix i j) :: b ∧
            P.smp_data.ibranch =
              (env.CKTmkCur (tr ++ a) here1.MIFname (branchSuffix i j)).2)) ∧
      (∀ kin kout : Mif_Port_Type_t,
        MIFget_cntl_src_type kin kout = some MIF_VCVS ∨
          MIFget_cntl_src_type kin kout = some MIF_ICVS →
        specVoltageOutput kout = true) ∧
      (∀ kin kout : Mif_Port_Type_t,
        MIFget_cntl_src_type kin kout = some MIF_ICVS ∨
          MIFget_cntl_src_type kin kout = some MIF_ICIS →
        kin = MIF_CURRENT ∨ kin = MIF_DIFF_CURRENT ∨ kin = MIF_VSOURCE_CURRENT ∨
          kin = MIF_RESISTANCE ∨ kin = MIF_DIFF_RESISTANCE) := by
  obtain ⟨phaseA, phaseB, hh, hA, hB, htr⟩ := MIFsetup_instance_parts env here here1 tr tr1 ha h
  have hname : here1.MIFname = here.MIFname := by rw [hh]
  have hnum : here1.num_conn = here.num_conn := by rw [hh]
  refine ⟨phaseA, phaseB, hA, hB, htr, ?_, ?_, ?_⟩
  · intro i j c P hc hi hcn hp hj hpn
    rw [hnum] at hi
    obtain ⟨P0, a, t2, q, hstep, ht⟩ := MIFsetup_phaseA_at env here here1.conn tr _ hA i j c P
      hc hi hcn hp hj
    obtain ⟨g1, g2, g3⟩ := MIFsetup_phaseA_port_assigns env here.MIFname c.is_input
      c.is_output i j P0 P (tr ++ a) t2 hstep hpn
    have key : ∀ (x : Request) (b : List Request), t2 = tr ++ a ++ x :: b →
        phaseA = a ++ x :: (b ++ q) := by
      intro x b hb
      rw [hb] at ht
      have : tr ++ phaseA = tr ++ (a ++ x :: (b ++ q)) := by
        rw [ht]
        simp [List.append_assoc]
      exact List.append_cancel_left this
    rw [hname]
    refine ⟨fun ho hk => ?_, fun hin hk => ?_, fun hin hk => ?_, fun hk => ?_⟩
    · have hnb : specNeedsBranch c.is_output P.type = true := by
        rw [ho]
        revert hk
        cases P.type <;> decide
      obtain ⟨b, hb, hbr, _⟩ := g1 hnb
      exact ⟨a, b ++ q, key _ b hb, hbr⟩
    · have hni : specNeedsIbranch c.is_input P.type = true := by
        rw [hin]
        rcases hk with hk | hk <;> rw [hk] <;> decide
      obtain ⟨b, hb, hbr⟩ := g2 hni
      exact ⟨a, b ++ q, key _ b hb, hbr⟩
    · obtain ⟨b, hb, hbr⟩ := g3 hin hk
      exact ⟨a, b ++ q, key _ b hb, hbr⟩
    · have hnb : specNeedsBranch c.is_output P.type = true := by
        rcases hk with hk | hk <;> rw [hk] <;> cases c.is_output <;> decide
      obtain ⟨b, hb, _, hbr⟩ := g1 hnb
      exact ⟨a, b ++ q, key _ b hb, hbr⟩
  · intro kin kout
    cases kin <;> cases kout <;> decide
  · intro kin kout
    cases kin <;> cases kout <;> decide

/-- Witness of C35: the setup of the example instance, whose voltage output gets
the branch 100 and whose current input the ibranch 105. -/
theorem MIFsetup_phaseB_indices_assigned_witness :
    ∃ phaseA phaseB,
      MIFsetup_phaseA (exampleCollaborators 20) exampleInstance [] =
        (Except.ok exampleInstanceAfter.conn, [] ++ phaseA) ∧
      MIFsetup_phaseB (exampleCollaborators 20) exampleInstanceAfter ([] ++ phaseA) =
        (Except.ok (), [] ++ phaseA ++ phaseB) ∧
      exampleRequests = [] ++ phaseA ++ phaseB ∧
      (∀ (i j : Nat) (c : Mif_Conn_Data_t) (P : Mif_Port_Data_t),
        exampleInstanceAfter.conn[i]? = some c → i < exampleInstanceAfter.num_conn →
        c.is_null = false →
        c.port[j]? = some P → j < c.size → P.is_null = false →
        (c.is_output = true → specVoltageOutput P.type = true →
          ∃ a b, phaseA =
              a ++ Request.mkCur exampleInstanceAfter.MIFname (branchSuffix i j) :: b ∧
            P.smp_data.branch =
              ((exampleCollaborators 20).CKTmkCur ([] ++ a) exampleInstanceAfter.MIFname
                (branchSuffix i j)).2) ∧
        (c.is_input = true → P.type = MIF_CURRENT ∨ P.type = MIF_DIFF_CURRENT →
          ∃ a b, phaseA =
              a ++ Request.mkCur exampleInstanceAfter.MIFname (ibranchSuffix i j) :: b ∧
            P.smp_data.ibranch =
              ((exampleCollaborators 20).CKTmkCur ([] ++ a) exampleInstanceAfter.MIFname
                (ibranchSuffix i j)).2) ∧
        (c.is_input = true → P.type = MIF_VSOURCE_CURRENT →
          ∃ a b, phaseA = a ++ Request.fndBranch P.vsource_str :: b ∧
            P.smp_data.ibranch =
              (exampleCollaborators 20).CKTfndBranch ([] ++ a) P.vsource_str) ∧
        (P.type = MIF_RESISTANCE ∨ P.type = MIF_DIFF_RESISTANCE →
          ∃ a b, phaseA =
              a ++ Request.mkCur exampleInstanceAfter.MIFname (branchSuffix i j) :: b ∧
            P.smp_data.ibranch =
              ((exampleCollaborators 20).CKTmkCur ([] ++ a) exampleInstanceAfter.MIFname
                (branchSuffix i j)).2)) ∧
      (∀ kin kout : Mif_Port_Type_t,
        MIFget_cntl_src_type kin kout = some MIF_VCVS ∨
          MIFget_cntl_src_type kin kout = some MIF_ICVS →
        specVoltageOutput kout = true) ∧
      (∀ kin kout : Mif_Port_Type_t,
        MIFget_cntl_src_type kin kout = some MIF_ICVS ∨
          MIFget_cntl_src_type kin kout = some MIF_ICIS →
        kin = MIF_CURRENT ∨ kin = MIF_DIFF_CURRENT ∨ kin = MIF_VSOURCE_CURRENT ∨
          kin = MIF_RESISTANCE ∨ kin = MIF_DIFF_RESISTANCE) :=
  MIFsetup_phaseB_indices_assigned (exampleCollaborators 20) exampleInstance
    exampleInstanceAfter [] exampleRequests rfl exampleInstance_setup

/-! ### The state indices after phases A and B -/

theorem map_congr_pointwise {α β : Type} (g : α → β) (l l1 : List α)
    (hlen : l1.length = l.length)
    (hrel : ∀ (k : Nat) (a1 : α), l1[k]? = some a1 → ∃ a, l[k]? = some a ∧ g a1 = g a) :
    l1.map g = l.map g := by
  apply List.ext_getElem?
  intro k
  simp only [List.getElem?_map]
  cases h1 : l1[k]? with
  | none =>
    have : l1.length ≤ k := List.getElem?_eq_none_iff.mp h1
    rw [List.getElem?_eq_none (by omega)]
  | some a1 =>
    obtain ⟨a, ha, hg⟩ := hrel k a1 h1
    rw [ha]
    simp [hg]

theorem filter_flatMap_congr {α β : Type} (p : α → Bool) (f : α → List β) :
    ∀ (l l1 : List α), l1.length = l.length →
      (∀ (k : Nat) (a1 : α), l1[k]? = some a1 →
        ∃ a, l[k]? = some a ∧ p a1 = p a ∧ f a1 = f a) →
      (l1.filter p).flatMap f = (l.filter p).flatMap f := by
  intro l
  induction l with
  | nil =>
    intro l1 hlen _
    have : l1 = [] := List.length_eq_zero.mp hlen
    subst this
    rfl
  | cons a t ih =>
    intro l1 hlen hrel
    cases l1 with
    | nil => simp at hlen
    | cons a1 t1 =>
      obtain ⟨a', ha', hp, hf⟩ := hrel 0 a1 (by simp)
      simp only [List.getElem?_cons_zero, Option.some.injEq] at ha'
      subst ha'
      have htail := ih t1 (by simpa using hlen) (fun k b hb => by
        have := hrel (k + 1) b (by simpa using hb)
        simpa using this)
      simp only [List.filter_cons, hp]
      cases hpa : p a with
      | false => simpa using htail
      | true => simp [hf, htail]

theorem MIFsetup_phaseA_state_indices (env : Collaborators) (here : MIFinstance)
    (conns : List Mif_Conn_Data_t) (tr t : List Request)
    (h : MIFsetup_phaseA env here tr = (Except.ok conns, t)) :
    (conns.filter (fun c => !c.is_null && c.is_input)).flatMap
        (fun c => c.port.map (fun p => p.old_input)) =
      (here.conn.filter (fun c => !c.is_null && c.is_input)).flatMap
        (fun c => c.port.map (fun p => p.old_input)) := by
  unfold MIFsetup_phaseA at h
  obtain ⟨hlen, _, hout, hin⟩ := forEachIndexM_at _
    (fun i c => adds_MIFsetup_phaseA_conn env here.MIFname i c) here.num_conn 0 here.conn tr
    conns t h
  apply filter_flatMap_congr _ _ _ _ hlen
  intro k c1 hc1
  by_cases hk : k < here.num_conn
  · obtain ⟨c0, p, t1, q, hc0, hstep, _⟩ := hin k c1 (Nat.zero_le _) (by omega) hc1
    refine ⟨c0, hc0, ?_⟩
    unfold MIFsetup_phaseA_conn at hstep
    by_cases hn : c0.is_null = true
    · simp only [hn, if_true, SetupM.pure, Prod.mk.injEq, Except.ok.injEq] at hstep
      rw [← hstep.1]
      exact ⟨rfl, rfl⟩
    · simp only [hn, Bool.false_eq_true, if_false] at hstep
      obtain ⟨ports, t3, hports, hstep⟩ := SetupM.bind_eq_ok _ _ _ _ _ hstep
      simp only [SetupM.pure, Prod.mk.injEq, Except.ok.injEq] at hstep
      obtain ⟨rfl, rfl⟩ := hstep
      have hn2 : c0.is_null = false := by simpa using hn
      refine ⟨by simp [hn2], ?_⟩
      obtain ⟨glen, _, gout, gin⟩ := forEachIndexM_at _
        (fun j p => adds_MIFsetup_phaseA_port env here.MIFname c0.is_input c0.is_output k j p)
        c0.size 0 c0.port (tr ++ p) ports t3 hports
      apply map_congr_pointwise _ _ _ glen
      intro j P hP
      by_cases hj : j < c0.size
      · obtain ⟨P0, p2, t2, q2, hP0, hpstep, _⟩ := gin j P (Nat.zero_le _) (by omega) hP
        refine ⟨P0, hP0, ?_⟩
        rw [MIFsetup_phaseA_port_frame env here.MIFname _ _ k j P0 P _ t2 hpstep]
      · rw [gout j (Or.inr (by omega))] at hP
        exact ⟨P, hP, rfl⟩
  · rw [hout k (Or.inr (by omega))] at hc1
    exact ⟨c1, hc1, rfl, rfl⟩

theorem MIFsetup_instance_state_indices (env : Collaborators) (here here1 : MIFinstance)
    (tr tr1 : List Request) (h : MIFsetup_instance env here tr = (Except.ok here1, tr1)) :
    specStateIndices here1 = specStateIndices here := by
  cases ha : here.analog
  · unfold MIFsetup_instance at h
    simp only [ha, Bool.not_false, if_true, SetupM.pure, Prod.mk.injEq, Except.ok.injEq] at h
    rw [← h.1]
  · obtain ⟨pa, pb, hh, hA, _, _⟩ := MIFsetup_instance_parts env here here1 tr tr1 ha h
    have han : here1.analog = true := by rw [hh]; exact ha
    unfold specStateIndices
    rw [ha, han]
    simp only [if_true]
    exact MIFsetup_phaseA_state_indices env here here1.conn tr _ hA

theorem MIFsetup_instances_state_indices (env : Collaborators) (insts : List MIFinstance) :
    ∀ (insts1 : List MIFinstance) (tr tr1 : List Request),
      MIFsetup_instances env insts tr = (Except.ok insts1, tr1) →
      insts1.flatMap specStateIndices = insts.flatMap specStateIndices := by
  induction insts with
  | nil =>
    intro insts1 tr tr1 h
    rw [MIFsetup_instances] at h
    simp only [SetupM.pure, Prod.mk.injEq, Except.ok.injEq] at h
    rw [← h.1]
  | cons here rest ih =>
    intro insts1 tr tr1 h
    rw [MIFsetup_instances] at h
    obtain ⟨here1, t1, h1, h⟩ := SetupM.bind_eq_ok _ _ _ _ _ h
    obtain ⟨rest1, t2, h2, h⟩ := SetupM.bind_eq_ok _ _ _ _ _ h
    simp only [SetupM.pure, Prod.mk.injEq, Except.ok.injEq] at h
    rw [← h.1, List.flatMap_cons, List.flatMap_cons,
      MIFsetup_instance_state_indices env here here1 tr t1 h1, ih rest1 t1 t2 h2]

theorem MIFsetup_statesAll_spec (insts : List MIFinstance)
    (hwf : ∀ here ∈ insts, here.WellFormed) : ∀ (st : Int),
    (MIFsetup_statesAll insts st).2 = st + ((insts.map specStateCount).sum : Nat) ∧
      (MIFsetup_statesAll insts st).1.flatMap specStateIndices =
        stateRange st (insts.map specStateCount).sum := by
  induction insts with
  | nil => intro st; simp [MIFsetup_statesAll, stateRange]
  | cons here rest ih =>
    intro st
    obtain ⟨h1, h2, _⟩ := MIFsetup_states_spec here st (hwf here (List.mem_cons_self _ _))
    obtain ⟨g1, g2⟩ := ih (fun x hx => hwf x (List.mem_cons_of_mem _ hx))
      (st + specStateCount here)
    rcases hs : MIFsetup_states here st with ⟨here1, st1⟩
    rw [hs] at h1 h2
    simp only at h1 h2
    subst h1
    rcases hr : MIFsetup_statesAll rest (st + specStateCount here) with ⟨rest1, st2⟩
    rw [hr] at g1 g2
    simp only at g1 g2
    rw [MIFsetup_statesAll, hs]
    simp only [hr, List.flatMap_cons, h2, g2, List.map_cons, List.sum_cons,
      stateRange_append, g1, Nat.cast_add, and_true]
    ring

theorem MIFsetup_model_states (env : Collaborators) (info : Nat → Mif_Param_Info_t)
    (model model1 : MIFmodel) (st st1 : Int) (tr tr1 : List Request)
    (hwf : ∀ here ∈ model.MIFinstances, here.WellFormed)
    (h : MIFsetup_model env info model st tr = (Except.ok (model1, st1), tr1)) :
    st1 = st + ((model.MIFinstances.map specStateCount).sum : Nat) ∧
      model1.MIFinstances.flatMap specStateIndices =
        stateRange st (model.MIFinstances.map specStateCount).sum := by
  unfold MIFsetup_model at h
  have hm : (MIFsetup_defaults info model).2.MIFinstances = model.MIFinstances := by
    rw [MIFsetup_defaults_eq]
  rcases hd : MIFsetup_defaults info model with ⟨status, m1⟩
  rw [hd] at h hm
  simp only at h hm
  by_cases hs : status = OK
  swap
  · simp [hs, SetupM.fail] at h
  · obtain ⟨g1, g2⟩ := MIFsetup_statesAll_spec model.MIFinstances hwf st
    rw [hm] at h
    rcases hall : MIFsetup_statesAll model.MIFinstances st with ⟨insts1, st2⟩
    rw [hall] at h g1 g2
    simp only [hs, ne_eq, not_true_eq_false, if_false] at h g1 g2
    obtain ⟨insts2, t2, h2, h⟩ := SetupM.bind_eq_ok _ _ _ _ _ h
    simp only [SetupM.pure, Prod.mk.injEq, Except.ok.injEq] at h
    obtain ⟨⟨rfl, rfl⟩, _⟩ := h
    refine ⟨g1, ?_⟩
    simp only
    rw [MIFsetup_instances_state_indices env insts1 insts2 tr t2 h2, g2]

theorem MIFsetup_states_total (env : Collaborators) (info : Nat → Mif_Param_Info_t)
    (models : List MIFmodel) :
    ∀ (states : Int) (tr : List Request) (models1 : List MIFmodel) (states1 : Int)
      (tr1 : List Request),
      (∀ m ∈ models, ∀ here ∈ m.MIFinstances, here.WellFormed) →
      MIFsetup env info models states tr = (Except.ok (models1, states1), tr1) →
      states1 = states + (specStateTotal models : Nat) ∧
        models1.flatMap (fun m => m.MIFinstances.flatMap specStateIndices) =
          stateRange states (specStateTotal models) := by
  induction models with
  | nil =>
    intro states tr models1 states1 tr1 _ h
    rw [MIFsetup] at h
    simp only [SetupM.pure, Prod.mk.injEq, Except.ok.injEq] at h
    obtain ⟨⟨rfl, rfl⟩, _⟩ := h
    simp [specStateTotal, stateRange]
  | cons model rest ih =>
    intro states tr models1 states1 tr1 hwf h
    rw [MIFsetup] at h
    obtain ⟨r1, t1, h1, h⟩ := SetupM.bind_eq_ok _ _ _ _ _ h
    obtain ⟨r2, t2, h2, h⟩ := SetupM.bind_eq_ok _ _ _ _ _ h
    simp only [SetupM.pure, Prod.mk.injEq, Except.ok.injEq] at h
    obtain ⟨⟨rfl, rfl⟩, _⟩ := h
    obtain ⟨g1, g2⟩ := MIFsetup_model_states env info model r1.1 states r1.2 tr t1
      (hwf model (List.mem_cons_self _ _)) h1
    obtain ⟨k1, k2⟩ := ih r1.2 t1 r2.1 r2.2 t2
      (fun m hm => hwf m (List.mem_cons_of_mem _ hm)) h2
    simp only [List.flatMap_cons, g2, k2, specStateTotal, List.map_cons, List.sum_cons,
      stateRange_append, k1, g1, Nat.cast_add, and_true]
    ring

theorem forEachIndexS_fixed {σ α : Type} (step : Nat → α → σ → α × σ) (k : Nat) (a : α)
    (hfix : ∀ s, (step k a s).1 = a) (n : Nat) :
    ∀ (i : Nat) (l : List α) (s : σ), l[k]? = some a →
      (forEachIndexS step n i l s).1[k]? = some a := by
  induction n with
  | zero => intro i l s h; simpa [forEachIndexS] using h
  | succ n ih =>
    intro i l s h
    rw [forEachIndexS]
    cases hl : l[i]? with
    | none => exact ih (i + 1) l s h
    | some b =>
      simp only
      rcases hs : step i b s with ⟨b1, s1⟩
      simp only
      apply ih
      by_cases hik : i = k
      · subst hik
        rw [hl] at h
        simp only [Option.some.injEq] at h
        subst h
        have := hfix s
        rw [hs] at this
        simp only at this
        subst this
        have hlt : i < l.length := by
          by_contra hge
          rw [List.getElem?_eq_none (by omega)] at hl
          cases hl
        exact List.getElem?_set_self hlt
      · rw [List.getElem?_set_ne hik]
        exact h

/-- C39: a `MIFsetup` that ends without a failed request, on models whose instances
have counts that agree with their arrays, leaves the state counter at its initial
value plus the sum of the sizes of all non-null input connections of all analog
instances, null ports counted like the others; the `old_input` indices of the
ports of those connections, in the order of models, instances, connections and
ports, are the consecutive indices from the initial value of the counter on, so
they are pairwise distinct. An instance that is not analog, a null connection and
a connection that is not an input are left as they are by the loop that takes
the places. -/
theorem MIFsetup_state_places (env : Collaborators) (info : Nat → Mif_Param_Info_t)
    (models models1 : List MIFmodel) (states states1 : Int) (tr tr1 : List Request)
    (hwf : ∀ m ∈ models, ∀ here ∈ m.MIFinstances, here.WellFormed)
    (h : MIFsetup env info models states tr = (Except.ok (models1, states1), tr1)) :
    states1 = states + (specStateTotal models : Nat) ∧
    models1.flatMap (fun m => m.MIFinstances.flatMap specStateIndices) =
      stateRange states (specStateTotal models) ∧
    (models1.flatMap (fun m => m.MIFinstances.flatMap specStateIndices)).Nodup ∧
    (∀ (here : MIFinstance) (st : Int), here.analog = false →
      MIFsetup_states here st = (here, st)) ∧
    (∀ (here : MIFinstance) (st : Int) (i : Nat) (c : Mif_Conn_Data_t),
      here.conn[i]? = some c → c.is_null = true ∨ c.is_input = false →
      (MIFsetup_states here st).1.conn[i]? = some c) := by
  obtain ⟨h1, h2⟩ := MIFsetup_states_total env info models states tr models1 states1 tr1 hwf h
  refine ⟨h1, h2, by rw [h2]; exact stateRange_nodup _ _, ?_, ?_⟩
  · intro here st ha
    simp [MIFsetup_states, ha]
  · intro here st i c hc hnull
    unfold MIFsetup_states
    cases ha : here.analog
    · simpa using hc
    · simp only [Bool.not_true, Bool.false_eq_true, if_false]
      apply forEachIndexS_fixed _ i c _ _ _ _ _ hc
      intro s
      have : (c.is_null || !c.is_input) = true := by
        rcases hnull with hn | hn <;> simp [hn]
      simp [this]

/-- Witness of C39: the setup of the example model from the counter 0; its one
input connection has one port, which takes the place 0. -/
theorem MIFsetup_state_places_witness :
    (1 : Int) = 0 + (specStateTotal [exampleModel] : Nat) ∧
    [(⟨0, 0, [], [exampleInstanceAfter]⟩ : MIFmodel)].flatMap
        (fun m => m.MIFinstances.flatMap specStateIndices) =
      stateRange 0 (specStateTotal [exampleModel]) ∧
    ([(⟨0, 0, [], [exampleInstanceAfter]⟩ : MIFmodel)].flatMap
        (fun m => m.MIFinstances.flatMap specStateIndices)).Nodup ∧
    (∀ (here : MIFinstance) (st : Int), here.analog = false →
      MIFsetup_states here st = (here, st)) ∧
    (∀ (here : MIFinstance) (st : Int) (i : Nat) (c : Mif_Conn_Data_t),
      here.conn[i]? = some c → c.is_null = true ∨ c.is_input = false →
      (MIFsetup_states here st).1.conn[i]? = some c) :=
  MIFsetup_state_places (exampleCollaborators 20) exampleParamInfo [exampleModel]
    [⟨0, 0, [], [exampleInstanceAfter]⟩] 0 1 [] exampleRequests
    (by
      intro m hm here hh
      simp only [List.mem_singleton] at hm
      subst hm
      simp only [exampleModel, List.mem_singleton] at hh
      subst hh
      exact ⟨rfl, by decide⟩)
    exampleModel_setup


/-! ### Quoted runs typed as delimiters, and the fourth ending of the loop -/

/-- C6 (counterexample): the text `"<x" 1.0 2.0 ">y"` begins with a double quote,
so its first token is the quoted run with content `<x` and not the complex-open
token `<`, and its last token is the quoted run with content `>y`; yet the scalar
complex read succeeds with real part 1 and imaginary part 2 and no error. -/
theorem MIFget_complex_quoted_delimiters :
    cur [dquote, '<', 'x', dquote, ' ', '1', '.', '0', ' ', '2', '.', '0', ' ',
        dquote, '>', 'y', dquote] = dquote ∧
    (MIFgettok [dquote, '<', 'x', dquote, ' ', '1', '.', '0', ' ', '2', '.', '0', ' ',
        dquote, '>', 'y', dquote]).1 = some "<x".toList ∧
    "<x".toList ≠ ['<'] ∧
    (MIFgettok [dquote, '>', 'y', dquote]).1 = some ">y".toList ∧
    ">y".toList ≠ ['>'] ∧
    MIFget_complex exampleEvaluator MIF_LCOMPLEX_TOK
        ['1', '.', '0', ' ', '2', '.', '0', ' ', dquote, '>', 'y', dquote] =
      (⟨1, 2⟩, none, []) ∧
    MIFgetValue exampleEvaluator ⟨0, 0, [], ⟨0, 0⟩, 0, [], [], [], []⟩ 0 none
        [dquote, '<', 'x', dquote, ' ', '1', '.', '0', ' ', '2', '.', '0', ' ',
          dquote, '>', 'y', dquote] IF_COMPLEX =
      some ⟨some ⟨0, 0, [], ⟨1, 2⟩, 0, [], [], [], []⟩, none, [], 0⟩ := by
  have hc : MIFget_complex exampleEvaluator MIF_LCOMPLEX_TOK
      ['1', '.', '0', ' ', '2', '.', '0', ' ', dquote, '>', 'y', dquote] =
      (⟨1, 2⟩, none, []) :=
    MIFget_complex_of_stream exampleEvaluator _ _ 1 2 []
      ⟨rfl, "1.0".toList, ['2', '.', '0', ' ', dquote, '>', 'y', dquote], "2.0".toList,
        [dquote, '>', 'y', dquote], some ">y".toList, by decide, rfl, by decide, rfl,
        by decide⟩
  refine ⟨by decide, by decide, by decide, by decide, by decide, hc, ?_⟩
  have ht : MIFget_token [dquote, '<', 'x', dquote, ' ', '1', '.', '0', ' ', '2', '.', '0',
      ' ', dquote, '>', 'y', dquote] =
      (some "<x".toList, MIF_LCOMPLEX_TOK,
        ['1', '.', '0', ' ', '2', '.', '0', ' ', dquote, '>', 'y', dquote]) := by decide
  unfold MIFgetValue
  simp only [IFvarType.is_array, Bool.false_eq_true, if_false]
  rw [MIFgetValue_loop]
  simp only [ht]
  simp only [MIFgetValue_switch, hc]
  rfl

/-- C7 (counterexample): in the boolean array text `[ t "]" maybe ]` the second
element is the quoted run with content `]`, which stands before the array-close
delimiter and fails the boolean parse on its own; yet `MIFgetValue` returns the
one-element array holding the first element, with no error, and leaves the
cursor before `maybe ]`. -/
theorem MIFgetValue_quoted_close_element :
    MIFget_boolean "]".toList = (-1, some "Bad boolean value") ∧
    MIFgetValue (fun _ => (0, 1)) ⟨0, 0, [], ⟨0, 0⟩, 0, [], [], [], []⟩ 0 none
        [dquote, ']', dquote] IF_FLAG =
      some ⟨none, some "Bad boolean value", [], 0⟩ ∧
    MIFgetValue (fun _ => (0, 1)) ⟨0, 0, [], ⟨0, 0⟩, 0, [], [], [], []⟩ 0 none
        ['[', ' ', 't', ' ', dquote, ']', dquote, ' ', 'm', 'a', 'y', 'b', 'e', ' ', ']']
        IF_FLAGVEC =
      some ⟨some ⟨0, 0, [], ⟨0, 0⟩, 1, [1], [], [], []⟩, none, "maybe ]".toList, 0⟩ := by
  refine ⟨by decide, ?_, ?_⟩
  · have ht : MIFget_token [dquote, ']', dquote] = (some "]".toList, MIF_RARRAY_TOK, []) := by
      decide
    unfold MIFgetValue
    simp only [IFvarType.is_array, Bool.false_eq_true, if_false]
    rw [MIFgetValue_loop]
    simp [ht, MIFgetValue_switch, MIFget_boolean, IFvarType.is_array]
  · have h0 : MIFget_token ['[', ' ', 't', ' ', dquote, ']', dquote, ' ', 'm', 'a', 'y', 'b',
        'e', ' ', ']'] =
        (some ['['], MIF_LARRAY_TOK,
          ['t', ' ', dquote, ']', dquote, ' ', 'm', 'a', 'y', 'b', 'e', ' ', ']']) := by
      decide
    have h1 : MIFget_token ['t', ' ', dquote, ']', dquote, ' ', 'm', 'a', 'y', 'b', 'e', ' ',
        ']'] =
        (some ['t'], MIF_STRING_TOK,
          [dquote, ']', dquote, ' ', 'm', 'a', 'y', 'b', 'e', ' ', ']']) := by decide
    have h2 : MIFget_token [dquote, ']', dquote, ' ', 'm', 'a', 'y', 'b', 'e', ' ', ']'] =
        (some "]".toList, MIF_RARRAY_TOK, "maybe ]".toList) := by decide
    unfold MIFgetValue
    simp only [IFvarType.is_array, if_true, h0, ne_eq, not_true_eq_false, if_false,
      List.length_cons, List.length_nil]
    rw [MIFgetValue_loop]
    simp only [h1]
    simp only [MIFgetValue_switch, MIFget_boolean]
    simp only [IFvarType.is_array, reduceCtorEq, and_false, if_false]
    rw [MIFgetValue_loop]
    simp [h2, IFvarType.is_array]

/-- C8 (counterexample): the first token of the text `"[x" 7 ]` is the quoted run
with content `[x`, not the array-open delimiter; yet the string array read does
not report a missing delimiter: it returns the one-element array holding `7`. -/
theorem MIFgetValue_quoted_open_accepted :
    cur [dquote, '[', 'x', dquote, ' ', '7', ' ', ']'] = dquote ∧
    (MIFgettok [dquote, '[', 'x', dquote, ' ', '7', ' ', ']']).1 = some "[x".toList ∧
    "[x".toList ≠ ['['] ∧
    MIFgetValue (fun _ => (0, 1)) ⟨0, 0, [], ⟨0, 0⟩, 0, [], [], [], []⟩ 0 none
        [dquote, '[', 'x', dquote, ' ', '7', ' ', ']'] IF_STRINGVEC =
      some ⟨some ⟨0, 0, [], ⟨0, 0⟩, 1, [], [], ["7".toList], []⟩, none, [], 0⟩ := by
  refine ⟨by decide, by decide, by decide, ?_⟩
  have h0 : MIFget_token [dquote, '[', 'x', dquote, ' ', '7', ' ', ']'] =
      (some "[x".toList, MIF_LARRAY_TOK, ['7', ' ', ']']) := by decide
  have h1 : MIFget_token ['7', ' ', ']'] = (some ['7'], MIF_STRING_TOK, [']']) := by decide
  have h2 : MIFget_token [']'] = (some [']'], MIF_RARRAY_TOK, []) := by decide
  unfold MIFgetValue
  simp only [IFvarType.is_array, if_true, h0, ne_eq, not_true_eq_false, if_false,
    List.length_cons, List.length_nil]
  rw [MIFgetValue_loop]
  simp only [h1]
  simp only [MIFgetValue_switch, MIFget_string]
  simp only [IFvarType.is_array, reduceCtorEq, and_false, if_false]
  rw [MIFgetValue_loop]
  simp [h2, IFvarType.is_array]

/-- C37 (counterexample): the loop of `MIFgetValue` on the boolean array text
`[ ]` ends with none of the three outcomes: no value is returned, no element was
parsed (the only token read in the loop is the array-close token), and the
message is "Array parameter must have at least one value", not "Unexpected end
of model card". -/
theorem MIFgetValue_loop_fourth_ending :
    MIFget_token "[ ]".toList = (some ['['], MIF_LARRAY_TOK, [']']) ∧
    MIFget_token [']'] = (some [']'], MIF_RARRAY_TOK, []) ∧
    MIFgetValue_loop (fun _ => (0, 1)) IF_FLAGVEC 2 [']'] 0 none
        ⟨0, 0, [], ⟨0, 0⟩, 0, [], [], [], []⟩ =
      some ⟨none, some "Array parameter must have at least one value", [], 0⟩ ∧
    MIFgetValue (fun _ => (0, 1)) ⟨0, 0, [], ⟨0, 0⟩, 0, [], [], [], []⟩ 0 none
        "[ ]".toList IF_FLAGVEC =
      some ⟨none, some "Array parameter must have at least one value", [], 0⟩ ∧
    "Array parameter must have at least one value" ≠ "Unexpected end of model card" ∧
    "Array parameter must have at least one value" ≠ "Bad boolean value" := by
  have h0 : MIFget_token "[ ]".toList = (some ['['], MIF_LARRAY_TOK, [']']) := by decide
  have h2 : MIFget_token [']'] = (some [']'], MIF_RARRAY_TOK, []) := by decide
  have hl : MIFgetValue_loop (fun _ => (0, 1)) IF_FLAGVEC 2 [']'] 0 none
        ⟨0, 0, [], ⟨0, 0⟩, 0, [], [], [], []⟩ =
      some ⟨none, some "Array parameter must have at least one value", [], 0⟩ := by
    rw [MIFgetValue_loop]
    simp [h2, IFvarType.is_array]
  refine ⟨h0, h2, hl, ?_, by decide, by decide⟩
  unfold MIFgetValue
  simp only [IFvarType.is_array, if_true, h0, ne_eq, not_true_eq_false, if_false]
  exact hl

/-! ### The suffixes name the port -/

theorem toDigitsCore_fuel (f1 : Nat) :
    ∀ (f2 n : Nat) (ds : List Char), n < f1 → n < f2 →
      Nat.toDigitsCore 10 f1 n ds = Nat.toDigitsCore 10 f2 n ds := by
  induction f1 with
  | zero => intro f2 n ds h; omega
  | succ f1 ih =>
    intro f2 n ds h1 h2
    obtain ⟨g, rfl⟩ : ∃ g, f2 = g + 1 := ⟨f2 - 1, by omega⟩
    simp only [Nat.toDigitsCore]
    by_cases h0 : n / 10 = 0
    · simp [h0]
    · simp only [h0, if_false]
      exact ih g (n / 10) _ (by omega) (by omega)

theorem toDigitsCore_append (f : Nat) :
    ∀ (n : Nat) (ds : List Char),
      Nat.toDigitsCore 10 f n ds = Nat.toDigitsCore 10 f n [] ++ ds := by
  induction f with
  | zero => intro n ds; simp [Nat.toDigitsCore]
  | succ f ih =>
    intro n ds
    simp only [Nat.toDigitsCore]
    by_cases h0 : n / 10 = 0
    · simp [h0]
    · simp only [h0, if_false]
      rw [ih (n / 10) (_ :: ds), ih (n / 10) [_]]
      simp

theorem toDigits_ten (n : Nat) :
    Nat.toDigits 10 n =
      if n < 10 then [Nat.digitChar n]
      else Nat.toDigits 10 (n / 10) ++ [Nat.digitChar (n % 10)] := by
  unfold Nat.toDigits
  rw [Nat.toDigitsCore]
  by_cases h : n < 10
  · have h0 : n / 10 = 0 := by omega
    have h1 : n % 10 = n := by omega
    simp [h, h0, h1]
  · have h0 : n / 10 ≠ 0 := by omega
    simp only [h0, if_false, h]
    rw [toDigitsCore_append n (n / 10) [_],
      toDigitsCore_fuel n (n / 10 + 1) (n / 10) [] (by omega) (by omega)]

theorem toDigits_ne_nil (n : Nat) : Nat.toDigits 10 n ≠ [] := by
  rw [toDigits_ten]
  split_ifs <;> simp

theorem digitChar_injective : ∀ a, a < 10 → ∀ b, b < 10 →
    Nat.digitChar a = Nat.digitChar b → a = b := by
  decide

theorem digitChar_ne_underscore : ∀ a, a < 10 → Nat.digitChar a ≠ '_' := by
  decide

theorem toDigits_injective (n : Nat) :
    ∀ m, Nat.toDigits 10 n = Nat.toDigits 10 m → n = m := by
  induction n using Nat.strong_induction_on with
  | _ n ih =>
    intro m h
    rw [toDigits_ten n, toDigits_ten m] at h
    by_cases hn : n < 10
    · by_cases hm : m < 10
      · simp only [hn, hm, if_true, List.cons.injEq, and_true] at h
        exact digitChar_injective n hn m hm h
      · simp only [hn, hm, if_true, if_false] at h
        have := congrArg List.length h
        have hne := toDigits_ne_nil (m / 10)
        have : (Nat.toDigits 10 (m / 10)).length = 0 := by
          simp at this
          exact List.length_eq_zero.mpr this
        exact absurd (List.length_eq_zero.mp this) hne
    · by_cases hm : m < 10
      · simp only [hn, hm, if_true, if_false] at h
        have := congrArg List.length h
        have hne := toDigits_ne_nil (n / 10)
        have : (Nat.toDigits 10 (n / 10)).length = 0 := by
          simp at this
          exact List.length_eq_zero.mpr this
        exact absurd (List.length_eq_zero.mp this) hne
      · simp only [hn, hm, if_false] at h
        obtain ⟨h1, h2⟩ := List.append_inj' h rfl
        have e1 := ih (n / 10) (by omega) (m / 10) h1
        simp only [List.cons.injEq, and_true] at h2
        have e2 := digitChar_injective (n % 10) (Nat.mod_lt _ (by omega)) (m % 10)
          (Nat.mod_lt _ (by omega)) h2
        omega

theorem toDigits_no_underscore (n : Nat) : '_' ∉ Nat.toDigits 10 n := by
  induction n using Nat.strong_induction_on with
  | _ n ih =>
    rw [toDigits_ten n]
    by_cases hn : n < 10
    · simp only [hn, if_true, List.mem_singleton]
      exact fun h => digitChar_ne_underscore n hn h.symm
    · simp only [hn, if_false, List.mem_append, List.mem_singleton, not_or]
      exact ⟨ih (n / 10) (by omega),
        fun h => digitChar_ne_underscore (n % 10) (Nat.mod_lt _ (by omega)) h.symm⟩

theorem append_cons_inj_of_not_mem (x : Char) :
    ∀ (A A1 B B1 : List Char), x ∉ A → x ∉ A1 → A ++ x :: B = A1 ++ x :: B1 →
      A = A1 ∧ B = B1 := by
  intro A
  induction A with
  | nil =>
    intro A1 B B1 _ h1 h
    cases A1 with
    | nil => simpa using h
    | cons a t =>
      simp only [List.nil_append, List.cons_append, List.cons.injEq] at h
      exact absurd (by rw [h.1]; simp) h1
  | cons a t ih =>
    intro A1 B B1 h0 h1 h
    cases A1 with
    | nil =>
      simp only [List.nil_append, List.cons_append, List.cons.injEq] at h
      exact absurd (by rw [← h.1]; simp) h0
    | cons a1 t1 =>
      simp only [List.cons_append, List.cons.injEq] at h
      obtain ⟨e1, e2⟩ := ih t1 B B1 (fun hm => h0 (List.mem_cons_of_mem _ hm))
        (fun hm => h1 (List.mem_cons_of_mem _ hm)) h.2
      exact ⟨by rw [h.1, e1], e2⟩

theorem repr_toList (n : Nat) : (Nat.repr n).toList = Nat.toDigits 10 n := by
  simp [Nat.repr, List.asString]

theorem branchSuffix_injective (i j i1 j1 : Nat)
    (h : branchSuffix i j = branchSuffix i1 j1) : i = i1 ∧ j = j1 := by
  unfold branchSuffix at h
  rw [List.append_assoc, List.append_assoc] at h
  have h2 := List.append_cancel_left h
  rw [repr_toList, repr_toList, repr_toList, repr_toList] at h2
  obtain ⟨e1, e2⟩ := append_cons_inj_of_not_mem '_' _ _ _ _ (toDigits_no_underscore i)
    (toDigits_no_underscore i1) h2
  exact ⟨toDigits_injective i i1 e1, toDigits_injective j j1 e2⟩

theorem ibranchSuffix_injective (i j i1 j1 : Nat)
    (h : ibranchSuffix i j = ibranchSuffix i1 j1) : i = i1 ∧ j = j1 := by
  unfold ibranchSuffix at h
  rw [List.append_assoc, List.append_assoc] at h
  have h2 := List.append_cancel_left h
  rw [repr_toList, repr_toList, repr_toList, repr_toList] at h2
  obtain ⟨e1, e2⟩ := append_cons_inj_of_not_mem '_' _ _ _ _ (toDigits_no_underscore i)
    (toDigits_no_underscore i1) h2
  exact ⟨toDigits_injective i i1 e1, toDigits_injective j j1 e2⟩

/-! ### The requests of phase A, port by port -/

theorem adds_forEachIndexM_indexed {α : Type} (step : Nat → α → SetupM α)
    (P : Nat → α → Request → Prop) (hstep : ∀ i a, Adds (step i a) (P i a)) (n : Nat) :
    ∀ (i : Nat) (l : List α), Adds (forEachIndexM step n i l)
      (fun r => ∃ (k : Nat) (a : α), i ≤ k ∧ k < i + n ∧ l[k]? = some a ∧ P k a r) := by
  induction n with
  | zero => intro i l; rw [forEachIndexM]; exact adds_pure _ _
  | succ n ih =>
    intro i l
    rw [forEachIndexM]
    cases hl : l[i]? with
    | none =>
      exact adds_mono _ _ _ (ih (i + 1) l)
        (fun r ⟨k, a, h1, h2, h3, h4⟩ => ⟨k, a, by omega, by omega, h3, h4⟩)
    | some a =>
      refine adds_bind _ _ _ (adds_mono _ _ _ (hstep i a)
        (fun r h => ⟨i, a, le_refl _, by omega, hl, h⟩)) (fun a1 => ?_)
      refine adds_mono _ _ _ (ih (i + 1) (l.set i a1)) ?_
      rintro r ⟨k, b, h1, h2, h3, h4⟩
      rw [List.getElem?_set_ne (by omega)] at h3
      exact ⟨k, b, by omega, by omega, h3, h4⟩

theorem adds_MIFsetup_phaseA_port_requests (env : Collaborators) (name : List Char)
    (is_input is_output : Bool) (i j : Nat) (port : Mif_Port_Data_t) :
    Adds (MIFsetup_phaseA_port env name is_input is_output i j port)
      (PortRequest name is_input is_output i j port) := by
  unfold MIFsetup_phaseA_port
  by_cases hn : port.is_null = true
  · simp only [hn, if_true]
    exact adds_pure _ _
  · have hn2 : port.is_null = false := by simpa using hn
    simp only [hn2, Bool.false_eq_true, if_false]
    refine adds_bind _ _ _ ?_ (fun smp1 => adds_bind _ _ _ ?_ (fun smp2 =>
      adds_bind _ _ _ ?_ (fun smp3 => adds_pure _ _)))
    · by_cases hc : specNeedsBranch is_output port.type = true
      · refine adds_mono _ _ _ (adds_MIFsetup_branch env name is_output _ i j _) ?_
        rintro r (h | h)
        · exact ⟨hn2, Or.inl ⟨h, hc⟩⟩
        · exact ⟨hn2, Or.inr (Or.inr (Or.inl h))⟩
      · rw [MIFsetup_branch_skip env name is_output port.type i j _ (by simpa using hc)]
        exact adds_pure _ _
    · by_cases hc : specNeedsIbranch is_input port.type = true
      · refine adds_mono _ _ _ (adds_MIFsetup_ibranch env name is_input _ i j _) ?_
        rintro r (h | h)
        · exact ⟨hn2, Or.inr (Or.inl ⟨h, hc⟩)⟩
        · exact ⟨hn2, Or.inr (Or.inr (Or.inl h))⟩
      · rw [MIFsetup_ibranch_skip env name is_input port.type i j _ (by simpa using hc)]
        exact adds_pure _ _
    · by_cases hc : (is_input && decide (port.type = MIF_VSOURCE_CURRENT)) = true
      · have hc2 : is_input = true ∧ port.type = MIF_VSOURCE_CURRENT := by simpa using hc
        refine adds_mono _ _ _ (adds_MIFsetup_vsource env name is_input _ _ _) ?_
        rintro r (h | h)
        · exact ⟨hn2, Or.inr (Or.inr (Or.inr (Or.inl ⟨h, hc2.1, hc2.2⟩)))⟩
        · exact ⟨hn2, Or.inr (Or.inr (Or.inr (Or.inr ⟨h, hc2.1, hc2.2⟩)))⟩
      · rw [MIFsetup_vsource_skip env name is_input port.type _ _ (by simpa using hc)]
        exact adds_pure _ _

theorem adds_MIFsetup_phaseA_conn_requests (env : Collaborators) (name : List Char)
    (i : Nat) (conn : Mif_Conn_Data_t) :
    Adds (MIFsetup_phaseA_conn env name i conn)
      (fun r => conn.is_null = false ∧ ∃ (j : Nat) (P : Mif_Port_Data_t),
        j < conn.size ∧ conn.port[j]? = some P ∧
        PortRequest name conn.is_input conn.is_output i j P r) := by
  unfold MIFsetup_phaseA_conn
  by_cases hn : conn.is_null = true
  · simp only [hn, if_true]
    exact adds_pure _ _
  · have hn2 : conn.is_null = false := by simpa using hn
    rw [if_neg hn]
    refine adds_bind _ _ _ (adds_mono _ _ _ (adds_forEachIndexM_indexed _ _
      (fun j p => adds_MIFsetup_phaseA_port_requests env name conn.is_input conn.is_output
        i j p) conn.size 0 conn.port) ?_) (fun ports => adds_pure _ _)
    rintro r ⟨k, P, _, h2, h3, h4⟩
    exact ⟨hn2, k, P, by omega, h3, h4⟩

theorem adds_MIFsetup_phaseA_requests (env : Collaborators) (here : MIFinstance) :
    Adds (MIFsetup_phaseA env here) (InstanceRequest here) := by
  unfold MIFsetup_phaseA
  refine adds_mono _ _ _ (adds_forEachIndexM_indexed _ _
    (fun i c => adds_MIFsetup_phaseA_conn_requests env here.MIFname i c) here.num_conn 0
    here.conn) ?_
  rintro r ⟨i, c, _, h2, h3, hcn, j, P, h5, h6, h7⟩
  exact ⟨i, j, c, P, by omega, h3, hcn, h5, h6, h7⟩

theorem MIFsetup_phaseA_reach (env : Collaborators) (here : MIFinstance)
    (conns : List Mif_Conn_Data_t) (tr t : List Request)
    (h : MIFsetup_phaseA env here tr = (Except.ok conns, t))
    (i j : Nat) (c0 : Mif_Conn_Data_t) (P0 : Mif_Port_Data_t)
    (hi : i < here.num_conn) (hc : here.conn[i]? = some c0) (hcn : c0.is_null = false)
    (hj : j < c0.size) (hp : c0.port[j]? = some P0) :
    ∃ (a : List Request) (t2 q : List Request) (ports : List Mif_Port_Data_t)
        (P : Mif_Port_Data_t),
      conns[i]? = some { c0 with port := ports } ∧ ports[j]? = some P ∧
      MIFsetup_phaseA_port env here.MIFname c0.is_input c0.is_output i j P0 (tr ++ a) =
        (Except.ok P, t2) ∧ t = t2 ++ q := by
  unfold MIFsetup_phaseA at h
  obtain ⟨hlen, _, _, h4⟩ := forEachIndexM_at _
    (fun i c => adds_MIFsetup_phaseA_conn env here.MIFname i c) here.num_conn 0 here.conn tr
    conns t h
  have hil : i < here.conn.length := by
    by_contra hge
    rw [List.getElem?_eq_none (by omega)] at hc
    cases hc
  obtain ⟨c, hci⟩ : ∃ c, conns[i]? = some c :=
    ⟨_, List.getElem?_eq_getElem (by omega)⟩
  obtain ⟨c1, p, t1, q, hc0, hstep, ht⟩ := h4 i c (Nat.zero_le _) (by omega) hci
  rw [hc] at hc0
  simp only [Option.some.injEq] at hc0
  subst hc0
  unfold MIFsetup_phaseA_conn at hstep
  rw [if_neg (by simp [hcn])] at hstep
  obtain ⟨ports, t3, hports, hstep⟩ := SetupM.bind_eq_ok _ _ _ _ _ hstep
  simp only [SetupM.pure, Prod.mk.injEq, Except.ok.injEq] at hstep
  obtain ⟨hcc, rfl⟩ := hstep
  obtain ⟨glen, _, _, g4⟩ := forEachIndexM_at _
    (fun j p => adds_MIFsetup_phaseA_port env here.MIFname c0.is_input c0.is_output i j p)
    c0.size 0 c0.port (tr ++ p) ports t3 hports
  have hjl : j < c0.port.length := by
    by_contra hge
    rw [List.getElem?_eq_none (by omega)] at hp
    cases hp
  obtain ⟨P, hpj⟩ : ∃ P, ports[j]? = some P :=
    ⟨_, List.getElem?_eq_getElem (by omega)⟩
  obtain ⟨P1, p2, t2, q2, hP0, hpstep, ht3⟩ := g4 j P (Nat.zero_le _) (by omega) hpj
  rw [hp] at hP0
  simp only [Option.some.injEq] at hP0
  subst hP0
  refine ⟨p ++ p2, t2, q2 ++ q, ports, P, ?_, hpj, ?_, ?_⟩
  · rw [hci, hcc]
  · rw [← List.append_assoc]
    exact hpstep
  · rw [ht, ht3, List.append_assoc]

theorem adds_forRangeM_of {α : Type} (l : List α) (body : α → SetupM Unit)
    (P : Request → Prop) (hb : ∀ a, Adds (body a) P) (n : Nat) :
    ∀ i, Adds (forRangeM l body n i) P := by
  induction n with
  | zero => intro i; rw [forRangeM]; exact adds_pure _ _
  | succ n ih =>
    intro i
    rw [forRangeM]
    cases l[i]? with
    | none => exact ih (i + 1)
    | some a => exact adds_bind _ _ _ (hb a) (fun _ => ih (i + 1))

theorem adds_MIFsetup_pair_entries (env : Collaborators) (o c : Mif_Smp_Ptr_t)
    (it ot : Mif_Port_Type_t) :
    Adds (MIFsetup_pair env o c it ot) (fun r => ∃ row col, r = Request.makeElt row col) := by
  unfold MIFsetup_pair
  have hc := fun a b => adds_mono _ _ (fun r => ∃ row col, r = Request.makeElt row col)
    (adds_CTSTALLOC env a b) (fun r h => ⟨a, b, h⟩)
  rcases MIFget_cntl_src_type it ot with _ | k
  · exact adds_pure _ _
  · cases k
    · exact adds_bind _ _ _ (hc _ _) (fun _ => hc _ _)
    · exact adds_bind _ _ _ (hc _ _) (fun _ => hc _ _)
    · exact adds_bind _ _ _ (hc _ _) (fun _ => adds_bind _ _ _ (hc _ _)
        (fun _ => adds_bind _ _ _ (hc _ _) (fun _ => hc _ _)))
    · exact hc _ _

theorem adds_MIFsetup_phaseB_entries (env : Collaborators) (here : MIFinstance) :
    Adds (MIFsetup_phaseB env here) (fun r => ∃ row col, r = Request.makeElt row col) := by
  unfold MIFsetup_phaseB
  refine adds_forRangeM_of _ _ _ (fun ci => ?_) _ _
  split_ifs
  · exact adds_pure _ _
  · refine adds_forRangeM_of _ _ _ (fun out => ?_) _ _
    unfold MIFsetup_phaseB_port
    split_ifs
    · exact adds_pure _ _
    · refine adds_forRangeM_of _ _ _ (fun ck => ?_) _ _
      split_ifs
      · exact adds_pure _ _
      · refine adds_forRangeM_of _ _ _ (fun pl => ?_) _ _
        split_ifs
        · exact adds_pure _ _
        · exact adds_MIFsetup_pair_entries env _ _ _ _

theorem adds_MIFsetup_instance_requests (env : Collaborators) (here : MIFinstance) :
    Adds (MIFsetup_instance env here)
      (fun r => (∃ row col, r = Request.makeElt row col) ∨
        (here.analog = true ∧ InstanceRequest here r)) := by
  unfold MIFsetup_instance
  by_cases ha : here.analog = true
  · simp only [ha, Bool.not_true, Bool.false_eq_true, if_false]
    refine adds_bind _ _ _ (adds_mono _ _ _ (adds_MIFsetup_phaseA_requests env here)
      (fun r h => Or.inr ⟨trivial, h⟩)) (fun conns => ?_)
    exact adds_bind _ _ _ (adds_mono _ _ _ (adds_MIFsetup_phaseB_entries env _)
      (fun r h => Or.inl h)) (fun _ => adds_pure _ _)
  · have ha2 : here.analog = false := by simpa using ha
    simp only [ha2, Bool.not_false, if_true]
    exact adds_pure _ _

theorem instanceRequest_branch (here : MIFinstance) (i j : Nat) (c0 : Mif_Conn_Data_t)
    (P0 : Mif_Port_Data_t) (hc : here.conn[i]? = some c0) (hp : c0.port[j]? = some P0)
    (h : InstanceRequest here (Request.mkCur here.MIFname (branchSuffix i j))) :
    c0.is_null = false ∧ P0.is_null = false ∧
      specNeedsBranch c0.is_output P0.type = true := by
  obtain ⟨i1, j1, c, P, _, hc1, hcn, _, hp1, hpn, hr⟩ := h
  rcases hr with ⟨h1, h2⟩ | ⟨h1, _⟩ | ⟨_, _, h1⟩ | ⟨h1, _⟩ | ⟨h1, _⟩
  · simp only [Request.mkCur.injEq, true_and] at h1
    obtain ⟨rfl, rfl⟩ := branchSuffix_injective i j i1 j1 h1
    rw [hc] at hc1
    simp only [Option.some.injEq] at hc1
    subst hc1
    rw [hp] at hp1
    simp only [Option.some.injEq] at hp1
    subst hp1
    exact ⟨hcn, hpn, h2⟩
  · simp only [Request.mkCur.injEq, true_and] at h1
    exact absurd h1 (branchSuffix_ne_ibranchSuffix i j i1 j1)
  · cases h1
  · cases h1
  · cases h1

theorem instanceRequest_ibranch (here : MIFinstance) (i j : Nat) (c0 : Mif_Conn_Data_t)
    (P0 : Mif_Port_Data_t) (hc : here.conn[i]? = some c0) (hp : c0.port[j]? = some P0)
    (h : InstanceRequest here (Request.mkCur here.MIFname (ibranchSuffix i j))) :
    c0.is_null = false ∧ P0.is_null = false ∧
      specNeedsIbranch c0.is_input P0.type = true := by
  obtain ⟨i1, j1, c, P, _, hc1, hcn, _, hp1, hpn, hr⟩ := h
  rcases hr with ⟨h1, _⟩ | ⟨h1, h2⟩ | ⟨_, _, h1⟩ | ⟨h1, _⟩ | ⟨h1, _⟩
  · simp only [Request.mkCur.injEq, true_and] at h1
    exact absurd h1.symm (branchSuffix_ne_ibranchSuffix i1 j1 i j)
  · simp only [Request.mkCur.injEq, true_and] at h1
    obtain ⟨rfl, rfl⟩ := ibranchSuffix_injective i j i1 j1 h1
    rw [hc] at hc1
    simp only [Option.some.injEq] at hc1
    subst hc1
    rw [hp] at hp1
    simp only [Option.some.injEq] at hp1
    subst hp1
    exact ⟨hcn, hpn, h2⟩
  · cases h1
  · cases h1
  · cases h1

theorem MIFsetup_instance_created (env : Collaborators) (here : MIFinstance)
    (tr : List Request) (x : Request) (hx : ∀ row col, x ≠ Request.makeElt row col)
    (h : x ∈ requestsAdded (MIFsetup_instance env here) tr) :
    here.analog = true ∧ InstanceRequest here x := by
  obtain ⟨added, h1, h2⟩ := adds_MIFsetup_instance_requests env here tr
  rw [requestsAdded_eq _ tr added h1] at h
  rcases h2 x h with ⟨row, col, he⟩ | h3
  · exact absurd he (hx row col)
  · exact h3

theorem MIFsetup_instance_reach (env : Collaborators) (here here1 : MIFinstance)
    (tr t : List Request) (ha : here.analog = true)
    (h : MIFsetup_instance env here tr = (Except.ok here1, t))
    (i j : Nat) (c0 : Mif_Conn_Data_t) (P0 : Mif_Port_Data_t)
    (hi : i < here.num_conn) (hc : here.conn[i]? = some c0) (hcn : c0.is_null = false)
    (hj : j < c0.size) (hp : c0.port[j]? = some P0) :
    ∃ (a : List Request) (t2 q : List Request) (ports : List Mif_Port_Data_t)
        (P : Mif_Port_Data_t),
      here1.conn[i]? = some { c0 with port := ports } ∧ ports[j]? = some P ∧
      MIFsetup_phaseA_port env here.MIFname c0.is_input c0.is_output i j P0 (tr ++ a) =
        (Except.ok P, t2) ∧ t = t2 ++ q := by
  obtain ⟨phaseA, phaseB, _, hA, _, ht⟩ := MIFsetup_instance_parts env here here1 tr t ha h
  obtain ⟨a, t2, q, ports, P, h1, h2, h3, h4⟩ := MIFsetup_phaseA_reach env here here1.conn tr
    _ hA i j c0 P0 hi hc hcn hj hp
  exact ⟨a, t2, q ++ phaseB, ports, P, h1, h2, h3, by rw [ht, h4, List.append_assoc]⟩

theorem mem_requestsAdded_of_eq {α : Type} (m : SetupM α) (tr a seg q : List Request)
    (res : Except SPerror α) (x : Request) (h : m tr = (res, tr ++ a ++ seg ++ q))
    (hx : x ∈ seg) : x ∈ requestsAdded m tr := by
  rw [requestsAdded_eq m tr (a ++ seg ++ q) (by rw [h]; simp [List.append_assoc])]
  simp [hx]

/-- C21: in the setup of an instance, phase A requests the creation of the branch
equation named by the instance and the suffix `branch_<i>_<j>` only for port `j`
of connection `i` of an analog instance, and only when the connection and the
port are not null and either the connection is an output and the port kind is
voltage or differential voltage, or the port kind is resistance or differential
resistance. When the setup of the instance ends without a failed request the
creation is requested if and only if these conditions hold; then the requests the
loop body makes for the port, run with the direction flags of connection `i` and
the indices `i` and `j`, are that creation followed by exactly the four matrix
entries (pos node, branch), (neg node, branch), (branch, pos node), (branch,
neg node), and the branch and ibranch indices the port has after the setup both
are the number of the new equation. -/
theorem MIFsetup_phaseA_branch_equation (env : Collaborators) (here : MIFinstance)
    (tr : List Request) (i j : Nat) (c0 : Mif_Conn_Data_t) (P0 : Mif_Port_Data_t)
    (hi : i < here.num_conn) (hc : here.conn[i]? = some c0)
    (hj : j < c0.size) (hp : c0.port[j]? = some P0) :
    (Request.mkCur here.MIFname (branchSuffix i j) ∈
        requestsAdded (MIFsetup_instance env here) tr →
      here.analog = true ∧ c0.is_null = false ∧ P0.is_null = false ∧
        specNeedsBranch c0.is_output P0.type = true) ∧
    (∀ (here1 : MIFinstance) (t : List Request),
      MIFsetup_instance env here tr = (Except.ok here1, t) →
      (Request.mkCur here.MIFname (branchSuffix i j) ∈
          requestsAdded (MIFsetup_instance env here) tr ↔
        here.analog = true ∧ c0.is_null = false ∧ P0.is_null = false ∧
          specNeedsBranch c0.is_output P0.type = true) ∧
      (here.analog = true → c0.is_null = false → P0.is_null = false →
        specNeedsBranch c0.is_output P0.type = true →
        ∃ (a q : List Request) (ports : List Mif_Port_Data_t) (P : Mif_Port_Data_t),
          t = tr ++ a ++ branchRequests here.MIFname (branchSuffix i j)
              P0.smp_data.pos_node P0.smp_data.neg_node
              (env.CKTmkCur (tr ++ a) here.MIFname (branchSuffix i j)).2 ++ q ∧
          MIFsetup_phaseA_port env here.MIFname c0.is_input c0.is_output i j P0 (tr ++ a) =
            (Except.ok P, tr ++ a ++ branchRequests here.MIFname (branchSuffix i j)
              P0.smp_data.pos_node P0.smp_data.neg_node
              (env.CKTmkCur (tr ++ a) here.MIFname (branchSuffix i j)).2) ∧
          here1.conn[i]? = some { c0 with port := ports } ∧ ports[j]? = some P ∧
          P.smp_data.branch = (env.CKTmkCur (tr ++ a) here.MIFname (branchSuffix i j)).2 ∧
          P.smp_data.ibranch =
            (env.CKTmkCur (tr ++ a) here.MIFname (branchSuffix i j)).2)) := by
  have only_if : Request.mkCur here.MIFname (branchSuffix i j) ∈
        requestsAdded (MIFsetup_instance env here) tr →
      here.analog = true ∧ c0.is_null = false ∧ P0.is_null = false ∧
        specNeedsBranch c0.is_output P0.type = true := by
    intro hmem
    obtain ⟨ha, hr⟩ := MIFsetup_instance_created env here tr _ (fun _ _ => by simp) hmem
    exact ⟨ha, instanceRequest_branch here i j c0 P0 hc hp hr⟩
  have created : ∀ (here1 : MIFinstance) (t : List Request),
      MIFsetup_instance env here tr = (Except.ok here1, t) →
      here.analog = true → c0.is_null = false → P0.is_null = false →
        specNeedsBranch c0.is_output P0.type = true →
        ∃ (a q : List Request) (ports : List Mif_Port_Data_t) (P : Mif_Port_Data_t),
          t = tr ++ a ++ branchRequests here.MIFname (branchSuffix i j)
              P0.smp_data.pos_node P0.smp_data.neg_node
              (env.CKTmkCur (tr ++ a) here.MIFname (branchSuffix i j)).2 ++ q ∧
          MIFsetup_phaseA_port env here.MIFname c0.is_input c0.is_output i j P0 (tr ++ a) =
            (Except.ok P, tr ++ a ++ branchRequests here.MIFname (branchSuffix i j)
              P0.smp_data.pos_node P0.smp_data.neg_node
              (env.CKTmkCur (tr ++ a) here.MIFname (branchSuffix i j)).2) ∧
          here1.conn[i]? = some { c0 with port := ports } ∧ ports[j]? = some P ∧
          P.smp_data.branch = (env.CKTmkCur (tr ++ a) here.MIFname (branchSuffix i j)).2 ∧
          P.smp_data.ibranch =
            (env.CKTmkCur (tr ++ a) here.MIFname (branchSuffix i j)).2 := by
    intro here1 t h ha hcn hpn hnb
    obtain ⟨a, t2, q, ports, P, h1, h2, h3, h4⟩ := MIFsetup_instance_reach env here here1 tr t
      ha h i j c0 P0 hi hc hcn hj hp
    have hb := MIFsetup_phaseA_port_ok_of_branch env here.MIFname c0.is_input c0.is_output i j
      P0 P (tr ++ a) t2 hpn hnb h3
    obtain ⟨g1, g2, _⟩ := MIFsetup_branch_ok env here.MIFname c0.is_output P0.type i j _ _
      (tr ++ a) t2 hnb hb
    have g1b : t2 = tr ++ a ++ branchRequests here.MIFname (branchSuffix i j)
        P0.smp_data.pos_node P0.smp_data.neg_node
        (env.CKTmkCur (tr ++ a) here.MIFname (branchSuffix i j)).2 := g1
    refine ⟨a, q, ports, P, by rw [h4, g1b], by rw [h3, g1b], h1, h2, by rw [g2], by rw [g2]⟩
  refine ⟨only_if, fun here1 t h => ⟨⟨only_if, ?_⟩, created here1 t h⟩⟩
  rintro ⟨ha, hcn, hpn, hnb⟩
  obtain ⟨a, q, ports, P, ht, _⟩ := created here1 t h ha hcn hpn hnb
  exact mem_requestsAdded_of_eq _ tr a _ q _ _ (by rw [h, ht]) (by simp [branchRequests])

/-- Witness of C21: the voltage port of the output connection of the example
instance, in the setup of that instance from the empty history. -/
theorem MIFsetup_phaseA_branch_equation_witness :
    ∃ (a q : List Request) (ports : List Mif_Port_Data_t) (P : Mif_Port_Data_t),
      exampleRequests = [] ++ a ++ branchRequests exampleInstance.MIFname (branchSuffix 0 0)
          1 2 ((exampleCollaborators 20).CKTmkCur ([] ++ a) exampleInstance.MIFname
            (branchSuffix 0 0)).2 ++ q ∧
      MIFsetup_phaseA_port (exampleCollaborators 20) exampleInstance.MIFname false true 0 0
          ⟨false, MIF_VOLTAGE, [], ⟨1, 2, 0, 0⟩, 0⟩ ([] ++ a) =
        (Except.ok P, [] ++ a ++ branchRequests exampleInstance.MIFname (branchSuffix 0 0)
          1 2 ((exampleCollaborators 20).CKTmkCur ([] ++ a) exampleInstance.MIFname
            (branchSuffix 0 0)).2) ∧
      exampleInstanceAfter.conn[0]? = some ⟨false, false, true, 1, ports⟩ ∧
      ports[0]? = some P ∧
      P.smp_data.branch = ((exampleCollaborators 20).CKTmkCur ([] ++ a)
        exampleInstance.MIFname (branchSuffix 0 0)).2 ∧
      P.smp_data.ibranch = ((exampleCollaborators 20).CKTmkCur ([] ++ a)
        exampleInstance.MIFname (branchSuffix 0 0)).2 :=
  ((MIFsetup_phaseA_branch_equation (exampleCollaborators 20) exampleInstance [] 0 0
    ⟨false, false, true, 1, [⟨false, MIF_VOLTAGE, [], ⟨1, 2, 0, 0⟩, 0⟩]⟩
    ⟨false, MIF_VOLTAGE, [], ⟨1, 2, 0, 0⟩, 0⟩ (by decide) rfl (by decide) rfl).2
    exampleInstanceAfter exampleRequests exampleInstance_setup).2 rfl rfl rfl rfl

/-- C22: in the setup of an instance, phase A requests the creation of the
separate branch equation named by the instance and the suffix `ibranch_<i>_<j>`
only for port `j` of connection `i` of an analog instance, and only when the
connection and the port are not null, the connection is an input and the port
kind is current or differential current. When the setup of the instance ends
without a failed request the creation is requested if and only if these
conditions hold; then the requests the loop body makes for the port, run with the
direction flags of connection `i` and the indices `i` and `j`, are that creation
followed by exactly the four matrix entries (pos node, ibranch), (neg node,
ibranch), (ibranch, pos node), (ibranch, neg node), the ibranch index the port
has after the setup is the number of the new equation, and its branch index is
left as it was. -/
theorem MIFsetup_phaseA_ibranch_equation (env : Collaborators) (here : MIFinstance)
    (tr : List Request) (i j : Nat) (c0 : Mif_Conn_Data_t) (P0 : Mif_Port_Data_t)
    (hi : i < here.num_conn) (hc : here.conn[i]? = some c0)
    (hj : j < c0.size) (hp : c0.port[j]? = some P0) :
    (Request.mkCur here.MIFname (ibranchSuffix i j) ∈
        requestsAdded (MIFsetup_instance env here) tr →
      here.analog = true ∧ c0.is_null = false ∧ P0.is_null = false ∧
        specNeedsIbranch c0.is_input P0.type = true) ∧
    (∀ (here1 : MIFinstance) (t : List Request),
      MIFsetup_instance env here tr = (Except.ok here1, t) →
      (Request.mkCur here.MIFname (ibranchSuffix i j) ∈
          requestsAdded (MIFsetup_instance env here) tr ↔
        here.analog = true ∧ c0.is_null = false ∧ P0.is_null = false ∧
          specNeedsIbranch c0.is_input P0.type = true) ∧
      (here.analog = true → c0.is_null = false → P0.is_null = false →
        specNeedsIbranch c0.is_input P0.type = true →
        ∃ (a q : List Request) (ports : List Mif_Port_Data_t) (P : Mif_Port_Data_t),
          t = tr ++ a ++ branchRequests here.MIFname (ibranchSuffix i j)
              P0.smp_data.pos_node P0.smp_data.neg_node
              (env.CKTmkCur (tr ++ a) here.MIFname (ibranchSuffix i j)).2 ++ q ∧
          MIFsetup_phaseA_port env here.MIFname c0.is_input c0.is_output i j P0 (tr ++ a) =
            (Except.ok P, tr ++ a ++ branchRequests here.MIFname (ibranchSuffix i j)
              P0.smp_data.pos_node P0.smp_data.neg_node
              (env.CKTmkCur (tr ++ a) here.MIFname (ibranchSuffix i j)).2) ∧
          here1.conn[i]? = some { c0 with port := ports } ∧ ports[j]? = some P ∧
          P.smp_data.ibranch =
            (env.CKTmkCur (tr ++ a) here.MIFname (ibranchSuffix i j)).2 ∧
          P.smp_data.branch = P0.smp_data.branch)) := by
  have only_if : Request.mkCur here.MIFname (ibranchSuffix i j) ∈
        requestsAdded (MIFsetup_instance env here) tr →
      here.analog = true ∧ c0.is_null = false ∧ P0.is_null = false ∧
        specNeedsIbranch c0.is_input P0.type = true := by
    intro hmem
    obtain ⟨ha, hr⟩ := MIFsetup_instance_created env here tr _ (fun _ _ => by simp) hmem
    exact ⟨ha, instanceRequest_ibranch here i j c0 P0 hc hp hr⟩
  have created : ∀ (here1 : MIFinstance) (t : List Request),
      MIFsetup_instance env here tr = (Except.ok here1, t) →
      here.analog = true → c0.is_null = false → P0.is_null = false →
        specNeedsIbranch c0.is_input P0.type = true →
        ∃ (a q : List Request) (ports : List Mif_Port_Data_t) (P : Mif_Port_Data_t),
          t = tr ++ a ++ branchRequests here.MIFname (ibranchSuffix i j)
              P0.smp_data.pos_node P0.smp_data.neg_node
              (env.CKTmkCur (tr ++ a) here.MIFname (ibranchSuffix i j)).2 ++ q ∧
          MIFsetup_phaseA_port env here.MIFname c0.is_input c0.is_output i j P0 (tr ++ a) =
            (Except.ok P, tr ++ a ++ branchRequests here.MIFname (ibranchSuffix i j)
              P0.smp_data.pos_node P0.smp_data.neg_node
              (env.CKTmkCur (tr ++ a) here.MIFname (ibranchSuffix i j)).2) ∧
          here1.conn[i]? = some { c0 with port := ports } ∧ ports[j]? = some P ∧
          P.smp_data.ibranch =
            (env.CKTmkCur (tr ++ a) here.MIFname (ibranchSuffix i j)).2 ∧
          P.smp_data.branch = P0.smp_data.branch := by
    intro here1 t h ha hcn hpn hnb
    obtain ⟨a, t2, q, ports, P, h1, h2, h3, h4⟩ := MIFsetup_instance_reach env here here1 tr t
      ha h i j c0 P0 hi hc hcn hj hp
    have hb := MIFsetup_phaseA_port_ok_of_ibranch env here.MIFname c0.is_input c0.is_output
      i j P0 P (tr ++ a) t2 hpn hnb h3
    obtain ⟨g1, g2, _⟩ := MIFsetup_ibranch_ok env here.MIFname c0.is_input P0.type i j _ _
      (tr ++ a) t2 hnb hb
    have g1b : t2 = tr ++ a ++ branchRequests here.MIFname (ibranchSuffix i j)
        P0.smp_data.pos_node P0.smp_data.neg_node
        (env.CKTmkCur (tr ++ a) here.MIFname (ibranchSuffix i j)).2 := g1
    refine ⟨a, q, ports, P, by rw [h4, g1b], by rw [h3, g1b], h1, h2, by rw [g2], by rw [g2]⟩
  refine ⟨only_if, fun here1 t h => ⟨⟨only_if, ?_⟩, created here1 t h⟩⟩
  rintro ⟨ha, hcn, hpn, hnb⟩
  obtain ⟨a, q, ports, P, ht, _⟩ := created here1 t h ha hcn hpn hnb
  exact mem_requestsAdded_of_eq _ tr a _ q _ _ (by rw [h, ht]) (by simp [branchRequests])

/-- Witness of C22: the current port of the input connection of the example
instance, in the setup of that instance from the empty history. -/
theorem MIFsetup_phaseA_ibranch_equation_witness :
    ∃ (a q : List Request) (ports : List Mif_Port_Data_t) (P : Mif_Port_Data_t),
      exampleRequests = [] ++ a ++ branchRequests exampleInstance.MIFname (ibranchSuffix 1 0)
          3 4 ((exampleCollaborators 20).CKTmkCur ([] ++ a) exampleInstance.MIFname
            (ibranchSuffix 1 0)).2 ++ q ∧
      MIFsetup_phaseA_port (exampleCollaborators 20) exampleInstance.MIFname true false 1 0
          ⟨false, MIF_CURRENT, [], ⟨3, 4, 0, 0⟩, 0⟩ ([] ++ a) =
        (Except.ok P, [] ++ a ++ branchRequests exampleInstance.MIFname (ibranchSuffix 1 0)
          3 4 ((exampleCollaborators 20).CKTmkCur ([] ++ a) exampleInstance.MIFname
            (ibranchSuffix 1 0)).2) ∧
      exampleInstanceAfter.conn[1]? = some ⟨false, true, false, 1, ports⟩ ∧
      ports[0]? = some P ∧
      P.smp_data.ibranch = ((exampleCollaborators 20).CKTmkCur ([] ++ a)
        exampleInstance.MIFname (ibranchSuffix 1 0)).2 ∧
      P.smp_data.branch = 0 :=
  ((MIFsetup_phaseA_ibranch_equation (exampleCollaborators 20) exampleInstance [] 1 0
    ⟨false, true, false, 1, [⟨false, MIF_CURRENT, [], ⟨3, 4, 0, 0⟩, 0⟩]⟩
    ⟨false, MIF_CURRENT, [], ⟨3, 4, 0, 0⟩, 0⟩ (by decide) rfl (by decide) rfl).2
    exampleInstanceAfter exampleRequests exampleInstance_setup).2 rfl rfl rfl rfl

/-! ### The report of an unknown controlling source -/

theorem instanceRequest_report (here : MIFinstance) (n reference : List Char)
    (h : InstanceRequest here (Request.IFerror n reference)) :
    n = here.MIFname ∧
    ∃ (i j : Nat) (c : Mif_Conn_Data_t) (P : Mif_Port_Data_t),
      i < here.num_conn ∧ here.conn[i]? = some c ∧ c.is_null = false ∧
      c.is_input = true ∧ j < c.size ∧ c.port[j]? = some P ∧ P.is_null = false ∧
      P.type = MIF_VSOURCE_CURRENT ∧ P.vsource_str = reference := by
  obtain ⟨i, j, c, P, h1, h2, h3, h4, h5, hpn, hr⟩ := h
  rcases hr with ⟨e, _⟩ | ⟨e, _⟩ | ⟨_, _, e⟩ | ⟨e, _⟩ | ⟨e, hin, hty⟩
  · cases e
  · cases e
  · cases e
  · cases e
  · simp only [Request.IFerror.injEq] at e
    exact ⟨e.1, i, j, c, P, h1, h2, h3, hin, h4, h5, hpn, hty, e.2.symm⟩

theorem forEachIndexS_rel {σ α : Type} (step : Nat → α → σ → α × σ) (R : α → α → Prop)
    (hrefl : ∀ a, R a a) (htrans : ∀ a b c, R a b → R b c → R a c)
    (hstep : ∀ k a s, R a (step k a s).1) (n : Nat) :
    ∀ (i : Nat) (l : List α) (s : σ) (k : Nat) (a1 : α),
      (forEachIndexS step n i l s).1[k]? = some a1 → ∃ a, l[k]? = some a ∧ R a a1 := by
  induction n with
  | zero =>
    intro i l s k a1 h
    rw [forEachIndexS] at h
    exact ⟨a1, h, hrefl a1⟩
  | succ n ih =>
    intro i l s k a1 h
    rw [forEachIndexS] at h
    cases hl : l[i]? with
    | none =>
      rw [hl] at h
      exact ih (i + 1) l s k a1 h
    | some a =>
      rw [hl] at h
      simp only at h
      rcases hs : step i a s with ⟨b, s1⟩
      rw [hs] at h
      simp only at h
      obtain ⟨a2, h2, hr⟩ := ih (i + 1) (l.set i b) s1 k a1 h
      have hlt : i < l.length := by
        by_contra hge
        rw [List.getElem?_eq_none (by omega)] at hl
        cases hl
      by_cases hki : k = i
      · subst hki
        rw [List.getElem?_set_self hlt] at h2
        simp only [Option.some.injEq] at h2
        subst h2
        have := hstep k a s
        rw [hs] at this
        exact ⟨a, hl, htrans _ _ _ this hr⟩
      · rw [List.getElem?_set_ne (by omega)] at h2
        exact ⟨a2, h2, hr⟩

theorem MIFsetup_states_analog (here : MIFinstance) (states : Int) :
    (MIFsetup_states here states).1.analog = here.analog := by
  unfold MIFsetup_states
  by_cases ha : here.analog = true
  · simp only [ha, Bool.not_true, Bool.false_eq_true, if_false]
  · have ha2 : here.analog = false := by simpa using ha
    simp only [ha2, Bool.not_false, if_true]

theorem MIFsetup_states_requests (here : MIFinstance) (states : Int) (r : Request)
    (h : InstanceRequest (MIFsetup_states here states).1 r) : InstanceRequest here r := by
  unfold MIFsetup_states at h
  by_cases ha : here.analog = true
  swap
  · have ha2 : here.analog = false := by simpa using ha
    simp only [ha2, Bool.not_false, if_true] at h
    exact h
  simp only [ha, Bool.not_true, Bool.false_eq_true, if_false] at h
  obtain ⟨i, j, c, P, h1, h2, h3, h4, h5, h6⟩ := h
  simp only at h1 h2 h6
  obtain ⟨c0, hc0, e1, e2, e3, e4, e5⟩ := forEachIndexS_rel _
    (fun (c0 c : Mif_Conn_Data_t) => c.is_null = c0.is_null ∧ c.is_input = c0.is_input ∧
      c.is_output = c0.is_output ∧ c.size = c0.size ∧
      ∀ (j : Nat) (P : Mif_Port_Data_t), c.port[j]? = some P →
        ∃ P0, c0.port[j]? = some P0 ∧ P.is_null = P0.is_null ∧ P.type = P0.type ∧
          P.vsource_str = P0.vsource_str)
    (fun a => ⟨rfl, rfl, rfl, rfl, fun j P hP => ⟨P, hP, rfl, rfl, rfl⟩⟩)
    (fun a b c hab hbc => ⟨hbc.1.trans hab.1, hbc.2.1.trans hab.2.1,
      hbc.2.2.1.trans hab.2.2.1, hbc.2.2.2.1.trans hab.2.2.2.1, fun j P hP => by
        obtain ⟨P1, g1, g2, g3, g4⟩ := hbc.2.2.2.2 j P hP
        obtain ⟨P0, f1, f2, f3, f4⟩ := hab.2.2.2.2 j P1 g1
        exact ⟨P0, f1, g2.trans f2, g3.trans f3, g4.trans f4⟩⟩)
    (fun k a s => by
      by_cases hskip : (a.is_null || !a.is_input) = true
      · rw [if_pos hskip]
        exact ⟨rfl, rfl, rfl, rfl, fun j P hP => ⟨P, hP, rfl, rfl, rfl⟩⟩
      · rw [if_neg hskip]
        generalize hf : forEachIndexS _ a.size 0 a.port s = res
        obtain ⟨ports, st2⟩ := res
        refine ⟨rfl, rfl, rfl, rfl, fun j P hP => ?_⟩
        have hP2 : (forEachIndexS (fun _ (port : Mif_Port_Data_t) (st1 : Int) =>
            (({ port with old_input := st1 } : Mif_Port_Data_t), st1 + 1)) a.size 0 a.port
            s).1[j]? = some P := by
          rw [hf]
          exact hP
        obtain ⟨P0, f1, f2⟩ := forEachIndexS_rel _
          (fun (P0 P : Mif_Port_Data_t) => P.is_null = P0.is_null ∧ P.type = P0.type ∧
            P.vsource_str = P0.vsource_str)
          (fun a => ⟨rfl, rfl, rfl⟩)
          (fun a b c hab hbc => ⟨hbc.1.trans hab.1, hbc.2.1.trans hab.2.1,
            hbc.2.2.trans hab.2.2⟩)
          (fun k a s => ⟨rfl, rfl, rfl⟩) a.size 0 a.port s j P hP2
        exact ⟨P0, f1, f2⟩)
    here.num_conn 0 here.conn states i c h2
  obtain ⟨P0, hP0, f1, f2, f3⟩ := e5 j P h5
  refine ⟨i, j, c0, P0, h1, hc0, by rw [← e1]; exact h3, by rw [← e4]; exact h4, hP0, ?_⟩
  unfold PortRequest at h6 ⊢
  rw [← e2, ← e3, ← f1, ← f2, ← f3]
  exact h6

theorem MIFsetup_statesAll_requests (insts : List MIFinstance) :
    ∀ (states : Int) (here1 : MIFinstance),
      here1 ∈ (MIFsetup_statesAll insts states).1 →
      ∃ here ∈ insts, here1.analog = here.analog ∧
        ∀ r, InstanceRequest here1 r → InstanceRequest here r := by
  induction insts with
  | nil =>
    intro states here1 h
    simp [MIFsetup_statesAll] at h
  | cons x rest ih =>
    intro states here1 h
    rw [MIFsetup_statesAll] at h
    have hx := MIFsetup_states_analog x states
    have hq := MIFsetup_states_requests x states
    rcases hs : MIFsetup_states x states with ⟨x1, st1⟩
    rw [hs] at h hx hq
    simp only at h hx hq
    rcases hr : MIFsetup_statesAll rest st1 with ⟨rest1, st2⟩
    rw [hr] at h
    simp only [List.mem_cons] at h
    rcases h with rfl | h
    · exact ⟨x, List.mem_cons_self _ _, hx, hq⟩
    · have h2 : here1 ∈ (MIFsetup_statesAll rest st1).1 := by rw [hr]; exact h
      obtain ⟨here, hm, g1, g2⟩ := ih st1 here1 h2
      exact ⟨here, List.mem_cons_of_mem _ hm, g1, g2⟩

theorem adds_MIFsetup_instances_requests (env : Collaborators) (insts : List MIFinstance) :
    Adds (MIFsetup_instances env insts)
      (fun r => (∃ row col, r = Request.makeElt row col) ∨
        ∃ here ∈ insts, here.analog = true ∧ InstanceRequest here r) := by
  induction insts with
  | nil =>
    rw [MIFsetup_instances]
    exact adds_pure _ _
  | cons x rest ih =>
    rw [MIFsetup_instances]
    refine adds_bind _ _ _ (adds_mono _ _ _ (adds_MIFsetup_instance_requests env x) ?_)
      (fun x1 => adds_bind _ _ _ (adds_mono _ _ _ ih ?_) (fun r1 => adds_pure _ _))
    · rintro r (h | h)
      · exact Or.inl h
      · exact Or.inr ⟨x, List.mem_cons_self _ _, h⟩
    · rintro r (h | ⟨here, hm, h⟩)
      · exact Or.inl h
      · exact Or.inr ⟨here, List.mem_cons_of_mem _ hm, h⟩

theorem MIFsetup_defaults_instances (info : Nat → Mif_Param_Info_t) (model : MIFmodel) :
    (MIFsetup_defaults info model).2.MIFinstances = model.MIFinstances := by
  unfold MIFsetup_defaults
  rcases forEachIndex (MIFsetup_defaultParam info model.MIFinstances) model.num_param 0
    model.param with ⟨ok, ps⟩
  rfl

theorem adds_MIFsetup_model_requests (env : Collaborators) (info : Nat → Mif_Param_Info_t)
    (model : MIFmodel) (states : Int) :
    Adds (MIFsetup_model env info model states)
      (fun r => (∃ row col, r = Request.makeElt row col) ∨
        ∃ here ∈ model.MIFinstances, here.analog = true ∧ InstanceRequest here r) := by
  unfold MIFsetup_model
  have hd := MIFsetup_defaults_instances info model
  rcases hdef : MIFsetup_defaults info model with ⟨status, model1⟩
  rw [hdef] at hd
  simp only at hd ⊢
  split_ifs
  · exact adds_fail _ _
  · have hall := MIFsetup_statesAll_requests model1.MIFinstances states
    rcases hsa : MIFsetup_statesAll model1.MIFinstances states with ⟨insts1, states1⟩
    rw [hsa] at hall
    simp only at hall ⊢
    refine adds_bind _ _ _ (adds_mono _ _ _ (adds_MIFsetup_instances_requests env insts1) ?_)
      (fun insts2 => adds_pure _ _)
    rintro r (h | ⟨here1, hm, ha, hreq⟩)
    · exact Or.inl h
    · obtain ⟨here, hmem, g1, g2⟩ := hall here1 hm
      exact Or.inr ⟨here, by rw [← hd]; exact hmem, by rw [← g1]; exact ha, g2 r hreq⟩

theorem adds_MIFsetup_requests (env : Collaborators) (info : Nat → Mif_Param_Info_t)
    (models : List MIFmodel) :
    ∀ states, Adds (MIFsetup env info models states)
      (fun r => (∃ row col, r = Request.makeElt row col) ∨
        ∃ model ∈ models, ∃ here ∈ model.MIFinstances,
          here.analog = true ∧ InstanceRequest here r) := by
  induction models with
  | nil =>
    intro states
    rw [MIFsetup]
    exact adds_pure _ _
  | cons m rest ih =>
    intro states
    rw [MIFsetup]
    refine adds_bind _ _ _ (adds_mono _ _ _ (adds_MIFsetup_model_requests env info m states)
      ?_) (fun r1 => adds_bind _ _ _ (adds_mono _ _ _ (ih r1.2) ?_) (fun r2 => adds_pure _ _))
    · rintro r (h | h)
      · exact Or.inl h
      · exact Or.inr ⟨m, List.mem_cons_self _ _, h⟩
    · rintro r (h | ⟨model, hm, h⟩)
      · exact Or.inl h
      · exact Or.inr ⟨model, List.mem_cons_of_mem _ hm, h⟩

/-- C23: port `j` of connection `i` of an instance is not null, of kind
vsource-current, in a connection that is not null and is an input. In the setup
of the instance no branch equation is created for the port, neither
`branch_<i>_<j>` nor `ibranch_<i>_<j>`. The loop body of phase A, run for the
port with the name of the instance, the direction flags of connection `i` and
the indices `i` and `j`, makes the lookup of the referenced source by name as its
only request when the lookup finds a branch, and sets the ibranch index of the
port to the branch found; when the lookup finds none (0) it reports the fatal
error with the name of the instance and the reference and returns `E_BADPARM`.
When the setup of an analog instance ends without a failed request, the lookup
is the only request made for the port, it found a branch, and the port has that
branch as its ibranch index after the setup. A lookup of the instance that finds
nothing is followed by the report with the name of this instance and the
reference and by nothing else, and the setup returns `E_BADPARM`. In a run of
`MIFsetup` a lookup that finds nothing is followed by that report, made with the
name of an analog instance of the run that has such a port with this reference,
and by no further request, and `MIFsetup` returns `E_BADPARM`. -/
theorem MIFsetup_vsource_reference (env : Collaborators) (here : MIFinstance)
    (tr : List Request) (i j : Nat) (c0 : Mif_Conn_Data_t) (P0 : Mif_Port_Data_t)
    (hi : i < here.num_conn) (hc : here.conn[i]? = some c0)
    (hj : j < c0.size) (hp : c0.port[j]? = some P0)
    (hcn : c0.is_null = false) (hin : c0.is_input = true)
    (hpn : P0.is_null = false) (hty : P0.type = MIF_VSOURCE_CURRENT) :
    (Request.mkCur here.MIFname (branchSuffix i j) ∉
        requestsAdded (MIFsetup_instance env here) tr ∧
      Request.mkCur here.MIFname (ibranchSuffix i j) ∉
        requestsAdded (MIFsetup_instance env here) tr) ∧
    (∀ before : List Request, env.CKTfndBranch before P0.vsource_str ≠ 0 →
      MIFsetup_phaseA_port env here.MIFname c0.is_input c0.is_output i j P0 before =
        (Except.ok { P0 with smp_data :=
            { P0.smp_data with ibranch := env.CKTfndBranch before P0.vsource_str } },
          before ++ [Request.fndBranch P0.vsource_str])) ∧
    (∀ before : List Request, env.CKTfndBranch before P0.vsource_str = 0 →
      MIFsetup_phaseA_port env here.MIFname c0.is_input c0.is_output i j P0 before =
        (Except.error E_BADPARM,
          before ++ [Request.fndBranch P0.vsource_str,
            Request.IFerror here.MIFname P0.vsource_str])) ∧
    (here.analog = true → ∀ (here1 : MIFinstance) (t : List Request),
      MIFsetup_instance env here tr = (Except.ok here1, t) →
      ∃ (a q : List Request) (ports : List Mif_Port_Data_t) (P : Mif_Port_Data_t),
        t = tr ++ a ++ [Request.fndBranch P0.vsource_str] ++ q ∧
        MIFsetup_phaseA_port env here.MIFname c0.is_input c0.is_output i j P0 (tr ++ a) =
          (Except.ok P, tr ++ a ++ [Request.fndBranch P0.vsource_str]) ∧
        here1.conn[i]? = some { c0 with port := ports } ∧ ports[j]? = some P ∧
        P.smp_data.ibranch = env.CKTfndBranch (tr ++ a) P0.vsource_str ∧
        env.CKTfndBranch (tr ++ a) P0.vsource_str ≠ 0 ∧
        P.smp_data.branch = P0.smp_data.branch) ∧
    (GoodTrace env tr → ∀ (a b : List Request) (reference : List Char),
      (MIFsetup_instance env here tr).2 = tr ++ a ++ Request.fndBranch reference :: b →
      env.CKTfndBranch (tr ++ a) reference = 0 →
      b = [Request.IFerror here.MIFname reference] ∧
        statusOf (MIFsetup_instance env here tr).1 = E_BADPARM) ∧
    (∀ (info : Nat → Mif_Param_Info_t) (models : List MIFmodel) (states : Int)
        (a b : List Request) (reference : List Char),
      (MIFsetup env info models states []).2 = a ++ Request.fndBranch reference :: b →
      env.CKTfndBranch a reference = 0 →
      statusOf (MIFsetup env info models states []).1 = E_BADPARM ∧
      ∃ model ∈ models, ∃ inst ∈ model.MIFinstances,
        inst.analog = true ∧ b = [Request.IFerror inst.MIFname reference] ∧
        ∃ (i1 j1 : Nat) (c1 : Mif_Conn_Data_t) (P1 : Mif_Port_Data_t),
          i1 < inst.num_conn ∧ inst.conn[i1]? = some c1 ∧ c1.is_null = false ∧
          c1.is_input = true ∧ j1 < c1.size ∧ c1.port[j1]? = some P1 ∧
          P1.is_null = false ∧ P1.type = MIF_VSOURCE_CURRENT ∧
          P1.vsource_str = reference) := by
  have hbody := fun before =>
    MIFsetup_phaseA_port_vsource env here.MIFname c0.is_output i j P0 before hpn hty
  rw [← hin] at hbody
  refine ⟨⟨?_, ?_⟩, fun before h0 => (hbody before).1 h0, fun before h0 => (hbody before).2.1 h0,
    ?_, ?_, ?_⟩
  · intro hmem
    obtain ⟨_, hr⟩ := MIFsetup_instance_created env here tr _ (fun _ _ => by simp) hmem
    have := (instanceRequest_branch here i j c0 P0 hc hp hr).2.2
    rw [hty] at this
    revert this
    cases c0.is_output <;> decide
  · intro hmem
    obtain ⟨_, hr⟩ := MIFsetup_instance_created env here tr _ (fun _ _ => by simp) hmem
    have := (instanceRequest_ibranch here i j c0 P0 hc hp hr).2.2
    rw [hty] at this
    revert this
    cases c0.is_input <;> decide
  · intro ha here1 t h
    obtain ⟨a, t2, q, ports, P, h1, h2, h3, h4⟩ := MIFsetup_instance_reach env here here1 tr t
      ha h i j c0 P0 hi hc hcn hj hp
    by_cases h0 : env.CKTfndBranch (tr ++ a) P0.vsource_str = 0
    · rw [(hbody (tr ++ a)).2.1 h0] at h3
      simp at h3
    · have h5 := (hbody (tr ++ a)).1 h0
      rw [h5] at h3
      simp only [Prod.mk.injEq, Except.ok.injEq] at h3
      obtain ⟨rfl, rfl⟩ := h3
      exact ⟨a, q, ports, _, h4, h5, h1, h2, rfl, h0, rfl⟩
  · intro hg a b reference hs h0
    obtain ⟨⟨n, hn⟩, hst⟩ := (Outcome.first_failure env _ _
      (sound_MIFsetup_instance env here tr hg) (tr ++ a) b _ hs
      (by simp [answered, h0])).2.2 reference rfl
    refine ⟨?_, hst⟩
    have hmem : Request.IFerror n reference ∈ requestsAdded (MIFsetup_instance env here) tr := by
      rw [requestsAdded_eq _ tr (a ++ Request.fndBranch reference :: b)
        (by rw [hs, List.append_assoc]), hn]
      simp
    obtain ⟨_, hr⟩ := MIFsetup_instance_created env here tr _ (fun _ _ => by simp) hmem
    rw [hn, (instanceRequest_report here n reference hr).1]
  · intro info models states a b reference hs h0
    obtain ⟨⟨n, hn⟩, hst⟩ := (Outcome.first_failure env _ _
      (MIFsetup_outcome env info models states) a b _ hs (by simp [answered, h0])).2.2
      reference rfl
    refine ⟨hst, ?_⟩
    obtain ⟨added, h1, h2⟩ := adds_MIFsetup_requests env info models states []
    have hmem : Request.IFerror n reference ∈ added := by
      rw [hs, List.nil_append] at h1
      rw [← h1, hn]
      simp
    rcases h2 _ hmem with ⟨_, _, he⟩ | ⟨model, hm, inst, hi2, ha, hr⟩
    · cases he
    · obtain ⟨e, hport⟩ := instanceRequest_report inst n reference hr
      exact ⟨model, hm, inst, hi2, ha, by rw [hn, e], hport⟩

theorem exampleVsourceInstance_setup :
    MIFsetup_instance exampleFinder exampleVsourceInstance [] =
      (Except.ok ⟨"a2".toList, true, 1,
        [⟨false, true, false, 1,
          [⟨false, MIF_VSOURCE_CURRENT, "v1".toList, ⟨0, 0, 0, 7⟩, 0⟩]⟩]⟩,
        [Request.fndBranch "v1".toList]) := by rfl

theorem exampleVsourceInstance_failure :
    (MIFsetup (exampleCollaborators 0) exampleParamInfo
        [⟨0, 0, [], [exampleVsourceInstance]⟩] 0 []).2 =
      [] ++ Request.fndBranch "v1".toList ::
        [Request.IFerror "a2".toList "v1".toList] := by rfl

/-- Witness of C23: the instance `a2`, whose port refers to the source `v1`. With
collaborators that find `v1` as branch 7 the setup of the instance ends without
a failed request; with collaborators that find no source the run of `MIFsetup`
on a model with this instance ends with `E_BADPARM` after the report. -/
theorem MIFsetup_vsource_reference_witness :
    (∃ (a q : List Request) (ports : List Mif_Port_Data_t) (P : Mif_Port_Data_t),
      [Request.fndBranch "v1".toList] =
        [] ++ a ++ [Request.fndBranch "v1".toList] ++ q ∧
      MIFsetup_phaseA_port exampleFinder exampleVsourceInstance.MIFname true false 0 0
          ⟨false, MIF_VSOURCE_CURRENT, "v1".toList, ⟨0, 0, 0, 0⟩, 0⟩ ([] ++ a) =
        (Except.ok P, [] ++ a ++ [Request.fndBranch "v1".toList]) ∧
      [(⟨false, true, false, 1,
          [⟨false, MIF_VSOURCE_CURRENT, "v1".toList, ⟨0, 0, 0, 7⟩, 0⟩]⟩ :
            Mif_Conn_Data_t)][0]? = some ⟨false, true, false, 1, ports⟩ ∧
      ports[0]? = some P ∧
      P.smp_data.ibranch = exampleFinder.CKTfndBranch ([] ++ a) "v1".toList ∧
      exampleFinder.CKTfndBranch ([] ++ a) "v1".toList ≠ 0 ∧
      P.smp_data.branch = 0) ∧
    (statusOf (MIFsetup (exampleCollaborators 0) exampleParamInfo
        [⟨0, 0, [], [exampleVsourceInstance]⟩] 0 []).1 = E_BADPARM ∧
      ∃ model ∈ [(⟨0, 0, [], [exampleVsourceInstance]⟩ : MIFmodel)],
        ∃ inst ∈ model.MIFinstances,
        inst.analog = true ∧
        [Request.IFerror "a2".toList "v1".toList] =
          [Request.IFerror inst.MIFname "v1".toList] ∧
        ∃ (i1 j1 : Nat) (c1 : Mif_Conn_Data_t) (P1 : Mif_Port_Data_t),
          i1 < inst.num_conn ∧ inst.conn[i1]? = some c1 ∧ c1.is_null = false ∧
          c1.is_input = true ∧ j1 < c1.size ∧ c1.port[j1]? = some P1 ∧
          P1.is_null = false ∧ P1.type = MIF_VSOURCE_CURRENT ∧
          P1.vsource_str = "v1".toList) :=
  ⟨(MIFsetup_vsource_reference exampleFinder exampleVsourceInstance [] 0 0
      ⟨false, true, false, 1, [⟨false, MIF_VSOURCE_CURRENT, "v1".toList, ⟨0, 0, 0, 0⟩, 0⟩]⟩
      ⟨false, MIF_VSOURCE_CURRENT, "v1".toList, ⟨0, 0, 0, 0⟩, 0⟩ (by decide) rfl
      (by decide) rfl rfl rfl rfl rfl).2.2.2.1 rfl _ _ exampleVsourceInstance_setup,
    (MIFsetup_vsource_reference (exampleCollaborators 0) exampleVsourceInstance [] 0 0
      ⟨false, true, false, 1, [⟨false, MIF_VSOURCE_CURRENT, "v1".toList, ⟨0, 0, 0, 0⟩, 0⟩]⟩
      ⟨false, MIF_VSOURCE_CURRENT, "v1".toList, ⟨0, 0, 0, 0⟩, 0⟩ (by decide) rfl
      (by decide) rfl rfl rfl rfl rfl).2.2.2.2.2 exampleParamInfo
      [⟨0, 0, [], [exampleVsourceInstance]⟩] 0 [] _ "v1".toList
      exampleVsourceInstance_failure rfl⟩

end XSpice
